import Mathlib

/-!
# Spine model component: playback state machine, crossfade and pose sampling

A shallow embedding of `engine/gamesys/src/gamesys/components/comp_spine_model.cpp`.

Conventions of the embedding:

* `float` values are rationals (`ℚ`) and arithmetic on them is exact, except in the
  definitions named `...Float`, which round the cursor arithmetic of `UpdatePlayer` and
  `PostEvents` to single precision (`RoundFloat`) to settle whether the wrap loops end and
  which keys the completion frame of a once mode posts;
* pointers into immutable resource data (`SpineAnimation*`) are `Option` values holding
  the pointee, with `none` for the null pointer;
* 1-bit bitfields (`m_Playing`, `m_Backwards`, `m_Blending`, `m_Enabled`) are `Bool`,
  and the 1-bit ring index `m_CurrentPlayer` is a `Fin 2`;
* posting a message appends it to an explicit list of posted messages;
* the `while` loops of `UpdatePlayer` take a fuel argument that bounds the number of
  iterations of the loop body and return `none` when the fuel does not suffice.
-/

namespace dmGameSystem

/-- Hash values (`dmhash_t`, an unsigned 64-bit integer). -/
abbrev dmhash_t := Nat

/-- The enumeration `dmGameObject::Playback`. -/
inductive Playback where
  | PLAYBACK_NONE
  | PLAYBACK_ONCE_FORWARD
  | PLAYBACK_ONCE_BACKWARD
  | PLAYBACK_ONCE_PINGPONG
  | PLAYBACK_LOOP_FORWARD
  | PLAYBACK_LOOP_BACKWARD
  | PLAYBACK_LOOP_PINGPONG
  deriving DecidableEq, Repr

/-- Three-component vector (`Vectormath::Aos::Vector3`). -/
structure Vector3 where
  x : ℚ
  y : ℚ
  z : ℚ
  deriving DecidableEq, Repr

/-- Quaternion (`Vectormath::Aos::Quat`). -/
structure Quat where
  x : ℚ
  y : ℚ
  z : ℚ
  w : ℚ
  deriving DecidableEq, Repr

/-- Translation, rotation and scale of one bone (`dmTransform::Transform`). -/
structure Transform where
  m_Translation : Vector3
  m_Rotation : Quat
  m_Scale : Vector3
  deriving DecidableEq, Repr

/-- One key of an event track (`dmGameSystemDDF::EventKey`). -/
structure EventKey where
  m_T : ℚ
  m_Integer : Int
  m_Float : ℚ
  m_String : dmhash_t
  deriving DecidableEq, Repr

/-- An event track (`dmGameSystemDDF::EventTrack`). -/
structure EventTrack where
  m_EventId : dmhash_t
  m_Keys : List EventKey
  deriving DecidableEq, Repr

/-- Keyframe track of one bone (`dmGameSystemDDF::AnimationTrack`); the three arrays are
flat float arrays sampled at the clip's sample rate. -/
structure AnimationTrack where
  m_BoneIndex : Nat
  m_Positions : List ℚ
  m_Rotations : List ℚ
  m_Scale : List ℚ
  deriving DecidableEq, Repr

/-- A clip (`dmGameSystemDDF::SpineAnimation`). -/
structure SpineAnimation where
  m_Id : dmhash_t
  m_Duration : ℚ
  m_SampleRate : ℚ
  m_Tracks : List AnimationTrack
  m_EventTracks : List EventTrack
  deriving DecidableEq, Repr

/-- Playback state over one clip (`SpinePlayer`). -/
structure SpinePlayer where
  m_Animation : Option SpineAnimation
  m_AnimationId : dmhash_t
  m_Cursor : ℚ
  m_Playback : Playback
  m_Playing : Bool
  m_Backwards : Bool
  deriving DecidableEq, Repr

/-- Message address (`dmMessage::URL`). -/
structure URL where
  m_Socket : Nat
  m_Path : dmhash_t
  m_Fragment : dmhash_t
  m_Function : Nat
  deriving DecidableEq, Repr

/-- What the game-object system answers about the owning instance (`dmGameObject::HInstance`):
the message socket of its collection, its identifier, and the ids of its components by
component index. -/
structure GameObjectInstance where
  m_CollectionSocket : Nat
  m_Identifier : dmhash_t
  m_ComponentIds : List dmhash_t
  deriving DecidableEq, Repr

/-- Four-component vector (`Vectormath::Aos::Vector4`). -/
structure Vector4 where
  x : ℚ
  y : ℚ
  z : ℚ
  w : ℚ
  deriving DecidableEq, Repr

/-- A 4x4 matrix held as its four columns (`Vectormath::Aos::Matrix4`). -/
structure Matrix4 where
  col0 : Vector4
  col1 : Vector4
  col2 : Vector4
  col3 : Vector4
  deriving DecidableEq, Repr

/-- A render constant (`dmRender::Constant`): a named vector4 with the type and location the
material assigns to it. -/
structure Constant where
  m_Value : Vector4
  m_NameHash : dmhash_t
  m_Type : Nat
  m_Location : Int
  deriving DecidableEq, Repr

/-- A material handle (`dmRender::HMaterial`); the material library is not part of the
sources at hand, so a material is known by its handle only. -/
abbrev HMaterial := Nat

/-- A mesh of the mesh set (`dmGameSystemDDF::Mesh`); the arrays are flat: three positions,
two texture coordinates, four bone indices and four weights per vertex. -/
structure Mesh where
  m_Id : dmhash_t
  m_Positions : List ℚ
  m_Texcoord0 : List ℚ
  m_Indices : List Nat
  m_BoneIndices : List Nat
  m_Weights : List ℚ
  deriving DecidableEq, Repr

/-- A bone of the skeleton (`dmGameSystemDDF::Bone`), reduced to its parent index. -/
structure Bone where
  m_Parent : Nat
  deriving DecidableEq, Repr

/-- The bind pose of one bone (`SpineBone`). -/
structure SpineBone where
  m_LocalToParent : Transform
  m_ModelToLocal : Transform
  deriving DecidableEq, Repr

/-- The enumeration `dmGameSystemDDF::SpineModelDesc::BlendMode`. -/
inductive BlendMode where
  | BLEND_MODE_ALPHA
  | BLEND_MODE_ADD
  | BLEND_MODE_MULT
  deriving DecidableEq, Repr

/-- The part of `SpineModelResource` read by the component code: the clips of
`m_Scene->m_SpineScene->m_AnimationSet`, the meshes of the mesh set, the bones of the
skeleton, the bind pose `m_Scene->m_BindPose`, the skin name, default animation name and
blend mode of the model description `m_Model`, and the material. -/
structure SpineModelResource where
  m_Animations : List SpineAnimation
  m_Meshes : List Mesh
  m_Bones : List Bone
  m_BindPose : List SpineBone
  m_Skin : String
  m_DefaultAnimation : String
  m_BlendMode : BlendMode
  m_Material : HMaterial
  deriving DecidableEq, Repr

/-- One component instance (`SpineModelComponent`) with a non-null resource. `m_Players` is
the two-element player ring; `m_Mesh` is a pointer into the mesh set, held as the index of
the mesh it points to, `none` when null;
`m_NodeInstances` holds the handles of the bone nodes, 0 for the null handle. The field
`m_SortKey` is kept beside the component (`ComponentSlot.m_SortKey`), because the slots
that hold no component have a sort key too. -/
structure SpineModelComponent where
  m_Instance : GameObjectInstance
  m_ComponentIndex : Nat
  m_Resource : SpineModelResource
  m_Listener : URL
  m_Players : SpinePlayer × SpinePlayer
  m_CurrentPlayer : Fin 2
  m_Pose : List Transform
  m_BlendDuration : ℚ
  m_BlendTimer : ℚ
  m_Enabled : Bool
  m_Blending : Bool
  m_Transform : Transform
  m_World : Matrix4
  m_Mesh : Option Nat
  m_Skin : dmhash_t
  m_NodeInstances : List Nat
  m_RenderConstants : List Constant
  m_PrevRenderConstants : List Vector4
  m_MixedHash : Nat
  deriving DecidableEq, Repr

/-- A message handed to `dmMessage::Post`. -/
inductive Message where
  | SpineEvent (sender receiver : URL) (event_id : dmhash_t) (key : EventKey)
  | SpineAnimationDone (sender receiver : URL) (animation_id : dmhash_t) (playback : Playback)
  deriving DecidableEq, Repr

/-- Read `component->m_Players[i]`. -/
def SpineModelComponent.player (c : SpineModelComponent) (i : Fin 2) : SpinePlayer :=
  if i = 0 then c.m_Players.1 else c.m_Players.2

/-- Write `component->m_Players[i]`. -/
def SpineModelComponent.setPlayer (c : SpineModelComponent) (i : Fin 2) (p : SpinePlayer) :
    SpineModelComponent :=
  if i = 0 then { c with m_Players := (p, c.m_Players.2) }
  else { c with m_Players := (c.m_Players.1, p) }

/-- The index `(i + 1) % 2` of the other slot of the ring. -/
def otherPlayerIndex (i : Fin 2) : Fin 2 :=
  ⟨(i.val + 1) % 2, Nat.mod_lt _ (by decide)⟩

/-- Linear search for a clip by id; `none` is the null pointer. -/
def FindAnimation (anim_set : List SpineAnimation) (animation_id : dmhash_t) :
    Option SpineAnimation :=
  match anim_set with
  | [] => none
  | anim :: rest => if anim.m_Id = animation_id then some anim else FindAnimation rest animation_id

/-- The current player, `&component->m_Players[component->m_CurrentPlayer]`. -/
def GetPlayer (c : SpineModelComponent) : SpinePlayer :=
  c.player c.m_CurrentPlayer

/-- The other player, `&component->m_Players[(component->m_CurrentPlayer+1) % 2]`. -/
def GetSecondaryPlayer (c : SpineModelComponent) : SpinePlayer :=
  c.player (otherPlayerIndex c.m_CurrentPlayer)

/-- Advance the ring index; the returned pointer is the player at the new index. -/
def SwitchPlayer (c : SpineModelComponent) : SpineModelComponent :=
  { c with m_CurrentPlayer := otherPlayerIndex c.m_CurrentPlayer }

/-- Start a clip. Returns the `bool` result together with the component afterwards. -/
def PlayAnimation (c : SpineModelComponent) (animation_id : dmhash_t) (playback : Playback)
    (blend_duration : ℚ) : Bool × SpineModelComponent :=
  match FindAnimation c.m_Resource.m_Animations animation_id with
  | some anim =>
    let c1 : SpineModelComponent :=
      if blend_duration > 0 then
        { c with m_BlendTimer := 0, m_BlendDuration := blend_duration, m_Blending := true }
      else
        c.setPlayer c.m_CurrentPlayer { GetPlayer c with m_Playing := false }
    let c2 := SwitchPlayer c1
    let player : SpinePlayer :=
      { GetPlayer c2 with
        m_AnimationId := animation_id
        m_Animation := some anim
        m_Cursor := 0
        m_Playing := true
        m_Playback := playback
        m_Backwards :=
          if playback = Playback.PLAYBACK_ONCE_BACKWARD ∨ playback = Playback.PLAYBACK_LOOP_BACKWARD
          then true else false }
    (true, c2.setPlayer c2.m_CurrentPlayer player)
  | none => (false, c)

/-- Stop the current player. -/
def CancelAnimation (c : SpineModelComponent) : SpineModelComponent :=
  c.setPlayer c.m_CurrentPlayer { GetPlayer c with m_Playing := false }

/-- Validity test of a socket handle, `dmMessage::IsSocketValid`: the zero handle is the
unset socket. -/
def IsSocketValid (socket : Nat) : Bool :=
  socket != 0

/-- The cleared address written by `dmMessage::ResetURL`. -/
def ResetURL : URL :=
  { m_Socket := 0, m_Path := 0, m_Fragment := 0, m_Function := 0 }

/-- Address of the component itself; `none` stands for the result `false`. The socket is
that of the instance's collection, the fragment is the component id that the game-object
system reports for `m_ComponentIndex` (an index without a component is the failing result),
and the path is the instance identifier; `m_Function`, which the source does not assign, is
zero. -/
def GetSender (c : SpineModelComponent) : Option URL :=
  if IsSocketValid c.m_Instance.m_CollectionSocket then
    match c.m_Instance.m_ComponentIds.get? c.m_ComponentIndex with
    | some fragment =>
      some { m_Socket := c.m_Instance.m_CollectionSocket
             m_Path := c.m_Instance.m_Identifier
             m_Fragment := fragment
             m_Function := 0 }
    | none => none
  else none

/-- Sampling time of a cursor position. -/
def CursorToTime (cursor duration : ℚ) (backwards once_pingpong : Bool) : ℚ :=
  let t := cursor
  let t := if backwards then duration - t else t
  if once_pingpong ∧ t > duration * (1 / 2) then duration - t else t

/-- The message posted by `PostEvent` for one event key. -/
def PostEvent (sender receiver : URL) (event_id : dmhash_t) (key : EventKey) : Message :=
  Message.SpineEvent sender receiver event_id key

/-- The direction-reflected time of an event key, the local `cursor` of `PostEventsInterval`. -/
def KeyCursor (key : EventKey) (duration : ℚ) (backwards : Bool) : ℚ :=
  if backwards then duration - key.m_T else key.m_T

/-- Messages posted for the keys whose reflected time lies in `[start_cursor, end_cursor)`,
in track order and, within a track, key order. -/
def PostEventsInterval (sender receiver : URL) (animation : SpineAnimation)
    (start_cursor end_cursor duration : ℚ) (backwards : Bool) : List Message :=
  animation.m_EventTracks.flatMap fun track =>
    (track.m_Keys.filter fun key =>
      decide (start_cursor ≤ KeyCursor key duration backwards ∧
        KeyCursor key duration backwards < end_cursor)).map
      fun key => PostEvent sender receiver track.m_EventId key

/-- Messages posted for the events passed during one frame. -/
def PostEvents (player : SpinePlayer) (sender listener : URL) (animation : SpineAnimation)
    (dt prev_cursor duration : ℚ) (completed : Bool) : List Message :=
  let receiver : URL :=
    if IsSocketValid listener.m_Socket then listener else { sender with m_Fragment := 0 }
  let cursor := player.m_Cursor
  let cursor := if completed then cursor + dt else cursor
  if prev_cursor > cursor then
    let prev_backwards :=
      if player.m_Playback = Playback.PLAYBACK_LOOP_PINGPONG then !player.m_Backwards
      else player.m_Backwards
    PostEventsInterval sender receiver animation prev_cursor duration duration prev_backwards ++
      PostEventsInterval sender receiver animation 0 cursor duration player.m_Backwards
  else
    let half_duration := duration * (1 / 2)
    if player.m_Playback = Playback.PLAYBACK_ONCE_PINGPONG ∧ cursor > half_duration then
      if prev_cursor < half_duration then
        PostEventsInterval sender receiver animation prev_cursor half_duration duration false ++
          PostEventsInterval sender receiver animation half_duration cursor duration true
      else
        PostEventsInterval sender receiver animation prev_cursor cursor duration true
    else
      PostEventsInterval sender receiver animation prev_cursor cursor duration player.m_Backwards

/-- Length of the cursor range of a clip under the player's mode. -/
def GetCursorDuration (player : SpinePlayer) (animation : SpineAnimation) : ℚ :=
  if player.m_Playback = Playback.PLAYBACK_ONCE_PINGPONG then animation.m_Duration * 2
  else animation.m_Duration

/-- The two `while (player->m_Cursor >= duration)` loops of `UpdatePlayer`: each iteration
subtracts `duration` from the cursor and, in the loop of the ping-pong case
(`pingpong = true`), also flips `m_Backwards`. The fuel bounds the number of iterations;
`none` means the loop condition still held when the fuel ran out. The second component of
the result counts the iterations that were executed. The subtraction is exact here;
`WrapLoopFloat` is the same loop with the difference rounded to single precision, as the
source computes it, and is the one to consult on whether the loop ends. -/
def WrapLoop (pingpong : Bool) (duration : ℚ) : Nat → SpinePlayer → Option (SpinePlayer × Nat)
  | 0, player =>
    if player.m_Cursor ≥ duration then none else some (player, 0)
  | fuel + 1, player =>
    if player.m_Cursor ≥ duration then
      let player1 : SpinePlayer := { player with m_Cursor := player.m_Cursor - duration }
      let player2 : SpinePlayer :=
        if pingpong then { player1 with m_Backwards := !player1.m_Backwards } else player1
      (WrapLoop pingpong duration fuel player2).map fun r => (r.1, r.2 + 1)
    else some (player, 0)

/-- The `switch (player->m_Playback)` of `UpdatePlayer` under the comment "Adjust cursor":
the player afterwards together with the local `completed`. -/
def AdjustCursor (fuel : Nat) (player : SpinePlayer) (duration : ℚ) :
    Option (SpinePlayer × Bool) :=
  match player.m_Playback with
  | Playback.PLAYBACK_ONCE_FORWARD
  | Playback.PLAYBACK_ONCE_BACKWARD
  | Playback.PLAYBACK_ONCE_PINGPONG =>
    if player.m_Cursor ≥ duration then some ({ player with m_Cursor := duration }, true)
    else some (player, false)
  | Playback.PLAYBACK_LOOP_FORWARD
  | Playback.PLAYBACK_LOOP_BACKWARD =>
    (WrapLoop false duration fuel player).map fun r => (r.1, false)
  | Playback.PLAYBACK_LOOP_PINGPONG =>
    (WrapLoop true duration fuel player).map fun r => (r.1, false)
  | Playback.PLAYBACK_NONE => some (player, false)

/-- Outcome of one call of `UpdatePlayer`: the component afterwards, the messages handed to
`dmMessage::Post` in order, and the value of the local `completed` when the function
returns (`false` on the early return). -/
structure PlayerUpdate where
  component : SpineModelComponent
  posted : List Message
  completed : Bool
  deriving DecidableEq, Repr

/-- The block of `UpdatePlayer` under the comment "Advance cursor": every mode but
`PLAYBACK_NONE` adds `dt` to the cursor. -/
def AdvanceCursor (player : SpinePlayer) (dt : ℚ) : SpinePlayer :=
  if player.m_Playback ≠ Playback.PLAYBACK_NONE then
    { player with m_Cursor := player.m_Cursor + dt }
  else player

/-- The event block of `UpdatePlayer`: when the cursor moved and the sender is resolvable,
the events of the frame are posted to the listener with `m_Function` cleared. -/
def UpdatePlayerEvents (c : SpineModelComponent) (player : SpinePlayer)
    (animation : SpineAnimation) (dt prev_cursor duration : ℚ) (completed : Bool) :
    List Message :=
  if prev_cursor ≠ player.m_Cursor then
    match GetSender c with
    | some sender =>
      PostEvents player sender { c.m_Listener with m_Function := 0 } animation dt prev_cursor
        duration completed
    | none => []
  else []

/-- The block `if (completed)` of `UpdatePlayer` for the player `player` of slot `pi`: the
player is stopped, and if it is the current player and a listener is registered, the
completion message is posted and the listener reset. `events` are the messages posted
before. -/
def CompletePlayer (c : SpineModelComponent) (pi : Fin 2) (player : SpinePlayer)
    (events : List Message) : PlayerUpdate :=
  let player3 : SpinePlayer := { player with m_Playing := false }
  let c3 := c.setPlayer pi player3
  if pi = c.m_CurrentPlayer ∧ IsSocketValid c.m_Listener.m_Socket then
    match GetSender c with
    | some sender =>
      { component := { c3 with m_Listener := ResetURL }
        posted := events ++
          [Message.SpineAnimationDone sender c.m_Listener player3.m_AnimationId
            player3.m_Playback]
        completed := true }
    | none => { component := c3, posted := events, completed := true }
  else { component := c3, posted := events, completed := true }

/-- Advance the player in slot `pi` of the component by `dt`. The `listener` argument of the
source is `&component->m_Listener` at both call sites, so the listener is read from and
written to the component. `none` means that a wrap loop did not finish within the fuel. -/
def UpdatePlayer (fuel : Nat) (c : SpineModelComponent) (pi : Fin 2) (dt : ℚ) :
    Option PlayerUpdate :=
  let player := c.player pi
  match player.m_Animation with
  | none => some { component := c, posted := [], completed := false }
  | some animation =>
    if !player.m_Playing then some { component := c, posted := [], completed := false }
    else
      let prev_cursor := player.m_Cursor
      let player1 := AdvanceCursor player dt
      let duration := GetCursorDuration player1 animation
      match AdjustCursor fuel player1 duration with
      | none => none
      | some (player2, completed) =>
        let events := UpdatePlayerEvents c player2 animation dt prev_cursor duration completed
        if completed then some (CompletePlayer c pi player2 events)
        else
          some { component := c.setPlayer pi player2, posted := events, completed := false }

/-- The transform written by `SetIdentity`. -/
def Transform.identity : Transform :=
  { m_Translation := { x := 0, y := 0, z := 0 }
    m_Rotation := { x := 0, y := 0, z := 0, w := 1 }
    m_Scale := { x := 1, y := 1, z := 1 } }

/-- The all-zero vector, as left by `memset`. -/
def Vector4.zero : Vector4 :=
  { x := 0, y := 0, z := 0, w := 0 }

/-- The all-zero matrix, as left by `memset`. -/
def Matrix4.zero : Matrix4 :=
  { col0 := Vector4.zero, col1 := Vector4.zero, col2 := Vector4.zero, col3 := Vector4.zero }

/-- Modelled from the spec: the Vectormath `lerp` on `Vector3` is not part of the sources at
hand; it is the linear interpolation `vec0 + (vec1 - vec0) * t`, componentwise. -/
def Vector3.lerp (t : ℚ) (vec0 vec1 : Vector3) : Vector3 :=
  { x := vec0.x + (vec1.x - vec0.x) * t
    y := vec0.y + (vec1.y - vec0.y) * t
    z := vec0.z + (vec1.z - vec0.z) * t }

/-- Modelled from the spec: the Vectormath `lerp` on `Quat` is not part of the sources at
hand; it is the linear interpolation `quat0 + (quat1 - quat0) * t`, componentwise, without
renormalisation. -/
def Quat.lerp (t : ℚ) (quat0 quat1 : Quat) : Quat :=
  { x := quat0.x + (quat1.x - quat0.x) * t
    y := quat0.y + (quat1.y - quat0.y) * t
    z := quat0.z + (quat1.z - quat0.z) * t
    w := quat0.w + (quat1.w - quat0.w) * t }

/-- Read `data[i]` of a flat keyframe array; reads past the end, which the source never
checks, yield `0`. -/
def keyData (data : List ℚ) (i : Nat) : ℚ :=
  data.getD i 0

/-- Interpolate between the vector keyframes `sample` and `sample + 1`. -/
def SampleVec3 (sample : Nat) (frac : ℚ) (data : List ℚ) : Vector3 :=
  let i := sample * 3
  Vector3.lerp frac
    { x := keyData data (i + 0), y := keyData data (i + 1), z := keyData data (i + 2) }
    { x := keyData data (i + 0 + 3), y := keyData data (i + 1 + 3), z := keyData data (i + 2 + 3) }

/-- Interpolate between the quaternion keyframes `sample` and `sample + 1`. -/
def SampleQuat (sample : Nat) (frac : ℚ) (data : List ℚ) : Quat :=
  let i := sample * 4
  Quat.lerp frac
    { x := keyData data (i + 0), y := keyData data (i + 1), z := keyData data (i + 2),
      w := keyData data (i + 3) }
    { x := keyData data (i + 0 + 4), y := keyData data (i + 1 + 4), z := keyData data (i + 2 + 4),
      w := keyData data (i + 3 + 4) }

/-- Body of the track loop of `UpdatePose` applied to the transform of the track's bone. -/
def SampleTrack (track : AnimationTrack) (sample : Nat) (fraction blend_weight : ℚ)
    (transform : Transform) : Transform :=
  let transform : Transform :=
    if track.m_Positions.length > 0 then
      { transform with
        m_Translation :=
          Vector3.lerp blend_weight transform.m_Translation
            (SampleVec3 sample fraction track.m_Positions) }
    else transform
  let transform : Transform :=
    if track.m_Rotations.length > 0 then
      { transform with
        m_Rotation :=
          Quat.lerp blend_weight transform.m_Rotation
            (SampleQuat sample fraction track.m_Rotations) }
    else transform
  if track.m_Scale.length > 0 then
    { transform with
      m_Scale :=
        Vector3.lerp blend_weight transform.m_Scale (SampleVec3 sample fraction track.m_Scale) }
  else transform

/-- Apply `f` to `pose[bone_index]`; an index outside the pose, which the source never checks,
leaves the pose as it is. -/
def modifyBone (pose : List Transform) (bone_index : Nat) (f : Transform → Transform) :
    List Transform :=
  match pose.get? bone_index with
  | some transform => pose.set bone_index (f transform)
  | none => pose

/-- The track loop of `UpdatePose`: every track, in order, is sampled into the transform of
its bone. -/
def SampleTracks (tracks : List AnimationTrack) (sample : Nat) (fraction blend_weight : ℚ)
    (pose : List Transform) : List Transform :=
  tracks.foldl
    (fun pose track =>
      modifyBone pose track.m_BoneIndex (SampleTrack track sample fraction blend_weight))
    pose

/-- The sampling time `t` computed at the start of `UpdatePose`. -/
def PlayerTime (player : SpinePlayer) (animation : SpineAnimation) : ℚ :=
  CursorToTime player.m_Cursor (GetCursorDuration player animation) player.m_Backwards
    (decide (player.m_Playback = Playback.PLAYBACK_ONCE_PINGPONG))

/-- Sample the player's clip into the pose with the given blend weight. The cast
`(uint32_t)fraction` is the integer part of a non-negative value. -/
def UpdatePose (player : SpinePlayer) (pose : List Transform) (blend_weight : ℚ) :
    List Transform :=
  match player.m_Animation with
  | none => pose
  | some animation =>
    let t := PlayerTime player animation
    let fraction := t * animation.m_SampleRate
    let sample : Nat := (Rat.floor fraction).toNat
    let fraction := fraction - sample
    SampleTracks animation.m_Tracks sample fraction blend_weight pose

/-- The pose after the reset loop of `Animate`: one identity transform per bone. -/
def resetPose (pose : List Transform) : List Transform :=
  pose.map fun _ => Transform.identity

/-- Advance the crossfade timer; when it reaches the blend duration the crossfade ends and
the secondary player is stopped. -/
def UpdateBlend (c : SpineModelComponent) (dt : ℚ) : SpineModelComponent :=
  if c.m_Blending then
    let c1 : SpineModelComponent := { c with m_BlendTimer := c.m_BlendTimer + dt }
    if c1.m_BlendTimer ≥ c1.m_BlendDuration then
      let c2 : SpineModelComponent := { c1 with m_Blending := false }
      c2.setPlayer (otherPlayerIndex c2.m_CurrentPlayer)
        { GetSecondaryPlayer c2 with m_Playing := false }
    else c1
  else c

/-- One iteration `pi` of the two-player loop of `Animate` while blending: update the player,
sample it with the current `blend_weight`, and choose the weight of the next iteration. The
state is the component, the messages posted so far and `blend_weight`; `current` is the slot
of the pointer `player` taken before the loop. -/
def AnimateBlendStep (fuel : Nat) (dt fade_rate : ℚ) (current pi : Fin 2)
    (state : SpineModelComponent × List Message × ℚ) :
    Option (SpineModelComponent × List Message × ℚ) :=
  match UpdatePlayer fuel state.1 pi dt with
  | none => none
  | some u =>
    let c1 := u.component
    let c2 : SpineModelComponent :=
      { c1 with m_Pose := UpdatePose (c1.player pi) c1.m_Pose state.2.2 }
    let blend_weight : ℚ := if current = pi then 1 - fade_rate else fade_rate
    some (c2, state.2.1 ++ u.posted, blend_weight)

/-- The player evaluation of `Animate` for one component, after the pose reset and
`UpdateBlend`: while blending, both slots are updated and sampled in slot order, the first
with weight 1; otherwise only the current player is updated and sampled with weight 1. -/
def AnimatePlayers (fuel : Nat) (c : SpineModelComponent) (dt : ℚ) :
    Option (SpineModelComponent × List Message) :=
  if c.m_Blending then
    let fade_rate := c.m_BlendTimer / c.m_BlendDuration
    match AnimateBlendStep fuel dt fade_rate c.m_CurrentPlayer 0 (c, [], 1) with
    | none => none
    | some s0 =>
      match AnimateBlendStep fuel dt fade_rate c.m_CurrentPlayer 1 s0 with
      | none => none
      | some s1 => some (s1.1, s1.2.1)
  else
    match UpdatePlayer fuel c c.m_CurrentPlayer dt with
    | none => none
    | some u =>
      let c3 := u.component
      some ({ c3 with m_Pose := UpdatePose (c3.player c.m_CurrentPlayer) c3.m_Pose 1 }, u.posted)

/-- The first half of the body of the component loop of `Animate`, from the pose reset to the
end of the player evaluation, for one component: the component afterwards, holding the
sampled pose before quaternion renormalisation and bind-pose composition, and the messages
posted. A component that is disabled or has an empty pose is skipped. -/
def AnimateSample (fuel : Nat) (c : SpineModelComponent) (dt : ℚ) :
    Option (SpineModelComponent × List Message) :=
  if !c.m_Enabled ∨ c.m_Pose.isEmpty then some (c, [])
  else AnimatePlayers fuel (UpdateBlend { c with m_Pose := resetPose c.m_Pose } dt) dt

/-- Successive calls of `UpdatePlayer` on slot `pi`, one per frame time of `dts`: the
component after the last call and all messages posted, in order. -/
def UpdatePlayerSteps (fuel : Nat) (pi : Fin 2) :
    SpineModelComponent → List ℚ → Option (SpineModelComponent × List Message)
  | c, [] => some (c, [])
  | c, dt :: dts =>
    match UpdatePlayer fuel c pi dt with
    | none => none
    | some u => (UpdatePlayerSteps fuel pi u.component dts).map fun r => (r.1, u.posted ++ r.2)

/-- Exact remainder of `x` modulo a period `d`: `x - d * floor (x / d)`. -/
def remainderMod (x d : ℚ) : ℚ :=
  x - d * (Rat.floor (x / d) : ℚ)

/-- Whether the clip has a position track for bone `bone`. -/
def SpineAnimation.tracksPosition (animation : SpineAnimation) (bone : Nat) : Prop :=
  ∃ track ∈ animation.m_Tracks, track.m_BoneIndex = bone ∧ track.m_Positions.length > 0

/-- Whether the clip has a rotation track for bone `bone`. -/
def SpineAnimation.tracksRotation (animation : SpineAnimation) (bone : Nat) : Prop :=
  ∃ track ∈ animation.m_Tracks, track.m_BoneIndex = bone ∧ track.m_Rotations.length > 0

/-- Whether the clip has a scale track for bone `bone`. -/
def SpineAnimation.tracksScale (animation : SpineAnimation) (bone : Nat) : Prop :=
  ∃ track ∈ animation.m_Tracks, track.m_BoneIndex = bone ∧ track.m_Scale.length > 0

/-- The address events are posted to, the local `receiver` of `PostEvents`: the listener if
its socket is valid, otherwise the sender with fragment 0 (broadcast to the sibling
components). -/
def EventReceiver (sender listener : URL) : URL :=
  if IsSocketValid listener.m_Socket then listener else { sender with m_Fragment := 0 }

/-- All event keys of a clip, each with the event id of its track, in the order in which
`PostEventsInterval` visits them. -/
def EventKeys (animation : SpineAnimation) : List (dmhash_t × EventKey) :=
  animation.m_EventTracks.flatMap fun track => track.m_Keys.map fun key => (track.m_EventId, key)

/-- The event messages of the keys, among `keys`, whose time reflected by `backwards` lies
in the half-open interval `[start_cursor, end_cursor)`. -/
def KeysPostedIn (sender receiver : URL) (keys : List (dmhash_t × EventKey))
    (start_cursor end_cursor duration : ℚ) (backwards : Bool) : List Message :=
  (keys.filter fun k =>
    decide (start_cursor ≤ KeyCursor k.2 duration backwards ∧
      KeyCursor k.2 duration backwards < end_cursor)).map
    fun k => PostEvent sender receiver k.1 k.2

/-- One event message per key of the clip. -/
def AllEventMessages (sender receiver : URL) (animation : SpineAnimation) : List Message :=
  (EventKeys animation).map fun k => PostEvent sender receiver k.1 k.2

/-- Whether a message is a completion message (`SpineAnimationDone`). -/
def Message.isDone : Message → Bool
  | Message.SpineAnimationDone _ _ _ _ => true
  | Message.SpineEvent _ _ _ _ => false

/-- The number of tracks of the clip that carry position keys for bone `bone`. -/
def SpineAnimation.positionTrackCount (animation : SpineAnimation) (bone : Nat) : Nat :=
  (animation.m_Tracks.filter fun track =>
    decide (track.m_BoneIndex = bone ∧ track.m_Positions.length > 0)).length

/-- The number of tracks of the clip that carry rotation keys for bone `bone`. -/
def SpineAnimation.rotationTrackCount (animation : SpineAnimation) (bone : Nat) : Nat :=
  (animation.m_Tracks.filter fun track =>
    decide (track.m_BoneIndex = bone ∧ track.m_Rotations.length > 0)).length

/-- The number of tracks of the clip that carry scale keys for bone `bone`. -/
def SpineAnimation.scaleTrackCount (animation : SpineAnimation) (bone : Nat) : Nat :=
  (animation.m_Tracks.filter fun track =>
    decide (track.m_BoneIndex = bone ∧ track.m_Scale.length > 0)).length

/-! ## Properties and render constants -/

/-- The property value `dmGameObject::PropertyVar`: a type tag `m_Type` together with the
member of the union that the tag selects. The class is declared outside the sources at
hand; the tags are the ones of `dmGameObject::PropertyType`. Its constructors take a
number, a hash, a URL, a vector, a quaternion or a `bool`. -/
inductive PropertyVar where
  | PROPERTY_TYPE_NUMBER (m_Number : ℚ)
  | PROPERTY_TYPE_HASH (m_Hash : dmhash_t)
  | PROPERTY_TYPE_URL (m_URL : URL)
  | PROPERTY_TYPE_VECTOR3 (m_V3 : Vector3)
  | PROPERTY_TYPE_VECTOR4 (m_V4 : Vector4)
  | PROPERTY_TYPE_QUAT (m_Quat : Quat)
  | PROPERTY_TYPE_BOOLEAN (m_Bool : Bool)
  deriving DecidableEq, Repr

/-- The enumeration `dmGameObject::PropertyResult`, as far as the component uses it. -/
inductive PropertyResult where
  | PROPERTY_RESULT_OK
  | PROPERTY_RESULT_NOT_FOUND
  | PROPERTY_RESULT_TYPE_MISMATCH
  deriving DecidableEq, Repr

/-- The part of `dmGameObject::PropertyDesc` written by the component: the variant. -/
structure PropertyDesc where
  m_Variant : PropertyVar
  deriving DecidableEq, Repr

/-- The test `params.m_Value.m_Type != PROPERTY_TYPE_HASH` reads `m_Hash` only under the
hash tag: the hash of a value, `none` for every other tag. -/
def PropertyVar.hash? : PropertyVar → Option dmhash_t
  | PropertyVar.PROPERTY_TYPE_HASH h => some h
  | _ => none

/-- Read the union member `var.m_V4`; defined under the vector4 tag only. -/
def PropertyVar.v4? : PropertyVar → Option Vector4
  | PropertyVar.PROPERTY_TYPE_VECTOR4 v => some v
  | _ => none

/-- Read the union member `var.m_Number`; defined under the number tag only. -/
def PropertyVar.number? : PropertyVar → Option ℚ
  | PropertyVar.PROPERTY_TYPE_NUMBER n => some n
  | _ => none

/-- The call `PropertyVar(player->m_Animation)`: the argument is a pointer to a clip, and
the only constructor of `PropertyVar` a pointer converts to is the one taking `bool`
(non-null becomes `true`). -/
def PropertyVar.ofPointer (animation : Option SpineAnimation) : PropertyVar :=
  PropertyVar.PROPERTY_TYPE_BOOLEAN animation.isSome

/-- The constant `PROP_SKIN = dmHashString64("skin")`; the hash function is not part of the
sources at hand and is a parameter. -/
def PROP_SKIN (dmHashString64 : String → dmhash_t) : dmhash_t :=
  dmHashString64 "skin"

/-- The constant `PROP_ANIMATION = dmHashString64("animation")`. -/
def PROP_ANIMATION (dmHashString64 : String → dmhash_t) : dmhash_t :=
  dmHashString64 "animation"

/-- The constant `NULL_ANIMATION = dmHashString64("")`. -/
def NULL_ANIMATION (dmHashString64 : String → dmhash_t) : dmhash_t :=
  dmHashString64 ""

/-- The mesh search shared by `CompSpineModelCreate` and `CompSpineModelSetProperty`: the
loop over `mesh_set->m_Meshes` that stops at the first mesh whose id is `skin`. The result
is the index of that mesh (the pointer `&mesh_set->m_Meshes[i]`), `none` for null. -/
def FindMesh : List Mesh → dmhash_t → Option Nat
  | [], _ => none
  | mesh :: rest, skin =>
      if skin = mesh.m_Id then some 0 else (FindMesh rest skin).map (· + 1)

/-- The function `CompSpineModelGetConstantCallback`: the first stored render constant whose
name hash is `name_hash`; `none` is the result `false`. -/
def GetConstantCallbackLoop : List Constant → dmhash_t → Option Constant
  | [], _ => none
  | c :: rest, name_hash =>
      if c.m_NameHash = name_hash then some c else GetConstantCallbackLoop rest name_hash

/-- The function `CompSpineModelGetConstantCallback` on a component. -/
def CompSpineModelGetConstantCallback (component : SpineModelComponent) (name_hash : dmhash_t) :
    Option Constant :=
  GetConstantCallbackLoop component.m_RenderConstants name_hash

/-- One buffer handed to `dmHashUpdateBuffer32` by `ReHash`. The resource pointer is
represented by the resource it points to. -/
inductive HashBuffer where
  | resource (r : SpineModelResource)
  | material (m : HMaterial)
  | blendMode (b : BlendMode)
  | nameHash (h : dmhash_t)
  | value (v : Vector4)
  deriving DecidableEq, Repr

/-- The loop of `ReHash` from index `i` on: every constant feeds its name hash and its value
to the hash state and is copied to `m_PrevRenderConstants[i]`. The index assertion of
`dmArray` fails (`none`) when that array is too short. -/
def ReHashLoop : List Constant → Nat → List Vector4 → List HashBuffer →
    Option (List Vector4 × List HashBuffer)
  | [], _, prev, fed => some (prev, fed)
  | c :: rest, i, prev, fed =>
      if i < prev.length then
        ReHashLoop rest (i + 1) (prev.set i c.m_Value)
          (fed ++ [HashBuffer.nameHash c.m_NameHash, HashBuffer.value c.m_Value])
      else none

/-- The function `ReHash`. The incremental 32-bit hash of dlib is not part of the sources at
hand: `dmHash32` stands for `dmHashInit32`, the `dmHashUpdateBuffer32` calls and
`dmHashFinal32` together, as a function of the buffers fed in order. -/
def ReHash (dmHash32 : List HashBuffer → Nat) (component : SpineModelComponent) :
    Option SpineModelComponent :=
  let resource := component.m_Resource
  match ReHashLoop component.m_RenderConstants 0 component.m_PrevRenderConstants
      [HashBuffer.resource resource, HashBuffer.material resource.m_Material,
       HashBuffer.blendMode resource.m_BlendMode] with
  | none => none
  | some (prev, fed) =>
      some { component with m_PrevRenderConstants := prev, m_MixedHash := dmHash32 fed }

/-- The search loop of `CompSpineModelSetConstantCallback`: the index of the first stored
constant whose name hash is `name_hash` (the pointer `v = &c.m_Value`), `none` for null. -/
def FindConstant : List Constant → dmhash_t → Option Nat
  | [], _ => none
  | c :: rest, name_hash =>
      if c.m_NameHash = name_hash then some 0 else (FindConstant rest name_hash).map (· + 1)

/-- The method `Vector4::setElem`; the index is not checked by the library and an index
above 3 writes outside the vector (`none`). -/
def Vector4.setElem (v : Vector4) (idx : Nat) (value : ℚ) : Option Vector4 :=
  match idx with
  | 0 => some { v with x := value }
  | 1 => some { v with y := value }
  | 2 => some { v with z := value }
  | 3 => some { v with w := value }
  | _ => none

/-- The assignment through `v` at the end of `CompSpineModelSetConstantCallback`: the whole
vector when `element_index` is null, one element of it otherwise. -/
def SetConstantValue (old : Vector4) (element_index : Option Nat) (var : PropertyVar) :
    Option Vector4 :=
  match element_index with
  | none => var.v4?
  | some idx =>
      match var.number? with
      | none => none
      | some n => old.setElem idx n

/-- The function `CompSpineModelSetConstantCallback`. `GetMaterialProgramConstant material
name_hash c` is the constant `c` after the call of the render library (not part of the
sources at hand), and `unset` is the default-constructed `dmRender::Constant`. The
capacities of the two arrays are not modelled: they grow together, by four, when full. -/
def CompSpineModelSetConstantCallback (dmHash32 : List HashBuffer → Nat)
    (GetMaterialProgramConstant : HMaterial → dmhash_t → Constant → Constant)
    (unset : Constant) (component : SpineModelComponent) (name_hash : dmhash_t)
    (element_index : Option Nat) (var : PropertyVar) : Option SpineModelComponent :=
  let constants := component.m_RenderConstants
  let found := FindConstant constants name_hash
  let component :=
    match found with
    | some _ => component
    | none =>
        let c := GetMaterialProgramConstant component.m_Resource.m_Material name_hash unset
        { component with
          m_RenderConstants := constants ++ [c]
          m_PrevRenderConstants := component.m_PrevRenderConstants ++ [c.m_Value] }
  let i := found.getD constants.length
  match component.m_RenderConstants.get? i with
  | none => none
  | some c =>
      match SetConstantValue c.m_Value element_index var with
      | none => none
      | some value =>
          ReHash dmHash32
            { component with
              m_RenderConstants := component.m_RenderConstants.set i { c with m_Value := value } }

/-- The function `CompSpineModelGetProperty`. `GetMaterialConstant` (not part of the sources
at hand) receives the material, the property id, `out_value` and the get-constant callback
bound to the component. -/
def CompSpineModelGetProperty (dmHashString64 : String → dmhash_t)
    (GetMaterialConstant : HMaterial → dmhash_t → PropertyDesc → (dmhash_t → Option Constant) →
      PropertyResult × PropertyDesc)
    (component : SpineModelComponent) (m_PropertyId : dmhash_t) (out_value : PropertyDesc) :
    PropertyResult × PropertyDesc :=
  if m_PropertyId = PROP_SKIN dmHashString64 then
    (PropertyResult.PROPERTY_RESULT_OK,
      { out_value with m_Variant := PropertyVar.PROPERTY_TYPE_HASH component.m_Skin })
  else if m_PropertyId = PROP_ANIMATION dmHashString64 then
    let player := GetPlayer component
    (PropertyResult.PROPERTY_RESULT_OK,
      { out_value with m_Variant := PropertyVar.ofPointer player.m_Animation })
  else
    GetMaterialConstant component.m_Resource.m_Material m_PropertyId out_value
      (CompSpineModelGetConstantCallback component)

/-- The function `CompSpineModelSetProperty`. `SetMaterialConstant` (not part of the sources
at hand) receives the material, the property id, the value, the set-constant callback and
the component the callback works on; the other parameters are those of the callback. -/
def CompSpineModelSetProperty (dmHashString64 : String → dmhash_t)
    (dmHash32 : List HashBuffer → Nat)
    (GetMaterialProgramConstant : HMaterial → dmhash_t → Constant → Constant)
    (unset : Constant)
    (SetMaterialConstant : HMaterial → dmhash_t → PropertyVar →
      (SpineModelComponent → dmhash_t → Option Nat → PropertyVar → Option SpineModelComponent) →
      SpineModelComponent → Option (PropertyResult × SpineModelComponent))
    (component : SpineModelComponent) (m_PropertyId : dmhash_t) (m_Value : PropertyVar) :
    Option (PropertyResult × SpineModelComponent) :=
  if m_PropertyId = PROP_SKIN dmHashString64 then
    match m_Value.hash? with
    | none => some (PropertyResult.PROPERTY_RESULT_TYPE_MISMATCH, component)
    | some skin =>
        match FindMesh component.m_Resource.m_Meshes skin with
        | none => some (PropertyResult.PROPERTY_RESULT_NOT_FOUND, component)
        | some mesh =>
            some (PropertyResult.PROPERTY_RESULT_OK,
              { component with m_Mesh := some mesh, m_Skin := skin })
  else
    SetMaterialConstant component.m_Resource.m_Material m_PropertyId m_Value
      (CompSpineModelSetConstantCallback dmHash32 GetMaterialProgramConstant unset) component

/-- The method `Vector4::getElem`, for an index inside the vector. -/
def Vector4.getElem (v : Vector4) (idx : Fin 4) : ℚ :=
  match idx with
  | 0 => v.x
  | 1 => v.y
  | 2 => v.z
  | 3 => v.w

/-- The method `Matrix4::getCol`. -/
def Matrix4.getCol (m : Matrix4) (col : Fin 4) : Vector4 :=
  match col with
  | 0 => m.col0
  | 1 => m.col1
  | 2 => m.col2
  | 3 => m.col3

/-- The method `Matrix4::getElem(col, row)`. -/
def Matrix4.getElem (m : Matrix4) (col row : Fin 4) : ℚ :=
  (m.getCol col).getElem row

/-! ## The world: component slots and the index pool -/

/-- Modelled from the spec: the index pool `dmIndexPool32` of dlib is not part of the sources
at hand. The spec describes a fixed-capacity pool with slot recycling ("free-list/index-pool
semantics": creation takes a free slot, destruction returns the slot immediately), so the
pool is held as the list of its free indices, the next one to hand out first. -/
structure dmIndexPool32 where
  m_Capacity : Nat
  m_Free : List Nat
  deriving DecidableEq, Repr

/-- Modelled from the spec: `SetCapacity` on a new pool makes every index below the capacity
free. -/
def dmIndexPool32.SetCapacity (capacity : Nat) : dmIndexPool32 :=
  { m_Capacity := capacity, m_Free := List.range capacity }

/-- Modelled from the spec: `Remaining`, the number of free indices. -/
def dmIndexPool32.Remaining (pool : dmIndexPool32) : Nat :=
  pool.m_Free.length

/-- Modelled from the spec: `Pop` hands out a free index; on a pool without one the
assertion of the pool fails (`none`). -/
def dmIndexPool32.Pop (pool : dmIndexPool32) : Option (Nat × dmIndexPool32) :=
  match pool.m_Free with
  | [] => none
  | index :: rest => some (index, { pool with m_Free := rest })

/-- Modelled from the spec: `Push` returns an index to the pool; it is the next one handed
out. -/
def dmIndexPool32.Push (pool : dmIndexPool32) (index : Nat) : dmIndexPool32 :=
  { pool with m_Free := index :: pool.m_Free }

/-- One element of `world->m_Components`. `m_Component` is `none` when `m_Resource` is null;
the code leaves a slot in that state only with every field but the sort key zero. `m_SortKey`
is the 64-bit value `m_SortKey.m_Key`. -/
structure ComponentSlot where
  m_Component : Option SpineModelComponent
  m_SortKey : Nat
  deriving DecidableEq, Repr

/-- The slot left by `memset(component, 0, sizeof(SpineModelComponent))`. -/
def ComponentSlot.zero : ComponentSlot :=
  { m_Component := none, m_SortKey := 0 }

/-- The state `SpineModelWorld`; the render objects and the vertex buffer are held in
`SpineModelRender`. -/
structure SpineModelWorld where
  m_Components : List ComponentSlot
  m_ComponentIndices : dmIndexPool32
  m_RenderSortBuffer : List Nat
  m_MinZ : ℚ
  m_MaxZ : ℚ
  deriving DecidableEq, Repr

/-- The enumeration `dmGameObject::CreateResult`, as far as the component uses it. -/
inductive CreateResult where
  | CREATE_RESULT_OK
  | CREATE_RESULT_UNKNOWN_ERROR
  deriving DecidableEq, Repr

/-- The world `CompSpineModelNewWorld` sets up for `context->m_MaxSpineModelCount = count`:
`count` zeroed slots, a pool with every index free, the sort buffer in index order. -/
def SpineModelWorld.create (count : Nat) : SpineModelWorld :=
  { m_Components := List.replicate count ComponentSlot.zero
    m_ComponentIndices := dmIndexPool32.SetCapacity count
    m_RenderSortBuffer := List.range count
    m_MinZ := 0
    m_MaxZ := 0 }

/-- The function `CompSpineModelNewWorld` for `context->m_MaxSpineModelCount = count`. The
call `memset(&world->m_Components[0], ...)` indexes the component array, so for a count of 0
the index assertion of the array fails (`none`); otherwise the result is
`CREATE_RESULT_OK` with the world set up. -/
def CompSpineModelNewWorld (count : Nat) : Option (CreateResult × SpineModelWorld) :=
  if count = 0 then none
  else some (CreateResult.CREATE_RESULT_OK, SpineModelWorld.create count)

/-- The fields of `dmGameObject::ComponentCreateParams` read by `CompSpineModelCreate`. The
collection is represented by `m_New`: the handle that the `i`-th call of `dmGameObject::New`
of this creation returns, 0 for the null handle. -/
structure ComponentCreateParams where
  m_Instance : GameObjectInstance
  m_Position : Vector3
  m_Rotation : Quat
  m_Resource : SpineModelResource
  m_ComponentIndex : Nat
  m_New : Nat → Nat

/-- A bone node as `CompSpineModelCreate` sets it up in the collection: its handle and the
position, rotation and scale given to it; every such node is flagged as a bone. -/
structure BoneNode where
  m_Instance : Nat
  m_Transform : Transform
  deriving DecidableEq, Repr

/-- The all-zero player, as left by `memset`. -/
def SpinePlayer.zero : SpinePlayer :=
  { m_Animation := none, m_AnimationId := 0, m_Cursor := 0, m_Playback := Playback.PLAYBACK_NONE
    m_Playing := false, m_Backwards := false }

/-- The all-zero transform, as left by `memset`. -/
def Transform.zero : Transform :=
  { m_Translation := { x := 0, y := 0, z := 0 }
    m_Rotation := { x := 0, y := 0, z := 0, w := 0 }
    m_Scale := { x := 0, y := 0, z := 0 } }

/-- The component that `CompSpineModelCreate` starts from: the content of the slot. For a
zeroed slot every field is zero; the two fields that have no zero value in this model,
`m_Instance` and `m_Resource`, are assigned by the creation before they are read and are
taken from its parameters. -/
def ComponentSlot.component (slot : ComponentSlot) (params : ComponentCreateParams) :
    SpineModelComponent :=
  match slot.m_Component with
  | some c => c
  | none =>
      { m_Instance := params.m_Instance
        m_ComponentIndex := 0
        m_Resource := params.m_Resource
        m_Listener := { m_Socket := 0, m_Path := 0, m_Fragment := 0, m_Function := 0 }
        m_Players := (SpinePlayer.zero, SpinePlayer.zero)
        m_CurrentPlayer := 0
        m_Pose := []
        m_BlendDuration := 0
        m_BlendTimer := 0
        m_Enabled := false
        m_Blending := false
        m_Transform := Transform.zero
        m_World := Matrix4.zero
        m_Mesh := none
        m_Skin := 0
        m_NodeInstances := []
        m_RenderConstants := []
        m_PrevRenderConstants := []
        m_MixedHash := 0 }

/-- The loop of `CompSpineModelCreate` that creates the bone nodes, from bone `i` on with
`count` bones to go. The result is `none` when an array index assertion fails; otherwise the
flag tells whether every node was created (`false` is the early return after a failed
`dmGameObject::New`), with `m_NodeInstances` and the nodes set up so far. -/
def CreateBoneNodes (Mul : Transform → Transform → Transform) (m_New : Nat → Nat)
    (bind_pose : List SpineBone) (m_Transform : Transform) :
    Nat → Nat → List Nat → List BoneNode → Option (Bool × List Nat × List BoneNode)
  | 0, _, instances, nodes => some (true, instances, nodes)
  | count + 1, i, instances, nodes =>
      let inst := m_New i
      if inst = 0 then some (false, instances, nodes)
      else
        match bind_pose.get? i with
        | none => none
        | some bone =>
            let transform :=
              if i = 0 then Mul m_Transform bone.m_LocalToParent else bone.m_LocalToParent
            if i < instances.length then
              CreateBoneNodes Mul m_New bind_pose m_Transform count (i + 1) (instances.set i inst)
                (nodes ++ [{ m_Instance := inst, m_Transform := transform }])
            else none

/-- The loop of `CompSpineModelCreate` that sets the parents, in reverse bone order: the
calls `dmGameObject::SetParent(inst, parent)` in the order they are made, `none` as parent
standing for the owning instance `params.m_Instance`. The argument `i` counts up from 0 with
`count` iterations to go; an array index assertion that fails gives `none`. -/
def SetBoneParents (bones : List Bone) (instances : List Nat) (bone_count : Nat) :
    Nat → Nat → List (Nat × Option Nat) → Option (List (Nat × Option Nat))
  | 0, _, calls => some calls
  | count + 1, i, calls =>
      let index := bone_count - 1 - i
      match instances.get? index with
      | none => none
      | some inst =>
          if index > 0 then
            match bones.get? index with
            | none => none
            | some bone =>
                match instances.get? bone.m_Parent with
                | none => none
                | some parent =>
                    SetBoneParents bones instances bone_count count (i + 1)
                      (calls ++ [(inst, some parent)])
          else
            SetBoneParents bones instances bone_count count (i + 1) (calls ++ [(inst, none)])

/-- What a call of `CompSpineModelCreate` leaves behind: the result, the world, the bone
nodes created and the parent calls made in the collection, and `*params.m_UserData` (the
index of the component's slot; `none` when it is not written). -/
structure CreateOutcome where
  result : CreateResult
  world : SpineModelWorld
  nodes : List BoneNode
  parents : List (Nat × Option Nat)
  user_data : Option Nat
  deriving DecidableEq, Repr

/-- The function `CompSpineModelCreate`. The hash functions and the transform product
`dmTransform::Mul` are not part of the sources at hand and are parameters. The result is
`none` when an assertion of an array or of the pool fails. -/
def CompSpineModelCreate (dmHashString64 : String → dmhash_t)
    (dmHash32 : List HashBuffer → Nat) (Mul : Transform → Transform → Transform)
    (world : SpineModelWorld) (params : ComponentCreateParams) : Option CreateOutcome :=
  if world.m_ComponentIndices.Remaining = 0 then
    some { result := CreateResult.CREATE_RESULT_UNKNOWN_ERROR, world := world, nodes := [],
           parents := [], user_data := none }
  else
    match world.m_ComponentIndices.Pop with
    | none => none
    | some (index, pool) =>
        match world.m_Components.get? index with
        | none => none
        | some slot =>
            let resource := params.m_Resource
            let m_Skin := dmHashString64 resource.m_Skin
            let bone_count := resource.m_Bones.length
            let component : SpineModelComponent :=
              { slot.component params with
                m_Instance := params.m_Instance
                m_Transform :=
                  { m_Translation := params.m_Position, m_Rotation := params.m_Rotation,
                    m_Scale := { x := 1, y := 1, z := 1 } }
                m_Resource := resource
                m_Listener := ResetURL
                m_ComponentIndex := params.m_ComponentIndex
                m_Enabled := true
                m_Mesh := FindMesh resource.m_Meshes m_Skin
                m_Skin := m_Skin
                m_Pose := List.replicate bone_count Transform.identity
                m_NodeInstances := List.replicate bone_count 0 }
            let store := fun (c : SpineModelComponent) =>
              { world with
                m_ComponentIndices := pool
                m_Components :=
                  world.m_Components.set index { slot with m_Component := some c } }
            match CreateBoneNodes Mul params.m_New resource.m_BindPose component.m_Transform
                bone_count 0 component.m_NodeInstances [] with
            | none => none
            | some (false, instances, nodes) =>
                some { result := CreateResult.CREATE_RESULT_UNKNOWN_ERROR,
                       world := store { component with m_NodeInstances := instances },
                       nodes := nodes, parents := [], user_data := none }
            | some (true, instances, nodes) =>
                let component := { component with m_NodeInstances := instances }
                match SetBoneParents resource.m_Bones instances bone_count bone_count 0 [] with
                | none => none
                | some parents =>
                    match ReHash dmHash32 component with
                    | none => none
                    | some component =>
                        let default_animation_id := dmHashString64 resource.m_DefaultAnimation
                        let component :=
                          if default_animation_id ≠ NULL_ANIMATION dmHashString64 then
                            (PlayAnimation component default_animation_id
                              Playback.PLAYBACK_LOOP_FORWARD 0).2
                          else component
                        some { result := CreateResult.CREATE_RESULT_OK, world := store component,
                               nodes := nodes, parents := parents, user_data := some index }

/-- The function `CompSpineModelDestroy` on the component in slot `user_data`: the bone
nodes deleted in the collection (the handles up to the first null one), the slot zeroed, its
index pushed to the pool. A `user_data` outside the array gives `none`. -/
def CompSpineModelDestroy (world : SpineModelWorld) (user_data : Nat) :
    Option (CreateResult × SpineModelWorld × List Nat) :=
  match world.m_Components.get? user_data with
  | none => none
  | some slot =>
      let deleted :=
        match slot.m_Component with
        | none => []
        | some component => component.m_NodeInstances.takeWhile (fun inst => inst != 0)
      let index := user_data
      some (CreateResult.CREATE_RESULT_OK,
        { world with
          m_Components := world.m_Components.set index ComponentSlot.zero
          m_ComponentIndices := world.m_ComponentIndices.Push index },
        deleted)

/-! ## Sort keys -/

/-- Modelled from the spec: the union type of `m_SortKey`, with the bit-fields `m_Z`,
`m_MixedHash` and `m_Index` laid over the 64-bit `m_Key`, is declared in a header that is
not part of the sources at hand. The spec gives the packing as "[enabled-dependent sentinel |
quantized depth (16 bits) | material/state hash | stable pool index]": the depth in the top
16 bits, the 32-bit hash below it, the index in the low 16 bits. An assignment to a
bit-field keeps the low bits of the value. -/
def SortKey.pack (m_Z m_Index m_MixedHash : Nat) : Nat :=
  (m_Z % 2 ^ 16) * 2 ^ 48 + (m_MixedHash % 2 ^ 32) * 2 ^ 16 + m_Index % 2 ^ 16

/-- Modelled from the spec: the bit-field `m_SortKey.m_Z` read from the key (see
`SortKey.pack`). -/
def SortKey.m_Z (m_Key : Nat) : Nat :=
  m_Key / 2 ^ 48 % 2 ^ 16

/-- The key `0xffffffffffffffffULL` given to a slot that is not enabled. -/
def SortKey.disabled : Nat :=
  0xffffffffffffffff

/-- Modelled from the spec: `dmMath::Clamp` of dlib is not part of the sources at hand; the
spec has the depth "clamped to range". -/
def Clamp (v lo hi : ℚ) : ℚ :=
  if v < lo then lo else if v > hi then hi else v

/-- The test `c->m_Resource && c->m_Enabled` of `GenerateKeys`. -/
def ComponentSlot.enabled (slot : ComponentSlot) : Bool :=
  match slot.m_Component with
  | some c => c.m_Enabled
  | none => false

/-- The body of the loop of `GenerateKeys` for the slot at `index`. The conversion
`(uint16_t) z` of the clamped depth drops the fraction. -/
def GenerateKey (min_z range : ℚ) (index : Nat) (slot : ComponentSlot) : ComponentSlot :=
  match slot.m_Component with
  | some c =>
      if c.m_Enabled then
        let z := (c.m_World.getElem 3 2 - min_z) * range * 65535
        let z := Clamp z 0 65535
        let zf := (Rat.floor z).toNat
        { slot with m_SortKey := SortKey.pack zf index c.m_MixedHash }
      else { slot with m_SortKey := SortKey.disabled }
  | none => { slot with m_SortKey := SortKey.disabled }

/-- The loop of `GenerateKeys` over the slots from `index` on. -/
def GenerateKeysLoop (min_z range : ℚ) : Nat → List ComponentSlot → List ComponentSlot
  | _, [] => []
  | index, slot :: rest =>
      GenerateKey min_z range index slot :: GenerateKeysLoop min_z range (index + 1) rest

/-- The function `GenerateKeys`. The depth range is `1.0f / (m_MaxZ - m_MinZ)`; the rational
division gives 0 where the float division by zero gives an infinity. -/
def GenerateKeys (world : SpineModelWorld) : SpineModelWorld :=
  { world with
    m_Components :=
      GenerateKeysLoop world.m_MinZ (1 / (world.m_MaxZ - world.m_MinZ)) 0 world.m_Components }

/-- The key `m_World->m_Components[x].m_SortKey.m_Key` read by the sort predicate; the
indices of the sort buffer lie inside the array (see `SortRenderBuffer`). -/
def SortKeyAt (world : SpineModelWorld) (x : Nat) : Nat :=
  match world.m_Components.get? x with
  | some slot => slot.m_SortKey
  | none => 0

/-- The predicate `SortPredSpine`: the key of slot `x` is below the key of slot `y`. -/
def SortPredSpine (world : SpineModelWorld) (x y : Nat) : Bool :=
  decide (SortKeyAt world x < SortKeyAt world y)

/-- The postcondition of `std::sort` with `SortPredSpine`: `sorted` is a rearrangement of
`buffer` in which no element is ordered by the predicate before an earlier one. The order of
elements with equal keys is not specified. -/
def IsSortResult (world : SpineModelWorld) (buffer sorted : List Nat) : Prop :=
  sorted.Perm buffer ∧ sorted.Pairwise (fun x y => SortPredSpine world y x = false)

/-- The function `Sort` (renamed, `Sort` being a reserved word). `std::sort` is specified by its postcondition `IsSortResult` only;
the insertion sort used here is one result it allows, the one that keeps elements with equal
keys in their order. An index of the sort buffer outside the component array fails the index
assertion (`none`). -/
def SortRenderBuffer (world : SpineModelWorld) : Option SpineModelWorld :=
  if world.m_RenderSortBuffer.all (fun x => decide (x < world.m_Components.length)) then
    some { world with
           m_RenderSortBuffer :=
             world.m_RenderSortBuffer.insertionSort
               (fun x y => SortKeyAt world x ≤ SortKeyAt world y) }
  else none

/-! ## World transforms and the depth range -/

/-- The constant `FLT_MAX` of the C header `<float.h>`: the largest finite single-precision
value, `(2 - 2^-23) * 2^127`. -/
def FLT_MAX : ℚ :=
  340282346638528859811704183484516925440

/-- The body of the loop of `UpdateTransforms` for one component that is enabled and has a
mesh: its world matrix is recomputed and its depth joins the range. The game-object queries
`GetWorldTransform` and `ScaleAlongZ` and the transform library (`Mul`, `MulNoScaleZ`,
`ToMatrix4`) are not part of the sources at hand and are parameters; `dmMath::Min` and
`dmMath::Max` are the minimum and the maximum. -/
def UpdateTransform (GetWorldTransform : GameObjectInstance → Transform)
    (ScaleAlongZ : GameObjectInstance → Bool) (Mul MulNoScaleZ : Transform → Transform → Transform)
    (ToMatrix4 : Transform → Matrix4) (c : SpineModelComponent) (min_z max_z : ℚ) :
    SpineModelComponent × ℚ × ℚ :=
  let world := GetWorldTransform c.m_Instance
  let world :=
    if ScaleAlongZ c.m_Instance then Mul world c.m_Transform
    else MulNoScaleZ world c.m_Transform
  let w := ToMatrix4 world
  let position := w.col3
  let z := position.z
  let w := { w with col3 := position }
  ({ c with m_World := w }, min min_z z, max max_z z)

/-- The loop of `UpdateTransforms` over the slots: a slot that is not enabled is skipped, and
so is an enabled component without a mesh. -/
def UpdateTransformsLoop (GetWorldTransform : GameObjectInstance → Transform)
    (ScaleAlongZ : GameObjectInstance → Bool) (Mul MulNoScaleZ : Transform → Transform → Transform)
    (ToMatrix4 : Transform → Matrix4) :
    List ComponentSlot → ℚ → ℚ → List ComponentSlot × ℚ × ℚ
  | [], min_z, max_z => ([], min_z, max_z)
  | slot :: rest, min_z, max_z =>
      match slot.m_Component with
      | none =>
          let r := UpdateTransformsLoop GetWorldTransform ScaleAlongZ Mul MulNoScaleZ ToMatrix4
            rest min_z max_z
          (slot :: r.1, r.2)
      | some c =>
          if !c.m_Enabled then
            let r := UpdateTransformsLoop GetWorldTransform ScaleAlongZ Mul MulNoScaleZ ToMatrix4
              rest min_z max_z
            (slot :: r.1, r.2)
          else if c.m_Mesh ≠ none then
            let u := UpdateTransform GetWorldTransform ScaleAlongZ Mul MulNoScaleZ ToMatrix4 c
              min_z max_z
            let r := UpdateTransformsLoop GetWorldTransform ScaleAlongZ Mul MulNoScaleZ ToMatrix4
              rest u.2.1 u.2.2
            ({ slot with m_Component := some u.1 } :: r.1, r.2)
          else
            let r := UpdateTransformsLoop GetWorldTransform ScaleAlongZ Mul MulNoScaleZ ToMatrix4
              rest min_z max_z
            (slot :: r.1, r.2)

/-- The function `UpdateTransforms`: `n` is the size of the component array, which
`CompSpineModelNewWorld` sets to the capacity of the pool. -/
def UpdateTransforms (GetWorldTransform : GameObjectInstance → Transform)
    (ScaleAlongZ : GameObjectInstance → Bool) (Mul MulNoScaleZ : Transform → Transform → Transform)
    (ToMatrix4 : Transform → Matrix4) (world : SpineModelWorld) : SpineModelWorld :=
  let n := world.m_Components.length
  let r := UpdateTransformsLoop GetWorldTransform ScaleAlongZ Mul MulNoScaleZ ToMatrix4
    world.m_Components FLT_MAX (-FLT_MAX)
  let min_z := if n = 0 then 0 else r.2.1
  let max_z := if n = 0 then 1 else r.2.2
  { world with m_Components := r.1, m_MinZ := min_z, m_MaxZ := max_z }

/-- Whether the slot contributes a depth in `UpdateTransforms`: it holds an enabled
component with a mesh. -/
def ComponentSlot.contributesDepth (slot : ComponentSlot) : Bool :=
  match slot.m_Component with
  | some c => c.m_Enabled && c.m_Mesh.isSome
  | none => false

/-! ## The second half of `Animate`: bind pose, bone nodes, model space -/

/-- Modelled from the spec: the Vectormath `dot` on `Quat` is not part of the sources at
hand; it is the sum of the componentwise products, so `dot(q, q)` is the squared length that
the renormalisation while blending looks at. -/
def Quat.dot (a b : Quat) : ℚ :=
  a.x * b.x + a.y * b.y + a.z * b.z + a.w * b.w

/-- The block "Normalize quaternions while we blend" of `Animate` for one bone transform:
while the component blends, a rotation whose squared length exceeds `0.001f` is normalised.
The quaternion `normalize` is not part of the sources at hand and is a parameter. -/
def NormalizeRotation (normalize : Quat → Quat) (m_Blending : Bool) (t : Transform) :
    Transform :=
  if m_Blending then
    let rotation := t.m_Rotation
    let rotation := if Quat.dot rotation rotation > 1 / 1000 then normalize rotation
      else rotation
    { t with m_Rotation := rotation }
  else t

/-- The loop of `Animate` that renormalises the rotations while the component blends and
composes every bone with its bind pose, `pose[bi] = Mul(bind_pose[bi].m_LocalToParent,
pose[bi])`. The transform product `dmTransform::Mul` and the quaternion `normalize` are not
part of the sources at hand and are parameters. A bind pose shorter than the pose fails the
index assertion (`none`). -/
def AnimateBindPose (Mul : Transform → Transform → Transform) (normalize : Quat → Quat)
    (m_Blending : Bool) : List SpineBone → List Transform → Option (List Transform)
  | _, [] => some []
  | [], _ :: _ => none
  | bone :: bind_pose, t :: pose =>
      match AnimateBindPose Mul normalize m_Blending bind_pose pose with
      | none => none
      | some rest =>
          some (Mul bone.m_LocalToParent (NormalizeRotation normalize m_Blending t) :: rest)

/-- The loop of `Animate` that converts every transform into model space, in place: for
`bi > 0`, `pose[bi] = Mul(pose[skeleton->m_Bones[bi].m_Parent], pose[bi])`. `count` is the
number of iterations left and `bi` the loop index. An index outside the skeleton or the pose
fails the index assertion (`none`). -/
def AnimateModelSpaceLoop (Mul : Transform → Transform → Transform) (m_Bones : List Bone) :
    Nat → Nat → List Transform → Option (List Transform)
  | 0, _, pose => some pose
  | count + 1, bi, pose =>
      match pose[bi]? with
      | none => none
      | some transform =>
          if bi > 0 then
            match m_Bones[bi]? with
            | none => none
            | some bone =>
                match pose[bone.m_Parent]? with
                | none => none
                | some parent =>
                    AnimateModelSpaceLoop Mul m_Bones count (bi + 1)
                      (pose.set bi (Mul parent transform))
          else AnimateModelSpaceLoop Mul m_Bones count (bi + 1) pose

/-- The model-space loop of `Animate` run over the whole pose, `bi` from 0 to
`bone_count`. -/
def AnimateModelSpace (Mul : Transform → Transform → Transform) (m_Bones : List Bone)
    (pose : List Transform) : Option (List Transform) :=
  AnimateModelSpaceLoop Mul m_Bones pose.length 0 pose

/-- The last loop of `Animate`: every model-space transform is multiplied by the inverse
bind pose, `pose[bi] = Mul(pose[bi], bind_pose[bi].m_ModelToLocal)`, which gives the delta
transforms used for skinning. -/
def AnimateDeltas (Mul : Transform → Transform → Transform) :
    List SpineBone → List Transform → Option (List Transform)
  | _, [] => some []
  | [], _ :: _ => none
  | bone :: bind_pose, transform :: pose =>
      match AnimateDeltas Mul bind_pose pose with
      | none => none
      | some rest => some (Mul transform bone.m_ModelToLocal :: rest)

/-- What the second half of the body of the component loop of `Animate` leaves behind:
the component with the delta transforms in `m_Pose`, the array handed to
`dmGameObject::SetBoneTransforms`, and the pose values in between (after the bind-pose
composition, and in model space). -/
structure AnimatePoseResult where
  component : SpineModelComponent
  m_BoneTransforms : List Transform
  m_LocalPose : List Transform
  m_ModelPose : List Transform
  deriving DecidableEq, Repr

/-- The second half of the body of the component loop of `Animate`, after the players have
been sampled into `m_Pose`: bind-pose composition, the call of
`dmGameObject::SetBoneTransforms` with the component transform put in front of the root
bone, the restore of the root bone, the model-space loop and the inverse bind pose. The loop
body is only reached with a non-empty pose. -/
def AnimatePose (Mul : Transform → Transform → Transform) (normalize : Quat → Quat)
    (c : SpineModelComponent) : Option AnimatePoseResult :=
  match AnimateBindPose Mul normalize c.m_Blending c.m_Resource.m_BindPose c.m_Pose with
  | none => none
  | some pose =>
      match pose[0]? with
      | none => none
      | some root_t =>
          let pose1 := pose.set 0 (Mul c.m_Transform root_t)
          let m_BoneTransforms := pose1
          let pose2 := pose1.set 0 root_t
          match AnimateModelSpace Mul c.m_Resource.m_Bones pose2 with
          | none => none
          | some pose3 =>
              match AnimateDeltas Mul c.m_Resource.m_BindPose pose3 with
              | none => none
              | some pose4 =>
                  some { component := { c with m_Pose := pose4 }
                         m_BoneTransforms := m_BoneTransforms
                         m_LocalPose := pose2
                         m_ModelPose := pose3 }

/-- The body of the component loop of `Animate` for one component: a component that is
disabled or has an empty pose is skipped (no bone transforms are set); otherwise the
players are sampled (`AnimateSample`) and the pose is finished (`AnimatePose`). The result
holds the component, the messages posted, and the array handed to `SetBoneTransforms`, if
any. -/
def AnimateComponent (Mul : Transform → Transform → Transform) (normalize : Quat → Quat)
    (fuel : Nat) (c : SpineModelComponent) (dt : ℚ) :
    Option (SpineModelComponent × List Message × Option (List Transform)) :=
  if !c.m_Enabled ∨ c.m_Pose.isEmpty then some (c, [], none)
  else
    match AnimateSample fuel c dt with
    | none => none
    | some (c1, posted) =>
        match AnimatePose Mul normalize c1 with
        | none => none
        | some r => some (r.component, posted, some r.m_BoneTransforms)

/-- The loop invariant of the model-space loop at index `bi`: the entries from `bi` on are
still local, the root is local, and every entry before `bi` is the product of the entry of
its parent and its local transform. -/
def ModelSpaceInv (Mul : Transform → Transform → Transform) (m_Bones : List Bone)
    (pose : List Transform) (bi : Nat) (p : List Transform) : Prop :=
  p.length = pose.length ∧ (∀ j, bi ≤ j → p[j]? = pose[j]?) ∧ p[0]? = pose[0]? ∧
    ∀ j, 0 < j → j < bi → ∃ bone t mp, m_Bones[j]? = some bone ∧ pose[j]? = some t ∧
      p[bone.m_Parent]? = some mp ∧ p[j]? = some (Mul mp t)

/-! ## Batches, render objects and vertex data -/

/-- One vertex of the staging buffer (`SpineModelVertex`). -/
structure SpineModelVertex where
  x : ℚ
  y : ℚ
  z : ℚ
  u : ℚ
  v : ℚ
  deriving DecidableEq, Repr

/-- The blend factors of `dmGraphics` that `RenderBatch` uses. -/
inductive BlendFactor where
  | BLEND_FACTOR_ONE
  | BLEND_FACTOR_ONE_MINUS_SRC_ALPHA
  | BLEND_FACTOR_DST_COLOR
  deriving DecidableEq, Repr

/-- The fields of `dmRender::RenderObject` that `RenderBatch` derives from the batch; the
fields it sets to the same value for every batch (vertex declaration, vertex buffer,
primitive type, texture, `m_CalculateDepthKey`, `m_SetBlendFactors`) are left out.
`m_Constants` lists the calls of `dmRender::EnableRenderObjectConstant` in order. -/
structure RenderObject where
  m_VertexStart : Nat
  m_VertexCount : Nat
  m_Material : HMaterial
  m_WorldTransform : Matrix4
  m_Constants : List (dmhash_t × Vector4)
  m_SourceBlendFactor : BlendFactor
  m_DestinationBlendFactor : BlendFactor
  deriving DecidableEq, Repr

/-- Modelled from the spec: the array type `dmArray` of dlib is not part of the sources at
hand. The spec has the staging buffer "growing its capacity on demand": an array holds its
elements and a capacity that bounds their number. -/
structure dmArray (α : Type) where
  m_Data : List α
  m_Capacity : Nat
  deriving DecidableEq, Repr

/-- The number of elements, `Size()`. -/
def dmArray.Size {α : Type} (a : dmArray α) : Nat :=
  a.m_Data.length

/-- The room left, `Remaining()`: capacity minus size. -/
def dmArray.Remaining {α : Type} (a : dmArray α) : Nat :=
  a.m_Capacity - a.m_Data.length

/-- Grow the capacity, `OffsetCapacity(offset)` with a positive offset. -/
def dmArray.OffsetCapacity {α : Type} (a : dmArray α) (offset : Nat) : dmArray α :=
  { a with m_Capacity := a.m_Capacity + offset }

/-- Drop all elements, `SetSize(0)`. -/
def dmArray.Clear {α : Type} (a : dmArray α) : dmArray α :=
  { a with m_Data := [] }

/-- Add one element at the end, as `Push(x)` and as `SetSize(Size() + 1)` followed by
writing `Back()` do; a full array fails the assertion (`none`). -/
def dmArray.Push {α : Type} (a : dmArray α) (x : α) : Option (dmArray α) :=
  if a.m_Data.length < a.m_Capacity then some { a with m_Data := a.m_Data ++ [x] } else none

/-- The fields `m_RenderObjects` and `m_VertexBufferData` of `SpineModelWorld`, kept beside
`SpineModelWorld`. -/
structure SpineModelRender where
  m_RenderObjects : dmArray RenderObject
  m_VertexBufferData : dmArray SpineModelVertex
  deriving DecidableEq, Repr

/-- The render arrays as `CompSpineModelNewWorld` leaves them for
`context->m_MaxSpineModelCount = count`: room for `count` render objects and, assuming four
vertices per mesh, for `4 * count` vertices. -/
def CompSpineModelNewRender (count : Nat) : SpineModelRender :=
  { m_RenderObjects := { m_Data := [], m_Capacity := count }
    m_VertexBufferData := { m_Data := [], m_Capacity := 4 * count } }

/-- The slot `components[sort_buffer[i]]`; an index outside the sort buffer or outside the
component array fails the index assertion (`none`). -/
def SortedSlot (world : SpineModelWorld) (i : Nat) : Option ComponentSlot :=
  match world.m_RenderSortBuffer[i]? with
  | none => none
  | some x => world.m_Components[x]?

/-- The mesh `component->m_Mesh` points to: `some none` for the null pointer, `none` for a
pointer outside the mesh set. -/
def SpineModelComponent.mesh (c : SpineModelComponent) : Option (Option Mesh) :=
  match c.m_Mesh with
  | none => some none
  | some index =>
      match c.m_Resource.m_Meshes[index]? with
      | none => none
      | some mesh => some (some mesh)

/-- Modelled from the spec: the Vectormath product `Matrix4 * Point3` is not part of the
sources at hand; the spec has the blended position go through "apply the instance's cached
world transform": the matrix is applied to the point taken with fourth coordinate 1. -/
def Matrix4.mulPoint3 (w : Matrix4) (p : Vector3) : Vector4 :=
  { x := w.col0.x * p.x + w.col1.x * p.y + w.col2.x * p.z + w.col3.x
    y := w.col0.y * p.x + w.col1.y * p.y + w.col2.y * p.z + w.col3.y
    z := w.col0.z * p.x + w.col1.z * p.y + w.col2.z * p.z + w.col3.z
    w := w.col0.w * p.x + w.col1.w * p.y + w.col2.w * p.z + w.col3.w }

/-- The loop over the four bone influences of a vertex in `CreateVertexData`:
`out_p += Vector3(Apply(component->m_Pose[bone_index], in_p)) * bone_weights[bi]` for `bi`
from `bi` on, `count` iterations. `dmTransform::Apply` is not part of the sources at hand
and is a parameter. -/
def BlendBones (Apply : Transform → Vector3 → Vector3) (c : SpineModelComponent) (mesh : Mesh)
    (bi_offset : Nat) (in_p : Vector3) : Nat → Nat → Vector3 → Option Vector3
  | 0, _, out_p => some out_p
  | count + 1, bi, out_p =>
      match mesh.m_BoneIndices[bi_offset + bi]?, mesh.m_Weights[bi_offset + bi]? with
      | some bone_index, some weight =>
          match c.m_Pose[bone_index]? with
          | none => none
          | some t =>
              let p := Apply t in_p
              BlendBones Apply c mesh bi_offset in_p count (bi + 1)
                { x := out_p.x + p.x * weight, y := out_p.y + p.y * weight,
                  z := out_p.z + p.z * weight }
      | _, _ => none

/-- The order in which the three arguments `mesh->m_Positions[e++]` of the constructor call
`Point3 in_p(...)` in `CreateVertexData` are evaluated, which C++ leaves to the compiler:
`x`, `y` and `z` are the ranks (0, 1 or 2) at which the first, the second and the third
argument are evaluated, and the argument of rank `r` reads `m_Positions[vi * 3 + r]`. -/
structure ArgumentOrder where
  x : Fin 3
  y : Fin 3
  z : Fin 3
  deriving DecidableEq, Repr

/-- The vertex `CreateVertexData` writes for the vertex index `vi` of the mesh: the position
blended through the four bone influences and moved by the world matrix of the component,
and the texture coordinates. The three reads `m_Positions[e++]` of the position touch the
elements `vi * 3`, `vi * 3 + 1` and `vi * 3 + 2`; which of them becomes which coordinate of
`in_p` depends on the evaluation order `order`. An index outside one of the arrays fails its
assertion (`none`). -/
def CreateVertex (Apply : Transform → Vector3 → Vector3)
    (order : ArgumentOrder) (c : SpineModelComponent) (mesh : Mesh)
    (vi : Nat) : Option SpineModelVertex :=
  let w := c.m_World
  let e := vi * 3
  match mesh.m_Positions[e]?, mesh.m_Positions[e + 1]?, mesh.m_Positions[e + 2]? with
  | some p0, some p1, some p2 =>
      let read : Fin 3 → ℚ := fun r => if r = 0 then p0 else if r = 1 then p1 else p2
      let in_p : Vector3 := { x := read order.x, y := read order.y, z := read order.z }
      let bi_offset := vi * 4
      match BlendBones Apply c mesh bi_offset in_p 4 0 { x := 0, y := 0, z := 0 } with
      | none => none
      | some out_p =>
          let p := w.mulPoint3 out_p
          let e := vi * 2
          match mesh.m_Texcoord0[e]?, mesh.m_Texcoord0[e + 1]? with
          | some tu, some tv => some { x := p.x, y := p.y, z := p.z, u := tu, v := tv }
          | _, _ => none
  | _, _, _ => none

/-- The loop of `CreateVertexData` over the indices of one mesh, given as the indices
`mesh->m_Indices[ii]` still to visit: every index appends one vertex to the buffer. -/
def CreateMeshVertices (Apply : Transform → Vector3 → Vector3)
    (order : ArgumentOrder) (c : SpineModelComponent)
    (mesh : Mesh) : List Nat → dmArray SpineModelVertex → Option (dmArray SpineModelVertex)
  | [], vertex_buffer => some vertex_buffer
  | vi :: rest, vertex_buffer =>
      match CreateVertex Apply order c mesh vi with
      | none => none
      | some v =>
          match vertex_buffer.Push v with
          | none => none
          | some vertex_buffer1 => CreateMeshVertices Apply order c mesh rest vertex_buffer1

/-- The loop of `CreateVertexData` over the sorted positions from `i` on, `count`
iterations: a component without a mesh is skipped. -/
def CreateVertexDataLoop (Apply : Transform → Vector3 → Vector3)
    (order : ArgumentOrder) (world : SpineModelWorld) :
    Nat → Nat → dmArray SpineModelVertex → Option (dmArray SpineModelVertex)
  | 0, _, vertex_buffer => some vertex_buffer
  | count + 1, i, vertex_buffer =>
      match SortedSlot world i with
      | none => none
      | some slot =>
          match slot.m_Component with
          | none => CreateVertexDataLoop Apply order world count (i + 1) vertex_buffer
          | some component =>
              match component.mesh with
              | none => none
              | some none => CreateVertexDataLoop Apply order world count (i + 1) vertex_buffer
              | some (some mesh) =>
                  match CreateMeshVertices Apply order component mesh mesh.m_Indices vertex_buffer with
                  | none => none
                  | some vertex_buffer1 =>
                      CreateVertexDataLoop Apply order world count (i + 1) vertex_buffer1

/-- The function `CreateVertexData` for the sorted positions `start_index` up to
`end_index`. -/
def CreateVertexData (Apply : Transform → Vector3 → Vector3)
    (order : ArgumentOrder) (world : SpineModelWorld)
    (vertex_buffer : dmArray SpineModelVertex) (start_index end_index : Nat) :
    Option (dmArray SpineModelVertex) :=
  CreateVertexDataLoop Apply order world (end_index - start_index) start_index vertex_buffer

/-- The scan loop of `RenderBatch` from position `i` on, `count` iterations up to `n`: it
stops at the first position whose slot is not enabled or differs from the first member in
mixed hash or in the depth `m_SortKey.m_Z`, and counts the mesh indices of the positions
before it in the 32-bit `vertex_count`. The result is `(end_index, vertex_count)`. -/
def RenderBatchScan (world : SpineModelWorld) (z hash n : Nat) :
    Nat → Nat → Nat → Option (Nat × Nat)
  | 0, _, vertex_count => some (n, vertex_count)
  | count + 1, i, vertex_count =>
      match SortedSlot world i with
      | none => none
      | some slot =>
          match slot.m_Component with
          | none => some (i, vertex_count)
          | some c =>
              if !c.m_Enabled ∨ c.m_MixedHash ≠ hash ∨ SortKey.m_Z slot.m_SortKey ≠ z then
                some (i, vertex_count)
              else
                match c.mesh with
                | none => none
                | some none => RenderBatchScan world z hash n count (i + 1) vertex_count
                | some (some mesh) =>
                    RenderBatchScan world z hash n count (i + 1)
                      ((vertex_count + mesh.m_Indices.length) % 2 ^ 32)

/-- The blend factors `RenderBatch` chooses for a blend mode: source and destination. -/
def BlendFactors : BlendMode → BlendFactor × BlendFactor
  | BlendMode.BLEND_MODE_ALPHA =>
      (BlendFactor.BLEND_FACTOR_ONE, BlendFactor.BLEND_FACTOR_ONE_MINUS_SRC_ALPHA)
  | BlendMode.BLEND_MODE_ADD => (BlendFactor.BLEND_FACTOR_ONE, BlendFactor.BLEND_FACTOR_ONE)
  | BlendMode.BLEND_MODE_MULT =>
      (BlendFactor.BLEND_FACTOR_DST_COLOR, BlendFactor.BLEND_FACTOR_ONE_MINUS_SRC_ALPHA)

/-- The function `RenderBatch`: the arrays afterwards and the returned `end_index`. A first
slot that is not enabled fails `assert(first->m_Enabled)` (`none`). -/
def RenderBatch (Apply : Transform → Vector3 → Vector3)
    (order : ArgumentOrder) (world : SpineModelWorld)
    (render : SpineModelRender) (start_index : Nat) : Option (SpineModelRender × Nat) :=
  let n := world.m_Components.length
  match SortedSlot world start_index with
  | none => none
  | some slot =>
      match slot.m_Component with
      | none => none
      | some first =>
          if !first.m_Enabled then none
          else
            let z := SortKey.m_Z slot.m_SortKey
            let hash := first.m_MixedHash
            match RenderBatchScan world z hash n (n - start_index) start_index 0 with
            | none => none
            | some (end_index, vertex_count) =>
                let vertex_buffer := render.m_VertexBufferData
                let vertex_buffer :=
                  if vertex_buffer.Remaining < vertex_count then
                    vertex_buffer.OffsetCapacity (vertex_count - vertex_buffer.Remaining)
                  else vertex_buffer
                let ro : RenderObject :=
                  { m_VertexStart := vertex_buffer.Size
                    m_VertexCount := vertex_count
                    m_Material := first.m_Resource.m_Material
                    m_WorldTransform := first.m_World
                    m_Constants := first.m_RenderConstants.map fun c => (c.m_NameHash, c.m_Value)
                    m_SourceBlendFactor := (BlendFactors first.m_Resource.m_BlendMode).1
                    m_DestinationBlendFactor := (BlendFactors first.m_Resource.m_BlendMode).2 }
                match render.m_RenderObjects.Push ro with
                | none => none
                | some m_RenderObjects =>
                    match CreateVertexData Apply order world vertex_buffer start_index end_index with
                    | none => none
                    | some vertex_buffer1 =>
                        some ({ m_RenderObjects := m_RenderObjects
                                m_VertexBufferData := vertex_buffer1 }, end_index)

/-- The test of the batch loop of `CompSpineModelUpdate`,
`start_index < n && components[sort_buffer[start_index]].m_Enabled`; `none` when the index
assertion fails. -/
def BatchLoopTest (world : SpineModelWorld) (start_index : Nat) : Option Bool :=
  if start_index < world.m_Components.length then
    match SortedSlot world start_index with
    | none => none
    | some slot => some slot.enabled
  else some false

/-- The batch loop of `CompSpineModelUpdate`,
`while (...) start_index = RenderBatch(world, render_context, vertex_buffer, start_index)`,
with at most `fuel` iterations: the arrays afterwards and the pairs
`(start_index, end_index)` of the calls of `RenderBatch`, in order. `none` when an assertion
fails or the fuel runs out. -/
def RenderBatches (Apply : Transform → Vector3 → Vector3)
    (order : ArgumentOrder) (world : SpineModelWorld) :
    Nat → Nat → SpineModelRender → Option (SpineModelRender × List (Nat × Nat))
  | 0, start_index, render =>
      match BatchLoopTest world start_index with
      | some false => some (render, [])
      | _ => none
  | fuel + 1, start_index, render =>
      match BatchLoopTest world start_index with
      | none => none
      | some false => some (render, [])
      | some true =>
          match RenderBatch Apply order world render start_index with
          | none => none
          | some (render1, end_index) =>
              match RenderBatches Apply order world fuel end_index render1 with
              | none => none
              | some (render2, batches) => some (render2, (start_index, end_index) :: batches)

/-- The part of `CompSpineModelUpdate` that builds the batches of a frame: the staging
buffer and the render objects are emptied (`SetSize(0)`) and the batch loop runs from
position 0. The steps in between (`ReHash`, `UpdateTransforms`, `GenerateKeys`, `Sort`,
`Animate`) prepare `world` and leave the two arrays alone. -/
def CompSpineModelUpdateBatches (Apply : Transform → Vector3 → Vector3)
    (order : ArgumentOrder) (world : SpineModelWorld) (render : SpineModelRender) :
    Option (SpineModelRender × List (Nat × Nat)) :=
  RenderBatches Apply order world world.m_Components.length 0
    { m_RenderObjects := render.m_RenderObjects.Clear
      m_VertexBufferData := render.m_VertexBufferData.Clear }

/-- Whether the slot at sorted position `i` belongs to the batch of a first member with
depth `z` and mixed hash `hash`: it is enabled and agrees in both. -/
def BatchMember (world : SpineModelWorld) (z hash i : Nat) : Bool :=
  match SortedSlot world i with
  | none => false
  | some slot =>
      match slot.m_Component with
      | none => false
      | some c => c.m_Enabled && decide (c.m_MixedHash = hash) &&
          decide (SortKey.m_Z slot.m_SortKey = z)

/-- Whether the slot at sorted position `i` is enabled. -/
def SortedEnabled (world : SpineModelWorld) (i : Nat) : Bool :=
  match SortedSlot world i with
  | none => false
  | some slot => slot.enabled

/-- The pair of depth `m_SortKey.m_Z` and mixed hash of the slot at sorted position `i`
((0, 0) for a slot without component). -/
def BatchKey (world : SpineModelWorld) (i : Nat) : Nat × Nat :=
  match SortedSlot world i with
  | none => (0, 0)
  | some slot =>
      match slot.m_Component with
      | none => (0, 0)
      | some c => (SortKey.m_Z slot.m_SortKey, c.m_MixedHash)

/-- The number of mesh indices of the component at sorted position `i`, 0 for a component
without a mesh. -/
def IndexCount (world : SpineModelWorld) (i : Nat) : Nat :=
  match SortedSlot world i with
  | none => 0
  | some slot =>
      match slot.m_Component with
      | none => 0
      | some c =>
          match c.mesh with
          | some (some mesh) => mesh.m_Indices.length
          | _ => 0

/-- The sum of `IndexCount` over the sorted positions `i, ..., i + count - 1`. -/
def IndexCountSum (world : SpineModelWorld) : Nat → Nat → Nat
  | 0, _ => 0
  | count + 1, i => IndexCount world i + IndexCountSum world count (i + 1)

/-- The vertices of the component at sorted position `i`: one per mesh index, in the order
of the indices. -/
def MemberVertices (Apply : Transform → Vector3 → Vector3)
    (order : ArgumentOrder) (world : SpineModelWorld) (i : Nat) :
    List SpineModelVertex :=
  match SortedSlot world i with
  | none => []
  | some slot =>
      match slot.m_Component with
      | none => []
      | some c =>
          match c.mesh with
          | some (some mesh) => mesh.m_Indices.filterMap (CreateVertex Apply order c mesh)
          | _ => []

/-- The vertices of the sorted positions `i, ..., i + count - 1`, member after member. -/
def BatchVertices (Apply : Transform → Vector3 → Vector3)
    (order : ArgumentOrder) (world : SpineModelWorld) :
    Nat → Nat → List SpineModelVertex
  | 0, _ => []
  | count + 1, i => MemberVertices Apply order world i ++ BatchVertices Apply order world count (i + 1)

/-- Whether every array access of `CreateVertex` for the vertex index `vi` stays inside its
array, for a pose of `bones` bones. -/
def Mesh.indexOk (mesh : Mesh) (bones vi : Nat) : Bool :=
  decide (vi * 3 + 2 < mesh.m_Positions.length) && decide (vi * 2 + 1 < mesh.m_Texcoord0.length) &&
    decide (vi * 4 + 3 < mesh.m_Weights.length) &&
    (List.range 4).all fun bi =>
      match mesh.m_BoneIndices[vi * 4 + bi]? with
      | none => false
      | some bone_index => decide (bone_index < bones)

/-- Whether the mesh pointer of the component lies inside the mesh set and every index of
the mesh can be turned into a vertex. -/
def SpineModelComponent.meshOk (c : SpineModelComponent) : Bool :=
  match c.m_Mesh with
  | none => true
  | some index =>
      match c.m_Resource.m_Meshes[index]? with
      | none => false
      | some mesh => mesh.m_Indices.all (mesh.indexOk c.m_Pose.length)

/-- The consistency of a world that the batching relies on: the sort buffer has one entry
per slot, every entry points into the component array, and the mesh of every component is
sound. -/
def SpineModelWorld.batchable (world : SpineModelWorld) : Bool :=
  decide (world.m_RenderSortBuffer.length = world.m_Components.length) &&
    world.m_RenderSortBuffer.all (fun x => decide (x < world.m_Components.length)) &&
    world.m_Components.all fun slot =>
      match slot.m_Component with
      | none => true
      | some c => c.meshOk

/-- The batches `(start_index, end_index)` form a chain from `start`: each batch begins
where the one before ended, is not empty, holds only enabled slots that agree with its first
member in depth and mixed hash, stops at a slot that does not (or at `n`), and differs from
the next batch in depth or mixed hash; after the last batch comes a slot that is not enabled
(or `n`). -/
def BatchChain (world : SpineModelWorld) : Nat → List (Nat × Nat) → Prop
  | start, [] => start < world.m_Components.length → SortedEnabled world start = false
  | start, (s, e) :: rest =>
      s = start ∧ s < e ∧ e ≤ world.m_Components.length ∧
        (∀ j, s ≤ j → j < e →
          BatchMember world (BatchKey world s).1 (BatchKey world s).2 j = true) ∧
        (e < world.m_Components.length →
          BatchMember world (BatchKey world s).1 (BatchKey world s).2 e = false) ∧
        (rest ≠ [] → BatchKey world e ≠ BatchKey world s) ∧
        BatchChain world e rest

/-- The vertex ranges of the render objects follow one another from `start` and end at
`total`: each begins where the one before ended. -/
def VertexRanges : Nat → List RenderObject → Nat → Prop
  | start, [], total => start = total
  | start, ro :: rest, total =>
      ro.m_VertexStart = start ∧ VertexRanges (start + ro.m_VertexCount) rest total

/-- The vertex count of each render object is the number of mesh indices of its batch. -/
def BatchCounts (world : SpineModelWorld) (objects : List RenderObject)
    (batches : List (Nat × Nat)) : Prop :=
  List.Forall₂ (fun ro b => ro.m_VertexCount = IndexCountSum world (b.2 - b.1) b.1) objects
    batches

/-! ## The cursor arithmetic of `UpdatePlayer` and `PostEvents` in single precision -/

/-- Round to the nearest integer, a tie to the even neighbour. -/
def roundHalfEven (z : ℚ) : ℤ :=
  let f := ⌊z⌋
  if z - f < 1 / 2 then f
  else if z - f > 1 / 2 then f + 1
  else if f % 2 = 0 then f else f + 1

/-- The value a `float` holds after an arithmetic operation with exact result `x`: IEEE 754
single precision with rounding to nearest, ties to even. The unit in the last place is
`2 ^ (e - 23)` for `2 ^ e <= |x| < 2 ^ (e + 1)`, and `2 ^ (-149)` below the normal range.
Results beyond `FLT_MAX`, which become an infinity, are outside this model. -/
def RoundFloat (x : ℚ) : ℚ :=
  let e : ℤ := max (Int.log 2 |x|) (-126) - 23
  (roundHalfEven (x / (2 : ℚ) ^ e) : ℚ) * (2 : ℚ) ^ e

/-- The block of `UpdatePlayer` under the comment "Advance cursor" in the `float` arithmetic
of the source: the sum `m_Cursor += dt` is rounded to single precision. -/
def AdvanceCursorFloat (player : SpinePlayer) (dt : ℚ) : SpinePlayer :=
  if player.m_Playback ≠ Playback.PLAYBACK_NONE then
    { player with m_Cursor := RoundFloat (player.m_Cursor + dt) }
  else player

/-- The two `while (player->m_Cursor >= duration)` loops of `UpdatePlayer` in the `float`
arithmetic of the source: as `WrapLoop`, with the difference `m_Cursor -= duration` rounded
to single precision. -/
def WrapLoopFloat (pingpong : Bool) (duration : ℚ) :
    Nat → SpinePlayer → Option (SpinePlayer × Nat)
  | 0, player =>
    if player.m_Cursor ≥ duration then none else some (player, 0)
  | fuel + 1, player =>
    if player.m_Cursor ≥ duration then
      let player1 : SpinePlayer :=
        { player with m_Cursor := RoundFloat (player.m_Cursor - duration) }
      let player2 : SpinePlayer :=
        if pingpong then { player1 with m_Backwards := !player1.m_Backwards } else player1
      (WrapLoopFloat pingpong duration fuel player2).map fun r => (r.1, r.2 + 1)
    else some (player, 0)

/-- The `switch (player->m_Playback)` of `UpdatePlayer` under the comment "Adjust cursor" in
the `float` arithmetic of the source: as `AdjustCursor`, with the wrap loops of
`WrapLoopFloat`. -/
def AdjustCursorFloat (fuel : Nat) (player : SpinePlayer) (duration : ℚ) :
    Option (SpinePlayer × Bool) :=
  match player.m_Playback with
  | Playback.PLAYBACK_ONCE_FORWARD
  | Playback.PLAYBACK_ONCE_BACKWARD
  | Playback.PLAYBACK_ONCE_PINGPONG =>
    if player.m_Cursor ≥ duration then some ({ player with m_Cursor := duration }, true)
    else some (player, false)
  | Playback.PLAYBACK_LOOP_FORWARD
  | Playback.PLAYBACK_LOOP_BACKWARD =>
    (WrapLoopFloat false duration fuel player).map fun r => (r.1, false)
  | Playback.PLAYBACK_LOOP_PINGPONG =>
    (WrapLoopFloat true duration fuel player).map fun r => (r.1, false)
  | Playback.PLAYBACK_NONE => some (player, false)

/-- The function `GetCursorDuration` in the `float` arithmetic of the source: the product
`duration *= 2.0f` is rounded to single precision. -/
def GetCursorDurationFloat (player : SpinePlayer) (animation : SpineAnimation) : ℚ :=
  if player.m_Playback = Playback.PLAYBACK_ONCE_PINGPONG then
    RoundFloat (animation.m_Duration * 2)
  else animation.m_Duration

/-- The cursor part of `UpdatePlayer` on a playing player with a clip, in the `float`
arithmetic of the source: the blocks "Advance cursor" and "Adjust cursor", with the player
afterwards and the local `completed`; `none` when a wrap loop did not finish within the
fuel. -/
def UpdatePlayerCursorFloat (fuel : Nat) (player : SpinePlayer) (animation : SpineAnimation)
    (dt : ℚ) : Option (SpinePlayer × Bool) :=
  let player1 := AdvanceCursorFloat player dt
  let duration := GetCursorDurationFloat player1 animation
  AdjustCursorFloat fuel player1 duration

/-- The direction-reflected time of an event key in the `float` arithmetic of the source:
the difference `duration - cursor` of `PostEventsInterval` is rounded to single precision. -/
def KeyCursorFloat (key : EventKey) (duration : ℚ) (backwards : Bool) : ℚ :=
  if backwards then RoundFloat (duration - key.m_T) else key.m_T

/-- The function `PostEventsInterval` in the `float` arithmetic of the source. -/
def PostEventsIntervalFloat (sender receiver : URL) (animation : SpineAnimation)
    (start_cursor end_cursor duration : ℚ) (backwards : Bool) : List Message :=
  animation.m_EventTracks.flatMap fun track =>
    (track.m_Keys.filter fun key =>
      decide (start_cursor ≤ KeyCursorFloat key duration backwards ∧
        KeyCursorFloat key duration backwards < end_cursor)).map
      fun key => PostEvent sender receiver track.m_EventId key

/-- The function `PostEvents` in the `float` arithmetic of the source: the sum
`cursor += dt` of a completed frame and the product `duration * 0.5f` are rounded to single
precision. -/
def PostEventsFloat (player : SpinePlayer) (sender listener : URL) (animation : SpineAnimation)
    (dt prev_cursor duration : ℚ) (completed : Bool) : List Message :=
  let receiver : URL :=
    if IsSocketValid listener.m_Socket then listener else { sender with m_Fragment := 0 }
  let cursor := player.m_Cursor
  let cursor := if completed then RoundFloat (cursor + dt) else cursor
  if prev_cursor > cursor then
    let prev_backwards :=
      if player.m_Playback = Playback.PLAYBACK_LOOP_PINGPONG then !player.m_Backwards
      else player.m_Backwards
    PostEventsIntervalFloat sender receiver animation prev_cursor duration duration
        prev_backwards ++
      PostEventsIntervalFloat sender receiver animation 0 cursor duration player.m_Backwards
  else
    let half_duration := RoundFloat (duration * (1 / 2))
    if player.m_Playback = Playback.PLAYBACK_ONCE_PINGPONG ∧ cursor > half_duration then
      if prev_cursor < half_duration then
        PostEventsIntervalFloat sender receiver animation prev_cursor half_duration duration
            false ++
          PostEventsIntervalFloat sender receiver animation half_duration cursor duration true
      else
        PostEventsIntervalFloat sender receiver animation prev_cursor cursor duration true
    else
      PostEventsIntervalFloat sender receiver animation prev_cursor cursor duration
        player.m_Backwards

/-- The event block of `UpdatePlayer` in the `float` arithmetic of the source. -/
def UpdatePlayerEventsFloat (c : SpineModelComponent) (player : SpinePlayer)
    (animation : SpineAnimation) (dt prev_cursor duration : ℚ) (completed : Bool) :
    List Message :=
  if prev_cursor ≠ player.m_Cursor then
    match GetSender c with
    | some sender =>
      PostEventsFloat player sender { c.m_Listener with m_Function := 0 } animation dt
        prev_cursor duration completed
    | none => []
  else []

/-- The function `UpdatePlayer` in the `float` arithmetic of the source: as `UpdatePlayer`,
with every sum, difference and product of the cursor and the duration rounded to single
precision (`AdvanceCursorFloat`, `GetCursorDurationFloat`, `AdjustCursorFloat`,
`PostEventsFloat`). `none` means that a wrap loop did not finish within the fuel. -/
def UpdatePlayerFloat (fuel : Nat) (c : SpineModelComponent) (pi : Fin 2) (dt : ℚ) :
    Option PlayerUpdate :=
  let player := c.player pi
  match player.m_Animation with
  | none => some { component := c, posted := [], completed := false }
  | some animation =>
    if !player.m_Playing then some { component := c, posted := [], completed := false }
    else
      let prev_cursor := player.m_Cursor
      let player1 := AdvanceCursorFloat player dt
      let duration := GetCursorDurationFloat player1 animation
      match AdjustCursorFloat fuel player1 duration with
      | none => none
      | some (player2, completed) =>
        let events :=
          UpdatePlayerEventsFloat c player2 animation dt prev_cursor duration completed
        if completed then some (CompletePlayer c pi player2 events)
        else
          some { component := c.setPlayer pi player2, posted := events, completed := false }

/-! ## Concrete data used to instantiate the theorems -/

/-- A clip "walk" of one second at 30 samples per second, with one bone track and one event. -/
def walkClip : SpineAnimation :=
  { m_Id := 7, m_Duration := 1, m_SampleRate := 30
    m_Tracks := [{ m_BoneIndex := 0, m_Positions := [0, 0, 0, 3, 3, 3], m_Rotations := [],
                   m_Scale := [] }]
    m_EventTracks := [{ m_EventId := 5
                        m_Keys := [{ m_T := 1 / 2, m_Integer := 0, m_Float := 0, m_String := 0 }] }] }

/-- A player as left by zero-initialisation of the component. -/
def idlePlayer : SpinePlayer :=
  { m_Animation := none, m_AnimationId := 0, m_Cursor := 0, m_Playback := Playback.PLAYBACK_NONE
    m_Playing := false, m_Backwards := false }

/-- A resource with the single clip `walkClip`, one bone and no mesh. -/
def walkResource : SpineModelResource :=
  { m_Animations := [walkClip]
    m_Meshes := []
    m_Bones := [{ m_Parent := 0 }]
    m_BindPose := [{ m_LocalToParent := Transform.identity, m_ModelToLocal := Transform.identity }]
    m_Skin := ""
    m_DefaultAnimation := ""
    m_BlendMode := BlendMode.BLEND_MODE_ALPHA
    m_Material := 1 }

/-- A freshly created component with the single clip `walkClip` and a one-bone pose. -/
def freshComponent : SpineModelComponent :=
  { m_Instance := { m_CollectionSocket := 1, m_Identifier := 2, m_ComponentIds := [11] }
    m_ComponentIndex := 0
    m_Resource := walkResource
    m_Listener := ResetURL
    m_Players := (idlePlayer, idlePlayer)
    m_CurrentPlayer := 0
    m_Pose := [Transform.identity]
    m_BlendDuration := 0
    m_BlendTimer := 0
    m_Enabled := true
    m_Blending := false
    m_Transform := Transform.identity
    m_World := Matrix4.zero
    m_Mesh := none
    m_Skin := 0
    m_NodeInstances := [1]
    m_RenderConstants := []
    m_PrevRenderConstants := []
    m_MixedHash := 0 }


/-- A playing once-forward player at the start of `walkClip`. -/
def oncePlayer : SpinePlayer :=
  { m_Animation := some walkClip, m_AnimationId := 7, m_Cursor := 0
    m_Playback := Playback.PLAYBACK_ONCE_FORWARD, m_Playing := true, m_Backwards := false }

/-- A component whose current player, in slot 0, is `oncePlayer`. -/
def onceComponent : SpineModelComponent :=
  { freshComponent with m_Players := (oncePlayer, idlePlayer) }

/-- A once-pingpong player over `walkClip` on its way back, at cursor 1.5 of 2. -/
def pingpongPlayer : SpinePlayer :=
  { m_Animation := some walkClip, m_AnimationId := 7, m_Cursor := 3 / 2
    m_Playback := Playback.PLAYBACK_ONCE_PINGPONG, m_Playing := true, m_Backwards := false }

/-- A playing loop-forward player at the start of `walkClip`. -/
def loopPlayer : SpinePlayer :=
  { m_Animation := some walkClip, m_AnimationId := 7, m_Cursor := 0
    m_Playback := Playback.PLAYBACK_LOOP_FORWARD, m_Playing := true, m_Backwards := false }

/-- A component whose current player, in slot 0, is `loopPlayer`. -/
def loopComponent : SpineModelComponent :=
  { freshComponent with m_Players := (loopPlayer, idlePlayer) }

/-- A clip "run" of two seconds at one sample per second with position, rotation and scale
keys for bone 0. -/
def runClip : SpineAnimation :=
  { m_Id := 9, m_Duration := 2, m_SampleRate := 1
    m_Tracks := [{ m_BoneIndex := 0, m_Positions := [6, 6, 6, 8, 8, 8, 8, 8, 8],
                   m_Rotations := [0, 0, 1, 0, 0, 0, 1, 0, 0, 0, 1, 0],
                   m_Scale := [2, 2, 2, 2, 2, 2, 2, 2, 2] }]
    m_EventTracks := [] }

/-- A playing loop-forward player at the start of `runClip`. -/
def runPlayer : SpinePlayer :=
  { m_Animation := some runClip, m_AnimationId := 9, m_Cursor := 0
    m_Playback := Playback.PLAYBACK_LOOP_FORWARD, m_Playing := true, m_Backwards := false }

/-- A component in the first frame of a crossfade of half a second from `walkClip`, still
played by slot 0, to `runClip`, played by the current slot 1. -/
def blendComponent : SpineModelComponent :=
  { freshComponent with
    m_Players := (loopPlayer, runPlayer), m_CurrentPlayer := 1, m_Blending := true,
    m_BlendTimer := 0, m_BlendDuration := 1 / 2 }

/-- A clip of one second with a single event key at time 0.8. -/
def eventClip : SpineAnimation :=
  { m_Id := 13, m_Duration := 1, m_SampleRate := 30, m_Tracks := []
    m_EventTracks := [{ m_EventId := 5
                        m_Keys := [{ m_T := 4 / 5, m_Integer := 0, m_Float := 0, m_String := 0 }] }] }

/-- A once-pingpong player over `eventClip` on its way back, at cursor 1.5 of 2. -/
def returningPlayer : SpinePlayer :=
  { m_Animation := some eventClip, m_AnimationId := 13, m_Cursor := 3 / 2
    m_Playback := Playback.PLAYBACK_ONCE_PINGPONG, m_Playing := true, m_Backwards := false }

/-- The sender address used in the event examples. -/
def exampleSender : URL :=
  { m_Socket := 1, m_Path := 2, m_Fragment := 11, m_Function := 0 }

/-- A component whose current player, in slot 0, plays `eventClip` once-pingpong and stands
at cursor 0.5 of 2. -/
def returningComponent : SpineModelComponent :=
  { freshComponent with
    m_Players := ({ returningPlayer with m_Cursor := 1 / 2 }, idlePlayer)
    m_Resource := { walkResource with m_Animations := [eventClip] } }

/-- The address of a listener registered by a caller of `Play`. -/
def exampleListener : URL :=
  { m_Socket := 1, m_Path := 3, m_Fragment := 21, m_Function := 4 }

/-- The component `onceComponent` with a registered listener. -/
def listenedComponent : SpineModelComponent :=
  { onceComponent with m_Listener := exampleListener }

/-- A clip "jump" of one second at one sample per second holding bone 0 at position
(4, 4, 4). -/
def jumpClip : SpineAnimation :=
  { m_Id := 17, m_Duration := 1, m_SampleRate := 1
    m_Tracks := [{ m_BoneIndex := 0, m_Positions := [4, 4, 4, 4, 4, 4], m_Rotations := [],
                   m_Scale := [] }]
    m_EventTracks := [] }

/-- A stopped player at the start of `runClip`, as left by `CancelAnimation`. -/
def stoppedRunPlayer : SpinePlayer :=
  { runPlayer with m_Playing := false }

/-- A stopped player at the start of `jumpClip`, as left by `CancelAnimation`. -/
def stoppedJumpPlayer : SpinePlayer :=
  { m_Animation := some jumpClip, m_AnimationId := 17, m_Cursor := 0
    m_Playback := Playback.PLAYBACK_LOOP_FORWARD, m_Playing := false, m_Backwards := false }

/-- A component at the start of a crossfade of one second from `runClip` in slot 0 to
`jumpClip` in the current slot 1, with both players stopped at cursor 0. -/
def fadingComponent : SpineModelComponent :=
  { freshComponent with
    m_Players := (stoppedRunPlayer, stoppedJumpPlayer), m_CurrentPlayer := 1, m_Blending := true,
    m_BlendTimer := 0, m_BlendDuration := 1 }

/-- A resource whose mesh set has three meshes; the last two share the id 5. -/
def skinResource : SpineModelResource :=
  { walkResource with
    m_Meshes :=
      [ { m_Id := 3, m_Positions := [], m_Texcoord0 := [], m_Indices := [], m_BoneIndices := [],
          m_Weights := [] },
        { m_Id := 5, m_Positions := [0, 0, 0], m_Texcoord0 := [0, 0], m_Indices := [0],
          m_BoneIndices := [0, 0, 0, 0], m_Weights := [1, 0, 0, 0] },
        { m_Id := 5, m_Positions := [1, 1, 1], m_Texcoord0 := [1, 1], m_Indices := [0],
          m_BoneIndices := [0, 0, 0, 0], m_Weights := [1, 0, 0, 0] } ] }

/-- A component on `skinResource` showing the mesh with id 3. -/
def skinnedComponent : SpineModelComponent :=
  { freshComponent with m_Resource := skinResource, m_Mesh := some 0, m_Skin := 3 }

/-- A stand-in for `dmHashString64` that tells the three names of this file apart. -/
def exampleHashString64 (s : String) : dmhash_t :=
  s.length

/-- A stand-in for `GetMaterialConstant`: no material constant is found. -/
def exampleGetMaterialConstant (_ : HMaterial) (_ : dmhash_t) (out_value : PropertyDesc)
    (_ : dmhash_t → Option Constant) : PropertyResult × PropertyDesc :=
  (PropertyResult.PROPERTY_RESULT_NOT_FOUND, out_value)

/-- A stand-in for `SetMaterialConstant`: no material constant is found. -/
def exampleSetMaterialConstant (_ : HMaterial) (_ : dmhash_t) (_ : PropertyVar)
    (_ : SpineModelComponent → dmhash_t → Option Nat → PropertyVar → Option SpineModelComponent)
    (component : SpineModelComponent) : Option (PropertyResult × SpineModelComponent) :=
  some (PropertyResult.PROPERTY_RESULT_NOT_FOUND, component)

/-- A stand-in for `dmHash32`: the number of buffers fed. -/
def exampleHash32 (fed : List HashBuffer) : Nat :=
  fed.length

/-- The default-constructed constant of the examples. -/
def exampleUnset : Constant :=
  { m_Value := Vector4.zero, m_NameHash := 0, m_Type := 0, m_Location := -1 }

/-- A stand-in for `GetMaterialProgramConstant`: every name is a constant of the material,
with value zero. -/
def exampleGetMaterialProgramConstant (_ : HMaterial) (name_hash : dmhash_t) (c : Constant) :
    Constant :=
  { c with m_NameHash := name_hash, m_Value := Vector4.zero, m_Location := 0 }

/-- A property descriptor holding the number 0. -/
def exampleDesc : PropertyDesc :=
  { m_Variant := PropertyVar.PROPERTY_TYPE_NUMBER 0 }

/-- A component with two render constants, named 11 and 12, and their shadow copies. -/
def tintedComponent : SpineModelComponent :=
  { freshComponent with
    m_RenderConstants :=
      [ { m_Value := { x := 1, y := 2, z := 3, w := 4 }, m_NameHash := 11, m_Type := 0,
          m_Location := 0 },
        { m_Value := { x := 5, y := 6, z := 7, w := 8 }, m_NameHash := 12, m_Type := 0,
          m_Location := 1 } ]
    m_PrevRenderConstants := [{ x := 1, y := 2, z := 3, w := 4 }, { x := 5, y := 6, z := 7, w := 8 }] }

/-- A stand-in for `dmTransform::Mul` in the examples: the product of two transforms without
rotation and with unit scale, which adds the translations. -/
def exampleMul (a b : Transform) : Transform :=
  { b with
    m_Translation :=
      { x := a.m_Translation.x + b.m_Translation.x, y := a.m_Translation.y + b.m_Translation.y,
        z := a.m_Translation.z + b.m_Translation.z } }

/-- An owning instance for the examples. -/
def exampleInstance : GameObjectInstance :=
  { m_CollectionSocket := 1, m_Identifier := 20, m_ComponentIds := [30] }

/-- Creation parameters on `walkResource`; the collection hands out the handles 100 + i. -/
def exampleCreateParams : ComponentCreateParams :=
  { m_Instance := exampleInstance
    m_Position := { x := 0, y := 0, z := 0 }
    m_Rotation := { x := 0, y := 0, z := 0, w := 1 }
    m_Resource := walkResource
    m_ComponentIndex := 0
    m_New := fun i => 100 + i }

/-- The world of capacity 2 after `n` successful creations with `exampleCreateParams`
(`none` when one of them does not return OK). -/
def exampleWorldAfter : Nat → Option SpineModelWorld
  | 0 => (CompSpineModelNewWorld 2).map fun r => r.2
  | n + 1 =>
      match exampleWorldAfter n with
      | none => none
      | some world =>
          match CompSpineModelCreate exampleHashString64 exampleHash32 exampleMul world
              exampleCreateParams with
          | none => none
          | some outcome =>
              if outcome.result = CreateResult.CREATE_RESULT_OK then some outcome.world else none

/-- The world of capacity 2 with both slots taken. -/
def fullWorld : SpineModelWorld :=
  (exampleWorldAfter 2).getD (SpineModelWorld.create 2)

/-- An enabled component at depth 0 with mixed hash 5. -/
def nearComponent : SpineModelComponent :=
  { skinnedComponent with m_World := Matrix4.zero, m_MixedHash := 5 }

/-- An enabled component at depth 1 whose mixed hash has all 32 bits set. -/
def farComponent : SpineModelComponent :=
  { skinnedComponent with
    m_World := { Matrix4.zero with col3 := { x := 0, y := 0, z := 1, w := 1 } }
    m_MixedHash := 0xffffffff }

/-- A component that is not enabled. -/
def disabledComponent : SpineModelComponent :=
  { skinnedComponent with m_Enabled := false }

/-- A world of 65536 slots: `nearComponent` in slot 0, `disabledComponent` in slot 65534,
`farComponent` in slot 65535, the other slots free; the depth range is that of the two
enabled components and the sort buffer is in index order. -/
def bigWorld : SpineModelWorld :=
  { m_Components :=
      { m_Component := some nearComponent, m_SortKey := 0 } ::
        (List.replicate 65533 ComponentSlot.zero ++
          [{ m_Component := some disabledComponent, m_SortKey := 0 },
           { m_Component := some farComponent, m_SortKey := 0 }])
    m_ComponentIndices := { m_Capacity := 65536, m_Free := List.range' 1 65533 }
    m_RenderSortBuffer := List.range 65536
    m_MinZ := 0
    m_MaxZ := 1 }

/-- A playing loop-pingpong player at the start of `walkClip`, moving forwards. -/
def loopPingpongPlayer : SpinePlayer :=
  { m_Animation := some walkClip, m_AnimationId := 7, m_Cursor := 0
    m_Playback := Playback.PLAYBACK_LOOP_PINGPONG, m_Playing := true, m_Backwards := false }

/-- A component whose current player, in slot 0, is `loopPingpongPlayer`. -/
def loopPingpongComponent : SpineModelComponent :=
  { freshComponent with m_Players := (loopPingpongPlayer, idlePlayer) }

/-- A clip of one second with event keys at its start (event 5) and at its very end
(event 6). -/
def endClip : SpineAnimation :=
  { m_Id := 19, m_Duration := 1, m_SampleRate := 30, m_Tracks := []
    m_EventTracks :=
      [{ m_EventId := 5, m_Keys := [{ m_T := 0, m_Integer := 0, m_Float := 0, m_String := 0 }] },
       { m_EventId := 6, m_Keys := [{ m_T := 1, m_Integer := 0, m_Float := 0, m_String := 0 }] }] }

/-- A component whose current player, in slot 0, plays `endClip` once forward from its
start. -/
def endComponent : SpineModelComponent :=
  { freshComponent with
    m_Players := ({ oncePlayer with m_Animation := some endClip, m_AnimationId := 19 },
      idlePlayer) }

/-- A stand-in for `dmGameObject::GetWorldTransform`: every instance sits at the origin. -/
def exampleGetWorldTransform (_ : GameObjectInstance) : Transform :=
  Transform.identity

/-- A stand-in for `dmGameObject::ScaleAlongZ`. -/
def exampleScaleAlongZ (_ : GameObjectInstance) : Bool :=
  true

/-- A stand-in for `dmTransform::ToMatrix4` on transforms without rotation and with unit
scale: the identity matrix with the translation in the last column. -/
def exampleToMatrix4 (t : Transform) : Matrix4 :=
  { col0 := { x := 1, y := 0, z := 0, w := 0 }
    col1 := { x := 0, y := 1, z := 0, w := 0 }
    col2 := { x := 0, y := 0, z := 1, w := 0 }
    col3 := { x := t.m_Translation.x, y := t.m_Translation.y, z := t.m_Translation.z, w := 1 } }

/-- A world of two slots: a disabled component in slot 0, slot 1 free. -/
def disabledWorld : SpineModelWorld :=
  { SpineModelWorld.create 2 with
    m_Components := [{ m_Component := some disabledComponent, m_SortKey := 0 }, ComponentSlot.zero]
    m_ComponentIndices := { m_Capacity := 2, m_Free := [1] } }

/-- The translation by `(x, y, z)`, without rotation and with unit scale. -/
def translation (x y z : ℚ) : Transform :=
  { Transform.identity with m_Translation := { x := x, y := y, z := z } }

/-- A skeleton of three bones in a chain: bone 1 hangs on the root, bone 2 on bone 1. -/
def chainBones : List Bone :=
  [{ m_Parent := 0 }, { m_Parent := 0 }, { m_Parent := 1 }]

/-- A local pose for `chainBones`: each bone is moved along one axis. -/
def chainPose : List Transform :=
  [translation 1 0 0, translation 0 1 0, translation 0 0 1]

/-- A resource with the skeleton `chainBones` and an identity bind pose. -/
def chainResource : SpineModelResource :=
  { walkResource with
    m_Bones := chainBones
    m_BindPose :=
      [{ m_LocalToParent := Transform.identity, m_ModelToLocal := Transform.identity },
       { m_LocalToParent := Transform.identity, m_ModelToLocal := Transform.identity },
       { m_LocalToParent := Transform.identity, m_ModelToLocal := Transform.identity }] }

/-- A component on `chainResource` placed at `(5, 0, 0)` in its instance, with the sampled
pose `chainPose`. -/
def chainComponent : SpineModelComponent :=
  { freshComponent with
    m_Resource := chainResource, m_Pose := chainPose, m_Transform := translation 5 0 0,
    m_NodeInstances := [1, 2, 3] }

/-- A stand-in for the quaternion `normalize` on the rotations of the examples, which are
unit quaternions already. -/
def exampleNormalize (q : Quat) : Quat :=
  q

/-- The arguments of `Point3 in_p(...)` evaluated from left to right. -/
def leftToRight : ArgumentOrder :=
  { x := 0, y := 1, z := 2 }

/-- The arguments of `Point3 in_p(...)` evaluated from right to left. -/
def rightToLeft : ArgumentOrder :=
  { x := 2, y := 1, z := 0 }

/-- A stand-in for `dmTransform::Apply` on transforms without rotation and with unit scale:
the point is moved by the translation. -/
def exampleApply (t : Transform) (p : Vector3) : Vector3 :=
  { x := p.x + t.m_Translation.x, y := p.y + t.m_Translation.y, z := p.z + t.m_Translation.z }

/-- A mesh of one vertex at `(1, 2, 3)` and one index. -/
def oneIndexMesh : Mesh :=
  { m_Id := 3, m_Positions := [1, 2, 3], m_Texcoord0 := [0, 1], m_Indices := [0],
    m_BoneIndices := [0, 0, 0, 0], m_Weights := [1, 0, 0, 0] }

/-- A mesh of two vertices and three indices. -/
def threeIndexMesh : Mesh :=
  { m_Id := 5, m_Positions := [0, 0, 0, 1, 1, 1], m_Texcoord0 := [0, 0, 1, 1],
    m_Indices := [0, 1, 0], m_BoneIndices := [0, 0, 0, 0, 0, 0, 0, 0],
    m_Weights := [1, 0, 0, 0, 1, 0, 0, 0] }

/-- A resource whose mesh set is `oneIndexMesh`, `threeIndexMesh`. -/
def batchResource : SpineModelResource :=
  { walkResource with m_Meshes := [oneIndexMesh, threeIndexMesh] }

/-- An enabled component on `batchResource` showing the mesh at `mesh` with mixed hash
`hash`, its world matrix the identity. -/
def batchComponent (mesh : Option Nat) (hash : Nat) : SpineModelComponent :=
  { freshComponent with
    m_Resource := batchResource, m_Mesh := mesh, m_MixedHash := hash
    m_World := exampleToMatrix4 Transform.identity }

/-- A world of five slots in sort order: two components with mixed hash 5 at depth 0 (one
index and three indices), a component with mixed hash 7 without a mesh, a disabled
component, and a free slot. -/
def batchWorld : SpineModelWorld :=
  { m_Components :=
      [ { m_Component := some (batchComponent (some 0) 5), m_SortKey := SortKey.pack 0 0 5 },
        { m_Component := some (batchComponent (some 1) 5), m_SortKey := SortKey.pack 0 1 5 },
        { m_Component := some (batchComponent none 7), m_SortKey := SortKey.pack 0 2 7 },
        { m_Component := some { batchComponent (some 1) 5 with m_Enabled := false },
          m_SortKey := SortKey.disabled },
        { m_Component := none, m_SortKey := SortKey.disabled } ]
    m_ComponentIndices := { m_Capacity := 5, m_Free := [4] }
    m_RenderSortBuffer := [0, 1, 2, 3, 4]
    m_MinZ := 0
    m_MaxZ := 1 }

/-- A clip of length zero with an event key at time 0, which is its very end too. -/
def stillClip : SpineAnimation :=
  { m_Id := 29, m_Duration := 0, m_SampleRate := 30, m_Tracks := []
    m_EventTracks :=
      [{ m_EventId := 5, m_Keys := [{ m_T := 0, m_Integer := 0, m_Float := 0, m_String := 0 }] }] }

/-- A component whose current player, in slot 0, plays `stillClip` once forward. -/
def stillComponent : SpineModelComponent :=
  { freshComponent with
    m_Players := ({ oncePlayer with m_Animation := some stillClip, m_AnimationId := 29 },
      idlePlayer) }

/-- The component `endComponent` on an instance whose collection has no message socket, so
that `GetSender` fails. -/
def mutedComponent : SpineModelComponent :=
  { endComponent with
    m_Instance := { m_CollectionSocket := 0, m_Identifier := 2, m_ComponentIds := [11] } }

/-- The component `endComponent` with the cursor of its player at the last `float` below the
duration 1 of `endClip`, which is `1 - 2 ^ (-24)`. -/
def lateComponent : SpineModelComponent :=
  { freshComponent with
    m_Players := ({ oncePlayer with m_Animation := some endClip, m_AnimationId := 19,
                                    m_Cursor := 16777215 / 16777216 },
      idlePlayer) }

/-! ## Basic facts about the player ring -/

@[simp] theorem player_setPlayer_same (c : SpineModelComponent) (i : Fin 2) (p : SpinePlayer) :
    (c.setPlayer i p).player i = p := by
  unfold SpineModelComponent.setPlayer SpineModelComponent.player
  split <;> simp [*]

theorem player_setPlayer_of_ne (c : SpineModelComponent) {i j : Fin 2} (p : SpinePlayer)
    (h : i ≠ j) : (c.setPlayer i p).player j = c.player j := by
  unfold SpineModelComponent.setPlayer SpineModelComponent.player
  fin_cases i <;> fin_cases j <;> simp_all

@[simp] theorem otherPlayerIndex_ne (i : Fin 2) : otherPlayerIndex i ≠ i := by
  fin_cases i <;> decide

@[simp] theorem otherPlayerIndex_ne' (i : Fin 2) : i ≠ otherPlayerIndex i := by
  fin_cases i <;> decide

@[simp] theorem otherPlayerIndex_otherPlayerIndex (i : Fin 2) :
    otherPlayerIndex (otherPlayerIndex i) = i := by
  fin_cases i <;> decide

@[simp] theorem player_setPlayer_other (c : SpineModelComponent) (i : Fin 2) (p : SpinePlayer) :
    (c.setPlayer i p).player (otherPlayerIndex i) = c.player (otherPlayerIndex i) :=
  player_setPlayer_of_ne c p (otherPlayerIndex_ne' i)

@[simp] theorem player_setPlayer_other' (c : SpineModelComponent) (i : Fin 2) (p : SpinePlayer) :
    (c.setPlayer (otherPlayerIndex i) p).player i = c.player i :=
  player_setPlayer_of_ne c p (otherPlayerIndex_ne i)

@[simp] theorem setPlayer_m_CurrentPlayer (c : SpineModelComponent) (i : Fin 2) (p : SpinePlayer) :
    (c.setPlayer i p).m_CurrentPlayer = c.m_CurrentPlayer := by
  unfold SpineModelComponent.setPlayer; split <;> rfl

@[simp] theorem setPlayer_m_Blending (c : SpineModelComponent) (i : Fin 2) (p : SpinePlayer) :
    (c.setPlayer i p).m_Blending = c.m_Blending := by
  unfold SpineModelComponent.setPlayer; split <;> rfl

@[simp] theorem setPlayer_m_BlendTimer (c : SpineModelComponent) (i : Fin 2) (p : SpinePlayer) :
    (c.setPlayer i p).m_BlendTimer = c.m_BlendTimer := by
  unfold SpineModelComponent.setPlayer; split <;> rfl

@[simp] theorem setPlayer_m_BlendDuration (c : SpineModelComponent) (i : Fin 2) (p : SpinePlayer) :
    (c.setPlayer i p).m_BlendDuration = c.m_BlendDuration := by
  unfold SpineModelComponent.setPlayer; split <;> rfl

@[simp] theorem setPlayer_m_Listener (c : SpineModelComponent) (i : Fin 2) (p : SpinePlayer) :
    (c.setPlayer i p).m_Listener = c.m_Listener := by
  unfold SpineModelComponent.setPlayer; split <;> rfl

@[simp] theorem setPlayer_m_Pose (c : SpineModelComponent) (i : Fin 2) (p : SpinePlayer) :
    (c.setPlayer i p).m_Pose = c.m_Pose := by
  unfold SpineModelComponent.setPlayer; split <;> rfl

@[simp] theorem setPlayer_m_Enabled (c : SpineModelComponent) (i : Fin 2) (p : SpinePlayer) :
    (c.setPlayer i p).m_Enabled = c.m_Enabled := by
  unfold SpineModelComponent.setPlayer; split <;> rfl

@[simp] theorem setPlayer_m_Resource (c : SpineModelComponent) (i : Fin 2) (p : SpinePlayer) :
    (c.setPlayer i p).m_Resource = c.m_Resource := by
  unfold SpineModelComponent.setPlayer; split <;> rfl

@[simp] theorem setPlayer_m_Instance (c : SpineModelComponent) (i : Fin 2) (p : SpinePlayer) :
    (c.setPlayer i p).m_Instance = c.m_Instance := by
  unfold SpineModelComponent.setPlayer; split <;> rfl

@[simp] theorem setPlayer_m_ComponentIndex (c : SpineModelComponent) (i : Fin 2)
    (p : SpinePlayer) : (c.setPlayer i p).m_ComponentIndex = c.m_ComponentIndex := by
  unfold SpineModelComponent.setPlayer; split <;> rfl

@[simp] theorem setPlayer_m_Transform (c : SpineModelComponent) (i : Fin 2)
    (p : SpinePlayer) : (c.setPlayer i p).m_Transform = c.m_Transform := by
  unfold SpineModelComponent.setPlayer; split <;> rfl

@[simp] theorem setPlayer_m_World (c : SpineModelComponent) (i : Fin 2)
    (p : SpinePlayer) : (c.setPlayer i p).m_World = c.m_World := by
  unfold SpineModelComponent.setPlayer; split <;> rfl

@[simp] theorem setPlayer_m_Mesh (c : SpineModelComponent) (i : Fin 2)
    (p : SpinePlayer) : (c.setPlayer i p).m_Mesh = c.m_Mesh := by
  unfold SpineModelComponent.setPlayer; split <;> rfl

@[simp] theorem setPlayer_m_Skin (c : SpineModelComponent) (i : Fin 2)
    (p : SpinePlayer) : (c.setPlayer i p).m_Skin = c.m_Skin := by
  unfold SpineModelComponent.setPlayer; split <;> rfl

@[simp] theorem setPlayer_m_NodeInstances (c : SpineModelComponent) (i : Fin 2)
    (p : SpinePlayer) : (c.setPlayer i p).m_NodeInstances = c.m_NodeInstances := by
  unfold SpineModelComponent.setPlayer; split <;> rfl

@[simp] theorem setPlayer_m_RenderConstants (c : SpineModelComponent) (i : Fin 2)
    (p : SpinePlayer) : (c.setPlayer i p).m_RenderConstants = c.m_RenderConstants := by
  unfold SpineModelComponent.setPlayer; split <;> rfl

@[simp] theorem setPlayer_m_PrevRenderConstants (c : SpineModelComponent) (i : Fin 2)
    (p : SpinePlayer) : (c.setPlayer i p).m_PrevRenderConstants = c.m_PrevRenderConstants := by
  unfold SpineModelComponent.setPlayer; split <;> rfl

@[simp] theorem setPlayer_m_MixedHash (c : SpineModelComponent) (i : Fin 2)
    (p : SpinePlayer) : (c.setPlayer i p).m_MixedHash = c.m_MixedHash := by
  unfold SpineModelComponent.setPlayer; split <;> rfl

@[simp] theorem setPlayer_player_self (c : SpineModelComponent) (i : Fin 2) :
    c.setPlayer i (c.player i) = c := by
  unfold SpineModelComponent.setPlayer SpineModelComponent.player
  split <;> simp [*]

theorem FindAnimation_eq_none {anim_set : List SpineAnimation} {animation_id : dmhash_t}
    (h : ∀ anim ∈ anim_set, anim.m_Id ≠ animation_id) :
    FindAnimation anim_set animation_id = none := by
  induction anim_set with
  | nil => rfl
  | cons a rest ih =>
    have ha : a.m_Id ≠ animation_id := h a (List.mem_cons_self a rest)
    have hr : ∀ anim ∈ rest, anim.m_Id ≠ animation_id :=
      fun anim hm => h anim (List.mem_cons_of_mem a hm)
    simp [FindAnimation, ha, ih hr]

theorem FindAnimation_some {anim_set : List SpineAnimation} {animation_id : dmhash_t}
    {anim : SpineAnimation} (h : FindAnimation anim_set animation_id = some anim) :
    anim ∈ anim_set ∧ anim.m_Id = animation_id := by
  induction anim_set with
  | nil => simp [FindAnimation] at h
  | cons a rest ih =>
    unfold FindAnimation at h
    split at h
    · rename_i ha
      cases h
      exact ⟨List.mem_cons_self _ _, ha⟩
    · exact ⟨List.mem_cons_of_mem a (ih h).1, (ih h).2⟩

theorem PlayAnimation_success {c : SpineModelComponent} {animation_id : dmhash_t}
    {playback : Playback} {blend_duration : ℚ}
    (h : (PlayAnimation c animation_id playback blend_duration).1 = true) :
    ∃ anim, FindAnimation c.m_Resource.m_Animations animation_id = some anim := by
  unfold PlayAnimation at h
  split at h
  · rename_i anim hfind
    exact ⟨anim, hfind⟩
  · simp at h

/-- C1: `PlayAnimation` with an id carried by no clip of the component's animation set
returns `false` and returns the component exactly as it was, so both players, the
current-player index and the crossfade flag, timer and duration are unchanged. -/
theorem PlayAnimation_unknown_id_no_change (c : SpineModelComponent) (animation_id : dmhash_t)
    (playback : Playback) (blend_duration : ℚ)
    (h : ∀ anim ∈ c.m_Resource.m_Animations, anim.m_Id ≠ animation_id) :
    PlayAnimation c animation_id playback blend_duration = (false, c) := by
  unfold PlayAnimation
  rw [FindAnimation_eq_none h]

theorem PlayAnimation_unknown_id_no_change_witness :
    (∀ anim ∈ freshComponent.m_Resource.m_Animations, anim.m_Id ≠ 8) ∧
      PlayAnimation freshComponent 8 Playback.PLAYBACK_LOOP_FORWARD (1 / 2)
        = (false, freshComponent) :=
  ⟨by simp [freshComponent, walkResource, walkClip],
   PlayAnimation_unknown_id_no_change freshComponent 8 Playback.PLAYBACK_LOOP_FORWARD (1 / 2)
     (by simp [freshComponent, walkResource, walkClip])⟩

/-- C2 (as stated, refuted): on the fresh component, whose current index is 0, a successful
`PlayAnimation` with `blend_duration = 0` leaves the current index at 1, not at its old
value. -/
theorem PlayAnimation_no_blend_index_changes :
    (0 : ℚ) ≤ 0 ∧
      (PlayAnimation freshComponent 7 Playback.PLAYBACK_LOOP_FORWARD 0).1 = true ∧
      (PlayAnimation freshComponent 7 Playback.PLAYBACK_LOOP_FORWARD 0).2.m_CurrentPlayer
        ≠ freshComponent.m_CurrentPlayer := by
  refine ⟨le_refl _, ?_, ?_⟩ <;> decide

/-- C2 (amended): for every `blend_duration <= 0`, a successful `PlayAnimation` stops the
previously current player, changing none of its other fields, and the other player of the
ring becomes current with the new clip: the index afterwards is `(index before + 1) % 2`,
which differs from the index before. -/
theorem PlayAnimation_no_blend_switches (c : SpineModelComponent) (animation_id : dmhash_t)
    (playback : Playback) (blend_duration : ℚ) (hblend : blend_duration ≤ 0)
    (hok : (PlayAnimation c animation_id playback blend_duration).1 = true) :
    let c' := (PlayAnimation c animation_id playback blend_duration).2
    c'.m_CurrentPlayer = otherPlayerIndex c.m_CurrentPlayer ∧
      c'.m_CurrentPlayer.val = (c.m_CurrentPlayer.val + 1) % 2 ∧
      c'.m_CurrentPlayer ≠ c.m_CurrentPlayer ∧
      c'.player c.m_CurrentPlayer = { GetPlayer c with m_Playing := false } ∧
      (GetPlayer c').m_Playing = true ∧
      (GetPlayer c').m_AnimationId = animation_id ∧
      (GetPlayer c').m_Animation = FindAnimation c.m_Resource.m_Animations animation_id := by
  obtain ⟨anim, hfind⟩ := PlayAnimation_success hok
  have hnot : ¬ blend_duration > 0 := not_lt.mpr hblend
  rcases c with ⟨inst, ci, res, lis, ⟨p0, p1⟩, cur, pose, bd, bt, en, bl, tf, wm, me, sk, ni, rc, prc,
    mh⟩
  simp only at hfind
  fin_cases cur <;>
    simp [PlayAnimation, hfind, hnot, SwitchPlayer, GetPlayer, otherPlayerIndex,
      SpineModelComponent.setPlayer, SpineModelComponent.player]

theorem PlayAnimation_no_blend_switches_witness :
    let c' := (PlayAnimation freshComponent 7 Playback.PLAYBACK_ONCE_PINGPONG (-1)).2
    c'.m_CurrentPlayer = otherPlayerIndex freshComponent.m_CurrentPlayer ∧
      c'.m_CurrentPlayer.val = (freshComponent.m_CurrentPlayer.val + 1) % 2 ∧
      c'.m_CurrentPlayer ≠ freshComponent.m_CurrentPlayer ∧
      c'.player freshComponent.m_CurrentPlayer
        = { GetPlayer freshComponent with m_Playing := false } ∧
      (GetPlayer c').m_Playing = true ∧
      (GetPlayer c').m_AnimationId = 7 ∧
      (GetPlayer c').m_Animation = FindAnimation freshComponent.m_Resource.m_Animations 7 :=
  PlayAnimation_no_blend_switches freshComponent 7 Playback.PLAYBACK_ONCE_PINGPONG (-1)
    (by norm_num) (by decide)

/-- C3: for every `blend_duration > 0`, a successful `PlayAnimation` sets the crossfade state
to (active, timer 0, duration `blend_duration`), makes the other player of the ring current,
and leaves the previously current player unchanged in every field. -/
theorem PlayAnimation_blend_starts_crossfade (c : SpineModelComponent)
    (animation_id : dmhash_t) (playback : Playback) (blend_duration : ℚ)
    (hblend : blend_duration > 0)
    (hok : (PlayAnimation c animation_id playback blend_duration).1 = true) :
    let c' := (PlayAnimation c animation_id playback blend_duration).2
    c'.m_Blending = true ∧ c'.m_BlendTimer = 0 ∧ c'.m_BlendDuration = blend_duration ∧
      c'.m_CurrentPlayer = otherPlayerIndex c.m_CurrentPlayer ∧
      c'.m_CurrentPlayer ≠ c.m_CurrentPlayer ∧
      c'.player c.m_CurrentPlayer = GetPlayer c ∧
      GetSecondaryPlayer c' = GetPlayer c := by
  obtain ⟨anim, hfind⟩ := PlayAnimation_success hok
  rcases c with ⟨inst, ci, res, lis, ⟨p0, p1⟩, cur, pose, bd, bt, en, bl, tf, wm, me, sk, ni, rc, prc,
    mh⟩
  simp only at hfind
  fin_cases cur <;>
    simp [PlayAnimation, hfind, hblend, SwitchPlayer, GetPlayer, GetSecondaryPlayer,
      otherPlayerIndex, SpineModelComponent.setPlayer, SpineModelComponent.player]

theorem PlayAnimation_blend_starts_crossfade_witness :
    let c' := (PlayAnimation freshComponent 7 Playback.PLAYBACK_LOOP_FORWARD (1 / 4)).2
    c'.m_Blending = true ∧ c'.m_BlendTimer = 0 ∧ c'.m_BlendDuration = 1 / 4 ∧
      c'.m_CurrentPlayer = otherPlayerIndex freshComponent.m_CurrentPlayer ∧
      c'.m_CurrentPlayer ≠ freshComponent.m_CurrentPlayer ∧
      c'.player freshComponent.m_CurrentPlayer = GetPlayer freshComponent ∧
      GetSecondaryPlayer c' = GetPlayer freshComponent :=
  PlayAnimation_blend_starts_crossfade freshComponent 7 Playback.PLAYBACK_LOOP_FORWARD (1 / 4)
    (by norm_num) (by decide)

/-- C4: after every successful `PlayAnimation(id, mode, blend)` the player that is current
afterwards has cursor 0, is playing, has playback mode `mode`, animation id `id`, the clip
found for `id` (a clip of the animation set carrying that id), and `m_Backwards` set exactly
when `mode` is once-backward or loop-backward. -/
theorem PlayAnimation_current_player (c : SpineModelComponent) (animation_id : dmhash_t)
    (playback : Playback) (blend_duration : ℚ)
    (hok : (PlayAnimation c animation_id playback blend_duration).1 = true) :
    let p := GetPlayer (PlayAnimation c animation_id playback blend_duration).2
    p.m_Cursor = 0 ∧ p.m_Playing = true ∧ p.m_Playback = playback ∧
      p.m_AnimationId = animation_id ∧
      p.m_Animation = FindAnimation c.m_Resource.m_Animations animation_id ∧
      (∃ anim ∈ c.m_Resource.m_Animations, anim.m_Id = animation_id ∧
        p.m_Animation = some anim) ∧
      (p.m_Backwards = true ↔
        playback = Playback.PLAYBACK_ONCE_BACKWARD ∨
          playback = Playback.PLAYBACK_LOOP_BACKWARD) ∧
      (playback = Playback.PLAYBACK_ONCE_PINGPONG ∨ playback = Playback.PLAYBACK_LOOP_PINGPONG →
        p.m_Backwards = false) := by
  obtain ⟨anim, hfind⟩ := PlayAnimation_success hok
  obtain ⟨hmem, hid⟩ := FindAnimation_some hfind
  have hp : GetPlayer (PlayAnimation c animation_id playback blend_duration).2 =
      { m_Animation := some anim, m_AnimationId := animation_id, m_Cursor := 0,
        m_Playback := playback, m_Playing := true,
        m_Backwards :=
          if playback = Playback.PLAYBACK_ONCE_BACKWARD ∨
            playback = Playback.PLAYBACK_LOOP_BACKWARD then true else false } := by
    simp only [PlayAnimation, hfind, GetPlayer]
    rw [setPlayer_m_CurrentPlayer, player_setPlayer_same]
  intro p
  have hp' : p = _ := hp
  rw [hp']
  refine ⟨rfl, rfl, rfl, rfl, hfind.symm, ⟨anim, hmem, hid, rfl⟩, ?_, ?_⟩
  · simp
  · rintro (h | h) <;> simp [h]

theorem PlayAnimation_current_player_witness :
    let p := GetPlayer (PlayAnimation freshComponent 7 Playback.PLAYBACK_LOOP_BACKWARD 0).2
    p.m_Cursor = 0 ∧ p.m_Playing = true ∧ p.m_Playback = Playback.PLAYBACK_LOOP_BACKWARD ∧
      p.m_AnimationId = 7 ∧
      p.m_Animation = FindAnimation freshComponent.m_Resource.m_Animations 7 ∧
      (∃ anim ∈ freshComponent.m_Resource.m_Animations, anim.m_Id = 7 ∧
        p.m_Animation = some anim) ∧
      (p.m_Backwards = true ↔
        Playback.PLAYBACK_LOOP_BACKWARD = Playback.PLAYBACK_ONCE_BACKWARD ∨
          Playback.PLAYBACK_LOOP_BACKWARD = Playback.PLAYBACK_LOOP_BACKWARD) ∧
      (Playback.PLAYBACK_LOOP_BACKWARD = Playback.PLAYBACK_ONCE_PINGPONG ∨
          Playback.PLAYBACK_LOOP_BACKWARD = Playback.PLAYBACK_LOOP_PINGPONG →
        p.m_Backwards = false) :=
  PlayAnimation_current_player freshComponent 7 Playback.PLAYBACK_LOOP_BACKWARD 0 (by decide)

/-- C8: `CancelAnimation` clears `m_Playing` of the current player and changes nothing else:
the current player's clip, animation id, cursor, mode and backwards flag, the other player,
the current-player index, the crossfade state and all remaining fields of the component are
as before. -/
theorem CancelAnimation_only_stops_current (c : SpineModelComponent) :
    let c' := CancelAnimation c
    (GetPlayer c').m_Playing = false ∧
      (GetPlayer c').m_Animation = (GetPlayer c).m_Animation ∧
      (GetPlayer c').m_AnimationId = (GetPlayer c).m_AnimationId ∧
      (GetPlayer c').m_Cursor = (GetPlayer c).m_Cursor ∧
      (GetPlayer c').m_Playback = (GetPlayer c).m_Playback ∧
      (GetPlayer c').m_Backwards = (GetPlayer c).m_Backwards ∧
      GetSecondaryPlayer c' = GetSecondaryPlayer c ∧
      c'.m_CurrentPlayer = c.m_CurrentPlayer ∧
      c'.m_Blending = c.m_Blending ∧ c'.m_BlendTimer = c.m_BlendTimer ∧
      c'.m_BlendDuration = c.m_BlendDuration ∧
      c'.m_Listener = c.m_Listener ∧ c'.m_Pose = c.m_Pose ∧ c'.m_Enabled = c.m_Enabled ∧
      c'.m_Resource = c.m_Resource ∧ c'.m_Instance = c.m_Instance ∧
      c'.m_ComponentIndex = c.m_ComponentIndex ∧
      c'.m_Transform = c.m_Transform ∧ c'.m_World = c.m_World ∧ c'.m_Mesh = c.m_Mesh ∧
      c'.m_Skin = c.m_Skin ∧ c'.m_NodeInstances = c.m_NodeInstances ∧
      c'.m_RenderConstants = c.m_RenderConstants ∧
      c'.m_PrevRenderConstants = c.m_PrevRenderConstants ∧
      c'.m_MixedHash = c.m_MixedHash := by
  simp [CancelAnimation, GetPlayer, GetSecondaryPlayer]

/-! ## Shape of `UpdatePlayer` -/

theorem player_with_listener (c : SpineModelComponent) (l : URL) (i : Fin 2) :
    SpineModelComponent.player { c with m_Listener := l } i = c.player i := rfl

theorem setPlayer_with_listener_self (c : SpineModelComponent) (i : Fin 2) (p : SpinePlayer) :
    ({ c.setPlayer i p with m_Listener := c.m_Listener } : SpineModelComponent)
      = c.setPlayer i p := by
  unfold SpineModelComponent.setPlayer
  split <;> rfl

/-- The component with slot `pi` replaced and, on completion, the listener as left by the
completion block. Every other field is as in `c`. -/
theorem CompletePlayer_component (c : SpineModelComponent) (pi : Fin 2) (player : SpinePlayer)
    (events : List Message) :
    ∃ l, (CompletePlayer c pi player events).component =
      { c.setPlayer pi { player with m_Playing := false } with m_Listener := l } := by
  unfold CompletePlayer
  dsimp only
  split_ifs
  · split
    · exact ⟨_, rfl⟩
    · exact ⟨c.m_Listener, (setPlayer_with_listener_self _ _ _).symm⟩
  · exact ⟨c.m_Listener, (setPlayer_with_listener_self _ _ _).symm⟩

theorem CompletePlayer_completed (c : SpineModelComponent) (pi : Fin 2) (player : SpinePlayer)
    (events : List Message) : (CompletePlayer c pi player events).completed = true := by
  unfold CompletePlayer
  dsimp only
  split_ifs
  · split <;> rfl
  · rfl

/-- Shape of the result of `UpdatePlayer` on a playing player with a clip, in terms of the
outcome of the cursor adjustment. -/
theorem UpdatePlayer_of_adjust {fuel : Nat} {c : SpineModelComponent} {pi : Fin 2} {dt : ℚ}
    {animation : SpineAnimation} {player2 : SpinePlayer} {completed : Bool}
    (hanim : (c.player pi).m_Animation = some animation)
    (hplaying : (c.player pi).m_Playing = true)
    (hadj : AdjustCursor fuel (AdvanceCursor (c.player pi) dt)
      (GetCursorDuration (AdvanceCursor (c.player pi) dt) animation) = some (player2, completed)) :
    ∃ u l, UpdatePlayer fuel c pi dt = some u ∧ u.completed = completed ∧
      u.component =
        { c.setPlayer pi (if completed then { player2 with m_Playing := false } else player2)
          with m_Listener := l } := by
  unfold UpdatePlayer
  simp only [hanim, hplaying, Bool.not_true, Bool.false_eq_true, if_false, hadj]
  cases completed with
  | true =>
    obtain ⟨l, hl⟩ := CompletePlayer_component c pi player2
      (UpdatePlayerEvents c player2 animation dt (c.player pi).m_Cursor
        (GetCursorDuration (AdvanceCursor (c.player pi) dt) animation) true)
    exact ⟨_, l, rfl, CompletePlayer_completed _ _ _ _, by simpa using hl⟩
  | false =>
    refine ⟨{ component := c.setPlayer pi player2, posted := _, completed := false },
      c.m_Listener, rfl, rfl, ?_⟩
    simpa using (setPlayer_with_listener_self c pi player2).symm

theorem AdjustCursor_once (fuel : Nat) (player : SpinePlayer) (duration : ℚ)
    (hmode : player.m_Playback = Playback.PLAYBACK_ONCE_FORWARD ∨
      player.m_Playback = Playback.PLAYBACK_ONCE_BACKWARD ∨
      player.m_Playback = Playback.PLAYBACK_ONCE_PINGPONG) :
    AdjustCursor fuel player duration =
      if player.m_Cursor ≥ duration then some ({ player with m_Cursor := duration }, true)
      else some (player, false) := by
  unfold AdjustCursor
  rcases hmode with h | h | h <;> rw [h]

theorem AdvanceCursor_of_ne_none (player : SpinePlayer) (dt : ℚ)
    (h : player.m_Playback ≠ Playback.PLAYBACK_NONE) :
    AdvanceCursor player dt = { player with m_Cursor := player.m_Cursor + dt } := by
  unfold AdvanceCursor
  rw [if_pos h]

/-- C5: for a playing player in a once mode, `UpdatePlayer` returns; if `cursor + dt` reaches
or exceeds the effective duration the cursor is left exactly at the effective duration, the
step reports completion and the player is stopped; otherwise the player keeps playing with
cursor `cursor + dt`. In both cases the cursor afterwards does not exceed the effective
duration. -/
theorem UpdatePlayer_once_clamps_and_completes (fuel : Nat) (c : SpineModelComponent)
    (pi : Fin 2) (dt : ℚ) (animation : SpineAnimation)
    (hanim : (c.player pi).m_Animation = some animation)
    (hplaying : (c.player pi).m_Playing = true)
    (hmode : (c.player pi).m_Playback = Playback.PLAYBACK_ONCE_FORWARD ∨
      (c.player pi).m_Playback = Playback.PLAYBACK_ONCE_BACKWARD ∨
      (c.player pi).m_Playback = Playback.PLAYBACK_ONCE_PINGPONG) :
    ∃ u, UpdatePlayer fuel c pi dt = some u ∧
      ((c.player pi).m_Cursor + dt ≥ GetCursorDuration (c.player pi) animation →
        (u.component.player pi).m_Cursor = GetCursorDuration (c.player pi) animation ∧
          u.completed = true ∧ (u.component.player pi).m_Playing = false) ∧
      ((c.player pi).m_Cursor + dt < GetCursorDuration (c.player pi) animation →
        (u.component.player pi).m_Cursor = (c.player pi).m_Cursor + dt ∧
          u.completed = false ∧ (u.component.player pi).m_Playing = true) ∧
      (u.component.player pi).m_Cursor ≤ GetCursorDuration (c.player pi) animation := by
  have hne : (c.player pi).m_Playback ≠ Playback.PLAYBACK_NONE := by
    rcases hmode with h | h | h <;> rw [h] <;> decide
  have hadv := AdvanceCursor_of_ne_none (c.player pi) dt hne
  have hdur : GetCursorDuration (AdvanceCursor (c.player pi) dt) animation
      = GetCursorDuration (c.player pi) animation := by rw [hadv]; rfl
  have hadj := AdjustCursor_once fuel (AdvanceCursor (c.player pi) dt)
    (GetCursorDuration (AdvanceCursor (c.player pi) dt) animation) (by rw [hadv]; exact hmode)
  rw [hdur] at hadj
  have hcur : (AdvanceCursor (c.player pi) dt).m_Cursor = (c.player pi).m_Cursor + dt := by
    rw [hadv]
  rw [hcur] at hadj
  by_cases hge : (c.player pi).m_Cursor + dt ≥ GetCursorDuration (c.player pi) animation
  · rw [if_pos hge, ← hdur] at hadj
    obtain ⟨u, l, hu, hcompl, hcomp⟩ := UpdatePlayer_of_adjust hanim hplaying hadj
    have hp : u.component.player pi =
        { AdvanceCursor (c.player pi) dt with
          m_Cursor := GetCursorDuration (c.player pi) animation, m_Playing := false } := by
      rw [hcomp, player_with_listener, player_setPlayer_same, hdur]; rfl
    refine ⟨u, hu, fun _ => ?_, fun hlt => absurd hge (not_le.mpr hlt), ?_⟩
    · rw [hp]; exact ⟨rfl, hcompl, rfl⟩
    · rw [hp]
  · rw [if_neg hge, ← hdur] at hadj
    obtain ⟨u, l, hu, hcompl, hcomp⟩ := UpdatePlayer_of_adjust hanim hplaying hadj
    have hp : u.component.player pi = AdvanceCursor (c.player pi) dt := by
      rw [hcomp, player_with_listener, player_setPlayer_same]; rfl
    refine ⟨u, hu, fun h => absurd h hge, fun _ => ?_, ?_⟩
    · rw [hp, hadv]; exact ⟨rfl, hcompl, hplaying⟩
    · rw [hp, hcur]; exact le_of_lt (not_le.mp hge)

theorem UpdatePlayer_once_clamps_and_completes_witness :
    ∃ u, UpdatePlayer 0 onceComponent 0 1 = some u ∧
      ((onceComponent.player 0).m_Cursor + 1 ≥ GetCursorDuration (onceComponent.player 0) walkClip →
        (u.component.player 0).m_Cursor = GetCursorDuration (onceComponent.player 0) walkClip ∧
          u.completed = true ∧ (u.component.player 0).m_Playing = false) ∧
      ((onceComponent.player 0).m_Cursor + 1 < GetCursorDuration (onceComponent.player 0) walkClip →
        (u.component.player 0).m_Cursor = (onceComponent.player 0).m_Cursor + 1 ∧
          u.completed = false ∧ (u.component.player 0).m_Playing = true) ∧
      (u.component.player 0).m_Cursor ≤ GetCursorDuration (onceComponent.player 0) walkClip :=
  UpdatePlayer_once_clamps_and_completes 0 onceComponent 0 1 walkClip rfl rfl (Or.inl rfl)

theorem UpdatePlayer_idle_aux (fuel : Nat) (c : SpineModelComponent) (pi : Fin 2) (dt : ℚ)
    (h : (c.player pi).m_Animation = none ∨ (c.player pi).m_Playing = false) :
    UpdatePlayer fuel c pi dt = some { component := c, posted := [], completed := false } := by
  unfold UpdatePlayer
  rcases h with h | h
  · simp only [h]
  · cases hanim : (c.player pi).m_Animation with
    | none => simp only [hanim]
    | some animation => simp only [hanim, h, Bool.not_false, if_true]

/-- C6: `UpdatePlayer` on a player that has no clip or is not playing returns at once, for
every `dt`: the whole component (cursor, backwards flag, playing flag, listener and all
other fields) is unchanged, no message is posted and no completion is reported. The same
holds for any number of further calls, so a completion is not reported again and a
cancelled player's cursor does not advance. -/
theorem UpdatePlayer_not_playing_is_noop (fuel : Nat) (c : SpineModelComponent) (pi : Fin 2)
    (dt : ℚ)
    (h : (c.player pi).m_Animation = none ∨ (c.player pi).m_Playing = false) :
    UpdatePlayer fuel c pi dt = some { component := c, posted := [], completed := false } ∧
      ∀ dts : List ℚ, UpdatePlayerSteps fuel pi c dts = some (c, []) := by
  refine ⟨UpdatePlayer_idle_aux fuel c pi dt h, fun dts => ?_⟩
  induction dts with
  | nil => rfl
  | cons d ds ih =>
    unfold UpdatePlayerSteps
    rw [UpdatePlayer_idle_aux fuel c pi d h]
    simp only [ih, Option.map_some', List.nil_append]

theorem UpdatePlayer_not_playing_is_noop_witness :
    UpdatePlayer 0 (CancelAnimation onceComponent) 0 (1 / 60)
        = some { component := CancelAnimation onceComponent, posted := [], completed := false } ∧
      ∀ dts : List ℚ,
        UpdatePlayerSteps 0 0 (CancelAnimation onceComponent) dts
          = some (CancelAnimation onceComponent, []) :=
  UpdatePlayer_not_playing_is_noop 0 (CancelAnimation onceComponent) 0 (1 / 60) (Or.inr rfl)

/-- C9: the effective cursor duration is twice the clip duration for a once-pingpong player
and the clip duration for every other mode. For a once-pingpong player that is not backwards
and whose cursor `c` lies in `[0, 2D]`, the sampling time is `c` when `c <= D` and `2D - c`
when `c > D`, and it lies in `[0, D]`. -/
theorem CursorToTime_once_pingpong_reflects (player : SpinePlayer) (animation : SpineAnimation) :
    (player.m_Playback = Playback.PLAYBACK_ONCE_PINGPONG →
        GetCursorDuration player animation = 2 * animation.m_Duration) ∧
      (player.m_Playback ≠ Playback.PLAYBACK_ONCE_PINGPONG →
        GetCursorDuration player animation = animation.m_Duration) ∧
      (player.m_Playback = Playback.PLAYBACK_ONCE_PINGPONG → player.m_Backwards = false →
        0 ≤ player.m_Cursor → player.m_Cursor ≤ 2 * animation.m_Duration →
        CursorToTime player.m_Cursor (GetCursorDuration player animation) player.m_Backwards
            (decide (player.m_Playback = Playback.PLAYBACK_ONCE_PINGPONG))
          = (if player.m_Cursor ≤ animation.m_Duration then player.m_Cursor
              else 2 * animation.m_Duration - player.m_Cursor) ∧
        PlayerTime player animation
          = (if player.m_Cursor ≤ animation.m_Duration then player.m_Cursor
              else 2 * animation.m_Duration - player.m_Cursor) ∧
        0 ≤ PlayerTime player animation ∧ PlayerTime player animation ≤ animation.m_Duration) := by
  refine ⟨fun h => ?_, fun h => ?_, fun hmode hback h0 h2 => ?_⟩
  · simp [GetCursorDuration, h, mul_comm]
  · simp [GetCursorDuration, h]
  · have ht : PlayerTime player animation
        = (if player.m_Cursor ≤ animation.m_Duration then player.m_Cursor
            else 2 * animation.m_Duration - player.m_Cursor) := by
      simp only [PlayerTime, CursorToTime, GetCursorDuration, hmode, hback, if_true,
        Bool.false_eq_true, if_false, decide_True, true_and]
      by_cases hle : player.m_Cursor ≤ animation.m_Duration
      · rw [if_pos hle, if_neg]
        intro hgt
        linarith
      · rw [if_neg hle, if_pos]
        · ring
        · push_neg at hle
          linarith
    refine ⟨ht, ht, ?_, ?_⟩
    · rw [ht]; split_ifs with hle
      · exact h0
      · linarith
    · rw [ht]; split_ifs with hle
      · exact hle
      · push_neg at hle; linarith

theorem CursorToTime_once_pingpong_reflects_witness :
    GetCursorDuration pingpongPlayer walkClip = 2 ∧ PlayerTime pingpongPlayer walkClip = 1 / 2 := by
  have h := CursorToTime_once_pingpong_reflects pingpongPlayer walkClip
  obtain ⟨hdur, -, ht⟩ := h
  obtain ⟨-, ht, -, -⟩ := ht rfl rfl (by norm_num [pingpongPlayer])
    (by norm_num [pingpongPlayer, walkClip])
  refine ⟨?_, ?_⟩
  · rw [hdur rfl]; norm_num [walkClip]
  · rw [ht]; norm_num [pingpongPlayer, walkClip]

theorem rat_floor_eq_floor (q : ℚ) : Rat.floor q = ⌊q⌋ := rfl

theorem remainderMod_of_mem_Ico {x d : ℚ} (hd : 0 < d) (h0 : 0 ≤ x) (h1 : x < d) :
    remainderMod x d = x := by
  unfold remainderMod
  have hfl : Rat.floor (x / d) = 0 := by
    rw [rat_floor_eq_floor, Int.floor_eq_zero_iff]
    exact ⟨div_nonneg h0 hd.le, (div_lt_one hd).mpr h1⟩
  rw [hfl]; simp

theorem remainderMod_sub_period (x d : ℚ) (hd : 0 < d) :
    remainderMod (x - d) d = remainderMod x d := by
  unfold remainderMod
  have hdiv : (x - d) / d = x / d - 1 := by
    field_simp
  have hfl : Rat.floor ((x - d) / d) = Rat.floor (x / d) - 1 := by
    rw [hdiv, rat_floor_eq_floor, rat_floor_eq_floor, Int.floor_sub_one]
  rw [hfl]; push_cast; ring

theorem remainderMod_nonneg (x d : ℚ) (hd : 0 < d) : 0 ≤ remainderMod x d := by
  unfold remainderMod
  have h := Int.floor_le (x / d)
  rw [← rat_floor_eq_floor] at h
  have h2 : d * (Rat.floor (x / d) : ℚ) ≤ d * (x / d) := mul_le_mul_of_nonneg_left h hd.le
  have h3 : d * (x / d) = x := by field_simp
  linarith

theorem remainderMod_lt (x d : ℚ) (hd : 0 < d) : remainderMod x d < d := by
  unfold remainderMod
  have h := Int.lt_floor_add_one (x / d)
  rw [← rat_floor_eq_floor] at h
  have h2 : d * (x / d) < d * ((Rat.floor (x / d) : ℚ) + 1) := mul_lt_mul_of_pos_left h hd
  have h3 : d * (x / d) = x := by field_simp
  linarith

theorem WrapLoop_of_lt (pingpong : Bool) (duration : ℚ) (fuel : Nat) (player : SpinePlayer)
    (h : player.m_Cursor < duration) :
    WrapLoop pingpong duration fuel player = some (player, 0) := by
  cases fuel <;> simp [WrapLoop, not_le.mpr h]

theorem WrapLoop_one_wrap (duration : ℚ) (fuel : Nat) (player : SpinePlayer)
    (hge : duration ≤ player.m_Cursor) (hlt : player.m_Cursor - duration < duration) :
    WrapLoop false duration (fuel + 1) player
      = some ({ player with m_Cursor := player.m_Cursor - duration }, 1) := by
  have h := WrapLoop_of_lt false duration fuel
    { player with m_Cursor := player.m_Cursor - duration } hlt
  simp only [WrapLoop, ge_iff_le, hge, if_true, Bool.false_eq_true, if_false, h,
    Option.map_some', zero_add]

theorem AdjustCursor_loop (fuel : Nat) (player : SpinePlayer) (duration : ℚ)
    (hmode : player.m_Playback = Playback.PLAYBACK_LOOP_FORWARD ∨
      player.m_Playback = Playback.PLAYBACK_LOOP_BACKWARD) :
    AdjustCursor fuel player duration
      = (WrapLoop false duration fuel player).map fun r => (r.1, false) := by
  unfold AdjustCursor
  rcases hmode with h | h <;> rw [h]

/-- One frame of a loop-forward or loop-backward player whose cursor is in `[0, D)`, with
`0 <= dt < D`: the cursor wraps at most once. -/
theorem UpdatePlayer_loop_step {fuel : Nat} (hfuel : 1 ≤ fuel) {c : SpineModelComponent}
    {pi : Fin 2} {dt : ℚ} {animation : SpineAnimation}
    (hanim : (c.player pi).m_Animation = some animation)
    (hplaying : (c.player pi).m_Playing = true)
    (hmode : (c.player pi).m_Playback = Playback.PLAYBACK_LOOP_FORWARD ∨
      (c.player pi).m_Playback = Playback.PLAYBACK_LOOP_BACKWARD)
    (hlt : (c.player pi).m_Cursor < animation.m_Duration)
    (hdt : dt < animation.m_Duration) :
    ∃ u, UpdatePlayer fuel c pi dt = some u ∧
      u.component.player pi =
        { c.player pi with
          m_Cursor :=
            if (c.player pi).m_Cursor + dt ≥ animation.m_Duration then
              (c.player pi).m_Cursor + dt - animation.m_Duration
            else (c.player pi).m_Cursor + dt } := by
  have hne : (c.player pi).m_Playback ≠ Playback.PLAYBACK_NONE := by
    rcases hmode with h | h <;> rw [h] <;> decide
  have hnp : (c.player pi).m_Playback ≠ Playback.PLAYBACK_ONCE_PINGPONG := by
    rcases hmode with h | h <;> rw [h] <;> decide
  have hadv := AdvanceCursor_of_ne_none (c.player pi) dt hne
  have hdur : GetCursorDuration (AdvanceCursor (c.player pi) dt) animation
      = animation.m_Duration := by
    rw [hadv]; simp only [GetCursorDuration, hnp, if_false]
  have hadj := AdjustCursor_loop fuel (AdvanceCursor (c.player pi) dt)
    (GetCursorDuration (AdvanceCursor (c.player pi) dt) animation) (by rw [hadv]; exact hmode)
  obtain ⟨n, rfl⟩ : ∃ n, fuel = n + 1 := ⟨fuel - 1, by omega⟩
  have hcur : (AdvanceCursor (c.player pi) dt).m_Cursor = (c.player pi).m_Cursor + dt := by
    rw [hadv]
  by_cases hge : (c.player pi).m_Cursor + dt ≥ animation.m_Duration
  · have hw := WrapLoop_one_wrap animation.m_Duration n (AdvanceCursor (c.player pi) dt)
      (by rw [hcur]; exact hge) (by rw [hcur]; linarith)
    have hadj' : AdjustCursor (n + 1) (AdvanceCursor (c.player pi) dt)
        (GetCursorDuration (AdvanceCursor (c.player pi) dt) animation)
        = some ({ AdvanceCursor (c.player pi) dt with
            m_Cursor := (AdvanceCursor (c.player pi) dt).m_Cursor - animation.m_Duration },
          false) := by
      rw [hadj, hdur, hw]; rfl
    obtain ⟨u, l, hu, -, hcomp⟩ := UpdatePlayer_of_adjust hanim hplaying hadj'
    refine ⟨u, hu, ?_⟩
    rw [hcomp, player_with_listener, player_setPlayer_same, if_pos hge]
    simp only [Bool.false_eq_true, if_false]
    rw [hadv]
  · have hw := WrapLoop_of_lt false animation.m_Duration (n + 1)
      (AdvanceCursor (c.player pi) dt) (by rw [hcur]; exact not_le.mp hge)
    have hadj' : AdjustCursor (n + 1) (AdvanceCursor (c.player pi) dt)
        (GetCursorDuration (AdvanceCursor (c.player pi) dt) animation)
        = some (AdvanceCursor (c.player pi) dt, false) := by
      rw [hadj, hdur, hw]; rfl
    obtain ⟨u, l, hu, -, hcomp⟩ := UpdatePlayer_of_adjust hanim hplaying hadj'
    refine ⟨u, hu, ?_⟩
    rw [hcomp, player_with_listener, player_setPlayer_same, if_neg hge]
    simp only [Bool.false_eq_true, if_false]
    rw [hadv]

/-- Invariant form of the loop-mode cursor law: from any cursor in `[0, D)`, the cursor after
the frames `dts` is the exact remainder of `cursor + sum dts` modulo `D`. -/
theorem UpdatePlayerSteps_loop_aux {fuel : Nat} (hfuel : 1 ≤ fuel) {pi : Fin 2}
    {animation : SpineAnimation} (hD : 0 < animation.m_Duration) (dts : List ℚ) :
    ∀ c : SpineModelComponent,
      (c.player pi).m_Animation = some animation →
      (c.player pi).m_Playing = true →
      ((c.player pi).m_Playback = Playback.PLAYBACK_LOOP_FORWARD ∨
        (c.player pi).m_Playback = Playback.PLAYBACK_LOOP_BACKWARD) →
      0 ≤ (c.player pi).m_Cursor → (c.player pi).m_Cursor < animation.m_Duration →
      (∀ dt ∈ dts, 0 ≤ dt ∧ dt < animation.m_Duration) →
      ∃ r, UpdatePlayerSteps fuel pi c dts = some r ∧
        (r.1.player pi).m_Cursor
          = remainderMod ((c.player pi).m_Cursor + dts.sum) animation.m_Duration ∧
        (r.1.player pi).m_Playing = true := by
  induction dts with
  | nil =>
    intro c _ hplaying _ h0 hlt _
    refine ⟨(c, []), rfl, ?_, hplaying⟩
    simp only [List.sum_nil, add_zero]
    exact (remainderMod_of_mem_Ico hD h0 hlt).symm
  | cons dt dts ih =>
    intro c hanim hplaying hmode h0 hlt hdts
    have hdt := hdts dt (List.mem_cons_self _ _)
    obtain ⟨u, hu, hp⟩ := UpdatePlayer_loop_step hfuel hanim hplaying hmode hlt hdt.2
    have hanim' : (u.component.player pi).m_Animation = some animation := by rw [hp]; exact hanim
    have hplaying' : (u.component.player pi).m_Playing = true := by rw [hp]; exact hplaying
    have hmode' : (u.component.player pi).m_Playback = Playback.PLAYBACK_LOOP_FORWARD ∨
        (u.component.player pi).m_Playback = Playback.PLAYBACK_LOOP_BACKWARD := by
      rw [hp]; exact hmode
    have hcur : (u.component.player pi).m_Cursor =
        if (c.player pi).m_Cursor + dt ≥ animation.m_Duration then
          (c.player pi).m_Cursor + dt - animation.m_Duration
        else (c.player pi).m_Cursor + dt := by rw [hp]
    have h0' : 0 ≤ (u.component.player pi).m_Cursor := by
      rw [hcur]; split_ifs with hge
      · linarith
      · linarith [hdt.1]
    have hlt' : (u.component.player pi).m_Cursor < animation.m_Duration := by
      rw [hcur]; split_ifs with hge
      · linarith [hdt.2]
      · exact not_le.mp hge
    obtain ⟨r, hr, hrc, hrp⟩ := ih u.component hanim' hplaying' hmode' h0' hlt'
      (fun d hd => hdts d (List.mem_cons_of_mem _ hd))
    refine ⟨(r.1, u.posted ++ r.2), ?_, ?_, hrp⟩
    · simp only [UpdatePlayerSteps, hu, hr, Option.map_some']
    · show (r.1.player pi).m_Cursor = _
      rw [hrc, hcur, List.sum_cons]
      split_ifs with hge
      · rw [← remainderMod_sub_period ((c.player pi).m_Cursor + (dt + dts.sum)) _ hD]
        congr 1; ring
      · congr 1; ring

/-- C7: for loop-forward and loop-backward playback of a clip with duration `D > 0` started
at cursor 0, after any sequence of frames with `0 <= dt < D` the calls return (one unit of
fuel suffices), the player is still playing, and the cursor lies in `[0, D)` and equals the
exact remainder of the sum of all `dt` modulo `D`: it differs from the sum by a natural
multiple of `D`. -/
theorem UpdatePlayerSteps_loop_cursor_is_sum_mod_duration (fuel : Nat) (hfuel : 1 ≤ fuel)
    (c : SpineModelComponent) (pi : Fin 2) (animation : SpineAnimation) (dts : List ℚ)
    (hanim : (c.player pi).m_Animation = some animation)
    (hplaying : (c.player pi).m_Playing = true)
    (hmode : (c.player pi).m_Playback = Playback.PLAYBACK_LOOP_FORWARD ∨
      (c.player pi).m_Playback = Playback.PLAYBACK_LOOP_BACKWARD)
    (hD : 0 < animation.m_Duration)
    (hcursor : (c.player pi).m_Cursor = 0)
    (hdts : ∀ dt ∈ dts, 0 ≤ dt ∧ dt < animation.m_Duration) :
    ∃ r, UpdatePlayerSteps fuel pi c dts = some r ∧
      (r.1.player pi).m_Playing = true ∧
      0 ≤ (r.1.player pi).m_Cursor ∧ (r.1.player pi).m_Cursor < animation.m_Duration ∧
      (r.1.player pi).m_Cursor = remainderMod dts.sum animation.m_Duration ∧
      (r.1.player pi).m_Cursor
        = dts.sum - animation.m_Duration * (⌊dts.sum / animation.m_Duration⌋ : ℚ) ∧
      ∃ k : ℕ, (r.1.player pi).m_Cursor + k * animation.m_Duration = dts.sum := by
  obtain ⟨r, hr, hrc, hrp⟩ := UpdatePlayerSteps_loop_aux hfuel hD dts c hanim hplaying hmode
    (by rw [hcursor]) (by rw [hcursor]; exact hD) hdts
  rw [hcursor, zero_add] at hrc
  have hsum : 0 ≤ dts.sum := List.sum_nonneg fun d hd => (hdts d hd).1
  have hfloor : 0 ≤ ⌊dts.sum / animation.m_Duration⌋ :=
    Int.floor_nonneg.mpr (div_nonneg hsum hD.le)
  refine ⟨r, hr, hrp, ?_, ?_, hrc, ?_, ⟨⌊dts.sum / animation.m_Duration⌋.toNat, ?_⟩⟩
  · rw [hrc]; exact remainderMod_nonneg _ _ hD
  · rw [hrc]; exact remainderMod_lt _ _ hD
  · rw [hrc]; rfl
  · rw [hrc]
    unfold remainderMod
    rw [rat_floor_eq_floor]
    have hcast : ((⌊dts.sum / animation.m_Duration⌋.toNat : ℕ) : ℚ)
        = ((⌊dts.sum / animation.m_Duration⌋ : ℤ) : ℚ) := by
      have := Int.toNat_of_nonneg hfloor
      exact_mod_cast this
    rw [hcast]; ring

theorem UpdatePlayerSteps_loop_cursor_is_sum_mod_duration_witness :
    ∃ r, UpdatePlayerSteps 1 0 loopComponent [1 / 2, 1 / 2, 1 / 2, 1 / 2, 1 / 2] = some r ∧
      (r.1.player 0).m_Playing = true ∧ (r.1.player 0).m_Cursor = 1 / 2 := by
  obtain ⟨r, hr, hp, -, -, hrem, -, -⟩ :=
    UpdatePlayerSteps_loop_cursor_is_sum_mod_duration 1 (le_refl 1) loopComponent 0 walkClip
      [1 / 2, 1 / 2, 1 / 2, 1 / 2, 1 / 2] rfl rfl (Or.inl rfl) (by norm_num [walkClip]) rfl
      (by
        intro dt hdt
        simp only [List.mem_cons, List.mem_singleton, List.not_mem_nil, or_false, or_self] at hdt
        subst hdt
        norm_num [walkClip])
  refine ⟨r, hr, hp, ?_⟩
  rw [hrem]
  have hfl : Rat.floor ((5 : ℚ) / 2 / 1) = 2 := by
    rw [rat_floor_eq_floor, Int.floor_eq_iff]; norm_num
  have hsum : ([1 / 2, 1 / 2, 1 / 2, 1 / 2, 1 / 2] : List ℚ).sum = 5 / 2 := by norm_num
  rw [hsum]
  unfold remainderMod
  have hd : walkClip.m_Duration = 1 := rfl
  rw [hd, hfl]; norm_num

/-! ## Pose sampling -/

theorem modifyBone_length (pose : List Transform) (i : Nat) (f : Transform → Transform) :
    (modifyBone pose i f).length = pose.length := by
  unfold modifyBone
  split <;> simp

theorem modifyBone_get? (pose : List Transform) (i j : Nat) (f : Transform → Transform) :
    (modifyBone pose i f).get? j = if i = j then (pose.get? j).map f else pose.get? j := by
  unfold modifyBone
  split
  · rename_i tr htr
    by_cases hij : i = j
    · subst hij
      have hlt : i < pose.length := by
        rw [List.get?_eq_getElem?] at htr
        exact (List.getElem?_eq_some_iff.mp htr).1
      simp only [List.get?_eq_getElem?, List.getElem?_set_self hlt, if_true]
      rw [List.get?_eq_getElem?] at htr
      rw [htr]; rfl
    · simp only [List.get?_eq_getElem?, List.getElem?_set_ne hij, if_neg hij]
  · rename_i hnone
    by_cases hij : i = j
    · subst hij
      rw [if_pos rfl, hnone]; rfl
    · rw [if_neg hij]

theorem modifyBone_of_fixed (pose : List Transform) (i : Nat) (f : Transform → Transform)
    (hf : ∀ tr, f tr = tr) : modifyBone pose i f = pose := by
  apply List.ext_get?
  intro j
  rw [modifyBone_get?]
  split_ifs
  · cases pose.get? j with
    | none => rfl
    | some tr => simp [hf tr]
  · rfl

theorem Vector3_lerp_one (a b : Vector3) : Vector3.lerp 1 a b = b := by
  cases b; simp [Vector3.lerp]

theorem Vector3_lerp_zero (a b : Vector3) : Vector3.lerp 0 a b = a := by
  cases a; simp [Vector3.lerp]

theorem Quat_lerp_one (a b : Quat) : Quat.lerp 1 a b = b := by
  cases b; simp [Quat.lerp]

theorem Quat_lerp_zero (a b : Quat) : Quat.lerp 0 a b = a := by
  cases a; simp [Quat.lerp]

theorem SampleTrack_m_Translation (track : AnimationTrack) (sample : Nat) (fraction w : ℚ)
    (tr : Transform) :
    (SampleTrack track sample fraction w tr).m_Translation =
      if track.m_Positions.length > 0 then
        Vector3.lerp w tr.m_Translation (SampleVec3 sample fraction track.m_Positions)
      else tr.m_Translation := by
  unfold SampleTrack
  split_ifs <;> rfl

theorem SampleTrack_m_Rotation (track : AnimationTrack) (sample : Nat) (fraction w : ℚ)
    (tr : Transform) :
    (SampleTrack track sample fraction w tr).m_Rotation =
      if track.m_Rotations.length > 0 then
        Quat.lerp w tr.m_Rotation (SampleQuat sample fraction track.m_Rotations)
      else tr.m_Rotation := by
  unfold SampleTrack
  split_ifs <;> rfl

theorem SampleTrack_m_Scale (track : AnimationTrack) (sample : Nat) (fraction w : ℚ)
    (tr : Transform) :
    (SampleTrack track sample fraction w tr).m_Scale =
      if track.m_Scale.length > 0 then
        Vector3.lerp w tr.m_Scale (SampleVec3 sample fraction track.m_Scale)
      else tr.m_Scale := by
  unfold SampleTrack
  split_ifs <;> rfl

theorem SampleTrack_weight_zero (track : AnimationTrack) (sample : Nat) (fraction : ℚ)
    (tr : Transform) : SampleTrack track sample fraction 0 tr = tr := by
  have h1 := SampleTrack_m_Translation track sample fraction 0 tr
  have h2 := SampleTrack_m_Rotation track sample fraction 0 tr
  have h3 := SampleTrack_m_Scale track sample fraction 0 tr
  rw [Vector3_lerp_zero, ite_self] at h1 h3
  rw [Quat_lerp_zero, ite_self] at h2
  cases hs : SampleTrack track sample fraction 0 tr with
  | mk t r s =>
    rw [hs] at h1 h2 h3
    cases tr
    simp only at h1 h2 h3
    simp [h1, h2, h3]

theorem SampleTracks_length (tracks : List AnimationTrack) (sample : Nat) (fraction w : ℚ)
    (pose : List Transform) :
    (SampleTracks tracks sample fraction w pose).length = pose.length := by
  unfold SampleTracks
  induction tracks generalizing pose with
  | nil => rfl
  | cons t ts ih => rw [List.foldl_cons, ih, modifyBone_length]

theorem SampleTracks_weight_zero (tracks : List AnimationTrack) (sample : Nat) (fraction : ℚ)
    (pose : List Transform) : SampleTracks tracks sample fraction 0 pose = pose := by
  unfold SampleTracks
  induction tracks generalizing pose with
  | nil => rfl
  | cons t ts ih =>
    rw [List.foldl_cons, modifyBone_of_fixed _ _ _ (SampleTrack_weight_zero t sample fraction), ih]

theorem get?_map_eq_of_length {α : Type} (proj : Transform → α) (f g : Transform → Transform)
    {poseA poseB : List Transform} (hlen : poseA.length = poseB.length) (b : Nat)
    (h : ∀ x y, poseA.get? b = some x → poseB.get? b = some y → proj (f x) = proj (g y)) :
    ((poseA.get? b).map f).map proj = ((poseB.get? b).map g).map proj := by
  by_cases hb : b < poseA.length
  · have hb' : b < poseB.length := hlen ▸ hb
    have hA : poseA.get? b = some poseA[b] := by simp [List.getElem?_eq_getElem hb]
    have hB : poseB.get? b = some poseB[b] := by simp [List.getElem?_eq_getElem hb']
    rw [hA, hB]
    simp only [Option.map_some']
    rw [h _ _ hA hB]
  · have hb' : ¬ b < poseB.length := hlen ▸ hb
    have hA : poseA.get? b = none := by simp [List.getElem?_eq_none (not_lt.mp hb)]
    have hB : poseB.get? b = none := by simp [List.getElem?_eq_none (not_lt.mp hb')]
    rw [hA, hB]; rfl

/-- Two poses of equal length that agree on a component of bone `b`, or that are sampled by a
clip holding a track that overrides that component of bone `b`, agree on it after the track
loop. -/
theorem SampleTracks_agree {α : Type} (proj : Transform → α) (has : AnimationTrack → Prop)
    (sample : Nat) (fraction w : ℚ) (b : Nat)
    (hcongr : ∀ track tr tr', proj tr = proj tr' →
      proj (SampleTrack track sample fraction w tr)
        = proj (SampleTrack track sample fraction w tr'))
    (hover : ∀ track tr tr', has track →
      proj (SampleTrack track sample fraction w tr)
        = proj (SampleTrack track sample fraction w tr')) :
    ∀ (tracks : List AnimationTrack) (poseA poseB : List Transform),
      poseA.length = poseB.length →
      ((poseA.get? b).map proj = (poseB.get? b).map proj ∨
        ∃ track ∈ tracks, track.m_BoneIndex = b ∧ has track) →
      ((SampleTracks tracks sample fraction w poseA).get? b).map proj
        = ((SampleTracks tracks sample fraction w poseB).get? b).map proj := by
  intro tracks
  induction tracks with
  | nil =>
    intro poseA poseB _ h
    rcases h with h | ⟨track, hmem, _⟩
    · exact h
    · exact absurd hmem (List.not_mem_nil _)
  | cons t ts ih =>
    intro poseA poseB hlen h
    have hlen' : (modifyBone poseA t.m_BoneIndex (SampleTrack t sample fraction w)).length
        = (modifyBone poseB t.m_BoneIndex (SampleTrack t sample fraction w)).length := by
      rw [modifyBone_length, modifyBone_length, hlen]
    have hstep := ih (modifyBone poseA t.m_BoneIndex (SampleTrack t sample fraction w))
      (modifyBone poseB t.m_BoneIndex (SampleTrack t sample fraction w)) hlen'
    have hunf : ∀ pose, SampleTracks (t :: ts) sample fraction w pose
        = SampleTracks ts sample fraction w
            (modifyBone pose t.m_BoneIndex (SampleTrack t sample fraction w)) := fun _ => rfl
    rw [hunf, hunf]
    apply hstep
    rcases h with h | ⟨track, hmem, hbone, hhas⟩
    · left
      rw [modifyBone_get?, modifyBone_get?]
      split_ifs with hb
      · apply get?_map_eq_of_length proj _ _ hlen
        intro x y hx hy
        apply hcongr
        rw [hx, hy] at h
        simpa using h
      · exact h
    · rcases List.mem_cons.mp hmem with rfl | hts
      · left
        rw [modifyBone_get?, modifyBone_get?, if_pos hbone, if_pos hbone]
        apply get?_map_eq_of_length proj _ _ hlen
        intro x y _ _
        exact hover track x y hhas
      · right
        exact ⟨track, hts, hbone, hhas⟩

theorem UpdatePose_length (player : SpinePlayer) (pose : List Transform) (w : ℚ) :
    (UpdatePose player pose w).length = pose.length := by
  unfold UpdatePose
  split
  · rfl
  · exact SampleTracks_length _ _ _ _ _

theorem UpdatePose_weight_zero (player : SpinePlayer) (pose : List Transform) :
    UpdatePose player pose 0 = pose := by
  unfold UpdatePose
  split
  · rfl
  · exact SampleTracks_weight_zero _ _ _ _

theorem resetPose_length (pose : List Transform) : (resetPose pose).length = pose.length := by
  simp [resetPose]

/-- At blend weight 1 the translation sampled for a bone with a position track in the
player's clip does not depend on the pose sampled into. -/
theorem UpdatePose_one_translation {player : SpinePlayer} {animation : SpineAnimation}
    (hanim : player.m_Animation = some animation) {b : Nat} (htrack : animation.tracksPosition b)
    {poseA poseB : List Transform} (hlen : poseA.length = poseB.length) :
    ((UpdatePose player poseA 1).get? b).map (fun tr => tr.m_Translation)
      = ((UpdatePose player poseB 1).get? b).map (fun tr => tr.m_Translation) := by
  unfold UpdatePose
  simp only [hanim]
  apply SampleTracks_agree (fun tr => tr.m_Translation)
    (fun track => track.m_Positions.length > 0) _ _ 1 b _ _ _ _ _ hlen (Or.inr htrack)
  · intro track tr tr' h
    simp only [SampleTrack_m_Translation] at h ⊢
    rw [h]
  · intro track tr tr' h
    simp only [SampleTrack_m_Translation, if_pos h, Vector3_lerp_one]

/-- At blend weight 1 the rotation sampled for a bone with a rotation track in the player's
clip does not depend on the pose sampled into. -/
theorem UpdatePose_one_rotation {player : SpinePlayer} {animation : SpineAnimation}
    (hanim : player.m_Animation = some animation) {b : Nat} (htrack : animation.tracksRotation b)
    {poseA poseB : List Transform} (hlen : poseA.length = poseB.length) :
    ((UpdatePose player poseA 1).get? b).map (fun tr => tr.m_Rotation)
      = ((UpdatePose player poseB 1).get? b).map (fun tr => tr.m_Rotation) := by
  unfold UpdatePose
  simp only [hanim]
  apply SampleTracks_agree (fun tr => tr.m_Rotation)
    (fun track => track.m_Rotations.length > 0) _ _ 1 b _ _ _ _ _ hlen (Or.inr htrack)
  · intro track tr tr' h
    simp only [SampleTrack_m_Rotation] at h ⊢
    rw [h]
  · intro track tr tr' h
    simp only [SampleTrack_m_Rotation, if_pos h, Quat_lerp_one]

/-- At blend weight 1 the scale sampled for a bone with a scale track in the player's clip
does not depend on the pose sampled into. -/
theorem UpdatePose_one_scale {player : SpinePlayer} {animation : SpineAnimation}
    (hanim : player.m_Animation = some animation) {b : Nat} (htrack : animation.tracksScale b)
    {poseA poseB : List Transform} (hlen : poseA.length = poseB.length) :
    ((UpdatePose player poseA 1).get? b).map (fun tr => tr.m_Scale)
      = ((UpdatePose player poseB 1).get? b).map (fun tr => tr.m_Scale) := by
  unfold UpdatePose
  simp only [hanim]
  apply SampleTracks_agree (fun tr => tr.m_Scale)
    (fun track => track.m_Scale.length > 0) _ _ 1 b _ _ _ _ _ hlen (Or.inr htrack)
  · intro track tr tr' h
    simp only [SampleTrack_m_Scale] at h ⊢
    rw [h]
  · intro track tr tr' h
    simp only [SampleTrack_m_Scale, if_pos h, Vector3_lerp_one]

theorem WrapLoop_m_Animation (pingpong : Bool) (duration : ℚ) :
    ∀ (fuel : Nat) (player : SpinePlayer) (r : SpinePlayer × Nat),
      WrapLoop pingpong duration fuel player = some r → r.1.m_Animation = player.m_Animation := by
  intro fuel
  induction fuel with
  | zero =>
    intro player r h
    unfold WrapLoop at h
    split_ifs at h
    cases h; rfl
  | succ n ih =>
    intro player r h
    unfold WrapLoop at h
    split_ifs at h with hge hpp
    · simp only [Option.map_eq_some'] at h
      obtain ⟨r', hr', rfl⟩ := h
      have h3 := ih _ _ hr'
      exact h3
    · simp only [Option.map_eq_some'] at h
      obtain ⟨r', hr', rfl⟩ := h
      have h3 := ih _ _ hr'
      exact h3
    · cases h; rfl

theorem AdjustCursor_m_Animation {fuel : Nat} {player : SpinePlayer} {duration : ℚ}
    {r : SpinePlayer × Bool} (h : AdjustCursor fuel player duration = some r) :
    r.1.m_Animation = player.m_Animation := by
  unfold AdjustCursor at h
  split at h
  · split_ifs at h <;> cases h <;> rfl
  · split_ifs at h <;> cases h <;> rfl
  · split_ifs at h <;> cases h <;> rfl
  · simp only [Option.map_eq_some'] at h
    obtain ⟨r', hr', rfl⟩ := h
    exact WrapLoop_m_Animation _ _ _ _ _ hr'
  · simp only [Option.map_eq_some'] at h
    obtain ⟨r', hr', rfl⟩ := h
    exact WrapLoop_m_Animation _ _ _ _ _ hr'
  · simp only [Option.map_eq_some'] at h
    obtain ⟨r', hr', rfl⟩ := h
    exact WrapLoop_m_Animation _ _ _ _ _ hr'
  · cases h; rfl

theorem AdvanceCursor_m_Animation (player : SpinePlayer) (dt : ℚ) :
    (AdvanceCursor player dt).m_Animation = player.m_Animation := by
  unfold AdvanceCursor
  split_ifs <;> rfl

/-- Frame rule of `UpdatePlayer`: only the updated slot and the listener can change, and the
updated player keeps its clip. -/
theorem UpdatePlayer_frame {fuel : Nat} {c : SpineModelComponent} {pi : Fin 2} {dt : ℚ}
    {u : PlayerUpdate} (h : UpdatePlayer fuel c pi dt = some u) :
    ∃ p l, u.component = { c.setPlayer pi p with m_Listener := l } ∧
      p.m_Animation = (c.player pi).m_Animation := by
  have hself : c = { c.setPlayer pi (c.player pi) with m_Listener := c.m_Listener } := by
    rw [setPlayer_with_listener_self, setPlayer_player_self]
  cases hanim : (c.player pi).m_Animation with
  | none =>
    rw [UpdatePlayer_idle_aux fuel c pi dt (Or.inl hanim)] at h
    cases h
    exact ⟨c.player pi, c.m_Listener, hself, hanim⟩
  | some animation =>
    cases hplaying : (c.player pi).m_Playing with
    | false =>
      rw [UpdatePlayer_idle_aux fuel c pi dt (Or.inr hplaying)] at h
      cases h
      exact ⟨c.player pi, c.m_Listener, hself, hanim⟩
    | true =>
      cases hadj : AdjustCursor fuel (AdvanceCursor (c.player pi) dt)
          (GetCursorDuration (AdvanceCursor (c.player pi) dt) animation) with
      | none =>
        unfold UpdatePlayer at h
        simp only [hanim, hplaying, hadj] at h
        simp at h
      | some r =>
        obtain ⟨p2, completed⟩ := r
        obtain ⟨u', l, hu', -, hcomp⟩ := UpdatePlayer_of_adjust hanim hplaying hadj
        rw [hu'] at h
        cases h
        refine ⟨_, l, hcomp, ?_⟩
        have h2 := AdjustCursor_m_Animation hadj
        simp only at h2
        rw [AdvanceCursor_m_Animation, hanim] at h2
        split_ifs
        · exact h2
        · exact h2

/-! ## Crossfade -/

theorem UpdateBlend_of_lt {c : SpineModelComponent} {dt : ℚ} (hblend : c.m_Blending = true)
    (hlt : c.m_BlendTimer + dt < c.m_BlendDuration) :
    UpdateBlend c dt = { c with m_BlendTimer := c.m_BlendTimer + dt } := by
  unfold UpdateBlend
  simp only [hblend, if_true, ge_iff_le, not_le.mpr hlt, if_false]

theorem UpdateBlend_of_ge {c : SpineModelComponent} {dt : ℚ} (hblend : c.m_Blending = true)
    (hge : c.m_BlendTimer + dt ≥ c.m_BlendDuration) :
    UpdateBlend c dt =
      SpineModelComponent.setPlayer
        { c with m_BlendTimer := c.m_BlendTimer + dt, m_Blending := false }
        (otherPlayerIndex c.m_CurrentPlayer) { GetSecondaryPlayer c with m_Playing := false } := by
  unfold UpdateBlend
  simp only [hblend, if_true, ge_iff_le]
  rw [if_pos hge]
  rfl

theorem player_with_pose (c : SpineModelComponent) (pose : List Transform) (i : Fin 2) :
    SpineModelComponent.player { c with m_Pose := pose } i = c.player i := rfl

/-- One iteration of the blending loop: the player of slot `pi` is updated, keeping its clip,
and sampled into the pose with the incoming weight; the other slot, the ring index and the
crossfade state are untouched. -/
theorem AnimateBlendStep_spec {fuel : Nat} {dt fade_rate : ℚ} {current pi : Fin 2}
    {c : SpineModelComponent} {msgs : List Message} {w : ℚ}
    {s : SpineModelComponent × List Message × ℚ}
    (h : AnimateBlendStep fuel dt fade_rate current pi (c, msgs, w) = some s) :
    (s.1.player pi).m_Animation = (c.player pi).m_Animation ∧
      (∀ j, pi ≠ j → s.1.player j = c.player j) ∧
      s.1.m_Pose = UpdatePose (s.1.player pi) c.m_Pose w ∧
      s.1.m_CurrentPlayer = c.m_CurrentPlayer ∧ s.1.m_Blending = c.m_Blending ∧
      s.2.2 = (if current = pi then 1 - fade_rate else fade_rate) := by
  unfold AnimateBlendStep at h
  cases hu : UpdatePlayer fuel c pi dt with
  | none => simp [hu] at h
  | some u =>
    simp only [hu] at h
    obtain ⟨p, l, hcomp, hp⟩ := UpdatePlayer_frame hu
    have hpl : u.component.player pi = p := by
      rw [hcomp]
      exact (player_with_listener _ _ _).trans (player_setPlayer_same _ _ _)
    have hpo : ∀ j, pi ≠ j → u.component.player j = c.player j := by
      intro j hj
      rw [hcomp]
      exact (player_with_listener _ _ _).trans (player_setPlayer_of_ne _ _ hj)
    have hps : u.component.m_Pose = c.m_Pose := by
      rw [hcomp]
      exact setPlayer_m_Pose _ _ _
    have hcur : u.component.m_CurrentPlayer = c.m_CurrentPlayer := by
      rw [hcomp]
      exact setPlayer_m_CurrentPlayer _ _ _
    have hbl : u.component.m_Blending = c.m_Blending := by
      rw [hcomp]
      exact setPlayer_m_Blending _ _ _
    cases h
    exact ⟨by rw [← hp, ← hpl]; rfl, hpo, by rw [← hps]; rfl, hcur, hbl, rfl⟩

/-- The pose sampled by `Animate` while the crossfade is active, in terms of the two players
after their update: slot 0 is sampled with weight 1 into the reset pose, then slot 1 on top
with weight `1 - fade_rate` if slot 0 holds the current player and `fade_rate` otherwise. -/
theorem AnimateSample_blending {fuel : Nat} {c : SpineModelComponent} {dt : ℚ}
    {r : SpineModelComponent × List Message}
    (hen : c.m_Enabled = true) (hpose : c.m_Pose.isEmpty = false)
    (hblend : c.m_Blending = true) (hlt : c.m_BlendTimer + dt < c.m_BlendDuration)
    (h : AnimateSample fuel c dt = some r) :
    r.1.m_CurrentPlayer = c.m_CurrentPlayer ∧ r.1.m_Blending = true ∧
      (r.1.player 0).m_Animation = (c.player 0).m_Animation ∧
      (r.1.player 1).m_Animation = (c.player 1).m_Animation ∧
      r.1.m_Pose =
        UpdatePose (r.1.player 1) (UpdatePose (r.1.player 0) (resetPose c.m_Pose) 1)
          (if c.m_CurrentPlayer = 0 then 1 - (c.m_BlendTimer + dt) / c.m_BlendDuration
            else (c.m_BlendTimer + dt) / c.m_BlendDuration) := by
  have hskip : ¬ ((!c.m_Enabled) = true ∨ c.m_Pose.isEmpty = true) := by
    rw [hen, hpose]; simp
  have hub : UpdateBlend { c with m_Pose := resetPose c.m_Pose } dt
      = { c with m_Pose := resetPose c.m_Pose, m_BlendTimer := c.m_BlendTimer + dt } :=
    @UpdateBlend_of_lt { c with m_Pose := resetPose c.m_Pose } dt hblend hlt
  unfold AnimateSample at h
  rw [if_neg hskip, hub] at h
  unfold AnimatePlayers at h
  have hb2 : ({ c with m_Pose := resetPose c.m_Pose, m_BlendTimer := c.m_BlendTimer + dt }
      : SpineModelComponent).m_Blending = true := hblend
  rw [if_pos hb2] at h
  simp only at h
  cases h0 : AnimateBlendStep fuel dt ((c.m_BlendTimer + dt) / c.m_BlendDuration)
      c.m_CurrentPlayer 0
      ({ c with m_Pose := resetPose c.m_Pose, m_BlendTimer := c.m_BlendTimer + dt }, [], 1) with
  | none => simp [h0] at h
  | some s0 =>
    simp only [h0] at h
    obtain ⟨c0, msgs0, w0⟩ := s0
    cases h1 : AnimateBlendStep fuel dt ((c.m_BlendTimer + dt) / c.m_BlendDuration)
        c.m_CurrentPlayer 1 (c0, msgs0, w0) with
    | none => simp [h1] at h
    | some s1 =>
      simp only [h1] at h
      cases h
      obtain ⟨ha0, ho0, hp0, hcur0, hbl0, hw0⟩ := AnimateBlendStep_spec h0
      obtain ⟨ha1, ho1, hp1, hcur1, hbl1, -⟩ := AnimateBlendStep_spec h1
      have h10 : s1.1.player 0 = c0.player 0 := ho1 0 (by decide)
      have h01 : c0.player 1 = c.player 1 := ho0 1 (by decide)
      refine ⟨hcur1.trans hcur0, (hbl1.trans hbl0).trans hblend, ?_, ?_, ?_⟩
      · rw [h10]; exact ha0
      · rw [ha1, h01]
      · rw [hp1, hp0, h10]
        exact congrArg _ hw0

/-- The frame on which the crossfade timer reaches the blend duration: blending ends, the
secondary player is stopped, and the pose is the current player's sample with weight 1. -/
theorem AnimateSample_blend_end {fuel : Nat} {c : SpineModelComponent} {dt : ℚ}
    {r : SpineModelComponent × List Message}
    (hen : c.m_Enabled = true) (hpose : c.m_Pose.isEmpty = false)
    (hblend : c.m_Blending = true) (hge : c.m_BlendTimer + dt ≥ c.m_BlendDuration)
    (h : AnimateSample fuel c dt = some r) :
    r.1.m_CurrentPlayer = c.m_CurrentPlayer ∧ r.1.m_Blending = false ∧
      (GetPlayer r.1).m_Animation = (GetPlayer c).m_Animation ∧
      GetSecondaryPlayer r.1 = { GetSecondaryPlayer c with m_Playing := false } ∧
      r.1.m_Pose = UpdatePose (GetPlayer r.1) (resetPose c.m_Pose) 1 := by
  have hskip : ¬ ((!c.m_Enabled) = true ∨ c.m_Pose.isEmpty = true) := by
    rw [hen, hpose]; simp
  have hub := @UpdateBlend_of_ge { c with m_Pose := resetPose c.m_Pose } dt hblend hge
  unfold AnimateSample at h
  rw [if_neg hskip] at h
  generalize hc2 : UpdateBlend { c with m_Pose := resetPose c.m_Pose } dt = c2 at h hub
  have hcur2 : c2.m_CurrentPlayer = c.m_CurrentPlayer := by
    rw [hub]; exact setPlayer_m_CurrentPlayer _ _ _
  have hbl2 : c2.m_Blending = false := by
    rw [hub]; exact setPlayer_m_Blending _ _ _
  have hpose2 : c2.m_Pose = resetPose c.m_Pose := by
    rw [hub]; exact setPlayer_m_Pose _ _ _
  have hsec2 : c2.player (otherPlayerIndex c.m_CurrentPlayer)
      = { GetSecondaryPlayer c with m_Playing := false } := by
    rw [hub]; exact player_setPlayer_same _ _ _
  have hprim2 : c2.player c.m_CurrentPlayer = c.player c.m_CurrentPlayer := by
    rw [hub]; exact player_setPlayer_other' _ _ _
  unfold AnimatePlayers at h
  rw [hbl2] at h
  simp only [Bool.false_eq_true, if_false] at h
  cases hu : UpdatePlayer fuel c2 c2.m_CurrentPlayer dt with
  | none => simp [hu] at h
  | some u =>
    simp only [hu] at h
    cases h
    obtain ⟨p, l, hcomp, hp⟩ := UpdatePlayer_frame hu
    rw [hcur2] at hcomp hp
    have hpl : u.component.player c.m_CurrentPlayer = p := by
      rw [hcomp]
      exact (player_with_listener _ _ _).trans (player_setPlayer_same _ _ _)
    have hpo : u.component.player (otherPlayerIndex c.m_CurrentPlayer)
        = c2.player (otherPlayerIndex c.m_CurrentPlayer) := by
      rw [hcomp]
      exact (player_with_listener _ _ _).trans (player_setPlayer_other _ _ _)
    have hps : u.component.m_Pose = c2.m_Pose := by
      rw [hcomp]; exact setPlayer_m_Pose _ _ _
    have hcur : u.component.m_CurrentPlayer = c.m_CurrentPlayer := by
      rw [hcomp]; exact (setPlayer_m_CurrentPlayer _ _ _).trans hcur2
    have hbl : u.component.m_Blending = false := by
      rw [hcomp]; exact (setPlayer_m_Blending _ _ _).trans hbl2
    refine ⟨hcur, hbl, ?_, ?_, ?_⟩
    · show (u.component.player u.component.m_CurrentPlayer).m_Animation = _
      rw [hcur, hpl, hp, hprim2]; rfl
    · show u.component.player (otherPlayerIndex u.component.m_CurrentPlayer) = _
      rw [hcur, hpo, hsec2]
    · show UpdatePose (u.component.player c2.m_CurrentPlayer) u.component.m_Pose 1
        = UpdatePose (u.component.player u.component.m_CurrentPlayer) (resetPose c.m_Pose) 1
      rw [hcur, hcur2, hps, hpose2]

theorem WrapLoop_terminates (pingpong : Bool) {duration : ℚ} (hd : 0 < duration) :
    ∀ (k : Nat) (player : SpinePlayer), player.m_Cursor < k * duration →
      ∀ fuel, k ≤ fuel → ∃ r, WrapLoop pingpong duration fuel player = some r := by
  intro k
  induction k with
  | zero =>
    intro player hlt fuel _
    have : player.m_Cursor < duration := by
      simp only [Nat.cast_zero, zero_mul] at hlt
      linarith
    exact ⟨_, WrapLoop_of_lt pingpong duration fuel player this⟩
  | succ k ih =>
    intro player hlt fuel hfuel
    by_cases hge : player.m_Cursor ≥ duration
    · obtain ⟨n, rfl⟩ : ∃ n, fuel = n + 1 := ⟨fuel - 1, by omega⟩
      have hk : k ≤ n := by omega
      unfold WrapLoop
      rw [if_pos hge]
      have hlt' : player.m_Cursor - duration < k * duration := by
        push_cast at hlt
        linarith
      cases pingpong with
      | true =>
        obtain ⟨r, hr⟩ := ih
          { player with
            m_Cursor := player.m_Cursor - duration, m_Backwards := !player.m_Backwards }
          hlt' n hk
        simp only [if_true]
        exact ⟨_, by rw [hr]; rfl⟩
      | false =>
        obtain ⟨r, hr⟩ := ih { player with m_Cursor := player.m_Cursor - duration } hlt' n hk
        simp only [Bool.false_eq_true, if_false]
        exact ⟨_, by rw [hr]; rfl⟩
    · exact ⟨_, WrapLoop_of_lt pingpong duration fuel player (not_le.mp hge)⟩

theorem AdjustCursor_terminates (player : SpinePlayer) {duration : ℚ} (hd : 0 < duration) :
    ∃ n, ∀ fuel, n ≤ fuel → ∃ r, AdjustCursor fuel player duration = some r := by
  obtain ⟨k, hk⟩ := exists_nat_gt (player.m_Cursor / duration)
  have hlt : player.m_Cursor < k * duration := (div_lt_iff₀ hd).mp hk
  refine ⟨k, fun fuel hfuel => ?_⟩
  unfold AdjustCursor
  split
  · split_ifs <;> exact ⟨_, rfl⟩
  · split_ifs <;> exact ⟨_, rfl⟩
  · split_ifs <;> exact ⟨_, rfl⟩
  · obtain ⟨r, hr⟩ := WrapLoop_terminates false hd k player hlt fuel hfuel
    exact ⟨_, by rw [hr]; rfl⟩
  · obtain ⟨r, hr⟩ := WrapLoop_terminates false hd k player hlt fuel hfuel
    exact ⟨_, by rw [hr]; rfl⟩
  · obtain ⟨r, hr⟩ := WrapLoop_terminates true hd k player hlt fuel hfuel
    exact ⟨_, by rw [hr]; rfl⟩
  · exact ⟨_, rfl⟩

theorem GetCursorDuration_pos (player : SpinePlayer) {animation : SpineAnimation}
    (h : 0 < animation.m_Duration) : 0 < GetCursorDuration player animation := by
  unfold GetCursorDuration
  split_ifs
  · linarith
  · exact h

/-- With clips of positive duration `UpdatePlayer` returns once the fuel covers the wraps of
the frame; the bound depends on the player and `dt` only. -/
theorem UpdatePlayer_terminates (player : SpinePlayer) (dt : ℚ)
    (hpos : ∀ animation, player.m_Animation = some animation → 0 < animation.m_Duration) :
    ∃ n, ∀ fuel, n ≤ fuel → ∀ (c : SpineModelComponent) (pi : Fin 2), c.player pi = player →
      ∃ u, UpdatePlayer fuel c pi dt = some u := by
  cases hanim : player.m_Animation with
  | none =>
    refine ⟨0, fun fuel _ c pi hc => ⟨_, UpdatePlayer_idle_aux fuel c pi dt (Or.inl ?_)⟩⟩
    rw [hc]; exact hanim
  | some animation =>
    cases hplaying : player.m_Playing with
    | false =>
      refine ⟨0, fun fuel _ c pi hc => ⟨_, UpdatePlayer_idle_aux fuel c pi dt (Or.inr ?_)⟩⟩
      rw [hc]; exact hplaying
    | true =>
      obtain ⟨n, hn⟩ := AdjustCursor_terminates (AdvanceCursor player dt)
        (GetCursorDuration_pos (AdvanceCursor player dt) (hpos animation hanim))
      refine ⟨n, fun fuel hfuel c pi hc => ?_⟩
      obtain ⟨r, hr⟩ := hn fuel hfuel
      obtain ⟨p2, completed⟩ := r
      subst hc
      obtain ⟨u, _, hu, _⟩ := UpdatePlayer_of_adjust hanim hplaying hr
      exact ⟨u, hu⟩

theorem fin_two_cases (i : Fin 2) : i = 0 ∨ i = 1 := by
  fin_cases i <;> simp

theorem UpdateBlend_player_m_Animation (c : SpineModelComponent) (dt : ℚ) (j : Fin 2) :
    ((UpdateBlend c dt).player j).m_Animation = (c.player j).m_Animation := by
  cases hb : c.m_Blending with
  | false =>
    unfold UpdateBlend
    simp only [hb, Bool.false_eq_true, if_false]
  | true =>
    by_cases hge : c.m_BlendTimer + dt ≥ c.m_BlendDuration
    · rw [UpdateBlend_of_ge hb hge]
      by_cases hj : otherPlayerIndex c.m_CurrentPlayer = j
      · subst hj
        rw [player_setPlayer_same]
        rfl
      · rw [player_setPlayer_of_ne _ _ hj]
        rfl
    · rw [UpdateBlend_of_lt hb (not_le.mp hge)]
      rfl

/-- With clips of positive duration the player evaluation of `Animate` returns once the fuel
covers the wraps of the frame. -/
theorem AnimateSample_terminates (c : SpineModelComponent) (dt : ℚ)
    (hpos : ∀ pi animation, (c.player pi).m_Animation = some animation →
      0 < animation.m_Duration) :
    ∃ n, ∀ fuel, n ≤ fuel → ∃ r, AnimateSample fuel c dt = some r := by
  unfold AnimateSample
  split_ifs with hskip
  · exact ⟨0, fun _ _ => ⟨_, rfl⟩⟩
  · generalize hc2 : UpdateBlend { c with m_Pose := resetPose c.m_Pose } dt = c2
    have hpos2 : ∀ pi animation, (c2.player pi).m_Animation = some animation →
        0 < animation.m_Duration := by
      intro pi animation h
      rw [← hc2, UpdateBlend_player_m_Animation] at h
      exact hpos pi animation h
    obtain ⟨n0, hn0⟩ := UpdatePlayer_terminates (c2.player 0) dt (hpos2 0)
    obtain ⟨n1, hn1⟩ := UpdatePlayer_terminates (c2.player 1) dt (hpos2 1)
    refine ⟨max n0 n1, fun fuel hfuel => ?_⟩
    have hf0 : n0 ≤ fuel := le_trans (le_max_left _ _) hfuel
    have hf1 : n1 ≤ fuel := le_trans (le_max_right _ _) hfuel
    unfold AnimatePlayers
    split_ifs with hb
    · obtain ⟨u0, hu0⟩ := hn0 fuel hf0 c2 0 rfl
      have hs0 : ∃ s0, AnimateBlendStep fuel dt (c2.m_BlendTimer / c2.m_BlendDuration)
          c2.m_CurrentPlayer 0 (c2, [], 1) = some s0 := by
        unfold AnimateBlendStep
        simp only [hu0]
        exact ⟨_, rfl⟩
      obtain ⟨s0, hs0⟩ := hs0
      obtain ⟨c0, msgs0, w0⟩ := s0
      obtain ⟨-, ho0, -⟩ := AnimateBlendStep_spec hs0
      obtain ⟨u1, hu1⟩ := hn1 fuel hf1 c0 1 (ho0 1 (by decide))
      have hs1 : ∃ s1, AnimateBlendStep fuel dt (c2.m_BlendTimer / c2.m_BlendDuration)
          c2.m_CurrentPlayer 1 (c0, msgs0, w0) = some s1 := by
        unfold AnimateBlendStep
        simp only [hu1]
        exact ⟨_, rfl⟩
      obtain ⟨s1, hs1⟩ := hs1
      simp only [hs0, hs1]
      exact ⟨_, rfl⟩
    · rcases fin_two_cases c2.m_CurrentPlayer with hcur | hcur
      · obtain ⟨u, hu⟩ := hn0 fuel hf0 c2 c2.m_CurrentPlayer (by rw [hcur])
        simp only [hu]
        exact ⟨_, rfl⟩
      · obtain ⟨u, hu⟩ := hn1 fuel hf1 c2 c2.m_CurrentPlayer (by rw [hcur])
        simp only [hu]
        exact ⟨_, rfl⟩

theorem PostEventsInterval_eq_KeysPostedIn (sender receiver : URL) (animation : SpineAnimation)
    (start_cursor end_cursor duration : ℚ) (backwards : Bool) :
    PostEventsInterval sender receiver animation start_cursor end_cursor duration backwards
      = KeysPostedIn sender receiver (EventKeys animation) start_cursor end_cursor duration
          backwards := by
  unfold PostEventsInterval KeysPostedIn EventKeys
  induction animation.m_EventTracks with
  | nil => rfl
  | cons track tracks ih =>
    simp only [List.flatMap_cons, List.filter_append, List.map_append, ih]
    congr 1
    simp only [List.filter_map, List.map_map]
    rfl

theorem KeysPostedIn_sublist (sender receiver : URL) (animation : SpineAnimation)
    (start_cursor end_cursor duration : ℚ) (backwards : Bool) :
    List.Sublist
      (KeysPostedIn sender receiver (EventKeys animation) start_cursor end_cursor duration
        backwards)
      (AllEventMessages sender receiver animation) := by
  unfold KeysPostedIn AllEventMessages
  exact List.Sublist.map _ (List.filter_sublist _)

/-- Shape of `PostEvents`: the branch taken and the one or two intervals posted. -/
theorem PostEvents_eq (player : SpinePlayer) (sender listener : URL)
    (animation : SpineAnimation) (dt prev_cursor duration : ℚ) (completed : Bool) :
    PostEvents player sender listener animation dt prev_cursor duration completed =
      (let receiver := EventReceiver sender listener
       let keys := EventKeys animation
       let cursor := if completed then player.m_Cursor + dt else player.m_Cursor
       if prev_cursor > cursor then
         KeysPostedIn sender receiver keys prev_cursor duration duration
             (if player.m_Playback = Playback.PLAYBACK_LOOP_PINGPONG then !player.m_Backwards
               else player.m_Backwards) ++
           KeysPostedIn sender receiver keys 0 cursor duration player.m_Backwards
       else if player.m_Playback = Playback.PLAYBACK_ONCE_PINGPONG ∧
           cursor > duration * (1 / 2) then
         if prev_cursor < duration * (1 / 2) then
           KeysPostedIn sender receiver keys prev_cursor (duration * (1 / 2)) duration false ++
             KeysPostedIn sender receiver keys (duration * (1 / 2)) cursor duration true
         else KeysPostedIn sender receiver keys prev_cursor cursor duration true
       else KeysPostedIn sender receiver keys prev_cursor cursor duration player.m_Backwards) := by
  unfold PostEvents
  simp only [PostEventsInterval_eq_KeysPostedIn, EventReceiver]

/-- C20: in a frame where the cursor wrapped (`prev_cursor > cursor`, with `cursor` the end
cursor used by `PostEvents`), `PostEvents` posts exactly the keys whose reflected time lies
in `[prev_cursor, duration)` under the pre-wrap direction, followed by the keys whose
reflected time lies in `[0, cursor)` under the player's current direction; the pre-wrap
direction is the negation of the current backwards flag for loop-pingpong and the current
flag for every other mode. -/
theorem PostEvents_wrapped_frame (player : SpinePlayer) (sender listener : URL)
    (animation : SpineAnimation) (dt prev_cursor duration : ℚ) (completed : Bool)
    (pre_wrap : Bool)
    (hwrap : prev_cursor > (if completed then player.m_Cursor + dt else player.m_Cursor))
    (hpre : pre_wrap = (if player.m_Playback = Playback.PLAYBACK_LOOP_PINGPONG then
      !player.m_Backwards else player.m_Backwards)) :
    PostEvents player sender listener animation dt prev_cursor duration completed =
        KeysPostedIn sender (EventReceiver sender listener) (EventKeys animation)
            prev_cursor duration duration pre_wrap ++
          KeysPostedIn sender (EventReceiver sender listener) (EventKeys animation)
            0 (if completed then player.m_Cursor + dt else player.m_Cursor) duration
            player.m_Backwards ∧
      (player.m_Playback = Playback.PLAYBACK_LOOP_PINGPONG → pre_wrap = !player.m_Backwards) ∧
      (player.m_Playback ≠ Playback.PLAYBACK_LOOP_PINGPONG → pre_wrap = player.m_Backwards) := by
  refine ⟨?_, fun h => ?_, fun h => ?_⟩
  · rw [PostEvents_eq]
    simp only
    rw [if_pos hwrap, hpre]
  · rw [hpre, if_pos h]
  · rw [hpre, if_neg h]

theorem PostEvents_wrapped_frame_witness :
    PostEvents { loopPlayer with m_Cursor := 1 / 4, m_Playback := Playback.PLAYBACK_LOOP_PINGPONG }
        exampleSender ResetURL walkClip (1 / 2) (3 / 4) 1 false =
      KeysPostedIn exampleSender (EventReceiver exampleSender ResetURL) (EventKeys walkClip)
          (3 / 4) 1 1 true ++
        KeysPostedIn exampleSender (EventReceiver exampleSender ResetURL) (EventKeys walkClip)
          0 (1 / 4) 1 false :=
  (PostEvents_wrapped_frame
    { loopPlayer with m_Cursor := 1 / 4, m_Playback := Playback.PLAYBACK_LOOP_PINGPONG }
    exampleSender ResetURL walkClip (1 / 2) (3 / 4) 1 false true
    (by norm_num) rfl).1

/-- C11 (as stated, refuted): a once-pingpong frame that does not wrap (cursor from 0.5 to
1.5 of 2) over a clip with a single event key at time 0.8 posts that key twice, both in
`PostEvents` itself and in the `UpdatePlayer` call of that frame. -/
theorem PostEvents_once_pingpong_posts_key_twice :
    ¬ ((1 / 2 : ℚ) > returningPlayer.m_Cursor) ∧
      (EventKeys eventClip).length = 1 ∧
      PostEvents returningPlayer exampleSender ResetURL eventClip 1 (1 / 2)
          (GetCursorDuration returningPlayer eventClip) false =
        [PostEvent exampleSender { exampleSender with m_Fragment := 0 } 5
            { m_T := 4 / 5, m_Integer := 0, m_Float := 0, m_String := 0 },
          PostEvent exampleSender { exampleSender with m_Fragment := 0 } 5
            { m_T := 4 / 5, m_Integer := 0, m_Float := 0, m_String := 0 }] ∧
      (UpdatePlayer 0 returningComponent 0 1).map (fun u => u.posted) =
        some [PostEvent exampleSender { exampleSender with m_Fragment := 0 } 5
            { m_T := 4 / 5, m_Integer := 0, m_Float := 0, m_String := 0 },
          PostEvent exampleSender { exampleSender with m_Fragment := 0 } 5
            { m_T := 4 / 5, m_Integer := 0, m_Float := 0, m_String := 0 }] := by
  refine ⟨by norm_num [returningPlayer], rfl, ?_, ?_⟩
  · rw [PostEvents_eq]
    norm_num [returningPlayer, eventClip, GetCursorDuration, KeysPostedIn, EventKeys, KeyCursor,
      EventReceiver, ResetURL, IsSocketValid, exampleSender, PostEvent]
  · simp [UpdatePlayer, returningComponent, SpineModelComponent.player, returningPlayer,
      AdvanceCursor, GetCursorDuration, eventClip, AdjustCursor, UpdatePlayerEvents, GetSender,
      freshComponent, IsSocketValid, PostEvents, PostEventsInterval, KeyCursor, ResetURL,
      SpineModelComponent.setPlayer, exampleSender, PostEvent]
    norm_num

/-- C11 (amended): in a frame that did not wrap (`prev_cursor <= cursor`, with `cursor` the
end cursor used by `PostEvents`) and that is not a once-pingpong frame crossing the
half-duration point, `PostEvents` posts each event key at most once: the posted messages
form a sublist of the list holding one message per key. In every frame, wrapped or not and
for every mode, `PostEvents` posts at most two runs, each such a sublist, so each key is
posted at most twice. -/
theorem PostEvents_key_multiplicity (player : SpinePlayer) (sender listener : URL)
    (animation : SpineAnimation) (dt prev_cursor duration : ℚ) (completed : Bool) :
    (prev_cursor ≤ (if completed then player.m_Cursor + dt else player.m_Cursor) →
      ¬ (player.m_Playback = Playback.PLAYBACK_ONCE_PINGPONG ∧
          prev_cursor < duration * (1 / 2) ∧
          (if completed then player.m_Cursor + dt else player.m_Cursor) > duration * (1 / 2)) →
      List.Sublist (PostEvents player sender listener animation dt prev_cursor duration completed)
          (AllEventMessages sender (EventReceiver sender listener) animation) ∧
        ∀ m, (PostEvents player sender listener animation dt prev_cursor duration
            completed).count m
          ≤ (AllEventMessages sender (EventReceiver sender listener) animation).count m) ∧
      (∃ l1 l2,
        PostEvents player sender listener animation dt prev_cursor duration completed = l1 ++ l2 ∧
        List.Sublist l1 (AllEventMessages sender (EventReceiver sender listener) animation) ∧
        List.Sublist l2 (AllEventMessages sender (EventReceiver sender listener) animation)) ∧
      ∀ m, (PostEvents player sender listener animation dt prev_cursor duration
          completed).count m
        ≤ 2 * (AllEventMessages sender (EventReceiver sender listener) animation).count m := by
  have hsub := KeysPostedIn_sublist sender (EventReceiver sender listener) animation
  have htwo : ∃ l1 l2,
      PostEvents player sender listener animation dt prev_cursor duration completed = l1 ++ l2 ∧
      List.Sublist l1 (AllEventMessages sender (EventReceiver sender listener) animation) ∧
      List.Sublist l2 (AllEventMessages sender (EventReceiver sender listener) animation) := by
    rw [PostEvents_eq]
    simp only
    generalize (if completed then player.m_Cursor + dt else player.m_Cursor) = cursor
    generalize (if player.m_Playback = Playback.PLAYBACK_LOOP_PINGPONG then
      !player.m_Backwards else player.m_Backwards) = pre
    by_cases h1 : prev_cursor > cursor
    · rw [if_pos h1]
      exact ⟨_, _, rfl, hsub _ _ _ _, hsub _ _ _ _⟩
    · rw [if_neg h1]
      by_cases h2 : player.m_Playback = Playback.PLAYBACK_ONCE_PINGPONG ∧
          cursor > duration * (1 / 2)
      · rw [if_pos h2]
        by_cases h3 : prev_cursor < duration * (1 / 2)
        · rw [if_pos h3]
          exact ⟨_, _, rfl, hsub _ _ _ _, hsub _ _ _ _⟩
        · rw [if_neg h3]
          exact ⟨_, [], (List.append_nil _).symm, hsub _ _ _ _, List.nil_sublist _⟩
      · rw [if_neg h2]
        exact ⟨_, [], (List.append_nil _).symm, hsub _ _ _ _, List.nil_sublist _⟩
  refine ⟨fun hle hcross => ?_, htwo, fun m => ?_⟩
  · have hone : List.Sublist
        (PostEvents player sender listener animation dt prev_cursor duration completed)
        (AllEventMessages sender (EventReceiver sender listener) animation) := by
      rw [PostEvents_eq]
      simp only
      generalize (if completed then player.m_Cursor + dt else player.m_Cursor) = cursor
        at hle hcross ⊢
      rw [if_neg (not_lt.mpr hle)]
      by_cases h2 : player.m_Playback = Playback.PLAYBACK_ONCE_PINGPONG ∧
          cursor > duration * (1 / 2)
      · rw [if_pos h2]
        by_cases h3 : prev_cursor < duration * (1 / 2)
        · exact absurd ⟨h2.1, h3, h2.2⟩ hcross
        · rw [if_neg h3]
          exact hsub _ _ _ _
      · rw [if_neg h2]
        exact hsub _ _ _ _
    exact ⟨hone, fun m => hone.count_le m⟩
  · obtain ⟨l1, l2, heq, h1, h2⟩ := htwo
    rw [heq, List.count_append]
    have := h1.count_le m
    have := h2.count_le m
    omega

theorem PostEvents_key_multiplicity_witness :
    (UpdatePlayer 0 loopComponent 0 (3 / 4)).map (fun u => u.posted) =
        some (PostEvents { loopPlayer with m_Cursor := 3 / 4 } exampleSender ResetURL walkClip
          (3 / 4) 0 1 false) ∧
      PostEvents { loopPlayer with m_Cursor := 3 / 4 } exampleSender ResetURL walkClip
          (3 / 4) 0 1 false =
        [PostEvent exampleSender { exampleSender with m_Fragment := 0 } 5
          { m_T := 1 / 2, m_Integer := 0, m_Float := 0, m_String := 0 }] ∧
      AllEventMessages exampleSender (EventReceiver exampleSender ResetURL) walkClip =
        [PostEvent exampleSender { exampleSender with m_Fragment := 0 } 5
          { m_T := 1 / 2, m_Integer := 0, m_Float := 0, m_String := 0 }] ∧
      List.Sublist
        (PostEvents { loopPlayer with m_Cursor := 3 / 4 } exampleSender ResetURL walkClip
          (3 / 4) 0 1 false)
        (AllEventMessages exampleSender (EventReceiver exampleSender ResetURL) walkClip) ∧
      ∀ m, (PostEvents { loopPlayer with m_Cursor := 3 / 4 } exampleSender ResetURL walkClip
          (3 / 4) 0 1 false).count m
        ≤ (AllEventMessages exampleSender (EventReceiver exampleSender ResetURL) walkClip).count
          m := by
  refine ⟨?_, ?_, ?_,
    (PostEvents_key_multiplicity { loopPlayer with m_Cursor := 3 / 4 } exampleSender ResetURL
      walkClip (3 / 4) 0 1 false).1 (by norm_num [loopPlayer])
      (fun h => absurd h.1 (by simp [loopPlayer]))⟩
  · simp [UpdatePlayer, loopComponent, SpineModelComponent.player, loopPlayer, AdvanceCursor,
      GetCursorDuration, walkClip, AdjustCursor, WrapLoop, UpdatePlayerEvents, GetSender,
      freshComponent, IsSocketValid, ResetURL, exampleSender]
    norm_num
  · rw [PostEvents_eq]
    norm_num [loopPlayer, walkClip, KeysPostedIn, EventKeys, KeyCursor, EventReceiver, ResetURL,
      IsSocketValid, exampleSender, PostEvent]
  · norm_num [AllEventMessages, walkClip, EventKeys, EventReceiver, ResetURL, IsSocketValid,
      exampleSender, PostEvent]

theorem KeysPostedIn_messages (sender receiver : URL) (keys : List (dmhash_t × EventKey))
    (start_cursor end_cursor duration : ℚ) (backwards : Bool) :
    ∀ m ∈ KeysPostedIn sender receiver keys start_cursor end_cursor duration backwards,
      ∃ event_id key, m = Message.SpineEvent sender receiver event_id key := by
  intro m hm
  unfold KeysPostedIn at hm
  obtain ⟨k, -, rfl⟩ := List.mem_map.mp hm
  exact ⟨k.1, k.2, rfl⟩

/-- Every message posted by `PostEvents` is an event message from the sender to the event
receiver. -/
theorem PostEvents_messages (player : SpinePlayer) (sender listener : URL)
    (animation : SpineAnimation) (dt prev_cursor duration : ℚ) (completed : Bool) :
    ∀ m ∈ PostEvents player sender listener animation dt prev_cursor duration completed,
      ∃ event_id key,
        m = Message.SpineEvent sender (EventReceiver sender listener) event_id key := by
  obtain ⟨l1, l2, heq, h1, h2⟩ :
      ∃ l1 l2, PostEvents player sender listener animation dt prev_cursor duration completed
          = l1 ++ l2 ∧
        (∀ m ∈ l1, ∃ event_id key,
          m = Message.SpineEvent sender (EventReceiver sender listener) event_id key) ∧
        (∀ m ∈ l2, ∃ event_id key,
          m = Message.SpineEvent sender (EventReceiver sender listener) event_id key) := by
    have hk := KeysPostedIn_messages sender (EventReceiver sender listener) (EventKeys animation)
    have hnil : ∀ m ∈ ([] : List Message), ∃ event_id key,
        m = Message.SpineEvent sender (EventReceiver sender listener) event_id key :=
      fun m hm => absurd hm (List.not_mem_nil m)
    rw [PostEvents_eq]
    simp only
    generalize (if completed then player.m_Cursor + dt else player.m_Cursor) = cursor
    generalize (if player.m_Playback = Playback.PLAYBACK_LOOP_PINGPONG then
      !player.m_Backwards else player.m_Backwards) = pre
    by_cases h1 : prev_cursor > cursor
    · rw [if_pos h1]
      exact ⟨_, _, rfl, hk _ _ _ _, hk _ _ _ _⟩
    · rw [if_neg h1]
      by_cases h2 : player.m_Playback = Playback.PLAYBACK_ONCE_PINGPONG ∧
          cursor > duration * (1 / 2)
      · rw [if_pos h2]
        by_cases h3 : prev_cursor < duration * (1 / 2)
        · rw [if_pos h3]
          exact ⟨_, _, rfl, hk _ _ _ _, hk _ _ _ _⟩
        · rw [if_neg h3]
          exact ⟨_, [], (List.append_nil _).symm, hk _ _ _ _, hnil⟩
      · rw [if_neg h2]
        exact ⟨_, [], (List.append_nil _).symm, hk _ _ _ _, hnil⟩
  intro m hm
  rw [heq] at hm
  rcases List.mem_append.mp hm with h | h
  · exact h1 m h
  · exact h2 m h

/-- The events posted by one call of `UpdatePlayer` are event messages from the component's
own address to the event receiver of the listener with `m_Function` cleared. -/
theorem UpdatePlayerEvents_messages (c : SpineModelComponent) (player : SpinePlayer)
    (animation : SpineAnimation) (dt prev_cursor duration : ℚ) (completed : Bool) :
    ∀ m ∈ UpdatePlayerEvents c player animation dt prev_cursor duration completed,
      ∃ sender event_id key, GetSender c = some sender ∧
        m = Message.SpineEvent sender
          (EventReceiver sender { c.m_Listener with m_Function := 0 }) event_id key := by
  intro m hm
  unfold UpdatePlayerEvents at hm
  split_ifs at hm
  · split at hm
    · rename_i sender hs
      obtain ⟨event_id, key, rfl⟩ := PostEvents_messages _ _ _ _ _ _ _ _ m hm
      exact ⟨sender, event_id, key, hs, rfl⟩
    · exact absurd hm (List.not_mem_nil m)
  · exact absurd hm (List.not_mem_nil m)

theorem UpdatePlayerEvents_filter_isDone (c : SpineModelComponent) (player : SpinePlayer)
    (animation : SpineAnimation) (dt prev_cursor duration : ℚ) (completed : Bool) :
    (UpdatePlayerEvents c player animation dt prev_cursor duration completed).filter
      Message.isDone = [] := by
  rw [List.filter_eq_nil_iff]
  intro m hm
  obtain ⟨sender, event_id, key, -, rfl⟩ := UpdatePlayerEvents_messages _ _ _ _ _ _ _ m hm
  simp [Message.isDone]

/-- The exact result of `UpdatePlayer` on a playing player with a clip, in terms of the outcome
of the cursor adjustment. -/
theorem UpdatePlayer_eq_of_adjust {fuel : Nat} {c : SpineModelComponent} {pi : Fin 2} {dt : ℚ}
    {animation : SpineAnimation} {player2 : SpinePlayer} {completed : Bool}
    (hanim : (c.player pi).m_Animation = some animation)
    (hplaying : (c.player pi).m_Playing = true)
    (hadj : AdjustCursor fuel (AdvanceCursor (c.player pi) dt)
      (GetCursorDuration (AdvanceCursor (c.player pi) dt) animation) = some (player2, completed)) :
    UpdatePlayer fuel c pi dt =
      some (if completed = true then
        CompletePlayer c pi player2
          (UpdatePlayerEvents c player2 animation dt (c.player pi).m_Cursor
            (GetCursorDuration (AdvanceCursor (c.player pi) dt) animation) completed)
      else
        { component := c.setPlayer pi player2
          posted := UpdatePlayerEvents c player2 animation dt (c.player pi).m_Cursor
            (GetCursorDuration (AdvanceCursor (c.player pi) dt) animation) completed
          completed := false }) := by
  unfold UpdatePlayer
  simp only [hanim, hplaying, Bool.not_true, Bool.false_eq_true, if_false, hadj]
  split_ifs <;> rfl

/-- The cursor adjustment of a once-mode frame that reaches the effective duration. -/
theorem AdjustCursor_once_completes {fuel : Nat} {player : SpinePlayer} {dt : ℚ}
    {animation : SpineAnimation}
    (hmode : player.m_Playback = Playback.PLAYBACK_ONCE_FORWARD ∨
      player.m_Playback = Playback.PLAYBACK_ONCE_BACKWARD ∨
      player.m_Playback = Playback.PLAYBACK_ONCE_PINGPONG)
    (hreach : player.m_Cursor + dt ≥ GetCursorDuration player animation) :
    AdjustCursor fuel (AdvanceCursor player dt)
        (GetCursorDuration (AdvanceCursor player dt) animation)
      = some ({ player with m_Cursor := GetCursorDuration player animation }, true) := by
  have hne : player.m_Playback ≠ Playback.PLAYBACK_NONE := by
    rcases hmode with h | h | h <;> rw [h] <;> decide
  have hadv := AdvanceCursor_of_ne_none player dt hne
  have hdur : GetCursorDuration (AdvanceCursor player dt) animation
      = GetCursorDuration player animation := by rw [hadv]; rfl
  rw [hdur, AdjustCursor_once fuel (AdvanceCursor player dt) _ (by rw [hadv]; exact hmode)]
  have hcur : (AdvanceCursor player dt).m_Cursor = player.m_Cursor + dt := by rw [hadv]
  rw [hcur, if_pos hreach, hadv]

/-- C12: when a once-mode player completes during `UpdatePlayer` while a listener is
registered and the sender is resolvable, then for the current (primary) player exactly one
completion message is posted, as the last message of the call, from the sender to the
listener and carrying the player's animation id and playback mode, and the listener is
reset; for the secondary player no completion message is posted and the listener is left
unchanged. -/
theorem UpdatePlayer_completion_message (fuel : Nat) (c : SpineModelComponent) (pi : Fin 2)
    (dt : ℚ) (animation : SpineAnimation) (sender : URL)
    (hanim : (c.player pi).m_Animation = some animation)
    (hplaying : (c.player pi).m_Playing = true)
    (hmode : (c.player pi).m_Playback = Playback.PLAYBACK_ONCE_FORWARD ∨
      (c.player pi).m_Playback = Playback.PLAYBACK_ONCE_BACKWARD ∨
      (c.player pi).m_Playback = Playback.PLAYBACK_ONCE_PINGPONG)
    (hreach : (c.player pi).m_Cursor + dt ≥ GetCursorDuration (c.player pi) animation)
    (hlistener : IsSocketValid c.m_Listener.m_Socket = true)
    (hsender : GetSender c = some sender) :
    ∃ u, UpdatePlayer fuel c pi dt = some u ∧ u.completed = true ∧
      (pi = c.m_CurrentPlayer →
        u.posted.filter Message.isDone =
            [Message.SpineAnimationDone sender c.m_Listener (c.player pi).m_AnimationId
              (c.player pi).m_Playback] ∧
          u.posted.getLast? =
            some (Message.SpineAnimationDone sender c.m_Listener (c.player pi).m_AnimationId
              (c.player pi).m_Playback) ∧
          u.component.m_Listener = ResetURL) ∧
      (pi ≠ c.m_CurrentPlayer →
        u.posted.filter Message.isDone = [] ∧ u.component.m_Listener = c.m_Listener) := by
  have hadj := @AdjustCursor_once_completes fuel (c.player pi) dt animation hmode hreach
  refine ⟨_, UpdatePlayer_eq_of_adjust hanim hplaying hadj, ?_, fun hcur => ?_, fun hcur => ?_⟩
  · rw [if_pos rfl]; exact CompletePlayer_completed _ _ _ _
  · rw [if_pos rfl]
    unfold CompletePlayer
    simp only
    rw [if_pos ⟨hcur, hlistener⟩, hsender]
    refine ⟨?_, ?_, rfl⟩
    · simp only [List.filter_append, UpdatePlayerEvents_filter_isDone, List.nil_append]
      rfl
    · simp
  · rw [if_pos rfl]
    unfold CompletePlayer
    simp only
    rw [if_neg (fun h => hcur h.1)]
    exact ⟨UpdatePlayerEvents_filter_isDone _ _ _ _ _ _ _, setPlayer_m_Listener _ _ _⟩

theorem UpdatePlayer_completion_message_witness :
    ∃ u, UpdatePlayer 0 listenedComponent 0 1 = some u ∧ u.completed = true ∧
      u.posted.filter Message.isDone =
        [Message.SpineAnimationDone exampleSender exampleListener 7
          Playback.PLAYBACK_ONCE_FORWARD] ∧
      u.component.m_Listener = ResetURL := by
  obtain ⟨u, hu, hc, hprim, -⟩ :=
    UpdatePlayer_completion_message 0 listenedComponent 0 1 walkClip exampleSender rfl rfl
      (Or.inl rfl) (by
        rw [show GetCursorDuration (listenedComponent.player 0) walkClip = 1 from rfl,
          show (listenedComponent.player 0).m_Cursor = 0 from rfl]
        norm_num) rfl rfl
  obtain ⟨h1, -, h3⟩ := hprim rfl
  exact ⟨u, hu, hc, h1, h3⟩

/-- C13 (as stated, refuted): the primary player of `onceComponent`, which has no listener
registered while its sender is resolvable, completes its once-forward clip in a frame of
one second, and no completion message is posted. -/
theorem UpdatePlayer_completion_not_broadcast :
    onceComponent.m_CurrentPlayer = 0 ∧
      IsSocketValid onceComponent.m_Listener.m_Socket = false ∧
      GetSender onceComponent = some exampleSender ∧
      (UpdatePlayer 0 onceComponent 0 1).map
          (fun u => (u.completed, u.posted.filter Message.isDone)) = some (true, []) := by
  refine ⟨rfl, rfl, rfl, ?_⟩
  have hadj := @AdjustCursor_once_completes 0 (onceComponent.player 0) 1 walkClip (Or.inl rfl)
    (by
      rw [show GetCursorDuration (onceComponent.player 0) walkClip = 1 from rfl,
        show (onceComponent.player 0).m_Cursor = 0 from rfl]
      norm_num)
  have hanim : (onceComponent.player 0).m_Animation = some walkClip := rfl
  rw [UpdatePlayer_eq_of_adjust hanim rfl hadj, if_pos rfl]
  unfold CompletePlayer
  simp only
  rw [if_neg (by decide)]
  simp only [Option.map_some', UpdatePlayerEvents_filter_isDone]

/-- C13 (amended): when a once-mode player, primary or not, completes during `UpdatePlayer`
and no listener is registered (the listener socket is unset), no completion message is
posted and the listener is left as it is; the only messages of the call are the event
messages of the frame, which are broadcast from the component to its siblings (sender
address with fragment 0). -/
theorem UpdatePlayer_completion_without_listener (fuel : Nat) (c : SpineModelComponent)
    (pi : Fin 2) (dt : ℚ) (animation : SpineAnimation)
    (hanim : (c.player pi).m_Animation = some animation)
    (hplaying : (c.player pi).m_Playing = true)
    (hmode : (c.player pi).m_Playback = Playback.PLAYBACK_ONCE_FORWARD ∨
      (c.player pi).m_Playback = Playback.PLAYBACK_ONCE_BACKWARD ∨
      (c.player pi).m_Playback = Playback.PLAYBACK_ONCE_PINGPONG)
    (hreach : (c.player pi).m_Cursor + dt ≥ GetCursorDuration (c.player pi) animation)
    (hlistener : IsSocketValid c.m_Listener.m_Socket = false) :
    ∃ u, UpdatePlayer fuel c pi dt = some u ∧ u.completed = true ∧
      u.posted.filter Message.isDone = [] ∧
      u.component.m_Listener = c.m_Listener ∧
      ∀ m ∈ u.posted, ∃ sender event_id key, GetSender c = some sender ∧
        m = Message.SpineEvent sender { sender with m_Fragment := 0 } event_id key := by
  have hadj := @AdjustCursor_once_completes fuel (c.player pi) dt animation hmode hreach
  have hnot : ¬ (pi = c.m_CurrentPlayer ∧ IsSocketValid c.m_Listener.m_Socket = true) := by
    rw [hlistener]; simp
  refine ⟨_, UpdatePlayer_eq_of_adjust hanim hplaying hadj, ?_, ?_, ?_, ?_⟩
  · rw [if_pos rfl]; exact CompletePlayer_completed _ _ _ _
  · rw [if_pos rfl]
    unfold CompletePlayer
    simp only
    rw [if_neg hnot]
    exact UpdatePlayerEvents_filter_isDone _ _ _ _ _ _ _
  · rw [if_pos rfl]
    unfold CompletePlayer
    simp only
    rw [if_neg hnot]
    exact setPlayer_m_Listener _ _ _
  · rw [if_pos rfl]
    unfold CompletePlayer
    simp only
    rw [if_neg hnot]
    intro m hm
    obtain ⟨sender, event_id, key, hs, rfl⟩ := UpdatePlayerEvents_messages _ _ _ _ _ _ _ m hm
    refine ⟨sender, event_id, key, hs, ?_⟩
    have hrecv : EventReceiver sender { c.m_Listener with m_Function := 0 }
        = { sender with m_Fragment := 0 } := by
      unfold EventReceiver
      simp only [hlistener, Bool.false_eq_true, if_false]
    rw [hrecv]

theorem UpdatePlayer_completion_without_listener_witness :
    ∃ u, UpdatePlayer 0 onceComponent 0 (3 / 2) = some u ∧ u.completed = true ∧
      u.posted.filter Message.isDone = [] ∧
      u.component.m_Listener = onceComponent.m_Listener ∧
      ∀ m ∈ u.posted, ∃ sender event_id key, GetSender onceComponent = some sender ∧
        m = Message.SpineEvent sender { sender with m_Fragment := 0 } event_id key :=
  UpdatePlayer_completion_without_listener 0 onceComponent 0 (3 / 2) walkClip rfl rfl
    (Or.inl rfl) (by
      rw [show GetCursorDuration (onceComponent.player 0) walkClip = 1 from rfl,
        show (onceComponent.player 0).m_Cursor = 0 from rfl]
      norm_num) rfl

theorem Vector3_lerp_one_sub (t : ℚ) (a b : Vector3) :
    Vector3.lerp (1 - t) a b = Vector3.lerp t b a := by
  simp only [Vector3.lerp, Vector3.mk.injEq]
  refine ⟨?_, ?_, ?_⟩ <;> ring

theorem Quat_lerp_one_sub (t : ℚ) (a b : Quat) :
    Quat.lerp (1 - t) a b = Quat.lerp t b a := by
  simp only [Quat.lerp, Quat.mk.injEq]
  refine ⟨?_, ?_, ?_, ?_⟩ <;> ring

/-- A component of bone `b` that no track of the list writes is left as it was by the track
loop. -/
theorem SampleTracks_untouched {α : Type} (proj : Transform → α) (has : AnimationTrack → Prop)
    (sample : Nat) (fraction w : ℚ) (b : Nat)
    (hnot : ∀ track tr, ¬ has track →
      proj (SampleTrack track sample fraction w tr) = proj tr) :
    ∀ (tracks : List AnimationTrack) (pose : List Transform),
      (∀ track ∈ tracks, ¬ (track.m_BoneIndex = b ∧ has track)) →
      ((SampleTracks tracks sample fraction w pose).get? b).map proj
        = (pose.get? b).map proj := by
  intro tracks
  induction tracks with
  | nil => intro pose _; rfl
  | cons t ts ih =>
    intro pose h
    have hunf : SampleTracks (t :: ts) sample fraction w pose
        = SampleTracks ts sample fraction w
            (modifyBone pose t.m_BoneIndex (SampleTrack t sample fraction w)) := rfl
    rw [hunf, ih _ (fun track hm => h track (List.mem_cons_of_mem _ hm)), modifyBone_get?]
    split_ifs with hb
    · have hno : ¬ has t := fun hh => h t (List.mem_cons_self _ _) ⟨hb, hh⟩
      cases pose.get? b with
      | none => rfl
      | some tr => simp only [Option.map_some', hnot t tr hno]
    · rfl

/-- When exactly one track of the list writes a component of bone `b`, the track loop
leaves that component as this track writes it from the incoming value. -/
theorem SampleTracks_single {α : Type} (proj : Transform → α) (has : AnimationTrack → Prop)
    [DecidablePred has] (blend : ℚ → α → AnimationTrack → α) (sample : Nat) (fraction : ℚ)
    (b : Nat)
    (hhas : ∀ w track tr, has track →
      proj (SampleTrack track sample fraction w tr) = blend w (proj tr) track)
    (hnot : ∀ w track tr, ¬ has track →
      proj (SampleTrack track sample fraction w tr) = proj tr) :
    ∀ (tracks : List AnimationTrack),
      (tracks.filter fun track => decide (track.m_BoneIndex = b ∧ has track)).length = 1 →
      ∃ t0 ∈ tracks, t0.m_BoneIndex = b ∧ has t0 ∧ ∀ (w : ℚ) (pose : List Transform),
        ((SampleTracks tracks sample fraction w pose).get? b).map proj
          = (pose.get? b).map fun tr => blend w (proj tr) t0 := by
  intro tracks
  induction tracks with
  | nil => intro h; simp at h
  | cons t ts ih =>
    intro h
    have hunf : ∀ w pose, SampleTracks (t :: ts) sample fraction w pose
        = SampleTracks ts sample fraction w
            (modifyBone pose t.m_BoneIndex (SampleTrack t sample fraction w)) :=
      fun _ _ => rfl
    by_cases ht : t.m_BoneIndex = b ∧ has t
    · have hts : (ts.filter fun track => decide (track.m_BoneIndex = b ∧ has track)).length
          = 0 := by
        rw [List.filter_cons_of_pos (by simpa using ht)] at h
        simpa using h
      have hnone : ∀ track ∈ ts, ¬ (track.m_BoneIndex = b ∧ has track) := by
        intro track hm hh
        have hmem : track ∈ ts.filter fun track => decide (track.m_BoneIndex = b ∧ has track) :=
          List.mem_filter.mpr ⟨hm, by simpa using hh⟩
        rw [List.length_eq_zero.mp hts] at hmem
        exact absurd hmem (List.not_mem_nil _)
      refine ⟨t, List.mem_cons_self _ _, ht.1, ht.2, fun w pose => ?_⟩
      rw [hunf, SampleTracks_untouched proj has sample fraction w b (hnot w) ts _ hnone,
        modifyBone_get?, if_pos ht.1]
      cases pose.get? b with
      | none => rfl
      | some tr => simp only [Option.map_some', hhas w t tr ht.2]
    · have hts : (ts.filter fun track => decide (track.m_BoneIndex = b ∧ has track)).length
          = 1 := by
        rw [List.filter_cons_of_neg (by simpa using ht)] at h
        exact h
      obtain ⟨t0, hm, hb0, hh0, hall⟩ := ih hts
      refine ⟨t0, List.mem_cons_of_mem _ hm, hb0, hh0, fun w pose => ?_⟩
      rw [hunf, hall, modifyBone_get?]
      split_ifs with hb
      · have hno : ¬ has t := fun hh => ht ⟨hb, hh⟩
        cases pose.get? b with
        | none => rfl
        | some tr => simp only [Option.map_some', hnot w t tr hno]
      · rfl

theorem SampleTracks_blend_translation (tracks : List AnimationTrack) (sample : Nat) (fraction : ℚ)
    (b : Nat)
    (hone : (tracks.filter fun track =>
      decide (track.m_BoneIndex = b ∧ track.m_Positions.length > 0)).length = 1)
    (w : ℚ) (pose ref : List Transform) (x0 x1 : Vector3)
    (h0 : (pose.get? b).map (fun tr => tr.m_Translation) = some x0)
    (h1 : ((SampleTracks tracks sample fraction 1 ref).get? b).map (fun tr => tr.m_Translation)
      = some x1) :
    ((SampleTracks tracks sample fraction w pose).get? b).map (fun tr => tr.m_Translation)
      = some (Vector3.lerp w x0 x1) := by
  obtain ⟨t0, -, -, -, hall⟩ := SampleTracks_single (fun tr => tr.m_Translation)
    (fun track => track.m_Positions.length > 0)
    (fun w x track => Vector3.lerp w x (SampleVec3 sample fraction track.m_Positions))
    sample fraction b
    (fun w track tr h => by simp only [SampleTrack_m_Translation, if_pos h])
    (fun w track tr h => by simp only [SampleTrack_m_Translation, if_neg h])
    tracks hone
  rw [hall] at h1 ⊢
  cases hp : pose.get? b with
  | none => rw [hp] at h0; simp at h0
  | some tr =>
    rw [hp] at h0
    cases hr : ref.get? b with
    | none => rw [hr] at h1; simp at h1
    | some tr' =>
      rw [hr] at h1
      simp only [Option.map_some', Option.some.injEq, Vector3_lerp_one] at h0 h1 ⊢
      rw [h0, h1]

/-- With exactly one position track for bone `b`, sampling with weight `w` interpolates the
translation of bone `b` from the incoming value to the clip's own sample. -/
theorem UpdatePose_blend_translation {player : SpinePlayer} {animation : SpineAnimation}
    (hanim : player.m_Animation = some animation) {b : Nat}
    (hone : animation.positionTrackCount b = 1) (w : ℚ) (pose ref : List Transform)
    (x0 x1 : Vector3)
    (h0 : (pose.get? b).map (fun tr => tr.m_Translation) = some x0)
    (h1 : ((UpdatePose player ref 1).get? b).map (fun tr => tr.m_Translation) = some x1) :
    ((UpdatePose player pose w).get? b).map (fun tr => tr.m_Translation)
      = some (Vector3.lerp w x0 x1) := by
  unfold UpdatePose at h1 ⊢
  simp only [hanim] at h1 ⊢
  exact SampleTracks_blend_translation _ _ _ b hone w pose ref x0 x1 h0 h1

theorem SampleTracks_blend_rotation (tracks : List AnimationTrack) (sample : Nat) (fraction : ℚ)
    (b : Nat)
    (hone : (tracks.filter fun track =>
      decide (track.m_BoneIndex = b ∧ track.m_Rotations.length > 0)).length = 1)
    (w : ℚ) (pose ref : List Transform) (x0 x1 : Quat)
    (h0 : (pose.get? b).map (fun tr => tr.m_Rotation) = some x0)
    (h1 : ((SampleTracks tracks sample fraction 1 ref).get? b).map (fun tr => tr.m_Rotation)
      = some x1) :
    ((SampleTracks tracks sample fraction w pose).get? b).map (fun tr => tr.m_Rotation)
      = some (Quat.lerp w x0 x1) := by
  obtain ⟨t0, -, -, -, hall⟩ := SampleTracks_single (fun tr => tr.m_Rotation)
    (fun track => track.m_Rotations.length > 0)
    (fun w x track => Quat.lerp w x (SampleQuat sample fraction track.m_Rotations))
    sample fraction b
    (fun w track tr h => by simp only [SampleTrack_m_Rotation, if_pos h])
    (fun w track tr h => by simp only [SampleTrack_m_Rotation, if_neg h])
    tracks hone
  rw [hall] at h1 ⊢
  cases hp : pose.get? b with
  | none => rw [hp] at h0; simp at h0
  | some tr =>
    rw [hp] at h0
    cases hr : ref.get? b with
    | none => rw [hr] at h1; simp at h1
    | some tr' =>
      rw [hr] at h1
      simp only [Option.map_some', Option.some.injEq, Quat_lerp_one] at h0 h1 ⊢
      rw [h0, h1]

/-- With exactly one rotation track for bone `b`, sampling with weight `w` interpolates the
rotation of bone `b` from the incoming value to the clip's own sample. -/
theorem UpdatePose_blend_rotation {player : SpinePlayer} {animation : SpineAnimation}
    (hanim : player.m_Animation = some animation) {b : Nat}
    (hone : animation.rotationTrackCount b = 1) (w : ℚ) (pose ref : List Transform)
    (x0 x1 : Quat)
    (h0 : (pose.get? b).map (fun tr => tr.m_Rotation) = some x0)
    (h1 : ((UpdatePose player ref 1).get? b).map (fun tr => tr.m_Rotation) = some x1) :
    ((UpdatePose player pose w).get? b).map (fun tr => tr.m_Rotation)
      = some (Quat.lerp w x0 x1) := by
  unfold UpdatePose at h1 ⊢
  simp only [hanim] at h1 ⊢
  exact SampleTracks_blend_rotation _ _ _ b hone w pose ref x0 x1 h0 h1

theorem SampleTracks_blend_scale (tracks : List AnimationTrack) (sample : Nat) (fraction : ℚ)
    (b : Nat)
    (hone : (tracks.filter fun track =>
      decide (track.m_BoneIndex = b ∧ track.m_Scale.length > 0)).length = 1)
    (w : ℚ) (pose ref : List Transform) (x0 x1 : Vector3)
    (h0 : (pose.get? b).map (fun tr => tr.m_Scale) = some x0)
    (h1 : ((SampleTracks tracks sample fraction 1 ref).get? b).map (fun tr => tr.m_Scale)
      = some x1) :
    ((SampleTracks tracks sample fraction w pose).get? b).map (fun tr => tr.m_Scale)
      = some (Vector3.lerp w x0 x1) := by
  obtain ⟨t0, -, -, -, hall⟩ := SampleTracks_single (fun tr => tr.m_Scale)
    (fun track => track.m_Scale.length > 0)
    (fun w x track => Vector3.lerp w x (SampleVec3 sample fraction track.m_Scale))
    sample fraction b
    (fun w track tr h => by simp only [SampleTrack_m_Scale, if_pos h])
    (fun w track tr h => by simp only [SampleTrack_m_Scale, if_neg h])
    tracks hone
  rw [hall] at h1 ⊢
  cases hp : pose.get? b with
  | none => rw [hp] at h0; simp at h0
  | some tr =>
    rw [hp] at h0
    cases hr : ref.get? b with
    | none => rw [hr] at h1; simp at h1
    | some tr' =>
      rw [hr] at h1
      simp only [Option.map_some', Option.some.injEq, Vector3_lerp_one] at h0 h1 ⊢
      rw [h0, h1]

/-- With exactly one scale track for bone `b`, sampling with weight `w` interpolates the
scale of bone `b` from the incoming value to the clip's own sample. -/
theorem UpdatePose_blend_scale {player : SpinePlayer} {animation : SpineAnimation}
    (hanim : player.m_Animation = some animation) {b : Nat}
    (hone : animation.scaleTrackCount b = 1) (w : ℚ) (pose ref : List Transform)
    (x0 x1 : Vector3)
    (h0 : (pose.get? b).map (fun tr => tr.m_Scale) = some x0)
    (h1 : ((UpdatePose player ref 1).get? b).map (fun tr => tr.m_Scale) = some x1) :
    ((UpdatePose player pose w).get? b).map (fun tr => tr.m_Scale)
      = some (Vector3.lerp w x0 x1) := by
  unfold UpdatePose at h1 ⊢
  simp only [hanim] at h1 ⊢
  exact SampleTracks_blend_scale _ _ _ b hone w pose ref x0 x1 h0 h1

theorem UpdatePose_stoppedRunPlayer :
    UpdatePose stoppedRunPlayer [Transform.identity] 1 =
      [{ m_Translation := { x := 6, y := 6, z := 6 }
         m_Rotation := { x := 0, y := 0, z := 1, w := 0 }
         m_Scale := { x := 2, y := 2, z := 2 } }] := by
  simp [stoppedRunPlayer, runPlayer, GetCursorDuration, runClip, UpdatePose, PlayerTime,
    CursorToTime, SampleTracks, modifyBone, SampleTrack, SampleVec3, SampleQuat, keyData,
    Vector3.lerp, Quat.lerp, Transform.identity, Rat.floor]

theorem UpdatePose_stoppedJumpPlayer (w : ℚ) (tr : Transform) :
    UpdatePose stoppedJumpPlayer [tr] w =
      [{ tr with
         m_Translation := Vector3.lerp w tr.m_Translation { x := 4, y := 4, z := 4 } }] := by
  simp [stoppedJumpPlayer, GetCursorDuration, jumpClip, UpdatePose, PlayerTime,
    CursorToTime, SampleTracks, modifyBone, SampleTrack, SampleVec3, keyData,
    Vector3.lerp, Rat.floor]

theorem AnimateSample_fadingComponent (fuel : Nat) :
    AnimateSample fuel fadingComponent (1 / 2) =
      some ({ fadingComponent with
              m_BlendTimer := 1 / 2
              m_Pose := [{ m_Translation := { x := 5, y := 5, z := 5 }
                           m_Rotation := { x := 0, y := 0, z := 1, w := 0 }
                           m_Scale := { x := 2, y := 2, z := 2 } }] }, []) := by
  have hskip : ¬ ((!fadingComponent.m_Enabled) = true ∨ fadingComponent.m_Pose.isEmpty = true) := by
    decide
  have hlt : fadingComponent.m_BlendTimer + 1 / 2 < fadingComponent.m_BlendDuration := by
    norm_num [fadingComponent]
  have hub : UpdateBlend { fadingComponent with m_Pose := resetPose fadingComponent.m_Pose }
      (1 / 2) = { fadingComponent with m_Pose := [Transform.identity], m_BlendTimer := 1 / 2 } := by
    rw [@UpdateBlend_of_lt { fadingComponent with m_Pose := resetPose fadingComponent.m_Pose }
      (1 / 2) rfl hlt]
    norm_num [fadingComponent, freshComponent, resetPose]
  unfold AnimateSample
  rw [if_neg hskip, hub]
  generalize hc2 : ({ fadingComponent with
    m_Pose := [Transform.identity], m_BlendTimer := 1 / 2 } : SpineModelComponent) = c2
  have hb : c2.m_Blending = true := by rw [← hc2]; rfl
  have hp0 : c2.player 0 = stoppedRunPlayer := by rw [← hc2]; rfl
  have hp1 : c2.player 1 = stoppedJumpPlayer := by rw [← hc2]; rfl
  have hpose : c2.m_Pose = [Transform.identity] := by rw [← hc2]
  have hcur : c2.m_CurrentPlayer = 1 := by rw [← hc2]; rfl
  have hfade : c2.m_BlendTimer / c2.m_BlendDuration = 1 / 2 := by
    rw [← hc2]; norm_num [fadingComponent]
  have hidle0 : UpdatePlayer fuel c2 0 (1 / 2)
      = some { component := c2, posted := [], completed := false } :=
    UpdatePlayer_idle_aux fuel c2 0 _ (Or.inr (by rw [hp0]; rfl))
  have hstep0 : AnimateBlendStep fuel (1 / 2) (1 / 2) 1 0 (c2, [], 1)
      = some ({ c2 with m_Pose := UpdatePose stoppedRunPlayer [Transform.identity] 1 }, [],
          1 / 2) := by
    unfold AnimateBlendStep
    simp only [hidle0, hp0, hpose, List.append_nil]
    rfl
  generalize hc3 : ({ c2 with m_Pose := UpdatePose stoppedRunPlayer [Transform.identity] 1 }
    : SpineModelComponent) = c3 at hstep0
  have hq1 : c3.player 1 = stoppedJumpPlayer := by rw [← hc3]; exact hp1
  have hpose3 : c3.m_Pose = UpdatePose stoppedRunPlayer [Transform.identity] 1 := by rw [← hc3]
  have hidle1 : UpdatePlayer fuel c3 1 (1 / 2)
      = some { component := c3, posted := [], completed := false } :=
    UpdatePlayer_idle_aux fuel c3 1 _ (Or.inr (by rw [hq1]; rfl))
  have hstep1 : AnimateBlendStep fuel (1 / 2) (1 / 2) 1 1 (c3, [], 1 / 2)
      = some ({ c3 with
          m_Pose := UpdatePose stoppedJumpPlayer
            (UpdatePose stoppedRunPlayer [Transform.identity] 1) (1 / 2) }, [], 1 - 1 / 2) := by
    unfold AnimateBlendStep
    simp only [hidle1, hq1, hpose3, List.append_nil]
    rfl
  unfold AnimatePlayers
  rw [if_pos hb]
  simp only [hfade, hcur, hstep0, hstep1]
  rw [← hc3, ← hc2, UpdatePose_stoppedRunPlayer, UpdatePose_stoppedJumpPlayer]
  norm_num [fadingComponent, freshComponent, Vector3.lerp]

/-- C19 (as stated, refuted): half way through a crossfade (fade rate 1/2) from a clip whose
sample is (6, 6, 6) to a clip whose sample is (4, 4, 4), the translation of bone 0 sampled
by `Animate` is (5, 5, 5), whereas the stated formula
`lerp(1 - fade_rate, lerp(fade_rate, identity, secondary_sample), primary_sample)` gives
(3.5, 3.5, 3.5). -/
theorem Animate_crossfade_not_from_identity :
    (fadingComponent.m_BlendTimer + 1 / 2) / fadingComponent.m_BlendDuration = 1 / 2 ∧
      ((UpdatePose (GetSecondaryPlayer fadingComponent) (resetPose fadingComponent.m_Pose)
          1).get? 0).map (fun tr => tr.m_Translation) = some { x := 6, y := 6, z := 6 } ∧
      ((UpdatePose (GetPlayer fadingComponent) (resetPose fadingComponent.m_Pose)
          1).get? 0).map (fun tr => tr.m_Translation) = some { x := 4, y := 4, z := 4 } ∧
      (AnimateSample 0 fadingComponent (1 / 2)).map
          (fun r => (r.1.m_Pose.get? 0).map (fun tr => tr.m_Translation))
        = some (some { x := 5, y := 5, z := 5 }) ∧
      Vector3.lerp (1 - 1 / 2)
          (Vector3.lerp (1 / 2) Transform.identity.m_Translation { x := 6, y := 6, z := 6 })
          { x := 4, y := 4, z := 4 }
        = { x := 7 / 2, y := 7 / 2, z := 7 / 2 } ∧
      ({ x := 7 / 2, y := 7 / 2, z := 7 / 2 } : Vector3) ≠ { x := 5, y := 5, z := 5 } := by
  have hsec : GetSecondaryPlayer fadingComponent = stoppedRunPlayer := rfl
  have hprim : GetPlayer fadingComponent = stoppedJumpPlayer := rfl
  have hreset : resetPose fadingComponent.m_Pose = [Transform.identity] := rfl
  refine ⟨by norm_num [fadingComponent], ?_, ?_, ?_, ?_, ?_⟩
  · rw [hsec, hreset, UpdatePose_stoppedRunPlayer]; rfl
  · rw [hprim, hreset, UpdatePose_stoppedJumpPlayer]
    norm_num [Vector3.lerp, Transform.identity]
  · rw [AnimateSample_fadingComponent]; rfl
  · norm_num [Vector3.lerp, Transform.identity]
  · norm_num

/-- C19 (amended): while a crossfade is active, whenever the player evaluation of `Animate`
returns, the sampled pose is obtained by sampling the player of slot 0 with weight 1 into
the reset pose and then the player of slot 1 on top with weight `1 - fade_rate` if slot 0
holds the current player and `fade_rate` otherwise, where `fade_rate = elapsed / duration`.
Hence for a bone component written by exactly one track of the clip of slot 1, the blended
value is `lerp(fade_rate, secondary_sample, primary_sample)`, which the code computes as
`lerp(1 - fade_rate, primary_sample, secondary_sample)` when slot 0 is current; the
identity value does not enter. With clips of positive duration the evaluation does return,
given enough fuel for the wrap loops. -/
theorem Animate_crossfade_blend (c : SpineModelComponent) (dt : ℚ)
    (hen : c.m_Enabled = true) (hpose : c.m_Pose.isEmpty = false)
    (hblend : c.m_Blending = true) (hlt : c.m_BlendTimer + dt < c.m_BlendDuration) :
    (∀ fuel r, AnimateSample fuel c dt = some r →
      r.1.m_Pose =
          UpdatePose (r.1.player 1) (UpdatePose (r.1.player 0) (resetPose c.m_Pose) 1)
            (if c.m_CurrentPlayer = 0 then 1 - (c.m_BlendTimer + dt) / c.m_BlendDuration
              else (c.m_BlendTimer + dt) / c.m_BlendDuration) ∧
        ∀ (b : Nat) (clip : SpineAnimation), (r.1.player 1).m_Animation = some clip →
          (clip.positionTrackCount b = 1 → ∀ xs xp : Vector3,
            ((UpdatePose (GetSecondaryPlayer r.1) (resetPose c.m_Pose) 1).get? b).map
                (fun tr => tr.m_Translation) = some xs →
            ((UpdatePose (GetPlayer r.1) (resetPose c.m_Pose) 1).get? b).map
                (fun tr => tr.m_Translation) = some xp →
            (r.1.m_Pose.get? b).map (fun tr => tr.m_Translation)
                = some (Vector3.lerp ((c.m_BlendTimer + dt) / c.m_BlendDuration) xs xp) ∧
              (c.m_CurrentPlayer = 0 →
                (r.1.m_Pose.get? b).map (fun tr => tr.m_Translation)
                  = some (Vector3.lerp (1 - (c.m_BlendTimer + dt) / c.m_BlendDuration) xp xs))) ∧
          (clip.rotationTrackCount b = 1 → ∀ xs xp : Quat,
            ((UpdatePose (GetSecondaryPlayer r.1) (resetPose c.m_Pose) 1).get? b).map
                (fun tr => tr.m_Rotation) = some xs →
            ((UpdatePose (GetPlayer r.1) (resetPose c.m_Pose) 1).get? b).map
                (fun tr => tr.m_Rotation) = some xp →
            (r.1.m_Pose.get? b).map (fun tr => tr.m_Rotation)
                = some (Quat.lerp ((c.m_BlendTimer + dt) / c.m_BlendDuration) xs xp) ∧
              (c.m_CurrentPlayer = 0 →
                (r.1.m_Pose.get? b).map (fun tr => tr.m_Rotation)
                  = some (Quat.lerp (1 - (c.m_BlendTimer + dt) / c.m_BlendDuration) xp xs))) ∧
          (clip.scaleTrackCount b = 1 → ∀ xs xp : Vector3,
            ((UpdatePose (GetSecondaryPlayer r.1) (resetPose c.m_Pose) 1).get? b).map
                (fun tr => tr.m_Scale) = some xs →
            ((UpdatePose (GetPlayer r.1) (resetPose c.m_Pose) 1).get? b).map
                (fun tr => tr.m_Scale) = some xp →
            (r.1.m_Pose.get? b).map (fun tr => tr.m_Scale)
                = some (Vector3.lerp ((c.m_BlendTimer + dt) / c.m_BlendDuration) xs xp) ∧
              (c.m_CurrentPlayer = 0 →
                (r.1.m_Pose.get? b).map (fun tr => tr.m_Scale)
                  = some (Vector3.lerp (1 - (c.m_BlendTimer + dt) / c.m_BlendDuration) xp xs)))) ∧
    ((∀ pi animation, (c.player pi).m_Animation = some animation → 0 < animation.m_Duration) →
      ∃ n, ∀ fuel, n ≤ fuel → ∃ r, AnimateSample fuel c dt = some r) := by
  refine ⟨fun fuel r hr => ?_, fun hpos => AnimateSample_terminates c dt hpos⟩
  obtain ⟨hcur, -, -, -, hp⟩ := AnimateSample_blending hen hpose hblend hlt hr
  refine ⟨hp, fun b clip hclip => ?_⟩
  rcases fin_two_cases c.m_CurrentPlayer with h0 | h1
  · have hsec : GetSecondaryPlayer r.1 = r.1.player 1 := by
      unfold GetSecondaryPlayer; rw [hcur, h0]; rfl
    have hprim : GetPlayer r.1 = r.1.player 0 := by
      unfold GetPlayer; rw [hcur, h0]
    rw [if_pos h0] at hp
    rw [hsec, hprim, hp]
    refine ⟨fun hone xs xp hs hpx => ?_, fun hone xs xp hs hpx => ?_,
      fun hone xs xp hs hpx => ?_⟩
    · have h := UpdatePose_blend_translation hclip hone
        (1 - (c.m_BlendTimer + dt) / c.m_BlendDuration) _ _ xp xs hpx hs
      exact ⟨by rw [h, Vector3_lerp_one_sub], fun _ => h⟩
    · have h := UpdatePose_blend_rotation hclip hone
        (1 - (c.m_BlendTimer + dt) / c.m_BlendDuration) _ _ xp xs hpx hs
      exact ⟨by rw [h, Quat_lerp_one_sub], fun _ => h⟩
    · have h := UpdatePose_blend_scale hclip hone
        (1 - (c.m_BlendTimer + dt) / c.m_BlendDuration) _ _ xp xs hpx hs
      exact ⟨by rw [h, Vector3_lerp_one_sub], fun _ => h⟩
  · have hsec : GetSecondaryPlayer r.1 = r.1.player 0 := by
      unfold GetSecondaryPlayer; rw [hcur, h1]; rfl
    have hprim : GetPlayer r.1 = r.1.player 1 := by
      unfold GetPlayer; rw [hcur, h1]
    have hne : ¬ c.m_CurrentPlayer = 0 := by rw [h1]; decide
    rw [if_neg hne] at hp
    rw [hsec, hprim, hp]
    refine ⟨fun hone xs xp hs hpx => ?_, fun hone xs xp hs hpx => ?_,
      fun hone xs xp hs hpx => ?_⟩
    · exact ⟨UpdatePose_blend_translation hclip hone _ _ _ xs xp hs hpx,
        fun h => absurd h hne⟩
    · exact ⟨UpdatePose_blend_rotation hclip hone _ _ _ xs xp hs hpx,
        fun h => absurd h hne⟩
    · exact ⟨UpdatePose_blend_scale hclip hone _ _ _ xs xp hs hpx,
        fun h => absurd h hne⟩

theorem Animate_crossfade_blend_witness :
    ∃ r, AnimateSample 0 fadingComponent (1 / 2) = some r ∧
      (r.1.m_Pose.get? 0).map (fun tr => tr.m_Translation)
        = some (Vector3.lerp (1 / 2) { x := 6, y := 6, z := 6 } { x := 4, y := 4, z := 4 }) := by
  obtain ⟨hret, -⟩ := Animate_crossfade_blend fadingComponent (1 / 2) rfl rfl rfl
    (by norm_num [fadingComponent])
  refine ⟨_, AnimateSample_fadingComponent 0, ?_⟩
  obtain ⟨-, hb⟩ := hret 0 _ (AnimateSample_fadingComponent 0)
  have hfade : (fadingComponent.m_BlendTimer + 1 / 2) / fadingComponent.m_BlendDuration
      = 1 / 2 := by norm_num [fadingComponent]
  have h := (hb 0 jumpClip rfl).1 rfl { x := 6, y := 6, z := 6 } { x := 4, y := 4, z := 4 }
    (by
      show ((UpdatePose stoppedRunPlayer [Transform.identity] 1).get? 0).map _ = _
      rw [UpdatePose_stoppedRunPlayer]; rfl)
    (by
      show ((UpdatePose stoppedJumpPlayer [Transform.identity] 1).get? 0).map _ = _
      rw [UpdatePose_stoppedJumpPlayer]
      norm_num [Vector3.lerp, Transform.identity])
  rw [hfade] at h
  exact h.1

/-! ## Properties -/

theorem FindMesh_eq_none {meshes : List Mesh} {skin : dmhash_t}
    (h : ∀ mesh ∈ meshes, mesh.m_Id ≠ skin) : FindMesh meshes skin = none := by
  induction meshes with
  | nil => rfl
  | cons a rest ih =>
    have ha : skin ≠ a.m_Id := fun e => h a (List.mem_cons_self a rest) e.symm
    have hr : ∀ mesh ∈ rest, mesh.m_Id ≠ skin :=
      fun mesh hm => h mesh (List.mem_cons_of_mem a hm)
    simp only [FindMesh, if_neg ha, ih hr, Option.map_none']

theorem FindMesh_some {meshes : List Mesh} {skin : dmhash_t} {i : Nat}
    (h : FindMesh meshes skin = some i) :
    ∃ mesh, meshes.get? i = some mesh ∧ mesh.m_Id = skin ∧
      ∀ j, j < i → ∀ m, meshes.get? j = some m → m.m_Id ≠ skin := by
  induction meshes generalizing i with
  | nil => simp [FindMesh] at h
  | cons a rest ih =>
    unfold FindMesh at h
    by_cases ha : skin = a.m_Id
    · rw [if_pos ha] at h
      have hi : i = 0 := by simpa using h.symm
      subst hi
      exact ⟨a, rfl, ha.symm, fun j hj => absurd hj (Nat.not_lt_zero j)⟩
    · rw [if_neg ha] at h
      cases hr : FindMesh rest skin with
      | none => rw [hr] at h; simp at h
      | some k =>
        rw [hr] at h
        have hi : i = k + 1 := by simpa using h.symm
        subst hi
        obtain ⟨mesh, hget, hid, hfirst⟩ := ih hr
        refine ⟨mesh, by simpa using hget, hid, ?_⟩
        intro j hj m hm
        cases j with
        | zero =>
          have : m = a := by simpa using hm.symm
          subst this
          exact fun e => ha e.symm
        | succ j => exact hfirst j (Nat.lt_of_succ_lt_succ hj) m (by simpa using hm)

theorem FindMesh_isSome {meshes : List Mesh} {skin : dmhash_t}
    (h : ∃ mesh ∈ meshes, mesh.m_Id = skin) : ∃ i, FindMesh meshes skin = some i := by
  cases hf : FindMesh meshes skin with
  | some i => exact ⟨i, rfl⟩
  | none =>
    exfalso
    obtain ⟨mesh, hm, hid⟩ := h
    induction meshes with
    | nil => simp at hm
    | cons a rest ih =>
      unfold FindMesh at hf
      by_cases ha : skin = a.m_Id
      · rw [if_pos ha] at hf; simp at hf
      · rw [if_neg ha] at hf
        rcases List.mem_cons.mp hm with e | hmr
        · exact ha (by rw [← hid, e])
        · cases hr : FindMesh rest skin with
          | none => exact ih hr hmr
          | some k => rw [hr] at hf; simp at hf

/-- C15: `CompSpineModelSetProperty` on the skin property answers OK exactly when the value
is a hash carried by some mesh of the mesh set. Then the active mesh becomes the first mesh
with that id, the skin id becomes the hash, nothing else changes, and reading the skin
property afterwards returns the value. A hash carried by no mesh gives NOT_FOUND and a value
that is not a hash gives TYPE_MISMATCH; in both cases the component is returned as it
was. -/
theorem CompSpineModelSetProperty_skin (dmHashString64 : String → dmhash_t)
    (dmHash32 : List HashBuffer → Nat)
    (GetMaterialProgramConstant : HMaterial → dmhash_t → Constant → Constant)
    (unset : Constant)
    (SetMaterialConstant : HMaterial → dmhash_t → PropertyVar →
      (SpineModelComponent → dmhash_t → Option Nat → PropertyVar → Option SpineModelComponent) →
      SpineModelComponent → Option (PropertyResult × SpineModelComponent))
    (GetMaterialConstant : HMaterial → dmhash_t → PropertyDesc → (dmhash_t → Option Constant) →
      PropertyResult × PropertyDesc)
    (component : SpineModelComponent) (v : PropertyVar) (out_value : PropertyDesc) :
    let meshes := component.m_Resource.m_Meshes
    let r := CompSpineModelSetProperty dmHashString64 dmHash32 GetMaterialProgramConstant unset
      SetMaterialConstant component (PROP_SKIN dmHashString64) v
    ((∃ c, r = some (PropertyResult.PROPERTY_RESULT_OK, c)) ↔
        ∃ skin, v = PropertyVar.PROPERTY_TYPE_HASH skin ∧ ∃ mesh ∈ meshes, mesh.m_Id = skin) ∧
      (∀ skin, v = PropertyVar.PROPERTY_TYPE_HASH skin → (∃ mesh ∈ meshes, mesh.m_Id = skin) →
        ∃ i mesh, meshes.get? i = some mesh ∧ mesh.m_Id = skin ∧
          (∀ j, j < i → ∀ m, meshes.get? j = some m → m.m_Id ≠ skin) ∧
          r = some (PropertyResult.PROPERTY_RESULT_OK,
            { component with m_Mesh := some i, m_Skin := skin }) ∧
          CompSpineModelGetProperty dmHashString64 GetMaterialConstant
            { component with m_Mesh := some i, m_Skin := skin } (PROP_SKIN dmHashString64)
            out_value
            = (PropertyResult.PROPERTY_RESULT_OK, { out_value with m_Variant := v })) ∧
      (∀ skin, v = PropertyVar.PROPERTY_TYPE_HASH skin → (∀ mesh ∈ meshes, mesh.m_Id ≠ skin) →
        r = some (PropertyResult.PROPERTY_RESULT_NOT_FOUND, component)) ∧
      ((∀ skin, v ≠ PropertyVar.PROPERTY_TYPE_HASH skin) →
        r = some (PropertyResult.PROPERTY_RESULT_TYPE_MISMATCH, component)) := by
  intro meshes r
  have hfound : ∀ skin, v = PropertyVar.PROPERTY_TYPE_HASH skin →
      (∃ mesh ∈ meshes, mesh.m_Id = skin) →
      ∃ i mesh, meshes.get? i = some mesh ∧ mesh.m_Id = skin ∧
        (∀ j, j < i → ∀ m, meshes.get? j = some m → m.m_Id ≠ skin) ∧
        r = some (PropertyResult.PROPERTY_RESULT_OK,
          { component with m_Mesh := some i, m_Skin := skin }) := by
    intro skin hv hex
    obtain ⟨i, hi⟩ := FindMesh_isSome hex
    obtain ⟨mesh, hget, hid, hfirst⟩ := FindMesh_some hi
    refine ⟨i, mesh, hget, hid, hfirst, ?_⟩
    show CompSpineModelSetProperty _ _ _ _ _ _ _ _ = _
    unfold CompSpineModelSetProperty
    rw [if_pos rfl, hv]
    simp only [PropertyVar.hash?]
    rw [hi]
  have hmissing : ∀ skin, v = PropertyVar.PROPERTY_TYPE_HASH skin →
      (∀ mesh ∈ meshes, mesh.m_Id ≠ skin) →
      r = some (PropertyResult.PROPERTY_RESULT_NOT_FOUND, component) := by
    intro skin hv hno
    show CompSpineModelSetProperty _ _ _ _ _ _ _ _ = _
    unfold CompSpineModelSetProperty
    rw [if_pos rfl, hv]
    simp only [PropertyVar.hash?]
    rw [FindMesh_eq_none hno]
  have hmismatch : (∀ skin, v ≠ PropertyVar.PROPERTY_TYPE_HASH skin) →
      r = some (PropertyResult.PROPERTY_RESULT_TYPE_MISMATCH, component) := by
    intro hv
    show CompSpineModelSetProperty _ _ _ _ _ _ _ _ = _
    unfold CompSpineModelSetProperty
    rw [if_pos rfl]
    have : v.hash? = none := by
      cases v <;> first | rfl | exact absurd rfl (hv _)
    rw [this]
  refine ⟨⟨?_, ?_⟩, ?_, hmissing, hmismatch⟩
  · rintro ⟨c, hc⟩
    by_cases hv : ∃ skin, v = PropertyVar.PROPERTY_TYPE_HASH skin
    · obtain ⟨skin, hv⟩ := hv
      refine ⟨skin, hv, ?_⟩
      by_contra hno
      have hno' : ∀ mesh ∈ meshes, mesh.m_Id ≠ skin := fun mesh hm e => hno ⟨mesh, hm, e⟩
      have := hmissing skin hv hno'
      rw [this] at hc
      simp at hc
    · have := hmismatch (fun skin e => hv ⟨skin, e⟩)
      rw [this] at hc
      simp at hc
  · rintro ⟨skin, hv, hex⟩
    obtain ⟨i, mesh, -, -, -, hr⟩ := hfound skin hv hex
    exact ⟨_, hr⟩
  · intro skin hv hex
    obtain ⟨i, mesh, hget, hid, hfirst, hr⟩ := hfound skin hv hex
    refine ⟨i, mesh, hget, hid, hfirst, hr, ?_⟩
    unfold CompSpineModelGetProperty
    rw [if_pos rfl, hv]

theorem CompSpineModelSetProperty_skin_witness :
    (∃ mesh ∈ skinnedComponent.m_Resource.m_Meshes, mesh.m_Id = 5) ∧
      ∃ i mesh, skinnedComponent.m_Resource.m_Meshes.get? i = some mesh ∧ mesh.m_Id = 5 ∧
        (∀ j, j < i → ∀ m, skinnedComponent.m_Resource.m_Meshes.get? j = some m → m.m_Id ≠ 5) ∧
        CompSpineModelSetProperty exampleHashString64 exampleHash32
            exampleGetMaterialProgramConstant exampleUnset exampleSetMaterialConstant
            skinnedComponent (PROP_SKIN exampleHashString64) (PropertyVar.PROPERTY_TYPE_HASH 5)
          = some (PropertyResult.PROPERTY_RESULT_OK,
            { skinnedComponent with m_Mesh := some i, m_Skin := 5 }) ∧
        CompSpineModelGetProperty exampleHashString64 exampleGetMaterialConstant
            { skinnedComponent with m_Mesh := some i, m_Skin := 5 }
            (PROP_SKIN exampleHashString64) exampleDesc
          = (PropertyResult.PROPERTY_RESULT_OK,
            { exampleDesc with m_Variant := PropertyVar.PROPERTY_TYPE_HASH 5 }) :=
  ⟨⟨_, List.mem_cons_of_mem _ (List.mem_cons_self _ _), rfl⟩,
   (CompSpineModelSetProperty_skin exampleHashString64 exampleHash32
      exampleGetMaterialProgramConstant exampleUnset exampleSetMaterialConstant
      exampleGetMaterialConstant skinnedComponent (PropertyVar.PROPERTY_TYPE_HASH 5)
      exampleDesc).2.1 5 rfl ⟨_, List.mem_cons_of_mem _ (List.mem_cons_self _ _), rfl⟩⟩

/-- C16 (code defect): after a successful `PlayAnimation` with id `animation_id` the current
player carries that id, but `CompSpineModelGetProperty` on the animation property builds
its answer from the clip pointer `m_Animation`: it answers OK with the boolean `true`, which
is not the hash `animation_id` and does not depend on which animation was started. -/
theorem CompSpineModelGetProperty_animation_reads_clip_pointer
    (dmHashString64 : String → dmhash_t)
    (GetMaterialConstant : HMaterial → dmhash_t → PropertyDesc → (dmhash_t → Option Constant) →
      PropertyResult × PropertyDesc)
    (c : SpineModelComponent) (animation_id : dmhash_t) (playback : Playback)
    (blend_duration : ℚ) (out_value : PropertyDesc)
    (hne : PROP_ANIMATION dmHashString64 ≠ PROP_SKIN dmHashString64)
    (hok : (PlayAnimation c animation_id playback blend_duration).1 = true) :
    let c1 := (PlayAnimation c animation_id playback blend_duration).2
    let r := CompSpineModelGetProperty dmHashString64 GetMaterialConstant c1
      (PROP_ANIMATION dmHashString64) out_value
    (GetPlayer c1).m_AnimationId = animation_id ∧
      r = (PropertyResult.PROPERTY_RESULT_OK,
        { out_value with m_Variant := PropertyVar.PROPERTY_TYPE_BOOLEAN true }) ∧
      r.2.m_Variant ≠ PropertyVar.PROPERTY_TYPE_HASH animation_id := by
  obtain ⟨anim, hfind⟩ := PlayAnimation_success hok
  have hp : GetPlayer (PlayAnimation c animation_id playback blend_duration).2 =
      { m_Animation := some anim, m_AnimationId := animation_id, m_Cursor := 0,
        m_Playback := playback, m_Playing := true,
        m_Backwards :=
          if playback = Playback.PLAYBACK_ONCE_BACKWARD ∨
            playback = Playback.PLAYBACK_LOOP_BACKWARD then true else false } := by
    simp only [PlayAnimation, hfind, GetPlayer]
    rw [setPlayer_m_CurrentPlayer, player_setPlayer_same]
  intro c1 r
  have hr : r = (PropertyResult.PROPERTY_RESULT_OK,
      { out_value with m_Variant := PropertyVar.PROPERTY_TYPE_BOOLEAN true }) := by
    show CompSpineModelGetProperty _ _ _ _ _ = _
    unfold CompSpineModelGetProperty
    rw [if_neg hne, if_pos rfl]
    simp only [hp, PropertyVar.ofPointer, Option.isSome_some]
  refine ⟨?_, hr, ?_⟩
  · show (GetPlayer (PlayAnimation c animation_id playback blend_duration).2).m_AnimationId = _
    rw [hp]
  · rw [hr]
    exact fun e => PropertyVar.noConfusion e

theorem CompSpineModelGetProperty_animation_reads_clip_pointer_witness :
    PROP_ANIMATION exampleHashString64 ≠ PROP_SKIN exampleHashString64 ∧
      (PlayAnimation freshComponent 7 Playback.PLAYBACK_LOOP_FORWARD 0).1 = true ∧
      (GetPlayer (PlayAnimation freshComponent 7 Playback.PLAYBACK_LOOP_FORWARD 0).2).m_AnimationId
        = 7 ∧
      CompSpineModelGetProperty exampleHashString64 exampleGetMaterialConstant
          (PlayAnimation freshComponent 7 Playback.PLAYBACK_LOOP_FORWARD 0).2
          (PROP_ANIMATION exampleHashString64) exampleDesc
        = (PropertyResult.PROPERTY_RESULT_OK,
          { exampleDesc with m_Variant := PropertyVar.PROPERTY_TYPE_BOOLEAN true }) :=
  have hne : PROP_ANIMATION exampleHashString64 ≠ PROP_SKIN exampleHashString64 := by decide
  have hok : (PlayAnimation freshComponent 7 Playback.PLAYBACK_LOOP_FORWARD 0).1 = true := by
    decide
  have h := CompSpineModelGetProperty_animation_reads_clip_pointer exampleHashString64
    exampleGetMaterialConstant freshComponent 7 Playback.PLAYBACK_LOOP_FORWARD 0 exampleDesc
    hne hok
  ⟨hne, hok, h.1, h.2.1⟩

/-! ## Render constants -/

theorem ReHashLoop_succeeds (constants : List Constant) :
    ∀ (i : Nat) (prev : List Vector4) (fed : List HashBuffer),
      i + constants.length ≤ prev.length →
      ∃ prev1 fed1, ReHashLoop constants i prev fed = some (prev1, fed1) ∧
        prev1.length = prev.length := by
  induction constants with
  | nil => intro i prev fed _; exact ⟨prev, fed, rfl, rfl⟩
  | cons c rest ih =>
    intro i prev fed hle
    have hlen : i + 1 + rest.length ≤ (prev.set i c.m_Value).length := by
      rw [List.length_set]; simp only [List.length_cons] at hle; omega
    have hi : i < prev.length := by simp only [List.length_cons] at hle; omega
    obtain ⟨prev1, fed1, h1, h2⟩ := ih (i + 1) (prev.set i c.m_Value)
      (fed ++ [HashBuffer.nameHash c.m_NameHash, HashBuffer.value c.m_Value]) hlen
    refine ⟨prev1, fed1, ?_, ?_⟩
    · unfold ReHashLoop
      rw [if_pos hi]
      exact h1
    · rw [h2, List.length_set]

theorem ReHash_succeeds (dmHash32 : List HashBuffer → Nat) (component : SpineModelComponent)
    (h : component.m_RenderConstants.length ≤ component.m_PrevRenderConstants.length) :
    ∃ c1, ReHash dmHash32 component = some c1 ∧
      c1.m_RenderConstants = component.m_RenderConstants ∧
      c1.m_PrevRenderConstants.length = component.m_PrevRenderConstants.length ∧
      ∃ prev hash,
        c1 = { component with m_PrevRenderConstants := prev, m_MixedHash := hash } := by
  obtain ⟨prev1, fed1, h1, h2⟩ := ReHashLoop_succeeds component.m_RenderConstants 0
    component.m_PrevRenderConstants
    [HashBuffer.resource component.m_Resource,
     HashBuffer.material component.m_Resource.m_Material,
     HashBuffer.blendMode component.m_Resource.m_BlendMode] (by omega)
  refine ⟨{ component with m_PrevRenderConstants := prev1, m_MixedHash := dmHash32 fed1 }, ?_,
    rfl, h2, prev1, dmHash32 fed1, rfl⟩
  unfold ReHash
  simp only [h1]

theorem FindConstant_eq_none {constants : List Constant} {name_hash : dmhash_t}
    (h : FindConstant constants name_hash = none) :
    ∀ (j : Nat) (m : Constant), constants[j]? = some m → m.m_NameHash ≠ name_hash := by
  induction constants with
  | nil => intro j m hm; simp at hm
  | cons a rest ih =>
    unfold FindConstant at h
    by_cases ha : a.m_NameHash = name_hash
    · rw [if_pos ha] at h; simp at h
    · rw [if_neg ha] at h
      have hr : FindConstant rest name_hash = none := by
        cases hr : FindConstant rest name_hash with
        | none => rfl
        | some k => rw [hr] at h; simp at h
      intro j m hm
      cases j with
      | zero =>
        have : m = a := by simpa using hm.symm
        subst this
        exact ha
      | succ j => exact ih hr j m (by simpa using hm)

theorem FindConstant_some {constants : List Constant} {name_hash : dmhash_t} {i : Nat}
    (h : FindConstant constants name_hash = some i) :
    ∃ c, constants[i]? = some c ∧ c.m_NameHash = name_hash ∧
      ∀ j, j < i → ∀ m, constants[j]? = some m → m.m_NameHash ≠ name_hash := by
  induction constants generalizing i with
  | nil => simp [FindConstant] at h
  | cons a rest ih =>
    unfold FindConstant at h
    by_cases ha : a.m_NameHash = name_hash
    · rw [if_pos ha] at h
      have hi : i = 0 := by simpa using h.symm
      subst hi
      exact ⟨a, by simp, ha, fun j hj => absurd hj (Nat.not_lt_zero j)⟩
    · rw [if_neg ha] at h
      cases hr : FindConstant rest name_hash with
      | none => rw [hr] at h; simp at h
      | some k =>
        rw [hr] at h
        have hi : i = k + 1 := by simpa using h.symm
        subst hi
        obtain ⟨c, hget, hid, hfirst⟩ := ih hr
        refine ⟨c, by simpa using hget, hid, ?_⟩
        intro j hj m hm
        cases j with
        | zero =>
          have : m = a := by simpa using hm.symm
          subst this
          exact ha
        | succ j => exact hfirst j (Nat.lt_of_succ_lt_succ hj) m (by simpa using hm)

theorem GetConstantCallbackLoop_first {constants : List Constant} {name_hash : dmhash_t}
    {i : Nat} {c : Constant} (hget : constants[i]? = some c) (hname : c.m_NameHash = name_hash)
    (hfirst : ∀ j, j < i → ∀ m, constants[j]? = some m → m.m_NameHash ≠ name_hash) :
    GetConstantCallbackLoop constants name_hash = some c := by
  induction constants generalizing i with
  | nil => simp at hget
  | cons a rest ih =>
    unfold GetConstantCallbackLoop
    cases i with
    | zero =>
      have : c = a := by simpa using hget.symm
      subst this
      rw [if_pos hname]
    | succ i =>
      have ha : a.m_NameHash ≠ name_hash := hfirst 0 (Nat.succ_pos i) a (by simp)
      rw [if_neg ha]
      refine ih (i := i) (by simpa using hget) ?_
      intro j hj m hm
      exact hfirst (j + 1) (Nat.succ_lt_succ hj) m (by simpa using hm)

/-- The array of render constants just before the assignment through `v` in
`CompSpineModelSetConstantCallback`: the stored constants, with the constant of the
material pushed at the end when the name was not stored yet. -/
theorem SetConstantCallback_eq (dmHash32 : List HashBuffer → Nat)
    (GetMaterialProgramConstant : HMaterial → dmhash_t → Constant → Constant)
    (unset : Constant) (component : SpineModelComponent) (name_hash : dmhash_t)
    (hinv : component.m_RenderConstants.length ≤ component.m_PrevRenderConstants.length)
    (hname : FindConstant component.m_RenderConstants name_hash = none →
      (GetMaterialProgramConstant component.m_Resource.m_Material name_hash unset).m_NameHash
        = name_hash) :
    ∃ (stored : List Constant) (i : Nat) (old : Constant),
      stored = (match FindConstant component.m_RenderConstants name_hash with
        | some _ => component.m_RenderConstants
        | none => component.m_RenderConstants ++
            [GetMaterialProgramConstant component.m_Resource.m_Material name_hash unset]) ∧
      stored[i]? = some old ∧ old.m_NameHash = name_hash ∧
      (∀ j, j < i → ∀ m : Constant, stored[j]? = some m → m.m_NameHash ≠ name_hash) ∧
      (∀ (j : Nat) (m : Constant),
        component.m_RenderConstants[j]? = some m → stored[j]? = some m) ∧
      ∀ (element_index : Option Nat) (var : PropertyVar) (value : Vector4),
        SetConstantValue old.m_Value element_index var = some value →
        ∃ c1, CompSpineModelSetConstantCallback dmHash32 GetMaterialProgramConstant unset
            component name_hash element_index var = some c1 ∧
          c1.m_RenderConstants = stored.set i { old with m_Value := value } := by
  cases hf : FindConstant component.m_RenderConstants name_hash with
  | some i =>
    obtain ⟨old, hget, hid, hfirst⟩ := FindConstant_some hf
    refine ⟨component.m_RenderConstants, i, old, rfl, hget, hid, hfirst, fun _ _ h => h, ?_⟩
    intro element_index var value hvalue
    obtain ⟨c1, hre, hcs, -⟩ := ReHash_succeeds dmHash32
      { component with
        m_RenderConstants := component.m_RenderConstants.set i { old with m_Value := value } }
      (by simpa using hinv)
    refine ⟨c1, ?_, hcs⟩
    unfold CompSpineModelSetConstantCallback
    simp only [hf, Option.getD_some, List.get?_eq_getElem?, hget, hvalue]
    exact hre
  | none =>
    have hall := FindConstant_eq_none hf
    refine ⟨_, component.m_RenderConstants.length,
      GetMaterialProgramConstant component.m_Resource.m_Material name_hash unset, rfl,
      by simp, hname hf, ?_, ?_, ?_⟩
    · intro j hj m hm
      rw [List.getElem?_append_left hj] at hm
      exact hall j m hm
    · intro j m hm
      have hj : j < component.m_RenderConstants.length := by
        by_contra hge
        rw [List.getElem?_eq_none (Nat.le_of_not_lt hge)] at hm
        simp at hm
      rw [List.getElem?_append_left hj]
      exact hm
    · intro element_index var value hvalue
      obtain ⟨c1, hre, hcs, -⟩ := ReHash_succeeds dmHash32
        { component with
          m_RenderConstants :=
            (component.m_RenderConstants ++
              [GetMaterialProgramConstant component.m_Resource.m_Material name_hash
                unset]).set component.m_RenderConstants.length
              { GetMaterialProgramConstant component.m_Resource.m_Material name_hash unset with
                m_Value := value }
          m_PrevRenderConstants := component.m_PrevRenderConstants ++
            [(GetMaterialProgramConstant component.m_Resource.m_Material name_hash
              unset).m_Value] }
        (by simpa using hinv)
      refine ⟨c1, ?_, hcs⟩
      unfold CompSpineModelSetConstantCallback
      simp only [hf, Option.getD_none, List.get?_eq_getElem?, List.getElem?_concat_length,
        hvalue]
      exact hre

theorem Vector4_getElem_setElem (v : Vector4) (e : Fin 4) (n : ℚ) :
    ∃ value, v.setElem e.val n = some value ∧
      ∀ idx : Fin 4, value.getElem idx = if idx = e then n else v.getElem idx := by
  fin_cases e
  · refine ⟨{ v with x := n }, rfl, fun idx => ?_⟩
    fin_cases idx <;> simp [Vector4.getElem]
  · refine ⟨{ v with y := n }, rfl, fun idx => ?_⟩
    fin_cases idx <;> simp [Vector4.getElem]
  · refine ⟨{ v with z := n }, rfl, fun idx => ?_⟩
    fin_cases idx <;> simp [Vector4.getElem]
  · refine ⟨{ v with w := n }, rfl, fun idx => ?_⟩
    fin_cases idx <;> simp [Vector4.getElem]

theorem GetConstantCallback_after_set {stored : List Constant} {i : Nat} {old : Constant}
    {name_hash : dmhash_t} (c1 : SpineModelComponent) (value : Vector4)
    (hget : stored[i]? = some old) (hid : old.m_NameHash = name_hash)
    (hfirst : ∀ j, j < i → ∀ m, stored[j]? = some m → m.m_NameHash ≠ name_hash)
    (hcs : c1.m_RenderConstants = stored.set i { old with m_Value := value }) :
    CompSpineModelGetConstantCallback c1 name_hash = some { old with m_Value := value } := by
  have hi : i < stored.length := by
    by_contra hge
    rw [List.getElem?_eq_none (Nat.le_of_not_lt hge)] at hget
    simp at hget
  unfold CompSpineModelGetConstantCallback
  rw [hcs]
  refine GetConstantCallbackLoop_first (i := i) ?_ hid ?_
  · simp [hi]
  · intro j hj m hm
    rw [List.getElem?_set_ne (Nat.ne_of_gt hj)] at hm
    exact hfirst j hj m hm

/-- C17: render-constant round trip. Let `stored` be the render constants at the moment of
the assignment in `CompSpineModelSetConstantCallback` (the constants of the component,
followed by the constant of the material when the name `name_hash` was not stored yet) and
`old` the first of them named `name_hash`, at index `i`. Storing a full vector `v` succeeds,
the get-constant callback for `name_hash` then succeeds with a constant named `name_hash`
whose value is `v`, and every constant at another index is the stored one. Storing the
number `n` at element `e` gives a value that differs from the old value in element `e`
only. The assumptions are that `m_PrevRenderConstants` is not shorter than
`m_RenderConstants` and that the material answers with a constant of that name. -/
theorem SetConstantCallback_round_trip (dmHash32 : List HashBuffer → Nat)
    (GetMaterialProgramConstant : HMaterial → dmhash_t → Constant → Constant)
    (unset : Constant) (component : SpineModelComponent) (name_hash : dmhash_t)
    (hinv : component.m_RenderConstants.length ≤ component.m_PrevRenderConstants.length)
    (hname : FindConstant component.m_RenderConstants name_hash = none →
      (GetMaterialProgramConstant component.m_Resource.m_Material name_hash unset).m_NameHash
        = name_hash) :
    ∃ (stored : List Constant) (i : Nat) (old : Constant),
      stored = (match FindConstant component.m_RenderConstants name_hash with
        | some _ => component.m_RenderConstants
        | none => component.m_RenderConstants ++
            [GetMaterialProgramConstant component.m_Resource.m_Material name_hash unset]) ∧
      stored[i]? = some old ∧ old.m_NameHash = name_hash ∧
      (∀ v : Vector4, ∃ c1 k,
        CompSpineModelSetConstantCallback dmHash32 GetMaterialProgramConstant unset component
            name_hash none (PropertyVar.PROPERTY_TYPE_VECTOR4 v) = some c1 ∧
          CompSpineModelGetConstantCallback c1 name_hash = some k ∧
          k.m_NameHash = name_hash ∧ k.m_Value = v ∧
          c1.m_RenderConstants.length = stored.length ∧
          (∀ j : Nat, j ≠ i → c1.m_RenderConstants[j]? = stored[j]?) ∧
          ∀ (j : Nat) (m : Constant), j ≠ i → component.m_RenderConstants[j]? = some m →
            c1.m_RenderConstants[j]? = some m) ∧
      (∀ (e : Fin 4) (n : ℚ), ∃ c1 k,
        CompSpineModelSetConstantCallback dmHash32 GetMaterialProgramConstant unset component
            name_hash (some e.val) (PropertyVar.PROPERTY_TYPE_NUMBER n) = some c1 ∧
          CompSpineModelGetConstantCallback c1 name_hash = some k ∧
          k.m_NameHash = name_hash ∧
          (∀ idx : Fin 4,
            k.m_Value.getElem idx = if idx = e then n else old.m_Value.getElem idx) ∧
          c1.m_RenderConstants.length = stored.length ∧
          (∀ j : Nat, j ≠ i → c1.m_RenderConstants[j]? = stored[j]?) ∧
          ∀ (j : Nat) (m : Constant), j ≠ i → component.m_RenderConstants[j]? = some m →
            c1.m_RenderConstants[j]? = some m) := by
  obtain ⟨stored, i, old, hst, hget, hid, hfirst, hkeep, hset⟩ :=
    SetConstantCallback_eq dmHash32 GetMaterialProgramConstant unset component name_hash hinv
      hname
  refine ⟨stored, i, old, hst, hget, hid, ?_, ?_⟩
  · intro v
    obtain ⟨c1, hc1, hcs⟩ := hset none (PropertyVar.PROPERTY_TYPE_VECTOR4 v) v rfl
    refine ⟨c1, { old with m_Value := v }, hc1,
      GetConstantCallback_after_set c1 v hget hid hfirst hcs, hid, rfl, ?_, ?_, ?_⟩
    · rw [hcs, List.length_set]
    · intro j hj
      rw [hcs, List.getElem?_set_ne (Ne.symm hj)]
    · intro j m hj hm
      rw [hcs, List.getElem?_set_ne (Ne.symm hj)]
      exact hkeep j m hm
  · intro e n
    obtain ⟨value, hvalue, helems⟩ := Vector4_getElem_setElem old.m_Value e n
    obtain ⟨c1, hc1, hcs⟩ := hset (some e.val) (PropertyVar.PROPERTY_TYPE_NUMBER n) value hvalue
    refine ⟨c1, { old with m_Value := value }, hc1,
      GetConstantCallback_after_set c1 value hget hid hfirst hcs, hid, helems, ?_, ?_, ?_⟩
    · rw [hcs, List.length_set]
    · intro j hj
      rw [hcs, List.getElem?_set_ne (Ne.symm hj)]
    · intro j m hj hm
      rw [hcs, List.getElem?_set_ne (Ne.symm hj)]
      exact hkeep j m hm

theorem SetConstantCallback_round_trip_witness :
    tintedComponent.m_RenderConstants.length ≤ tintedComponent.m_PrevRenderConstants.length ∧
      (FindConstant tintedComponent.m_RenderConstants 13 = none →
        (exampleGetMaterialProgramConstant tintedComponent.m_Resource.m_Material 13
          exampleUnset).m_NameHash = 13) ∧
      ∃ c1 k,
        CompSpineModelSetConstantCallback exampleHash32 exampleGetMaterialProgramConstant
            exampleUnset tintedComponent 13 none
            (PropertyVar.PROPERTY_TYPE_VECTOR4 { x := 9, y := 8, z := 7, w := 6 }) = some c1 ∧
          CompSpineModelGetConstantCallback c1 13 = some k ∧
          k.m_Value = { x := 9, y := 8, z := 7, w := 6 } :=
  have hinv : tintedComponent.m_RenderConstants.length
      ≤ tintedComponent.m_PrevRenderConstants.length := by decide
  have hname : FindConstant tintedComponent.m_RenderConstants 13 = none →
      (exampleGetMaterialProgramConstant tintedComponent.m_Resource.m_Material 13
        exampleUnset).m_NameHash = 13 := fun _ => rfl
  ⟨hinv, hname,
    match SetConstantCallback_round_trip exampleHash32 exampleGetMaterialProgramConstant
      exampleUnset tintedComponent 13 hinv hname with
    | ⟨_, _, _, _, _, _, hfull, _⟩ =>
      match hfull { x := 9, y := 8, z := 7, w := 6 } with
      | ⟨c1, k, h1, h2, _, h4, _⟩ => ⟨c1, k, h1, h2, h4⟩⟩

/-! ## Creation and destruction of components -/

theorem CreateBoneNodes_succeeds (Mul : Transform → Transform → Transform) (m_New : Nat → Nat)
    (bind_pose : List SpineBone) (m_Transform : Transform) (bone_count : Nat)
    (hnew : ∀ i, i < bone_count → m_New i ≠ 0) (hbind : bone_count ≤ bind_pose.length) :
    ∀ (count i : Nat) (instances : List Nat) (nodes : List BoneNode),
      i + count = bone_count → instances.length = bone_count →
      ∃ instances1 nodes1,
        CreateBoneNodes Mul m_New bind_pose m_Transform count i instances nodes
          = some (true, instances1, nodes1) ∧ instances1.length = bone_count := by
  intro count
  induction count with
  | zero => intro i instances nodes _ hlen; exact ⟨instances, nodes, rfl, hlen⟩
  | succ count ih =>
    intro i instances nodes hi hlen
    have hib : i < bone_count := by omega
    obtain ⟨bone, hbone⟩ : ∃ bone, bind_pose.get? i = some bone := by
      have : i < bind_pose.length := by omega
      exact ⟨bind_pose[i], by simp [this]⟩
    obtain ⟨instances1, nodes1, h1, h2⟩ := ih (i + 1) (instances.set i (m_New i))
      (nodes ++ [{ m_Instance := m_New i,
                   m_Transform :=
                     if i = 0 then Mul m_Transform bone.m_LocalToParent
                     else bone.m_LocalToParent }])
      (by omega) (by rw [List.length_set]; exact hlen)
    refine ⟨instances1, nodes1, ?_, h2⟩
    unfold CreateBoneNodes
    simp only [if_neg (hnew i hib), hbone]
    rw [if_pos (by omega)]
    exact h1

theorem SetBoneParents_succeeds (bones : List Bone) (instances : List Nat) (bone_count : Nat)
    (hlen : instances.length = bone_count) (hbones : bone_count ≤ bones.length)
    (hparent : ∀ i bone, 0 < i → i < bone_count → bones.get? i = some bone →
      bone.m_Parent < bone_count) :
    ∀ (count i : Nat) (calls : List (Nat × Option Nat)),
      i + count = bone_count →
      ∃ calls1, SetBoneParents bones instances bone_count count i calls = some calls1 := by
  intro count
  induction count with
  | zero => intro i calls _; exact ⟨calls, rfl⟩
  | succ count ih =>
    intro i calls hi
    have hidx : bone_count - 1 - i < instances.length := by omega
    obtain ⟨inst, hinst⟩ : ∃ inst, instances.get? (bone_count - 1 - i) = some inst :=
      ⟨instances[bone_count - 1 - i], by simp [hidx]⟩
    unfold SetBoneParents
    simp only [hinst]
    by_cases hpos : bone_count - 1 - i > 0
    · rw [if_pos hpos]
      obtain ⟨bone, hbone⟩ : ∃ bone, bones.get? (bone_count - 1 - i) = some bone := by
        have : bone_count - 1 - i < bones.length := by omega
        exact ⟨bones[bone_count - 1 - i], by simp [this]⟩
      have hp : bone.m_Parent < instances.length := by
        rw [hlen]
        exact hparent _ bone hpos (by omega) hbone
      obtain ⟨parent, hpar⟩ : ∃ parent, instances.get? bone.m_Parent = some parent :=
        ⟨instances[bone.m_Parent], by simp [hp]⟩
      simp only [hbone, hpar]
      exact ih (i + 1) _ (by omega)
    · rw [if_neg hpos]
      exact ih (i + 1) _ (by omega)

theorem PlayAnimation_frame (c : SpineModelComponent) (animation_id : dmhash_t)
    (playback : Playback) (blend_duration : ℚ) :
    let c1 := (PlayAnimation c animation_id playback blend_duration).2
    c1.m_Resource = c.m_Resource ∧ c1.m_Enabled = c.m_Enabled ∧ c1.m_Instance = c.m_Instance ∧
      c1.m_ComponentIndex = c.m_ComponentIndex ∧ c1.m_Mesh = c.m_Mesh ∧ c1.m_Skin = c.m_Skin := by
  unfold PlayAnimation
  cases FindAnimation c.m_Resource.m_Animations animation_id with
  | none => exact ⟨rfl, rfl, rfl, rfl, rfl, rfl⟩
  | some anim =>
    by_cases hb : blend_duration > 0
    · simp only [if_pos hb, SwitchPlayer, SpineModelComponent.setPlayer]
      split_ifs <;> exact ⟨rfl, rfl, rfl, rfl, rfl, rfl⟩
    · simp only [if_neg hb, SwitchPlayer, SpineModelComponent.setPlayer]
      split_ifs <;> exact ⟨rfl, rfl, rfl, rfl, rfl, rfl⟩

theorem CompSpineModelCreate_on_free_slot (dmHashString64 : String → dmhash_t)
    (dmHash32 : List HashBuffer → Nat) (Mul : Transform → Transform → Transform)
    (world : SpineModelWorld) (params : ComponentCreateParams) (index : Nat)
    (pool : dmIndexPool32) (key : Nat)
    (hpop : world.m_ComponentIndices.Pop = some (index, pool))
    (hslot : world.m_Components.get? index = some { m_Component := none, m_SortKey := key })
    (hnew : ∀ i, i < params.m_Resource.m_Bones.length → params.m_New i ≠ 0)
    (hbind : params.m_Resource.m_Bones.length ≤ params.m_Resource.m_BindPose.length)
    (hparent : ∀ i bone, 0 < i → i < params.m_Resource.m_Bones.length →
      params.m_Resource.m_Bones.get? i = some bone →
      bone.m_Parent < params.m_Resource.m_Bones.length) :
    ∃ c nodes parents,
      CompSpineModelCreate dmHashString64 dmHash32 Mul world params
        = some { result := CreateResult.CREATE_RESULT_OK
                 world :=
                   { world with
                     m_ComponentIndices := pool
                     m_Components :=
                       world.m_Components.set index { m_Component := some c, m_SortKey := key } }
                 nodes := nodes, parents := parents, user_data := some index } ∧
      c.m_Resource = params.m_Resource ∧ c.m_Instance = params.m_Instance ∧
      c.m_Enabled = true ∧ c.m_ComponentIndex = params.m_ComponentIndex ∧
      c.m_Skin = dmHashString64 params.m_Resource.m_Skin ∧
      c.m_Mesh = FindMesh params.m_Resource.m_Meshes (dmHashString64 params.m_Resource.m_Skin) := by
  have hrem : world.m_ComponentIndices.Remaining ≠ 0 := by
    unfold dmIndexPool32.Pop at hpop
    unfold dmIndexPool32.Remaining
    cases hf : world.m_ComponentIndices.m_Free with
    | nil => rw [hf] at hpop; simp at hpop
    | cons a rest => simp
  obtain ⟨instances1, nodes1, h1, h2⟩ := CreateBoneNodes_succeeds Mul params.m_New
    params.m_Resource.m_BindPose
    { m_Translation := params.m_Position, m_Rotation := params.m_Rotation,
      m_Scale := { x := 1, y := 1, z := 1 } }
    params.m_Resource.m_Bones.length hnew hbind params.m_Resource.m_Bones.length 0
    (List.replicate params.m_Resource.m_Bones.length 0) [] (by omega) (by simp)
  obtain ⟨parents1, h3⟩ := SetBoneParents_succeeds params.m_Resource.m_Bones instances1
    params.m_Resource.m_Bones.length h2 (le_refl _) hparent params.m_Resource.m_Bones.length 0 []
    (by omega)
  unfold CompSpineModelCreate
  rw [if_neg hrem]
  simp only [hpop, hslot, ComponentSlot.component, h1, h3]
  obtain ⟨c1, hre, -, -, prev, hash, hc1⟩ := ReHash_succeeds dmHash32
    { m_Instance := params.m_Instance, m_ComponentIndex := params.m_ComponentIndex,
      m_Resource := params.m_Resource, m_Listener := ResetURL,
      m_Players := (SpinePlayer.zero, SpinePlayer.zero), m_CurrentPlayer := 0,
      m_Pose := List.replicate params.m_Resource.m_Bones.length Transform.identity,
      m_BlendDuration := 0, m_BlendTimer := 0, m_Enabled := true, m_Blending := false,
      m_Transform :=
        { m_Translation := params.m_Position, m_Rotation := params.m_Rotation,
          m_Scale := { x := 1, y := 1, z := 1 } },
      m_World := Matrix4.zero,
      m_Mesh := FindMesh params.m_Resource.m_Meshes (dmHashString64 params.m_Resource.m_Skin),
      m_Skin := dmHashString64 params.m_Resource.m_Skin, m_NodeInstances := instances1,
      m_RenderConstants := [], m_PrevRenderConstants := [], m_MixedHash := 0 }
    (le_refl _)
  simp only [hre]
  refine ⟨_, nodes1, parents1, rfl, ?_⟩
  have hframe := PlayAnimation_frame c1 (dmHashString64 params.m_Resource.m_DefaultAnimation)
    Playback.PLAYBACK_LOOP_FORWARD 0
  by_cases hd : dmHashString64 params.m_Resource.m_DefaultAnimation
      ≠ NULL_ANIMATION dmHashString64
  · rw [if_pos hd]
    obtain ⟨f1, f2, f3, f4, f5, f6⟩ := hframe
    rw [f1, f2, f3, f4, f5, f6, hc1]
    exact ⟨rfl, rfl, rfl, rfl, rfl, rfl⟩
  · rw [if_neg hd, hc1]
    exact ⟨rfl, rfl, rfl, rfl, rfl, rfl⟩

/-- C18: with the index pool, `CompSpineModelCreate` on a world without a free index answers
UNKNOWN_ERROR and leaves the world (pool and every slot) as it was, creating nothing.
`CompSpineModelDestroy` on slot `index` answers OK, zeroes that slot, leaves the other slots
alone and returns `index` to the pool, which then has one more free index. A creation that
follows (with a collection that can create the bone nodes and a well-formed skeleton)
answers OK, places its component in that slot, hands the slot out as user data, leaves the
other slots alone and leaves the pool as it was before the destruction. -/
theorem CompSpineModelCreate_Destroy_pool (dmHashString64 : String → dmhash_t)
    (dmHash32 : List HashBuffer → Nat) (Mul : Transform → Transform → Transform) :
    (∀ (world : SpineModelWorld) (params : ComponentCreateParams),
      world.m_ComponentIndices.Remaining = 0 →
      CompSpineModelCreate dmHashString64 dmHash32 Mul world params
        = some { result := CreateResult.CREATE_RESULT_UNKNOWN_ERROR, world := world,
                 nodes := [], parents := [], user_data := none }) ∧
      ∀ (world : SpineModelWorld) (index : Nat), index < world.m_Components.length →
        ∃ world1 deleted,
          CompSpineModelDestroy world index
            = some (CreateResult.CREATE_RESULT_OK, world1, deleted) ∧
          world1.m_Components[index]? = some ComponentSlot.zero ∧
          (∀ j : Nat, j ≠ index → world1.m_Components[j]? = world.m_Components[j]?) ∧
          world1.m_ComponentIndices = world.m_ComponentIndices.Push index ∧
          world1.m_ComponentIndices.Remaining = world.m_ComponentIndices.Remaining + 1 ∧
          ∀ params : ComponentCreateParams,
            (∀ i, i < params.m_Resource.m_Bones.length → params.m_New i ≠ 0) →
            params.m_Resource.m_Bones.length ≤ params.m_Resource.m_BindPose.length →
            (∀ i bone, 0 < i → i < params.m_Resource.m_Bones.length →
              params.m_Resource.m_Bones.get? i = some bone →
              bone.m_Parent < params.m_Resource.m_Bones.length) →
            ∃ outcome c,
              CompSpineModelCreate dmHashString64 dmHash32 Mul world1 params = some outcome ∧
              outcome.result = CreateResult.CREATE_RESULT_OK ∧
              outcome.user_data = some index ∧
              outcome.world.m_Components[index]?
                = some { m_Component := some c, m_SortKey := 0 } ∧
              c.m_Resource = params.m_Resource ∧ c.m_Instance = params.m_Instance ∧
              c.m_Enabled = true ∧
              (∀ j : Nat, j ≠ index →
                outcome.world.m_Components[j]? = world.m_Components[j]?) ∧
              outcome.world.m_ComponentIndices = world.m_ComponentIndices := by
  refine ⟨?_, ?_⟩
  · intro world params hrem
    unfold CompSpineModelCreate
    rw [if_pos hrem]
  · intro world index hidx
    obtain ⟨slot, hslot⟩ : ∃ slot, world.m_Components.get? index = some slot :=
      ⟨world.m_Components[index], by simp [hidx]⟩
    refine ⟨{ world with
              m_Components := world.m_Components.set index ComponentSlot.zero
              m_ComponentIndices := world.m_ComponentIndices.Push index },
      (match slot.m_Component with
        | none => []
        | some component => component.m_NodeInstances.takeWhile (fun inst => inst != 0)),
      ?_, ?_, ?_, rfl, ?_, ?_⟩
    · unfold CompSpineModelDestroy
      simp only [hslot]
    · simp [hidx]
    · intro j hj
      simp only
      rw [List.getElem?_set_ne (Ne.symm hj)]
    · simp [dmIndexPool32.Remaining, dmIndexPool32.Push]
    · intro params hnew hbind hparent
      obtain ⟨c, nodes, parents, hcreate, hres, hinst, hen, -, -, -⟩ :=
        CompSpineModelCreate_on_free_slot dmHashString64 dmHash32 Mul
          { world with
            m_Components := world.m_Components.set index ComponentSlot.zero
            m_ComponentIndices := world.m_ComponentIndices.Push index }
          params index world.m_ComponentIndices 0 rfl (by simp [hidx, ComponentSlot.zero])
          hnew hbind hparent
      refine ⟨_, c, hcreate, rfl, rfl, ?_, hres, hinst, hen, ?_, rfl⟩
      · simp [hidx]
      · intro j hj
        simp only
        rw [List.getElem?_set_ne (Ne.symm hj), List.getElem?_set_ne (Ne.symm hj)]

theorem CompSpineModelCreate_Destroy_pool_witness :
    exampleWorldAfter 2 = some fullWorld ∧ fullWorld.m_ComponentIndices.Remaining = 0 ∧
      CompSpineModelCreate exampleHashString64 exampleHash32 exampleMul fullWorld
          exampleCreateParams
        = some { result := CreateResult.CREATE_RESULT_UNKNOWN_ERROR, world := fullWorld,
                 nodes := [], parents := [], user_data := none } ∧
      ∃ world1 deleted outcome c,
        CompSpineModelDestroy fullWorld 0
          = some (CreateResult.CREATE_RESULT_OK, world1, deleted) ∧
        world1.m_Components[0]? = some ComponentSlot.zero ∧
        CompSpineModelCreate exampleHashString64 exampleHash32 exampleMul world1
          exampleCreateParams = some outcome ∧
        outcome.result = CreateResult.CREATE_RESULT_OK ∧ outcome.user_data = some 0 ∧
        outcome.world.m_Components[0]? = some { m_Component := some c, m_SortKey := 0 } ∧
        outcome.world.m_ComponentIndices = fullWorld.m_ComponentIndices := by
  have h := CompSpineModelCreate_Destroy_pool exampleHashString64 exampleHash32 exampleMul
  have hrem : fullWorld.m_ComponentIndices.Remaining = 0 := rfl
  refine ⟨rfl, hrem, h.1 fullWorld exampleCreateParams hrem, ?_⟩
  obtain ⟨world1, deleted, hd, hz, -, -, -, hc⟩ := h.2 fullWorld 0 (by decide)
  obtain ⟨outcome, c, h1, h2, h3, h4, -, -, -, -, h9⟩ := hc exampleCreateParams
    (by intro i _; simp [exampleCreateParams]) (by decide)
    (by
      intro i bone hpos hlt
      have : i < 1 := hlt
      omega)
  exact ⟨world1, deleted, outcome, c, hd, hz, h1, h2, h3, h4, h9⟩

/-! ## Sort keys and the sorted order -/

theorem SortKey_pack_lt (z index hash : Nat) : SortKey.pack z index hash < 2 ^ 64 := by
  unfold SortKey.pack
  have h1 : z % 2 ^ 16 < 2 ^ 16 := Nat.mod_lt _ (by norm_num)
  have h2 : hash % 2 ^ 32 < 2 ^ 32 := Nat.mod_lt _ (by norm_num)
  have h3 : index % 2 ^ 16 < 2 ^ 16 := Nat.mod_lt _ (by norm_num)
  omega

theorem SortKey_m_Z_pack (z index hash : Nat) :
    SortKey.m_Z (SortKey.pack z index hash) = z % 2 ^ 16 := by
  unfold SortKey.pack SortKey.m_Z
  have h1 : z % 2 ^ 16 < 2 ^ 16 := Nat.mod_lt _ (by norm_num)
  have h2 : hash % 2 ^ 32 < 2 ^ 32 := Nat.mod_lt _ (by norm_num)
  have h3 : index % 2 ^ 16 < 2 ^ 16 := Nat.mod_lt _ (by norm_num)
  omega

theorem SortKey_m_Z_mono {k1 k2 : Nat} (h : k1 ≤ k2) (h2 : k2 < 2 ^ 64) :
    SortKey.m_Z k1 ≤ SortKey.m_Z k2 := by
  unfold SortKey.m_Z
  omega

theorem GenerateKeysLoop_getElem? (min_z range : ℚ) (slots : List ComponentSlot) :
    ∀ (index j : Nat),
      (GenerateKeysLoop min_z range index slots)[j]?
        = (slots[j]?).map (GenerateKey min_z range (index + j)) := by
  induction slots with
  | nil => intro index j; simp [GenerateKeysLoop]
  | cons slot rest ih =>
    intro index j
    cases j with
    | zero => simp [GenerateKeysLoop]
    | succ j =>
      simp only [GenerateKeysLoop, List.getElem?_cons_succ]
      rw [ih (index + 1) j]
      have : index + 1 + j = index + (j + 1) := by omega
      rw [this]

theorem GenerateKeysLoop_length (min_z range : ℚ) (slots : List ComponentSlot) :
    ∀ index : Nat, (GenerateKeysLoop min_z range index slots).length = slots.length := by
  induction slots with
  | nil => intro index; rfl
  | cons slot rest ih => intro index; simp [GenerateKeysLoop, ih]

theorem GenerateKey_enabled (min_z range : ℚ) (index : Nat) (slot : ComponentSlot) :
    (GenerateKey min_z range index slot).enabled = slot.enabled ∧
      (GenerateKey min_z range index slot).m_Component = slot.m_Component := by
  unfold GenerateKey
  cases hc : slot.m_Component with
  | none => simp [ComponentSlot.enabled, hc]
  | some c =>
    by_cases he : c.m_Enabled = true
    · simp [ComponentSlot.enabled, hc, he]
    · simp [ComponentSlot.enabled, hc, he]

theorem GenerateKey_key_of_not_enabled (min_z range : ℚ) (index : Nat) (slot : ComponentSlot)
    (h : slot.enabled = false) :
    (GenerateKey min_z range index slot).m_SortKey = SortKey.disabled := by
  unfold GenerateKey
  cases hc : slot.m_Component with
  | none => rfl
  | some c =>
    have he : c.m_Enabled = false := by simpa [ComponentSlot.enabled, hc] using h
    simp [he]

theorem GenerateKey_key_of_enabled (min_z range : ℚ) (index : Nat) (slot : ComponentSlot)
    (h : slot.enabled = true) :
    ∃ c, slot.m_Component = some c ∧
      (GenerateKey min_z range index slot).m_SortKey
        = SortKey.pack
            (Rat.floor (Clamp ((c.m_World.getElem 3 2 - min_z) * range * 65535) 0 65535)).toNat
            index c.m_MixedHash := by
  unfold GenerateKey
  cases hc : slot.m_Component with
  | none => simp [ComponentSlot.enabled, hc] at h
  | some c =>
    have he : c.m_Enabled = true := by simpa [ComponentSlot.enabled, hc] using h
    exact ⟨c, rfl, by simp [he]⟩

theorem GenerateKey_key_lt (min_z range : ℚ) (index : Nat) (slot : ComponentSlot) :
    (GenerateKey min_z range index slot).m_SortKey < 2 ^ 64 := by
  cases he : slot.enabled with
  | false =>
    rw [GenerateKey_key_of_not_enabled min_z range index slot he]
    norm_num [SortKey.disabled]
  | true =>
    obtain ⟨c, -, hk⟩ := GenerateKey_key_of_enabled min_z range index slot he
    rw [hk]
    exact SortKey_pack_lt _ _ _

/-- Under the key layout of the spec, the order that `GenerateKeys` and `Sort` produce: in
every result that `std::sort` allows, of two slots the earlier one has the smaller or equal
depth bucket `m_Z` when both are enabled, and an enabled slot whose key is not the key
`0xffffffffffffffff` of the slots that are not enabled never comes after such a slot. -/
theorem IsSortResult_order (world : SpineModelWorld) (sorted : List Nat)
    (hsorted : IsSortResult (GenerateKeys world) world.m_RenderSortBuffer sorted)
    (p q x y : Nat) (sx sy : ComponentSlot) (hpq : p < q)
    (hx : sorted[p]? = some x) (hy : sorted[q]? = some y)
    (hsx : (GenerateKeys world).m_Components[x]? = some sx)
    (hsy : (GenerateKeys world).m_Components[y]? = some sy) :
    (sx.enabled = true → sy.enabled = true →
        SortKey.m_Z sx.m_SortKey ≤ SortKey.m_Z sy.m_SortKey) ∧
      (sy.enabled = true → sy.m_SortKey ≠ SortKey.disabled → sx.enabled = true) := by
  have hle : sx.m_SortKey ≤ sy.m_SortKey := by
    have hpair := (List.pairwise_iff_getElem.mp hsorted.2)
    have hp : p < sorted.length := by
      by_contra hge
      rw [List.getElem?_eq_none (Nat.le_of_not_lt hge)] at hx
      simp at hx
    have hq : q < sorted.length := by
      by_contra hge
      rw [List.getElem?_eq_none (Nat.le_of_not_lt hge)] at hy
      simp at hy
    have h := hpair p q hp hq hpq
    have hx1 : sorted[p] = x := by
      rw [List.getElem?_eq_getElem hp] at hx
      exact Option.some.inj hx
    have hy1 : sorted[q] = y := by
      rw [List.getElem?_eq_getElem hq] at hy
      exact Option.some.inj hy
    rw [hx1, hy1] at h
    unfold SortPredSpine SortKeyAt at h
    simp only [List.get?_eq_getElem?, hsx, hsy, decide_eq_false_iff_not, not_lt] at h
    exact h
  have hsy1 := hsy
  simp only [GenerateKeys, GenerateKeysLoop_getElem?] at hsy1
  have hsx1 := hsx
  simp only [GenerateKeys, GenerateKeysLoop_getElem?] at hsx1
  cases hoy : world.m_Components[y]? with
  | none => rw [hoy] at hsy1; simp at hsy1
  | some oy =>
    cases hox : world.m_Components[x]? with
    | none => rw [hox] at hsx1; simp at hsx1
    | some ox =>
      rw [hoy] at hsy1
      rw [hox] at hsx1
      simp only [Option.map_some', Option.some.injEq] at hsy1 hsx1
      have hylt : sy.m_SortKey < 2 ^ 64 := by
        rw [← hsy1]; exact GenerateKey_key_lt _ _ _ _
      refine ⟨fun _ _ => SortKey_m_Z_mono hle hylt, ?_⟩
      intro hey hne
      by_contra hnx
      have hex : ox.enabled = false := by
        have := (GenerateKey_enabled world.m_MinZ (1 / (world.m_MaxZ - world.m_MinZ)) (0 + x)
          ox).1
        rw [hsx1] at this
        rw [← this]
        simpa using hnx
      have hkx : sx.m_SortKey = SortKey.disabled := by
        rw [← hsx1]; exact GenerateKey_key_of_not_enabled _ _ _ _ hex
      rw [hkx] at hle
      apply hne
      have : SortKey.disabled = 2 ^ 64 - 1 := by norm_num [SortKey.disabled]
      omega

theorem SortRenderBuffer_IsSortResult (world world1 : SpineModelWorld)
    (h : SortRenderBuffer world = some world1) :
    IsSortResult world world.m_RenderSortBuffer world1.m_RenderSortBuffer ∧
      world1.m_Components = world.m_Components := by
  unfold SortRenderBuffer at h
  split at h
  · have h1 := Option.some.inj h
    subst h1
    refine ⟨⟨List.perm_insertionSort _ _, ?_⟩, rfl⟩
    haveI : IsTotal Nat (fun x y => SortKeyAt world x ≤ SortKeyAt world y) :=
      ⟨fun a b => le_total _ _⟩
    haveI : IsTrans Nat (fun x y => SortKeyAt world x ≤ SortKeyAt world y) :=
      ⟨fun a b c hab hbc => le_trans hab hbc⟩
    have hs := List.sorted_insertionSort (fun x y => SortKeyAt world x ≤ SortKeyAt world y)
      world.m_RenderSortBuffer
    refine List.Pairwise.imp ?_ hs
    intro a b hab
    simp only [SortPredSpine, decide_eq_false_iff_not, not_lt]
    exact hab
  · simp at h

theorem GenerateKey_nearComponent :
    GenerateKey 0 (1 / (1 - 0)) 0 { m_Component := some nearComponent, m_SortKey := 0 }
      = { m_Component := some nearComponent, m_SortKey := 327680 } := by
  have hz : Rat.floor (Clamp ((nearComponent.m_World.getElem 3 2 - 0) * (1 / (1 - 0)) * 65535)
      0 65535) = 0 := by
    rw [rat_floor_eq_floor]
    norm_num [nearComponent, Matrix4.getElem, Matrix4.getCol, Vector4.getElem, Matrix4.zero,
      Vector4.zero, Clamp]
  have he : nearComponent.m_Enabled = true := rfl
  unfold GenerateKey
  simp only [he, if_true, hz]
  rfl

theorem GenerateKey_farComponent :
    GenerateKey 0 (1 / (1 - 0)) 65535 { m_Component := some farComponent, m_SortKey := 0 }
      = { m_Component := some farComponent, m_SortKey := SortKey.disabled } := by
  have hz : Rat.floor (Clamp ((farComponent.m_World.getElem 3 2 - 0) * (1 / (1 - 0)) * 65535)
      0 65535) = 65535 := by
    rw [rat_floor_eq_floor]
    norm_num [farComponent, Matrix4.getElem, Matrix4.getCol, Vector4.getElem, Matrix4.zero,
      Vector4.zero, Clamp]
  have he : farComponent.m_Enabled = true := rfl
  unfold GenerateKey
  simp only [he, if_true, hz]
  have ht : Int.toNat 65535 = 65535 := rfl
  norm_num [SortKey.pack, SortKey.disabled, farComponent, ht]

theorem bigWorld_m_Components_getElem? (x : Nat) (hx : x < 65536) :
    bigWorld.m_Components[x]? = some
      (if x = 0 then { m_Component := some nearComponent, m_SortKey := 0 }
       else if x = 65534 then { m_Component := some disabledComponent, m_SortKey := 0 }
       else if x = 65535 then { m_Component := some farComponent, m_SortKey := 0 }
       else ComponentSlot.zero) := by
  unfold bigWorld
  cases x with
  | zero => simp only [List.getElem?_cons_zero, if_true]
  | succ k =>
    simp only [List.getElem?_cons_succ]
    rw [if_neg (Nat.succ_ne_zero k)]
    by_cases hk : k < 65533
    · rw [List.getElem?_append_left (by rw [List.length_replicate]; exact hk)]
      rw [if_neg (by omega), if_neg (by omega), List.getElem?_replicate, if_pos hk]
    · rw [List.getElem?_append_right (by rw [List.length_replicate]; omega)]
      simp only [List.length_replicate]
      by_cases h4 : k = 65533
      · subst h4
        rw [if_pos (by norm_num)]
        simp only [Nat.sub_self, List.getElem?_cons_zero]
      · have h5 : k = 65534 := by omega
        subst h5
        rw [if_neg (by norm_num), if_pos (by norm_num)]
        have : 65534 - 65533 = 0 + 1 := by norm_num
        rw [this, List.getElem?_cons_succ, List.getElem?_cons_zero]

theorem GenerateKeys_bigWorld_getElem? (x : Nat) (hx : x < 65536) :
    (GenerateKeys bigWorld).m_Components[x]? = some
      (if x = 0 then { m_Component := some nearComponent, m_SortKey := 327680 }
       else if x = 65534 then
         { m_Component := some disabledComponent, m_SortKey := SortKey.disabled }
       else if x = 65535 then { m_Component := some farComponent, m_SortKey := SortKey.disabled }
       else { m_Component := none, m_SortKey := SortKey.disabled }) := by
  have hmin : bigWorld.m_MinZ = 0 := rfl
  have hmax : bigWorld.m_MaxZ = 1 := rfl
  simp only [GenerateKeys, GenerateKeysLoop_getElem?, bigWorld_m_Components_getElem? x hx,
    Option.map_some', hmin, hmax, Nat.zero_add]
  by_cases h0 : x = 0
  · subst h0
    simp only [if_true]
    rw [GenerateKey_nearComponent]
  · rw [if_neg h0, if_neg h0]
    by_cases h1 : x = 65534
    · subst h1
      simp only [if_true]
      rfl
    · rw [if_neg h1, if_neg h1]
      by_cases h2 : x = 65535
      · subst h2
        simp only [if_true]
        rw [GenerateKey_farComponent]
      · rw [if_neg h2, if_neg h2]
        rfl

theorem SortKeyAt_GenerateKeys_bigWorld (x : Nat) (hx : x < 65536) :
    SortKeyAt (GenerateKeys bigWorld) x = if x = 0 then 327680 else SortKey.disabled := by
  unfold SortKeyAt
  rw [List.get?_eq_getElem?, GenerateKeys_bigWorld_getElem? x hx]
  by_cases h0 : x = 0
  · simp [h0]
  · simp only [if_neg h0]
    split_ifs <;> rfl


theorem GenerateKeys_m_RenderSortBuffer (world : SpineModelWorld) :
    (GenerateKeys world).m_RenderSortBuffer = world.m_RenderSortBuffer := rfl

theorem GenerateKeys_length (world : SpineModelWorld) :
    (GenerateKeys world).m_Components.length = world.m_Components.length := by
  simp only [GenerateKeys, GenerateKeysLoop_length]

theorem bigWorld_m_RenderSortBuffer : bigWorld.m_RenderSortBuffer = List.range 65536 := by
  simp only [bigWorld]

theorem bigWorld_length : bigWorld.m_Components.length = 65536 := by
  have h : bigWorld.m_Components =
      { m_Component := some nearComponent, m_SortKey := 0 } ::
        (List.replicate 65533 ComponentSlot.zero ++
          [{ m_Component := some disabledComponent, m_SortKey := 0 },
           { m_Component := some farComponent, m_SortKey := 0 }]) := by
    simp only [bigWorld]
  rw [h, List.length_cons, List.length_append, List.length_replicate]
  rfl

theorem SortRenderBuffer_of_sorted (world : SpineModelWorld)
    (hall : ∀ x ∈ world.m_RenderSortBuffer, x < world.m_Components.length)
    (hsorted : world.m_RenderSortBuffer.Pairwise
      (fun x y => SortKeyAt world x ≤ SortKeyAt world y)) :
    SortRenderBuffer world = some world := by
  unfold SortRenderBuffer
  have h : world.m_RenderSortBuffer.all (fun x => decide (x < world.m_Components.length))
      = true := by
    rw [List.all_eq_true]
    intro x hx
    exact decide_eq_true (hall x hx)
  rw [if_pos h, List.Sorted.insertionSort_eq hsorted]

/-- C14 (code defect, on the key layout of the spec): in `bigWorld` the enabled component in
slot 65535 lies at the far end of the depth range and has a mixed hash of all ones, so
`GenerateKeys` gives it the key `0xffffffffffffffff`, the key of the slots that are not
enabled. The sort predicate orders it neither before nor after the disabled component in
slot 65534, the index order 0, 1, ..., 65535 is a result `std::sort` allows, and it is the one
`Sort` (as modelled, keeping ties in place) returns: the disabled component and 65533 free
slots come before an enabled component. -/
theorem GenerateKeys_Sort_enabled_after_disabled :
    (GenerateKeys bigWorld).m_Components[65534]?
        = some { m_Component := some disabledComponent, m_SortKey := SortKey.disabled } ∧
      (GenerateKeys bigWorld).m_Components[65535]?
        = some { m_Component := some farComponent, m_SortKey := SortKey.disabled } ∧
      disabledComponent.m_Enabled = false ∧ farComponent.m_Enabled = true ∧
      SortPredSpine (GenerateKeys bigWorld) 65535 65534 = false ∧
      SortPredSpine (GenerateKeys bigWorld) 65534 65535 = false ∧
      IsSortResult (GenerateKeys bigWorld) bigWorld.m_RenderSortBuffer (List.range 65536) ∧
      (List.range 65536)[65534]? = some 65534 ∧ (List.range 65536)[65535]? = some 65535 ∧
      SortRenderBuffer (GenerateKeys bigWorld) = some (GenerateKeys bigWorld) := by
  have hsorted : (List.range 65536).Pairwise
      (fun x y => SortKeyAt (GenerateKeys bigWorld) x ≤ SortKeyAt (GenerateKeys bigWorld) y) := by
    rw [List.pairwise_iff_getElem]
    intro i j hi hj hij
    simp only [List.length_range] at hi hj
    simp only [List.getElem_range]
    rw [SortKeyAt_GenerateKeys_bigWorld i hi, SortKeyAt_GenerateKeys_bigWorld j hj]
    have hj0 : j ≠ 0 := by omega
    rw [if_neg hj0]
    split_ifs <;> norm_num [SortKey.disabled]
  have h34 := GenerateKeys_bigWorld_getElem? 65534 (by norm_num)
  rw [if_neg (by norm_num), if_pos rfl] at h34
  have h35 := GenerateKeys_bigWorld_getElem? 65535 (by norm_num)
  rw [if_neg (by norm_num), if_neg (by norm_num), if_pos rfl] at h35
  have hbuf : (GenerateKeys bigWorld).m_RenderSortBuffer = List.range 65536 := by
    rw [GenerateKeys_m_RenderSortBuffer, bigWorld_m_RenderSortBuffer]
  refine ⟨h34, h35, rfl, rfl, ?_, ?_,
    ⟨by rw [bigWorld_m_RenderSortBuffer], ?_⟩, ?_, ?_, ?_⟩
  · unfold SortPredSpine
    rw [SortKeyAt_GenerateKeys_bigWorld 65535 (by norm_num),
      SortKeyAt_GenerateKeys_bigWorld 65534 (by norm_num)]
    simp
  · unfold SortPredSpine
    rw [SortKeyAt_GenerateKeys_bigWorld 65535 (by norm_num),
      SortKeyAt_GenerateKeys_bigWorld 65534 (by norm_num)]
    simp
  · refine List.Pairwise.imp ?_ hsorted
    intro a b hab
    simp only [SortPredSpine, decide_eq_false_iff_not, not_lt]
    exact hab
  · exact List.getElem?_range (by norm_num)
  · exact List.getElem?_range (by norm_num)
  · refine SortRenderBuffer_of_sorted (GenerateKeys bigWorld) ?_ ?_
    · intro x hx
      rw [hbuf] at hx
      rw [GenerateKeys_length, bigWorld_length]
      exact List.mem_range.mp hx
    · rw [hbuf]
      exact hsorted

/-! ## Crossfade state across `PlayAnimation` -/

theorem PlayAnimation_no_blend_crossfade_fields (c : SpineModelComponent)
    (animation_id : dmhash_t) (playback : Playback) (blend_duration : ℚ)
    (hblend : blend_duration ≤ 0) :
    (PlayAnimation c animation_id playback blend_duration).2.m_Blending = c.m_Blending ∧
      (PlayAnimation c animation_id playback blend_duration).2.m_BlendTimer = c.m_BlendTimer ∧
      (PlayAnimation c animation_id playback blend_duration).2.m_BlendDuration
        = c.m_BlendDuration ∧
      (PlayAnimation c animation_id playback blend_duration).2.m_Enabled = c.m_Enabled ∧
      (PlayAnimation c animation_id playback blend_duration).2.m_Pose = c.m_Pose := by
  have hnot : ¬ blend_duration > 0 := not_lt.mpr hblend
  unfold PlayAnimation
  cases FindAnimation c.m_Resource.m_Animations animation_id with
  | none => exact ⟨rfl, rfl, rfl, rfl, rfl⟩
  | some anim =>
    simp only [if_neg hnot, SwitchPlayer, SpineModelComponent.setPlayer]
    split_ifs <;> exact ⟨rfl, rfl, rfl, rfl, rfl⟩

theorem PlayAnimation_no_blend_players (c : SpineModelComponent) (animation_id : dmhash_t)
    (playback : Playback) (blend_duration : ℚ) (hblend : blend_duration ≤ 0)
    (hok : (PlayAnimation c animation_id playback blend_duration).1 = true) :
    GetSecondaryPlayer (PlayAnimation c animation_id playback blend_duration).2
        = { GetPlayer c with m_Playing := false } ∧
      (GetPlayer (PlayAnimation c animation_id playback blend_duration).2).m_AnimationId
        = animation_id ∧
      (GetPlayer (PlayAnimation c animation_id playback blend_duration).2).m_Playing = true ∧
      (GetPlayer (PlayAnimation c animation_id playback blend_duration).2).m_Animation
        = FindAnimation c.m_Resource.m_Animations animation_id := by
  obtain ⟨anim, hfind⟩ := PlayAnimation_success hok
  have hnot : ¬ blend_duration > 0 := not_lt.mpr hblend
  rcases c with ⟨inst, ci, res, lis, ⟨p0, p1⟩, cur, pose, bd, bt, en, bl, tf, wm, me, sk, ni, rc, prc,
    mh⟩
  simp only at hfind
  fin_cases cur <;>
    simp [PlayAnimation, hfind, hnot, SwitchPlayer, GetPlayer, GetSecondaryPlayer,
      otherPlayerIndex, SpineModelComponent.setPlayer, SpineModelComponent.player]

/-- C29: `PlayAnimation` with `blend_duration <= 0` leaves the crossfade state alone: the
blending flag, the blend timer and the blend duration are as before, whether or not the clip
is found. After a successful call the secondary player is the previously current player,
stopped, and the current player plays the new clip. A crossfade that was active therefore
goes on: an `Animate` step whose `dt` keeps the timer below the blend duration still blends
(both slots sampled, slot 1 on top of slot 0 with the fade weight), and the step on which the
timer reaches the duration ends it. -/
theorem PlayAnimation_no_blend_keeps_crossfade (c : SpineModelComponent)
    (animation_id : dmhash_t) (playback : Playback) (blend_duration : ℚ)
    (hblend : blend_duration ≤ 0) :
    let c1 := (PlayAnimation c animation_id playback blend_duration).2
    c1.m_Blending = c.m_Blending ∧ c1.m_BlendTimer = c.m_BlendTimer ∧
      c1.m_BlendDuration = c.m_BlendDuration ∧
      ((PlayAnimation c animation_id playback blend_duration).1 = true →
        GetSecondaryPlayer c1 = { GetPlayer c with m_Playing := false } ∧
        (GetPlayer c1).m_AnimationId = animation_id ∧ (GetPlayer c1).m_Playing = true ∧
        (GetPlayer c1).m_Animation = FindAnimation c.m_Resource.m_Animations animation_id) ∧
      (c.m_Blending = true → ∀ dt : ℚ,
        (c.m_BlendTimer + dt < c.m_BlendDuration →
          (UpdateBlend c1 dt).m_Blending = true ∧
          (UpdateBlend c1 dt).m_BlendTimer = c.m_BlendTimer + dt ∧
          (UpdateBlend c1 dt).m_BlendDuration = c.m_BlendDuration ∧
          ∀ (fuel : Nat) (r : SpineModelComponent × List Message),
            c.m_Enabled = true → c.m_Pose.isEmpty = false →
            AnimateSample fuel c1 dt = some r →
            r.1.m_Blending = true ∧
            r.1.m_Pose =
              UpdatePose (r.1.player 1) (UpdatePose (r.1.player 0) (resetPose c.m_Pose) 1)
                (if c1.m_CurrentPlayer = 0 then 1 - (c.m_BlendTimer + dt) / c.m_BlendDuration
                  else (c.m_BlendTimer + dt) / c.m_BlendDuration)) ∧
        (c.m_BlendTimer + dt ≥ c.m_BlendDuration →
          (UpdateBlend c1 dt).m_Blending = false)) := by
  intro c1
  obtain ⟨hb, ht, hd, hen, hpose⟩ :=
    PlayAnimation_no_blend_crossfade_fields c animation_id playback blend_duration hblend
  refine ⟨hb, ht, hd,
    PlayAnimation_no_blend_players c animation_id playback blend_duration hblend, ?_⟩
  intro hbl dt
  have hb1 : c1.m_Blending = true := hb.trans hbl
  refine ⟨?_, ?_⟩
  · intro hlt
    have hlt1 : c1.m_BlendTimer + dt < c1.m_BlendDuration := by
      show (PlayAnimation c animation_id playback blend_duration).2.m_BlendTimer + dt
        < (PlayAnimation c animation_id playback blend_duration).2.m_BlendDuration
      rw [ht, hd]; exact hlt
    have hub := UpdateBlend_of_lt hb1 hlt1
    refine ⟨by rw [hub]; exact hb1, by rw [hub]; exact congrArg (· + dt) ht,
      by rw [hub]; exact hd, ?_⟩
    intro fuel r hen0 hpose0 hr
    have hen1 : c1.m_Enabled = true := hen.trans hen0
    have hpose1 : c1.m_Pose.isEmpty = false := by
      show (PlayAnimation c animation_id playback blend_duration).2.m_Pose.isEmpty = false
      rw [hpose]; exact hpose0
    obtain ⟨-, h2, -, -, h5⟩ := AnimateSample_blending hen1 hpose1 hb1 hlt1 hr
    refine ⟨h2, ?_⟩
    rw [h5]
    show UpdatePose _ (UpdatePose _
      (resetPose (PlayAnimation c animation_id playback blend_duration).2.m_Pose) 1)
      (if c1.m_CurrentPlayer = 0 then
        1 - ((PlayAnimation c animation_id playback blend_duration).2.m_BlendTimer + dt)
          / (PlayAnimation c animation_id playback blend_duration).2.m_BlendDuration
       else ((PlayAnimation c animation_id playback blend_duration).2.m_BlendTimer + dt)
          / (PlayAnimation c animation_id playback blend_duration).2.m_BlendDuration) = _
    rw [hpose, ht, hd]
  · intro hge
    have hge1 : c1.m_BlendTimer + dt ≥ c1.m_BlendDuration := by
      show (PlayAnimation c animation_id playback blend_duration).2.m_BlendTimer + dt
        ≥ (PlayAnimation c animation_id playback blend_duration).2.m_BlendDuration
      rw [ht, hd]; exact hge
    rw [UpdateBlend_of_ge hb1 hge1]
    exact setPlayer_m_Blending _ _ _

theorem PlayAnimation_no_blend_keeps_crossfade_witness :
    (0 : ℚ) ≤ 0 ∧
      (PlayAnimation blendComponent 7 Playback.PLAYBACK_LOOP_FORWARD 0).1 = true ∧
      (PlayAnimation blendComponent 7 Playback.PLAYBACK_LOOP_FORWARD 0).2.m_Blending = true ∧
      (PlayAnimation blendComponent 7 Playback.PLAYBACK_LOOP_FORWARD 0).2.m_BlendTimer = 0 ∧
      (PlayAnimation blendComponent 7 Playback.PLAYBACK_LOOP_FORWARD 0).2.m_BlendDuration
        = 1 / 2 ∧
      GetSecondaryPlayer (PlayAnimation blendComponent 7 Playback.PLAYBACK_LOOP_FORWARD 0).2
        = { runPlayer with m_Playing := false } :=
  have h := PlayAnimation_no_blend_keeps_crossfade blendComponent 7
    Playback.PLAYBACK_LOOP_FORWARD 0 (le_refl 0)
  have hok : (PlayAnimation blendComponent 7 Playback.PLAYBACK_LOOP_FORWARD 0).1 = true := by
    decide
  ⟨le_refl 0, hok, h.1, h.2.1, h.2.2.1, (h.2.2.2.1 hok).1⟩

/-! ## The wrap loops, counted -/

theorem xor_not_parity (b : Bool) (k : Nat) :
    xor (!b) (decide (k % 2 = 1)) = xor b (decide ((k + 1) % 2 = 1)) := by
  rcases Nat.mod_two_eq_zero_or_one k with h | h
  · have h1 : (k + 1) % 2 = 1 := by omega
    cases b <;> simp [h, h1]
  · have h1 : (k + 1) % 2 = 0 := by omega
    cases b <;> simp [h, h1]

/-- The wrap loop on a cursor in `[k * duration, (k + 1) * duration)`, or below `duration`
for `k = 0`: it returns as soon as the fuel covers `k` iterations, after exactly `k`
subtractions, and in the ping-pong loop `m_Backwards` has been flipped `k` times. -/
theorem WrapLoop_exact (pingpong : Bool) {duration : ℚ} (hd : 0 < duration) :
    ∀ (k : Nat) (player : SpinePlayer),
      (k = 0 ∨ (k : ℚ) * duration ≤ player.m_Cursor) →
      player.m_Cursor < ((k : ℚ) + 1) * duration →
      ∀ fuel, k ≤ fuel →
        WrapLoop pingpong duration fuel player
          = some ({ player with
                    m_Cursor := player.m_Cursor - (k : ℚ) * duration
                    m_Backwards :=
                      if pingpong then xor player.m_Backwards (decide (k % 2 = 1))
                      else player.m_Backwards }, k) := by
  intro k
  induction k with
  | zero =>
    intro player _ hlt fuel _
    have hlt1 : player.m_Cursor < duration := by simpa using hlt
    rw [WrapLoop_of_lt pingpong duration fuel player hlt1]
    cases pingpong <;> simp
  | succ k ih =>
    intro player hge hlt fuel hfuel
    have hge1 : ((k : ℚ) + 1) * duration ≤ player.m_Cursor := by
      rcases hge with h | h
      · exact absurd h (Nat.succ_ne_zero k)
      · push_cast at h; exact h
    have hk0 : (0 : ℚ) ≤ (k : ℚ) := Nat.cast_nonneg k
    have hged : player.m_Cursor ≥ duration := by nlinarith
    obtain ⟨n, rfl⟩ : ∃ n, fuel = n + 1 := ⟨fuel - 1, by omega⟩
    have hkn : k ≤ n := by omega
    unfold WrapLoop
    rw [if_pos hged]
    have hlt' : player.m_Cursor - duration < ((k : ℚ) + 1) * duration := by
      push_cast at hlt; linarith
    have hge' : (k : ℚ) * duration ≤ player.m_Cursor - duration := by linarith
    cases pingpong with
    | true =>
      have h := ih { player with
        m_Cursor := player.m_Cursor - duration, m_Backwards := !player.m_Backwards }
        (Or.inr hge') hlt' n hkn
      simp only [if_true] at h ⊢
      rw [h]
      simp only [Option.map_some', xor_not_parity]
      congr 2
      push_cast
      ring_nf
    | false =>
      have h := ih { player with m_Cursor := player.m_Cursor - duration }
        (Or.inr hge') hlt' n hkn
      simp only [Bool.false_eq_true, if_false] at h ⊢
      rw [h]
      simp only [Option.map_some']
      congr 2
      push_cast
      ring_nf

theorem WrapLoop_fuel_too_small (pingpong : Bool) {duration : ℚ} (hd : 0 < duration) :
    ∀ (fuel k : Nat) (player : SpinePlayer), fuel < k →
      (k : ℚ) * duration ≤ player.m_Cursor →
      WrapLoop pingpong duration fuel player = none := by
  intro fuel
  induction fuel with
  | zero =>
    intro k player hk hge
    have hk1 : (1 : ℚ) ≤ (k : ℚ) := by exact_mod_cast hk
    have hged : player.m_Cursor ≥ duration := by nlinarith
    unfold WrapLoop
    rw [if_pos hged]
  | succ fuel ih =>
    intro k player hk hge
    have hk1 : (1 : ℚ) ≤ (k : ℚ) := by
      have : 1 ≤ k := by omega
      exact_mod_cast this
    have hged : player.m_Cursor ≥ duration := by nlinarith
    obtain ⟨j, rfl⟩ : ∃ j, k = j + 1 := ⟨k - 1, by omega⟩
    have hge' : (j : ℚ) * duration ≤ player.m_Cursor - duration := by
      push_cast at hge; linarith
    unfold WrapLoop
    rw [if_pos hged]
    cases pingpong with
    | true =>
      simp only [if_true]
      rw [ih j { player with
        m_Cursor := player.m_Cursor - duration, m_Backwards := !player.m_Backwards }
        (by omega) hge']
      rfl
    | false =>
      simp only [Bool.false_eq_true, if_false]
      rw [ih j { player with m_Cursor := player.m_Cursor - duration } (by omega) hge']
      rfl

/-- With a duration that is not positive, a wrap loop that is entered never ends. -/
theorem WrapLoop_diverges (pingpong : Bool) {duration : ℚ} (hd : duration ≤ 0) :
    ∀ (fuel : Nat) (player : SpinePlayer), duration ≤ player.m_Cursor →
      WrapLoop pingpong duration fuel player = none := by
  intro fuel
  induction fuel with
  | zero =>
    intro player hge
    unfold WrapLoop
    rw [if_pos hge]
  | succ fuel ih =>
    intro player hge
    have hge' : duration ≤ player.m_Cursor - duration := by linarith
    unfold WrapLoop
    rw [if_pos hge]
    cases pingpong with
    | true =>
      simp only [if_true]
      rw [ih { player with
        m_Cursor := player.m_Cursor - duration, m_Backwards := !player.m_Backwards } hge']
      rfl
    | false =>
      simp only [Bool.false_eq_true, if_false]
      rw [ih { player with m_Cursor := player.m_Cursor - duration } hge']
      rfl

/-- The number of wraps of a cursor value: `floor (x / duration)` for `x >= 0`. -/
theorem wrap_count_bounds {x duration : ℚ} (hd : 0 < duration) (hx : 0 ≤ x) :
    ((⌊x / duration⌋.toNat : Nat) : ℚ) * duration ≤ x ∧
      x < (((⌊x / duration⌋.toNat : Nat) : ℚ) + 1) * duration ∧
      ((⌊x / duration⌋.toNat : Nat) : ℤ) = ⌊x / duration⌋ := by
  have hq : 0 ≤ x / duration := div_nonneg hx hd.le
  have hfl : 0 ≤ ⌊x / duration⌋ := Int.floor_nonneg.mpr hq
  have hcast : ((⌊x / duration⌋.toNat : Nat) : ℤ) = ⌊x / duration⌋ := Int.toNat_of_nonneg hfl
  have hcastq : ((⌊x / duration⌋.toNat : Nat) : ℚ) = ((⌊x / duration⌋ : ℤ) : ℚ) := by
    have h := congrArg (Int.cast : ℤ → ℚ) hcast
    rwa [Int.cast_natCast] at h
  refine ⟨?_, ?_, hcast⟩
  · rw [hcastq]
    have := Int.floor_le (x / duration)
    exact (le_div_iff₀ hd).mp this
  · rw [hcastq]
    have := Int.lt_floor_add_one (x / duration)
    exact (div_lt_iff₀ hd).mp this

theorem WrapLoop_result (pingpong : Bool) (duration : ℚ) :
    ∀ (fuel : Nat) (player p2 : SpinePlayer) (k : Nat),
      WrapLoop pingpong duration fuel player = some (p2, k) →
      p2 = { player with
             m_Cursor := player.m_Cursor - (k : ℚ) * duration
             m_Backwards :=
               if pingpong then xor player.m_Backwards (decide (k % 2 = 1))
               else player.m_Backwards } ∧
        p2.m_Cursor < duration := by
  intro fuel
  induction fuel with
  | zero =>
    intro player p2 k h
    unfold WrapLoop at h
    by_cases hge : player.m_Cursor ≥ duration
    · rw [if_pos hge] at h; simp at h
    · rw [if_neg hge] at h
      simp only [Option.some.injEq, Prod.mk.injEq] at h
      obtain ⟨rfl, rfl⟩ := h
      refine ⟨?_, not_le.mp hge⟩
      cases pingpong <;> simp
  | succ fuel ih =>
    intro player p2 k h
    unfold WrapLoop at h
    by_cases hge : player.m_Cursor ≥ duration
    · rw [if_pos hge] at h
      cases pingpong with
      | true =>
        simp only [if_true] at h
        cases hr : WrapLoop true duration fuel
            { player with
              m_Cursor := player.m_Cursor - duration, m_Backwards := !player.m_Backwards } with
        | none => rw [hr] at h; simp at h
        | some r =>
          rw [hr] at h
          simp only [Option.map_some', Option.some.injEq, Prod.mk.injEq] at h
          obtain ⟨h1, h2⟩ := h
          obtain ⟨r1, r2⟩ := r
          simp only at h1 h2
          subst h1 h2
          obtain ⟨he, hlt⟩ := ih _ _ _ hr
          refine ⟨?_, hlt⟩
          rw [he]
          simp only [if_true, xor_not_parity]
          congr 1
          push_cast
          ring
      | false =>
        simp only [Bool.false_eq_true, if_false] at h
        cases hr : WrapLoop false duration fuel
            { player with m_Cursor := player.m_Cursor - duration } with
        | none => rw [hr] at h; simp at h
        | some r =>
          rw [hr] at h
          simp only [Option.map_some', Option.some.injEq, Prod.mk.injEq] at h
          obtain ⟨h1, h2⟩ := h
          obtain ⟨r1, r2⟩ := r
          simp only at h1 h2
          subst h1 h2
          obtain ⟨he, hlt⟩ := ih _ _ _ hr
          refine ⟨?_, hlt⟩
          rw [he]
          simp only [Bool.false_eq_true, if_false]
          congr 1
          push_cast
          ring
    · rw [if_neg hge] at h
      simp only [Option.some.injEq, Prod.mk.injEq] at h
      obtain ⟨rfl, rfl⟩ := h
      refine ⟨?_, not_le.mp hge⟩
      cases pingpong <;> simp

theorem GetCursorDuration_of_loop (player : SpinePlayer) (animation : SpineAnimation)
    (h : player.m_Playback ≠ Playback.PLAYBACK_ONCE_PINGPONG) :
    GetCursorDuration player animation = animation.m_Duration := by
  unfold GetCursorDuration
  rw [if_neg h]

theorem AdjustCursor_loop_modes (fuel : Nat) (player : SpinePlayer) (duration : ℚ)
    (hmode : player.m_Playback = Playback.PLAYBACK_LOOP_FORWARD ∨
      player.m_Playback = Playback.PLAYBACK_LOOP_BACKWARD ∨
      player.m_Playback = Playback.PLAYBACK_LOOP_PINGPONG) :
    AdjustCursor fuel player duration
      = (WrapLoop (decide (player.m_Playback = Playback.PLAYBACK_LOOP_PINGPONG)) duration fuel
          player).map fun r => (r.1, false) := by
  unfold AdjustCursor
  rcases hmode with h | h | h <;> rw [h] <;> rfl

theorem UpdatePlayer_none_of_adjust {fuel : Nat} {c : SpineModelComponent} {pi : Fin 2} {dt : ℚ}
    {animation : SpineAnimation}
    (hanim : (c.player pi).m_Animation = some animation)
    (hplaying : (c.player pi).m_Playing = true)
    (hadj : AdjustCursor fuel (AdvanceCursor (c.player pi) dt)
      (GetCursorDuration (AdvanceCursor (c.player pi) dt) animation) = none) :
    UpdatePlayer fuel c pi dt = none := by
  unfold UpdatePlayer
  simp only [hanim, hplaying, Bool.not_true, Bool.false_eq_true, if_false, hadj]

/-- What `UpdatePlayer` does to a playing loop-mode player, in terms of its wrap loop. -/
theorem UpdatePlayer_loop_modes {fuel : Nat} {c : SpineModelComponent} {pi : Fin 2} {dt : ℚ}
    {animation : SpineAnimation}
    (hanim : (c.player pi).m_Animation = some animation)
    (hplaying : (c.player pi).m_Playing = true)
    (hmode : (c.player pi).m_Playback = Playback.PLAYBACK_LOOP_FORWARD ∨
      (c.player pi).m_Playback = Playback.PLAYBACK_LOOP_BACKWARD ∨
      (c.player pi).m_Playback = Playback.PLAYBACK_LOOP_PINGPONG) :
    AdvanceCursor (c.player pi) dt
        = { c.player pi with m_Cursor := (c.player pi).m_Cursor + dt } ∧
      (WrapLoop (decide ((c.player pi).m_Playback = Playback.PLAYBACK_LOOP_PINGPONG))
          animation.m_Duration fuel (AdvanceCursor (c.player pi) dt) = none →
        UpdatePlayer fuel c pi dt = none) ∧
      ∀ p2 k,
        WrapLoop (decide ((c.player pi).m_Playback = Playback.PLAYBACK_LOOP_PINGPONG))
          animation.m_Duration fuel (AdvanceCursor (c.player pi) dt) = some (p2, k) →
        ∃ u, UpdatePlayer fuel c pi dt = some u ∧ u.completed = false ∧
          u.component.player pi = p2 := by
  have hne : (c.player pi).m_Playback ≠ Playback.PLAYBACK_NONE := by
    rcases hmode with h | h | h <;> rw [h] <;> decide
  have hnp : (c.player pi).m_Playback ≠ Playback.PLAYBACK_ONCE_PINGPONG := by
    rcases hmode with h | h | h <;> rw [h] <;> decide
  have hadv := AdvanceCursor_of_ne_none (c.player pi) dt hne
  have hmode1 : (AdvanceCursor (c.player pi) dt).m_Playback = (c.player pi).m_Playback := by
    rw [hadv]
  have hdur : GetCursorDuration (AdvanceCursor (c.player pi) dt) animation
      = animation.m_Duration :=
    GetCursorDuration_of_loop _ _ (by rw [hmode1]; exact hnp)
  have hadj := AdjustCursor_loop_modes fuel (AdvanceCursor (c.player pi) dt)
    animation.m_Duration (by rw [hmode1]; exact hmode)
  rw [hmode1] at hadj
  refine ⟨hadv, ?_, ?_⟩
  · intro hnone
    apply UpdatePlayer_none_of_adjust hanim hplaying
    rw [hdur, hadj, hnone]
    rfl
  · intro p2 k hw
    have hadj2 : AdjustCursor fuel (AdvanceCursor (c.player pi) dt)
        (GetCursorDuration (AdvanceCursor (c.player pi) dt) animation) = some (p2, false) := by
      rw [hdur, hadj, hw]
      rfl
    obtain ⟨u, l, hu, hcomp, hc⟩ := UpdatePlayer_of_adjust hanim hplaying hadj2
    refine ⟨u, hu, hcomp, ?_⟩
    rw [hc]
    simp only [Bool.false_eq_true, if_false]
    exact (player_with_listener _ _ _).trans (player_setPlayer_same _ _ _)

/-- In exact arithmetic (every sum and difference of the cursor computed without rounding):
for a playing loop-mode player (loop-forward, loop-backward, loop-pingpong) over a
clip of duration `D > 0`, and every cursor and `dt`, the wrap loop of `UpdatePlayer` ends
after exactly `k` subtractions, where `k = floor ((cursor + dt) / D)` when `cursor + dt >= 0`
and `k = 0` otherwise: with fuel for at least `k` iterations the loop and `UpdatePlayer`
return, the loop having counted `k` iterations and left the cursor at `cursor + dt - k * D`,
below `D`; with less fuel they do not. The assumption `D > 0` cannot be dropped: for
`D <= 0` and `cursor + dt >= D` the loop does not end, whatever the fuel. -/
theorem UpdatePlayer_wrap_loop_exact_arithmetic (c : SpineModelComponent) (pi : Fin 2) (dt : ℚ)
    (animation : SpineAnimation)
    (hanim : (c.player pi).m_Animation = some animation)
    (hplaying : (c.player pi).m_Playing = true)
    (hmode : (c.player pi).m_Playback = Playback.PLAYBACK_LOOP_FORWARD ∨
      (c.player pi).m_Playback = Playback.PLAYBACK_LOOP_BACKWARD ∨
      (c.player pi).m_Playback = Playback.PLAYBACK_LOOP_PINGPONG) :
    let player := c.player pi
    let pingpong := decide (player.m_Playback = Playback.PLAYBACK_LOOP_PINGPONG)
    (0 < animation.m_Duration →
      ∃ k : Nat,
        (0 ≤ player.m_Cursor + dt →
          (k : ℤ) = ⌊(player.m_Cursor + dt) / animation.m_Duration⌋) ∧
        (player.m_Cursor + dt < 0 → k = 0) ∧
        (∀ fuel, k ≤ fuel → ∃ p2 u,
          WrapLoop pingpong animation.m_Duration fuel (AdvanceCursor player dt)
            = some (p2, k) ∧
          p2.m_Cursor = player.m_Cursor + dt - (k : ℚ) * animation.m_Duration ∧
          p2.m_Cursor < animation.m_Duration ∧
          UpdatePlayer fuel c pi dt = some u ∧ u.component.player pi = p2) ∧
        ∀ fuel, fuel < k →
          WrapLoop pingpong animation.m_Duration fuel (AdvanceCursor player dt) = none ∧
          UpdatePlayer fuel c pi dt = none) ∧
      (animation.m_Duration ≤ 0 → animation.m_Duration ≤ player.m_Cursor + dt →
        ∀ fuel,
          WrapLoop pingpong animation.m_Duration fuel (AdvanceCursor player dt) = none ∧
          UpdatePlayer fuel c pi dt = none) := by
  intro player pingpong
  have hadv : AdvanceCursor player dt = { player with m_Cursor := player.m_Cursor + dt } :=
    (@UpdatePlayer_loop_modes 0 c pi dt animation hanim hplaying hmode).1
  have hcur : (AdvanceCursor player dt).m_Cursor = player.m_Cursor + dt := by rw [hadv]
  have hlm := fun fuel => @UpdatePlayer_loop_modes fuel c pi dt animation hanim hplaying hmode
  refine ⟨?_, ?_⟩
  · intro hd
    by_cases hx : 0 ≤ player.m_Cursor + dt
    · obtain ⟨h1, h2, h3⟩ := wrap_count_bounds hd hx
      refine ⟨⌊(player.m_Cursor + dt) / animation.m_Duration⌋.toNat, fun _ => h3,
        fun hneg => absurd hx (not_le.mpr hneg), ?_, ?_⟩
      · intro fuel hfuel
        have hw := WrapLoop_exact pingpong hd _ (AdvanceCursor player dt)
          (Or.inr (by rw [hcur]; exact h1)) (by rw [hcur]; exact h2) fuel hfuel
        obtain ⟨u, hu, -, hp⟩ := (hlm fuel).2.2 _ _ hw
        obtain ⟨he, hlt⟩ := WrapLoop_result _ _ _ _ _ _ hw
        refine ⟨_, u, hw, ?_, hlt, hu, hp⟩
        rw [hcur]
      · intro fuel hfuel
        have hw := WrapLoop_fuel_too_small pingpong hd fuel _ (AdvanceCursor player dt) hfuel
          (by rw [hcur]; exact h1)
        exact ⟨hw, (hlm fuel).2.1 hw⟩
    · have hneg : player.m_Cursor + dt < 0 := not_le.mp hx
      refine ⟨0, fun h => absurd h hx, fun _ => rfl, ?_, fun fuel h => absurd h (Nat.not_lt_zero _)⟩
      intro fuel hfuel
      have hw := WrapLoop_exact pingpong hd 0 (AdvanceCursor player dt) (Or.inl rfl)
        (by rw [hcur]; simp only [Nat.cast_zero, zero_add, one_mul]; linarith) fuel hfuel
      obtain ⟨u, hu, -, hp⟩ := (hlm fuel).2.2 _ _ hw
      obtain ⟨he, hlt⟩ := WrapLoop_result _ _ _ _ _ _ hw
      refine ⟨_, u, hw, ?_, hlt, hu, hp⟩
      rw [hcur]
  · intro hd hge fuel
    have hw := WrapLoop_diverges pingpong hd fuel (AdvanceCursor player dt)
      (by rw [hcur]; exact hge)
    exact ⟨hw, (hlm fuel).2.1 hw⟩

/-- C26: in loop-pingpong playback `m_Backwards` flips once per wrap. If the wrap loop of an
`UpdatePlayer` step runs `k` iterations (the cursor wraps `k` times), the step returns and
leaves the player with `m_Backwards` equal to its previous value XOR (`k` is odd); a step
without a wrap (`k = 0`, in particular every step with `cursor + dt` below the duration)
leaves it unchanged. For a clip of positive duration the loop does run to its end, with
`k = floor ((cursor + dt) / duration)` when `cursor + dt >= 0`. -/
theorem UpdatePlayer_loop_pingpong_flips_per_wrap (c : SpineModelComponent) (pi : Fin 2)
    (dt : ℚ) (animation : SpineAnimation)
    (hanim : (c.player pi).m_Animation = some animation)
    (hplaying : (c.player pi).m_Playing = true)
    (hmode : (c.player pi).m_Playback = Playback.PLAYBACK_LOOP_PINGPONG) :
    (∀ (fuel : Nat) (p2 : SpinePlayer) (k : Nat),
      WrapLoop true animation.m_Duration fuel (AdvanceCursor (c.player pi) dt) = some (p2, k) →
      ∃ u, UpdatePlayer fuel c pi dt = some u ∧
        (u.component.player pi).m_Backwards
          = xor (c.player pi).m_Backwards (decide (k % 2 = 1)) ∧
        (u.component.player pi).m_Cursor
          = (c.player pi).m_Cursor + dt - (k : ℚ) * animation.m_Duration ∧
        (k = 0 → (u.component.player pi).m_Backwards = (c.player pi).m_Backwards)) ∧
      (∀ fuel, (c.player pi).m_Cursor + dt < animation.m_Duration →
        ∃ u, UpdatePlayer fuel c pi dt = some u ∧
          WrapLoop true animation.m_Duration fuel (AdvanceCursor (c.player pi) dt)
            = some (u.component.player pi, 0) ∧
          (u.component.player pi).m_Backwards = (c.player pi).m_Backwards) ∧
      (0 < animation.m_Duration → 0 ≤ (c.player pi).m_Cursor + dt →
        ∀ fuel, ⌊((c.player pi).m_Cursor + dt) / animation.m_Duration⌋.toNat ≤ fuel →
          ∃ p2, WrapLoop true animation.m_Duration fuel (AdvanceCursor (c.player pi) dt)
            = some (p2, ⌊((c.player pi).m_Cursor + dt) / animation.m_Duration⌋.toNat)) := by
  have hmode3 : (c.player pi).m_Playback = Playback.PLAYBACK_LOOP_FORWARD ∨
      (c.player pi).m_Playback = Playback.PLAYBACK_LOOP_BACKWARD ∨
      (c.player pi).m_Playback = Playback.PLAYBACK_LOOP_PINGPONG := Or.inr (Or.inr hmode)
  have hpp : decide ((c.player pi).m_Playback = Playback.PLAYBACK_LOOP_PINGPONG) = true :=
    decide_eq_true hmode
  have hlm := fun fuel => @UpdatePlayer_loop_modes fuel c pi dt animation hanim hplaying hmode3
  have hadv := (hlm 0).1
  have hcur : (AdvanceCursor (c.player pi) dt).m_Cursor = (c.player pi).m_Cursor + dt := by
    rw [hadv]
  have hbw : (AdvanceCursor (c.player pi) dt).m_Backwards = (c.player pi).m_Backwards := by
    rw [hadv]
  have hmain : ∀ (fuel : Nat) (p2 : SpinePlayer) (k : Nat),
      WrapLoop true animation.m_Duration fuel (AdvanceCursor (c.player pi) dt) = some (p2, k) →
      ∃ u, UpdatePlayer fuel c pi dt = some u ∧ u.component.player pi = p2 ∧
        (u.component.player pi).m_Backwards
          = xor (c.player pi).m_Backwards (decide (k % 2 = 1)) ∧
        (u.component.player pi).m_Cursor
          = (c.player pi).m_Cursor + dt - (k : ℚ) * animation.m_Duration := by
    intro fuel p2 k hw
    have hw1 := hw
    rw [← hpp] at hw1
    obtain ⟨u, hu, -, hp⟩ := (hlm fuel).2.2 p2 k hw1
    obtain ⟨he, -⟩ := WrapLoop_result _ _ _ _ _ _ hw
    refine ⟨u, hu, hp, ?_, ?_⟩
    · rw [hp, he]
      simp only [if_true, hbw]
    · rw [hp, he]
      simp only [hcur]
  refine ⟨?_, ?_, ?_⟩
  · intro fuel p2 k hw
    obtain ⟨u, hu, -, hb, hc⟩ := hmain fuel p2 k hw
    refine ⟨u, hu, hb, hc, ?_⟩
    intro hk
    rw [hb, hk]
    simp
  · intro fuel hlt
    have hw := WrapLoop_of_lt true animation.m_Duration fuel (AdvanceCursor (c.player pi) dt)
      (by rw [hcur]; exact hlt)
    obtain ⟨u, hu, hp, hb, -⟩ := hmain fuel _ 0 hw
    refine ⟨u, hu, by rw [hp]; exact hw, ?_⟩
    rw [hb]
    simp
  · intro hd hx fuel hfuel
    obtain ⟨h1, h2, -⟩ := wrap_count_bounds hd hx
    exact ⟨_, WrapLoop_exact true hd _ (AdvanceCursor (c.player pi) dt)
      (Or.inr (by rw [hcur]; exact h1)) (by rw [hcur]; exact h2) fuel hfuel⟩

theorem UpdatePlayer_loop_pingpong_flips_per_wrap_witness :
    (loopPingpongComponent.player 0).m_Animation = some walkClip ∧
      (loopPingpongComponent.player 0).m_Playing = true ∧
      (loopPingpongComponent.player 0).m_Playback = Playback.PLAYBACK_LOOP_PINGPONG ∧
      (∃ p2, WrapLoop true walkClip.m_Duration 1
          (AdvanceCursor (loopPingpongComponent.player 0) (3 / 2)) = some (p2, 1)) ∧
      ∃ u, UpdatePlayer 1 loopPingpongComponent 0 (3 / 2) = some u ∧
        (u.component.player 0).m_Backwards = true ∧
        (u.component.player 0).m_Cursor = 1 / 2 := by
  have hd : (0 : ℚ) < walkClip.m_Duration := by norm_num [walkClip]
  have hadv : AdvanceCursor (loopPingpongComponent.player 0) (3 / 2)
      = { loopPingpongPlayer with m_Cursor := 0 + 3 / 2 } := rfl
  have hw := WrapLoop_exact true hd 1 (AdvanceCursor (loopPingpongComponent.player 0) (3 / 2))
    (Or.inr (by rw [hadv]; norm_num [walkClip]))
    (by rw [hadv]; norm_num [walkClip]) 1 (le_refl 1)
  obtain ⟨u, hu, hb, hc, -⟩ :=
    (UpdatePlayer_loop_pingpong_flips_per_wrap loopPingpongComponent 0 (3 / 2) walkClip rfl rfl
      rfl).1 1 _ 1 hw
  refine ⟨rfl, rfl, rfl, ⟨_, hw⟩, u, hu, ?_, ?_⟩
  · rw [hb]; rfl
  · rw [hc]
    rw [show (loopPingpongComponent.player 0).m_Cursor = 0 from rfl]
    norm_num [walkClip]

/-! ## The completion frame of a once mode -/

theorem mem_EventKeys {animation : SpineAnimation} {track : EventTrack} {key : EventKey}
    (htrack : track ∈ animation.m_EventTracks) (hkey : key ∈ track.m_Keys) :
    (track.m_EventId, key) ∈ EventKeys animation := by
  unfold EventKeys
  exact List.mem_flatMap.mpr ⟨track, htrack, List.mem_map.mpr ⟨key, hkey, rfl⟩⟩

theorem mem_KeysPostedIn {sender receiver : URL} {keys : List (dmhash_t × EventKey)}
    {start_cursor end_cursor duration : ℚ} {backwards : Bool} {event_id : dmhash_t}
    {key : EventKey} :
    PostEvent sender receiver event_id key
        ∈ KeysPostedIn sender receiver keys start_cursor end_cursor duration backwards ↔
      (event_id, key) ∈ keys ∧ start_cursor ≤ KeyCursor key duration backwards ∧
        KeyCursor key duration backwards < end_cursor := by
  unfold KeysPostedIn
  constructor
  · intro h
    obtain ⟨k, hk, he⟩ := List.mem_map.mp h
    obtain ⟨hmem, hcond⟩ := List.mem_filter.mp hk
    have hk1 : k = (event_id, key) := by
      unfold PostEvent at he
      injection he with _ _ h3 h4
      exact Prod.ext h3 h4
    subst hk1
    exact ⟨hmem, of_decide_eq_true hcond⟩
  · rintro ⟨hmem, hcond⟩
    exact List.mem_map.mpr ⟨(event_id, key), List.mem_filter.mpr ⟨hmem, decide_eq_true hcond⟩, rfl⟩

/-- The events posted on the completion frame of a once mode, where `PostEvents` is entered
with the cursor clamped to `duration` and `completed` set: the end of the (last) interval is
`duration + dt`. -/
theorem PostEvents_completed_eq (player : SpinePlayer) (sender listener : URL)
    (animation : SpineAnimation) (dt prev_cursor duration : ℚ)
    (hdt : 0 < dt) (hcur : player.m_Cursor = duration) (hprev : prev_cursor ≤ duration)
    (hdur : 0 ≤ duration) :
    PostEvents player sender listener animation dt prev_cursor duration true =
      (if player.m_Playback = Playback.PLAYBACK_ONCE_PINGPONG then
        if prev_cursor < duration * (1 / 2) then
          PostEventsInterval sender (EventReceiver sender listener) animation prev_cursor
              (duration * (1 / 2)) duration false ++
            PostEventsInterval sender (EventReceiver sender listener) animation
              (duration * (1 / 2)) (duration + dt) duration true
        else
          PostEventsInterval sender (EventReceiver sender listener) animation prev_cursor
            (duration + dt) duration true
      else
        PostEventsInterval sender (EventReceiver sender listener) animation prev_cursor
          (duration + dt) duration player.m_Backwards) := by
  rw [PostEvents_eq]
  simp only [if_true, PostEventsInterval_eq_KeysPostedIn, hcur]
  have h1 : ¬ prev_cursor > duration + dt := by linarith
  rw [if_neg h1]
  by_cases hm : player.m_Playback = Playback.PLAYBACK_ONCE_PINGPONG
  · have h2 : player.m_Playback = Playback.PLAYBACK_ONCE_PINGPONG ∧
        duration + dt > duration * (1 / 2) := ⟨hm, by linarith⟩
    rw [if_pos h2, if_pos hm]
  · have h2 : ¬ (player.m_Playback = Playback.PLAYBACK_ONCE_PINGPONG ∧
        duration + dt > duration * (1 / 2)) := fun h => hm h.1
    rw [if_neg h2, if_neg hm]

/-- The call of `PostEvents` on a completion frame: entered with the cursor at the effective
duration, `completed` set and `dt > 0`, the end bound of the event interval is
`duration + dt` instead of `duration`, so an event key whose reflected time is the effective
duration exactly is among the messages, although an interval that ends at `duration`
excludes it, whatever its start. -/
theorem PostEvents_completion_frame_posts_end_key (player : SpinePlayer)
    (sender listener : URL) (animation : SpineAnimation) (dt prev_cursor duration : ℚ)
    (track : EventTrack) (key : EventKey)
    (hdt : 0 < dt) (hcur : player.m_Cursor = duration) (hprev : prev_cursor ≤ duration)
    (hdur : 0 ≤ duration)
    (htrack : track ∈ animation.m_EventTracks) (hkey : key ∈ track.m_Keys)
    (hend : (player.m_Playback = Playback.PLAYBACK_ONCE_FORWARD ∧ player.m_Backwards = false ∧
        key.m_T = duration) ∨
      (player.m_Playback = Playback.PLAYBACK_ONCE_BACKWARD ∧ player.m_Backwards = true ∧
        key.m_T = 0) ∨
      (player.m_Playback = Playback.PLAYBACK_ONCE_PINGPONG ∧ key.m_T = 0)) :
    let receiver := EventReceiver sender listener
    let direction :=
      if player.m_Playback = Playback.PLAYBACK_ONCE_PINGPONG then true else player.m_Backwards
    KeyCursor key duration direction = duration ∧
      PostEvents player sender listener animation dt prev_cursor duration true =
        (if player.m_Playback = Playback.PLAYBACK_ONCE_PINGPONG then
          if prev_cursor < duration * (1 / 2) then
            PostEventsInterval sender receiver animation prev_cursor (duration * (1 / 2))
                duration false ++
              PostEventsInterval sender receiver animation (duration * (1 / 2)) (duration + dt)
                duration true
          else
            PostEventsInterval sender receiver animation prev_cursor (duration + dt) duration
              true
        else
          PostEventsInterval sender receiver animation prev_cursor (duration + dt) duration
            player.m_Backwards) ∧
      PostEvent sender receiver track.m_EventId key
        ∈ PostEvents player sender listener animation dt prev_cursor duration true ∧
      ∀ start_cursor,
        PostEvent sender receiver track.m_EventId key
          ∉ PostEventsInterval sender receiver animation start_cursor duration duration
              direction := by
  intro receiver direction
  have hmem := mem_EventKeys htrack hkey
  have hkc : KeyCursor key duration direction = duration := by
    show KeyCursor key duration
      (if player.m_Playback = Playback.PLAYBACK_ONCE_PINGPONG then true
        else player.m_Backwards) = duration
    rcases hend with ⟨hm, hb, ht⟩ | ⟨hm, hb, ht⟩ | ⟨hm, ht⟩
    · rw [hm, if_neg (by decide), hb]
      simp [KeyCursor, ht]
    · rw [hm, if_neg (by decide), hb]
      simp [KeyCursor, ht]
    · rw [hm, if_pos rfl]
      simp [KeyCursor, ht]
  refine ⟨hkc, PostEvents_completed_eq player sender listener animation dt prev_cursor duration
    hdt hcur hprev hdur, ?_, ?_⟩
  · rw [PostEvents_completed_eq player sender listener animation dt prev_cursor duration
      hdt hcur hprev hdur]
    simp only [PostEventsInterval_eq_KeysPostedIn]
    by_cases hm : player.m_Playback = Playback.PLAYBACK_ONCE_PINGPONG
    · have hdir : direction = true := if_pos hm
      rw [hdir] at hkc
      rw [if_pos hm]
      by_cases hp : prev_cursor < duration * (1 / 2)
      · rw [if_pos hp]
        refine List.mem_append.mpr (Or.inr (mem_KeysPostedIn.mpr ⟨hmem, ?_, ?_⟩))
        · rw [hkc]; linarith
        · rw [hkc]; linarith
      · rw [if_neg hp]
        refine mem_KeysPostedIn.mpr ⟨hmem, ?_, ?_⟩
        · rw [hkc]; exact hprev
        · rw [hkc]; linarith
    · have hdir : direction = player.m_Backwards := if_neg hm
      rw [hdir] at hkc
      rw [if_neg hm]
      refine mem_KeysPostedIn.mpr ⟨hmem, ?_, ?_⟩
      · rw [hkc]; exact hprev
      · rw [hkc]; linarith
  · intro start_cursor hin
    rw [PostEventsInterval_eq_KeysPostedIn] at hin
    obtain ⟨-, -, hlt⟩ := mem_KeysPostedIn.mp hin
    rw [hkc] at hlt
    exact lt_irrefl _ hlt

/-! ## A once-forward play-through -/

theorem GetSender_setPlayer (c : SpineModelComponent) (i : Fin 2) (p : SpinePlayer) :
    GetSender (c.setPlayer i p) = GetSender c := by
  unfold GetSender
  simp only [setPlayer_m_Instance, setPlayer_m_ComponentIndex]

theorem KeysPostedIn_count (sender receiver : URL) (keys : List (dmhash_t × EventKey))
    (start_cursor end_cursor duration : ℚ) (backwards : Bool) (event_id : dmhash_t)
    (key : EventKey) :
    (KeysPostedIn sender receiver keys start_cursor end_cursor duration backwards).count
        (PostEvent sender receiver event_id key)
      = if start_cursor ≤ KeyCursor key duration backwards ∧
          KeyCursor key duration backwards < end_cursor
        then (keys.map fun k => PostEvent sender receiver k.1 k.2).count
          (PostEvent sender receiver event_id key)
        else 0 := by
  have hkey : ∀ k : dmhash_t × EventKey,
      (PostEvent sender receiver k.1 k.2 == PostEvent sender receiver event_id key) = true →
      k.2 = key := by
    intro k h
    have h1 : PostEvent sender receiver k.1 k.2 = PostEvent sender receiver event_id key :=
      eq_of_beq h
    unfold PostEvent at h1
    injection h1
  unfold KeysPostedIn
  simp only [List.count, List.countP_map, List.countP_filter]
  by_cases hc : start_cursor ≤ KeyCursor key duration backwards ∧
      KeyCursor key duration backwards < end_cursor
  · rw [if_pos hc]
    apply List.countP_congr
    intro k _
    simp only [Function.comp, Bool.and_eq_true, decide_eq_true_eq]
    constructor
    · exact fun h => h.1
    · intro h
      refine ⟨h, ?_⟩
      rw [hkey k h]
      exact hc
  · rw [if_neg hc]
    apply List.countP_eq_zero.mpr
    intro k _ h
    simp only [Function.comp, Bool.and_eq_true, decide_eq_true_eq] at h
    apply hc
    rw [← hkey k h.1]
    exact h.2

/-- A frame of a once-forward player that does not reach the end of the clip: the cursor
advances by `dt` and the keys with time in `[cursor, cursor + dt)` are posted. -/
theorem UpdatePlayer_once_forward_step (fuel : Nat) (c : SpineModelComponent) (pi : Fin 2)
    (dt : ℚ) (animation : SpineAnimation) (sender : URL)
    (hanim : (c.player pi).m_Animation = some animation)
    (hplaying : (c.player pi).m_Playing = true)
    (hmode : (c.player pi).m_Playback = Playback.PLAYBACK_ONCE_FORWARD)
    (hbw : (c.player pi).m_Backwards = false)
    (hsender : GetSender c = some sender) (hdt : 0 < dt)
    (hlt : (c.player pi).m_Cursor + dt < animation.m_Duration) :
    UpdatePlayer fuel c pi dt =
      some { component := c.setPlayer pi
               { c.player pi with m_Cursor := (c.player pi).m_Cursor + dt }
             posted := KeysPostedIn sender
               (EventReceiver sender { c.m_Listener with m_Function := 0 })
               (EventKeys animation) (c.player pi).m_Cursor ((c.player pi).m_Cursor + dt)
               animation.m_Duration false
             completed := false } := by
  have hne : (c.player pi).m_Playback ≠ Playback.PLAYBACK_NONE := by rw [hmode]; decide
  have hnp : (c.player pi).m_Playback ≠ Playback.PLAYBACK_ONCE_PINGPONG := by
    rw [hmode]; decide
  have hnl : (c.player pi).m_Playback ≠ Playback.PLAYBACK_LOOP_PINGPONG := by
    rw [hmode]; decide
  have hadv := AdvanceCursor_of_ne_none (c.player pi) dt hne
  have hdur : GetCursorDuration (AdvanceCursor (c.player pi) dt) animation
      = animation.m_Duration := GetCursorDuration_of_loop _ _ (by rw [hadv]; exact hnp)
  have hadj : AdjustCursor fuel (AdvanceCursor (c.player pi) dt)
      (GetCursorDuration (AdvanceCursor (c.player pi) dt) animation)
      = some ({ c.player pi with m_Cursor := (c.player pi).m_Cursor + dt }, false) := by
    rw [hdur, AdjustCursor_once fuel _ _ (by rw [hadv]; exact Or.inl hmode), hadv]
    rw [if_neg (not_le.mpr hlt)]
  rw [UpdatePlayer_eq_of_adjust hanim hplaying hadj]
  simp only [Bool.false_eq_true, if_false, hdur]
  congr 2
  unfold UpdatePlayerEvents
  have hmoved : (c.player pi).m_Cursor ≠ (c.player pi).m_Cursor + dt := by
    intro h; linarith
  simp only [hsender]
  rw [if_pos hmoved, PostEvents_eq]
  simp only [Bool.false_eq_true, if_false]
  have h1 : ¬ (c.player pi).m_Cursor > (c.player pi).m_Cursor + dt := by linarith
  rw [if_neg h1, if_neg (fun h => hnp h.1), hbw]

/-- The frame of a once-forward player that reaches the end of the clip: the cursor is
clamped, the player completes, and the keys with time in `[cursor, duration + dt)` are
posted before the completion block. -/
theorem UpdatePlayer_once_forward_last (fuel : Nat) (c : SpineModelComponent) (pi : Fin 2)
    (dt : ℚ) (animation : SpineAnimation) (sender : URL)
    (hanim : (c.player pi).m_Animation = some animation)
    (hplaying : (c.player pi).m_Playing = true)
    (hmode : (c.player pi).m_Playback = Playback.PLAYBACK_ONCE_FORWARD)
    (hbw : (c.player pi).m_Backwards = false)
    (hsender : GetSender c = some sender) (hdt : 0 < dt)
    (hd0 : 0 ≤ animation.m_Duration)
    (hcur : (c.player pi).m_Cursor < animation.m_Duration)
    (hge : (c.player pi).m_Cursor + dt ≥ animation.m_Duration) :
    UpdatePlayer fuel c pi dt =
      some (CompletePlayer c pi { c.player pi with m_Cursor := animation.m_Duration }
        (KeysPostedIn sender (EventReceiver sender { c.m_Listener with m_Function := 0 })
          (EventKeys animation) (c.player pi).m_Cursor (animation.m_Duration + dt)
          animation.m_Duration false)) := by
  have hne : (c.player pi).m_Playback ≠ Playback.PLAYBACK_NONE := by rw [hmode]; decide
  have hnp : (c.player pi).m_Playback ≠ Playback.PLAYBACK_ONCE_PINGPONG := by
    rw [hmode]; decide
  have hadv := AdvanceCursor_of_ne_none (c.player pi) dt hne
  have hdur : GetCursorDuration (AdvanceCursor (c.player pi) dt) animation
      = animation.m_Duration := GetCursorDuration_of_loop _ _ (by rw [hadv]; exact hnp)
  have hadj : AdjustCursor fuel (AdvanceCursor (c.player pi) dt)
      (GetCursorDuration (AdvanceCursor (c.player pi) dt) animation)
      = some ({ c.player pi with m_Cursor := animation.m_Duration }, true) := by
    rw [hdur, AdjustCursor_once fuel _ _ (by rw [hadv]; exact Or.inl hmode), hadv]
    rw [if_pos hge]
  rw [UpdatePlayer_eq_of_adjust hanim hplaying hadj]
  simp only [if_true, hdur]
  congr 2
  unfold UpdatePlayerEvents
  have hmoved : (c.player pi).m_Cursor ≠ animation.m_Duration := ne_of_lt hcur
  simp only [hsender]
  rw [if_pos hmoved]
  have hpe := PostEvents_completed_eq
    { c.player pi with m_Cursor := animation.m_Duration } sender
    { c.m_Listener with m_Function := 0 } animation dt (c.player pi).m_Cursor
    animation.m_Duration hdt rfl (le_of_lt hcur) hd0
  rw [hpe]
  simp only [PostEventsInterval_eq_KeysPostedIn]
  rw [if_neg hnp, hbw]

theorem CompletePlayer_posted (c : SpineModelComponent) (pi : Fin 2) (player : SpinePlayer)
    (events : List Message) :
    ∃ tail, (CompletePlayer c pi player events).posted = events ++ tail ∧
      ∀ m ∈ tail, m.isDone = true := by
  unfold CompletePlayer
  split_ifs
  · split
    · exact ⟨[_], rfl, fun m hm => by rw [List.mem_singleton.mp hm]; rfl⟩
    · exact ⟨[], (List.append_nil _).symm, fun m hm => absurd hm (List.not_mem_nil m)⟩
  · exact ⟨[], (List.append_nil _).symm, fun m hm => absurd hm (List.not_mem_nil m)⟩

theorem count_event_append_done (events tail : List Message) (sender receiver : URL)
    (event_id : dmhash_t) (key : EventKey) (h : ∀ m ∈ tail, m.isDone = true) :
    (events ++ tail).count (PostEvent sender receiver event_id key)
      = events.count (PostEvent sender receiver event_id key) := by
  rw [List.count_append]
  have : tail.count (PostEvent sender receiver event_id key) = 0 := by
    apply List.count_eq_zero.mpr
    intro hm
    have := h _ hm
    simp [PostEvent, Message.isDone] at this
  omega

theorem UpdatePlayerSteps_cons {fuel : Nat} {pi : Fin 2} {c : SpineModelComponent} {dt : ℚ}
    {dts : List ℚ} {u : PlayerUpdate} (h : UpdatePlayer fuel c pi dt = some u) :
    UpdatePlayerSteps fuel pi c (dt :: dts)
      = (UpdatePlayerSteps fuel pi u.component dts).map fun r => (r.1, u.posted ++ r.2) := by
  simp only [UpdatePlayerSteps, h]

/-- A once-forward play-through from a cursor inside the clip: after the steps `ds`, which
stay below the duration, and the step `last`, which reaches it, the player has completed,
and a key with time up to the duration has been posted as often as it occurs in the clip if
its time is not before the starting cursor, and not at all otherwise. -/
theorem UpdatePlayerSteps_once_forward_aux (fuel : Nat) (pi : Fin 2)
    (animation : SpineAnimation) (sender listener : URL) (hd : 0 < animation.m_Duration) :
    ∀ (ds : List ℚ) (last : ℚ) (c : SpineModelComponent),
      (c.player pi).m_Animation = some animation →
      (c.player pi).m_Playing = true →
      (c.player pi).m_Playback = Playback.PLAYBACK_ONCE_FORWARD →
      (c.player pi).m_Backwards = false →
      GetSender c = some sender → c.m_Listener = listener →
      (∀ d ∈ ds, 0 < d) → 0 < last →
      (c.player pi).m_Cursor + ds.sum < animation.m_Duration →
      (c.player pi).m_Cursor + ds.sum + last ≥ animation.m_Duration →
      ∃ c1 msgs, UpdatePlayerSteps fuel pi c (ds ++ [last]) = some (c1, msgs) ∧
        (c1.player pi).m_Playing = false ∧
        (c1.player pi).m_Cursor = animation.m_Duration ∧
        ∀ (event_id : dmhash_t) (key : EventKey), key.m_T ≤ animation.m_Duration →
          msgs.count (PostEvent sender
              (EventReceiver sender { listener with m_Function := 0 }) event_id key)
            = if (c.player pi).m_Cursor ≤ key.m_T then
                (AllEventMessages sender
                  (EventReceiver sender { listener with m_Function := 0 }) animation).count
                  (PostEvent sender
                    (EventReceiver sender { listener with m_Function := 0 }) event_id key)
              else 0 := by
  intro ds
  induction ds with
  | nil =>
    intro last c hanim hplaying hmode hbw hsender hlis _ hlast hlt hge
    simp only [List.sum_nil, add_zero] at hlt hge
    have hu := UpdatePlayer_once_forward_last fuel c pi last animation sender hanim hplaying
      hmode hbw hsender hlast hd.le hlt hge
    obtain ⟨tail, htail, hdone⟩ := CompletePlayer_posted c pi
      { c.player pi with m_Cursor := animation.m_Duration }
      (KeysPostedIn sender (EventReceiver sender { c.m_Listener with m_Function := 0 })
        (EventKeys animation) (c.player pi).m_Cursor (animation.m_Duration + last)
        animation.m_Duration false)
    obtain ⟨l, hl⟩ := CompletePlayer_component c pi
      { c.player pi with m_Cursor := animation.m_Duration }
      (KeysPostedIn sender (EventReceiver sender { c.m_Listener with m_Function := 0 })
        (EventKeys animation) (c.player pi).m_Cursor (animation.m_Duration + last)
        animation.m_Duration false)
    generalize CompletePlayer c pi
      { c.player pi with m_Cursor := animation.m_Duration }
      (KeysPostedIn sender (EventReceiver sender { c.m_Listener with m_Function := 0 })
        (EventKeys animation) (c.player pi).m_Cursor (animation.m_Duration + last)
        animation.m_Duration false) = cp at hu htail hl
    refine ⟨cp.component, cp.posted ++ [], ?_, ?_, ?_, ?_⟩
    · rw [List.nil_append, UpdatePlayerSteps_cons hu]
      rfl
    · rw [hl, player_with_listener, player_setPlayer_same]
    · rw [hl, player_with_listener, player_setPlayer_same]
    · intro event_id key hkt
      simp only [List.append_nil]
      rw [htail, count_event_append_done _ _ _ _ _ _ hdone, hlis, KeysPostedIn_count]
      have hkc : KeyCursor key animation.m_Duration false = key.m_T := by simp [KeyCursor]
      rw [hkc]
      by_cases hx : (c.player pi).m_Cursor ≤ key.m_T
      · rw [if_pos ⟨hx, by linarith⟩, if_pos hx]
        rfl
      · rw [if_neg (fun h => hx h.1), if_neg hx]
  | cons d ds ih =>
    intro last c hanim hplaying hmode hbw hsender hlis hpos hlast hlt hge
    have hd1 : 0 < d := hpos d (List.mem_cons_self d ds)
    have hpos' : ∀ e ∈ ds, 0 < e := fun e he => hpos e (List.mem_cons_of_mem d he)
    have hsum : 0 ≤ ds.sum := List.sum_nonneg (fun e he => (hpos' e he).le)
    simp only [List.sum_cons] at hlt hge
    have hstep : (c.player pi).m_Cursor + d < animation.m_Duration := by linarith
    have hu := UpdatePlayer_once_forward_step fuel c pi d animation sender hanim hplaying
      hmode hbw hsender hd1 hstep
    obtain ⟨c1, msgs, hrest, hstop, hcur, hcount⟩ := ih last
      (c.setPlayer pi { c.player pi with m_Cursor := (c.player pi).m_Cursor + d })
      (by rw [player_setPlayer_same]; exact hanim)
      (by rw [player_setPlayer_same]; exact hplaying)
      (by rw [player_setPlayer_same]; exact hmode)
      (by rw [player_setPlayer_same]; exact hbw)
      (by rw [GetSender_setPlayer]; exact hsender)
      (by rw [setPlayer_m_Listener]; exact hlis)
      hpos' hlast
      (by rw [player_setPlayer_same]; simp only; linarith)
      (by rw [player_setPlayer_same]; simp only; linarith)
    refine ⟨c1, KeysPostedIn sender
      (EventReceiver sender { c.m_Listener with m_Function := 0 })
      (EventKeys animation) (c.player pi).m_Cursor ((c.player pi).m_Cursor + d)
      animation.m_Duration false ++ msgs, ?_, hstop, hcur, ?_⟩
    · rw [List.cons_append, UpdatePlayerSteps_cons hu]
      exact congrArg (Option.map _) hrest
    · intro event_id key hkt
      have h2 := hcount event_id key hkt
      rw [player_setPlayer_same] at h2
      simp only at h2
      rw [List.count_append, h2, hlis, KeysPostedIn_count]
      have hkc : KeyCursor key animation.m_Duration false = key.m_T := by simp [KeyCursor]
      rw [hkc]
      by_cases hx : (c.player pi).m_Cursor ≤ key.m_T
      · rw [if_pos hx]
        by_cases hy : (c.player pi).m_Cursor + d ≤ key.m_T
        · rw [if_neg (fun h => absurd h.2 (not_lt.mpr hy)), if_pos hy, zero_add]
        · rw [if_pos ⟨hx, not_le.mp hy⟩, if_neg hy, add_zero]
          rfl
      · have hy : ¬ (c.player pi).m_Cursor + d ≤ key.m_T := fun h => hx (by linarith)
        rw [if_neg hx, if_neg (fun h => hx h.1), if_neg hy]

theorem UpdateTransformsLoop_of_no_depth (GetWorldTransform : GameObjectInstance → Transform)
    (ScaleAlongZ : GameObjectInstance → Bool) (Mul MulNoScaleZ : Transform → Transform → Transform)
    (ToMatrix4 : Transform → Matrix4) (slots : List ComponentSlot) (min_z max_z : ℚ)
    (h : ∀ slot ∈ slots, slot.contributesDepth = false) :
    UpdateTransformsLoop GetWorldTransform ScaleAlongZ Mul MulNoScaleZ ToMatrix4 slots min_z max_z
      = (slots, min_z, max_z) := by
  induction slots with
  | nil => rfl
  | cons slot rest ih =>
    have hrest := ih (fun s hs => h s (List.mem_cons_of_mem slot hs))
    have hslot := h slot (List.mem_cons_self slot rest)
    unfold UpdateTransformsLoop
    cases hc : slot.m_Component with
    | none => simp only [hrest]
    | some c =>
      simp only [ComponentSlot.contributesDepth, hc, Bool.and_eq_false_iff] at hslot
      simp only
      rcases hslot with he | hm
      · simp only [he, Bool.not_false, if_true, hrest]
      · by_cases he : c.m_Enabled = true
        · have hmesh : c.m_Mesh = none := by
            cases hmm : c.m_Mesh with
            | none => rfl
            | some i => rw [hmm] at hm; simp at hm
          simp only [he, Bool.not_true, Bool.false_eq_true, if_false, hmesh, ne_eq,
            not_true_eq_false, hrest]
        · have he' : c.m_Enabled = false := by simpa using he
          simp only [he', Bool.not_false, if_true, hrest]

/-- C27 (as stated, refuted): in `disabledWorld` no slot is enabled, so no instance
contributes a depth, yet `UpdateTransforms` leaves the range at `min = FLT_MAX` and
`max = -FLT_MAX`, not at 0 and 1. -/
theorem UpdateTransforms_no_enabled_instance_range :
    (∀ slot ∈ disabledWorld.m_Components, slot.enabled = false) ∧
      (UpdateTransforms exampleGetWorldTransform exampleScaleAlongZ exampleMul exampleMul
        exampleToMatrix4 disabledWorld).m_MinZ = FLT_MAX ∧
      (UpdateTransforms exampleGetWorldTransform exampleScaleAlongZ exampleMul exampleMul
        exampleToMatrix4 disabledWorld).m_MaxZ = -FLT_MAX ∧
      (UpdateTransforms exampleGetWorldTransform exampleScaleAlongZ exampleMul exampleMul
        exampleToMatrix4 disabledWorld).m_MinZ ≠ 0 ∧
      (UpdateTransforms exampleGetWorldTransform exampleScaleAlongZ exampleMul exampleMul
        exampleToMatrix4 disabledWorld).m_MaxZ ≠ 1 := by
  have hno : ∀ slot ∈ disabledWorld.m_Components, slot.contributesDepth = false := by
    intro slot hs
    simp only [disabledWorld, List.mem_cons, List.mem_singleton, List.not_mem_nil, or_false]
      at hs
    rcases hs with h | h <;> rw [h] <;> rfl
  have hloop := UpdateTransformsLoop_of_no_depth exampleGetWorldTransform exampleScaleAlongZ
    exampleMul exampleMul exampleToMatrix4 disabledWorld.m_Components FLT_MAX (-FLT_MAX) hno
  have hlen : disabledWorld.m_Components.length ≠ 0 := by decide
  have hmin : (UpdateTransforms exampleGetWorldTransform exampleScaleAlongZ exampleMul
      exampleMul exampleToMatrix4 disabledWorld).m_MinZ = FLT_MAX := by
    unfold UpdateTransforms
    simp only [hloop, if_neg hlen]
  have hmax : (UpdateTransforms exampleGetWorldTransform exampleScaleAlongZ exampleMul
      exampleMul exampleToMatrix4 disabledWorld).m_MaxZ = -FLT_MAX := by
    unfold UpdateTransforms
    simp only [hloop, if_neg hlen]
  refine ⟨?_, hmin, hmax, ?_, ?_⟩
  · intro slot hs
    simp only [disabledWorld, List.mem_cons, List.mem_singleton, List.not_mem_nil, or_false]
      at hs
    rcases hs with h | h <;> rw [h] <;> rfl
  · rw [hmin]; norm_num [FLT_MAX]
  · rw [hmax]; norm_num [FLT_MAX]

/-- C27 (amended): `UpdateTransforms` sets the depth range to `min = 0`, `max = 1` exactly
when the component array has no slot at all (`n == 0`). When the array has slots but none of
them contributes a depth (no enabled component with a mesh), the slots are left as they were
and the range is `min = FLT_MAX`, `max = -FLT_MAX`. -/
theorem UpdateTransforms_range_without_depths
    (GetWorldTransform : GameObjectInstance → Transform)
    (ScaleAlongZ : GameObjectInstance → Bool) (Mul MulNoScaleZ : Transform → Transform → Transform)
    (ToMatrix4 : Transform → Matrix4) (world : SpineModelWorld)
    (h : ∀ slot ∈ world.m_Components, slot.contributesDepth = false) :
    let world1 := UpdateTransforms GetWorldTransform ScaleAlongZ Mul MulNoScaleZ ToMatrix4 world
    world1.m_Components = world.m_Components ∧
      (world.m_Components = [] → world1.m_MinZ = 0 ∧ world1.m_MaxZ = 1) ∧
      (world.m_Components ≠ [] → world1.m_MinZ = FLT_MAX ∧ world1.m_MaxZ = -FLT_MAX) ∧
      ((world1.m_MinZ = 0 ∧ world1.m_MaxZ = 1) ↔ world.m_Components = []) := by
  intro world1
  have hloop := UpdateTransformsLoop_of_no_depth GetWorldTransform ScaleAlongZ Mul MulNoScaleZ
    ToMatrix4 world.m_Components FLT_MAX (-FLT_MAX) h
  have hcomp : world1.m_Components = world.m_Components := by
    show (UpdateTransforms GetWorldTransform ScaleAlongZ Mul MulNoScaleZ ToMatrix4
      world).m_Components = _
    unfold UpdateTransforms
    simp only [hloop]
  have hempty : world.m_Components = [] → world1.m_MinZ = 0 ∧ world1.m_MaxZ = 1 := by
    intro he
    have hlen : world.m_Components.length = 0 := by rw [he]; rfl
    show (UpdateTransforms GetWorldTransform ScaleAlongZ Mul MulNoScaleZ ToMatrix4
        world).m_MinZ = 0 ∧
      (UpdateTransforms GetWorldTransform ScaleAlongZ Mul MulNoScaleZ ToMatrix4
        world).m_MaxZ = 1
    unfold UpdateTransforms
    simp only [if_pos hlen, and_self]
  have hslots : world.m_Components ≠ [] →
      world1.m_MinZ = FLT_MAX ∧ world1.m_MaxZ = -FLT_MAX := by
    intro hne
    have hlen : world.m_Components.length ≠ 0 := fun hl => hne (List.length_eq_zero.mp hl)
    show (UpdateTransforms GetWorldTransform ScaleAlongZ Mul MulNoScaleZ ToMatrix4
        world).m_MinZ = FLT_MAX ∧
      (UpdateTransforms GetWorldTransform ScaleAlongZ Mul MulNoScaleZ ToMatrix4
        world).m_MaxZ = -FLT_MAX
    unfold UpdateTransforms
    simp only [hloop, if_neg hlen, and_self]
  refine ⟨hcomp, hempty, hslots, ⟨?_, hempty⟩⟩
  rintro ⟨hmin, -⟩
  by_contra hne
  have := (hslots hne).1
  rw [this] at hmin
  norm_num [FLT_MAX] at hmin

theorem UpdateTransforms_range_without_depths_witness :
    (∀ slot ∈ disabledWorld.m_Components, slot.contributesDepth = false) ∧
      disabledWorld.m_Components ≠ [] ∧
      (UpdateTransforms exampleGetWorldTransform exampleScaleAlongZ exampleMul exampleMul
        exampleToMatrix4 disabledWorld).m_MinZ = FLT_MAX ∧
      (UpdateTransforms exampleGetWorldTransform exampleScaleAlongZ exampleMul exampleMul
        exampleToMatrix4 disabledWorld).m_MaxZ = -FLT_MAX := by
  have hno : ∀ slot ∈ disabledWorld.m_Components, slot.contributesDepth = false := by
    intro slot hs
    simp only [disabledWorld, List.mem_cons, List.mem_singleton, List.not_mem_nil, or_false]
      at hs
    rcases hs with h | h <;> rw [h] <;> rfl
  have hne : disabledWorld.m_Components ≠ [] := by decide
  exact ⟨hno, hne,
    ((UpdateTransforms_range_without_depths exampleGetWorldTransform exampleScaleAlongZ
      exampleMul exampleMul exampleToMatrix4 disabledWorld hno).2.2.1 hne)⟩

/-! ## Model space -/

theorem AnimateModelSpaceLoop_inv (Mul : Transform → Transform → Transform)
    (m_Bones : List Bone) (pose : List Transform)
    (hb : pose.length ≤ m_Bones.length)
    (hp : ∀ i bone, 0 < i → m_Bones[i]? = some bone → bone.m_Parent < i) :
    ∀ (count bi : Nat) (p : List Transform), count + bi = pose.length →
      ModelSpaceInv Mul m_Bones pose bi p →
      ∃ model, AnimateModelSpaceLoop Mul m_Bones count bi p = some model ∧
        ModelSpaceInv Mul m_Bones pose pose.length model := by
  intro count
  induction count with
  | zero =>
    intro bi p hc hinv
    have hbi : bi = pose.length := by omega
    refine ⟨p, rfl, ?_⟩
    rw [← hbi]; exact hinv
  | succ k ih =>
    intro bi p hc hinv
    obtain ⟨hlen, hloc, hroot, hacc⟩ := hinv
    have hbilt : bi < p.length := by omega
    have hpbi : p[bi]? = some p[bi] := List.getElem?_eq_getElem hbilt
    unfold AnimateModelSpaceLoop
    rw [hpbi]
    by_cases h0 : bi > 0
    · have hbb : bi < m_Bones.length := by omega
      have hbone : m_Bones[bi]? = some m_Bones[bi] := List.getElem?_eq_getElem hbb
      have hpar : m_Bones[bi].m_Parent < bi := hp bi _ h0 hbone
      have hparlt : m_Bones[bi].m_Parent < p.length := by omega
      have hpp : p[m_Bones[bi].m_Parent]? = some p[m_Bones[bi].m_Parent] :=
        List.getElem?_eq_getElem hparlt
      simp only [h0, if_true, hbone, hpp]
      apply ih (bi + 1) _ (by omega)
      refine ⟨by rw [List.length_set]; exact hlen, ?_, ?_, ?_⟩
      · intro j hj
        rw [List.getElem?_set_ne (by omega)]
        exact hloc j (by omega)
      · rw [List.getElem?_set_ne (by omega)]
        exact hroot
      · intro j hj0 hjlt
        by_cases hjb : j = bi
        · subst hjb
          refine ⟨m_Bones[j], p[j], p[m_Bones[j].m_Parent], hbone, ?_, ?_, ?_⟩
          · rw [← hloc j (le_refl j)]; exact hpbi
          · rw [List.getElem?_set_ne (by omega)]; exact hpp
          · simp [List.getElem?_set, hbilt]
        · obtain ⟨bone, t, mp, hbj, htj, hmp, hpj⟩ := hacc j hj0 (by omega)
          have hparj : bone.m_Parent < j := hp j bone hj0 hbj
          refine ⟨bone, t, mp, hbj, htj, ?_, ?_⟩
          · rw [List.getElem?_set_ne (by omega)]; exact hmp
          · rw [List.getElem?_set_ne (by omega)]; exact hpj
    · have hbi0 : bi = 0 := by omega
      simp only [h0, if_false]
      apply ih (bi + 1) _ (by omega)
      refine ⟨hlen, fun j hj => hloc j (by omega), hroot, ?_⟩
      intro j hj0 hjlt
      omega

/-- C25: for a skeleton ordered parent before child (`parent[i] < i` for every `i > 0`), the
model-space loop of `Animate` returns, and it leaves `model[0] = local[0]` and
`model[i] = Mul(model[parent[i]], local[i])` for every other bone, where `local` is the pose
before the loop: each entry is the product of the local transforms along the path from the
root to the bone. -/
theorem AnimateModelSpace_accumulates_along_parents (Mul : Transform → Transform → Transform)
    (m_Bones : List Bone) (pose : List Transform)
    (hb : pose.length ≤ m_Bones.length)
    (hp : ∀ i bone, 0 < i → m_Bones[i]? = some bone → bone.m_Parent < i) :
    ∃ model, AnimateModelSpace Mul m_Bones pose = some model ∧
      model.length = pose.length ∧ model[0]? = pose[0]? ∧
      ∀ i, 0 < i → i < pose.length → ∃ bone t mp, m_Bones[i]? = some bone ∧
        pose[i]? = some t ∧ model[bone.m_Parent]? = some mp ∧ model[i]? = some (Mul mp t) := by
  have hinit : ModelSpaceInv Mul m_Bones pose 0 pose :=
    ⟨rfl, fun _ _ => rfl, rfl, fun j hj0 hjlt => absurd hjlt (Nat.not_lt_zero j)⟩
  obtain ⟨model, hrun, hlen, -, hroot, hacc⟩ :=
    AnimateModelSpaceLoop_inv Mul m_Bones pose hb hp pose.length 0 pose (by omega) hinit
  exact ⟨model, hrun, hlen, hroot, hacc⟩

theorem AnimateModelSpace_accumulates_along_parents_witness :
    chainPose.length ≤ chainBones.length ∧
      (∀ i bone, 0 < i → chainBones[i]? = some bone → bone.m_Parent < i) ∧
      AnimateModelSpace exampleMul chainBones chainPose
        = some [translation 1 0 0, translation 1 1 0, translation 1 1 1] ∧
      ∃ model, AnimateModelSpace exampleMul chainBones chainPose = some model ∧
        model.length = chainPose.length ∧ model[0]? = chainPose[0]? ∧
        ∀ i, 0 < i → i < chainPose.length → ∃ bone t mp, chainBones[i]? = some bone ∧
          chainPose[i]? = some t ∧ model[bone.m_Parent]? = some mp ∧
          model[i]? = some (exampleMul mp t) := by
  have hb : chainPose.length ≤ chainBones.length := by decide
  have hp : ∀ i bone, 0 < i → chainBones[i]? = some bone → bone.m_Parent < i := by
    intro i bone hi hbone
    match i, hi, hbone with
    | 1, _, hbone =>
      have : bone = { m_Parent := 0 } := by
        simpa [chainBones] using hbone.symm
      rw [this]; decide
    | 2, _, hbone =>
      have : bone = { m_Parent := 1 } := by
        simpa [chainBones] using hbone.symm
      rw [this]; decide
    | n + 3, _, hbone => simp [chainBones] at hbone
  refine ⟨hb, hp, ?_,
    AnimateModelSpace_accumulates_along_parents exampleMul chainBones chainPose hb hp⟩
  simp only [AnimateModelSpace, chainPose, chainBones, AnimateModelSpaceLoop, List.length_cons,
    List.length_nil, exampleMul, translation, Transform.identity]
  norm_num

/-! ## The two values of the root bone -/

theorem AnimateBindPose_succeeds (Mul : Transform → Transform → Transform)
    (normalize : Quat → Quat) (m_Blending : Bool) :
    ∀ (bind_pose : List SpineBone) (pose : List Transform), pose.length ≤ bind_pose.length →
      ∃ out, AnimateBindPose Mul normalize m_Blending bind_pose pose = some out ∧
        out.length = pose.length ∧
        ∀ bone t, bind_pose[0]? = some bone → pose[0]? = some t →
          out[0]? = some (Mul bone.m_LocalToParent (NormalizeRotation normalize m_Blending t)) := by
  intro bind_pose pose
  induction pose generalizing bind_pose with
  | nil =>
    intro _
    refine ⟨[], ?_, rfl, ?_⟩
    · cases bind_pose <;> rfl
    · intro bone t _ ht; simp at ht
  | cons t rest ih =>
    intro hlen
    cases bind_pose with
    | nil => simp at hlen
    | cons bone bind_rest =>
      obtain ⟨out, hout, holen, -⟩ := ih bind_rest (by simpa using hlen)
      refine ⟨Mul bone.m_LocalToParent (NormalizeRotation normalize m_Blending t) :: out, ?_,
        by simp [holen], ?_⟩
      · simp only [AnimateBindPose, hout]
      · intro bone1 t1 hb ht
        simp only [List.getElem?_cons_zero, Option.some.injEq] at hb ht ⊢
        rw [← hb, ← ht]

theorem AnimateDeltas_succeeds (Mul : Transform → Transform → Transform) :
    ∀ (bind_pose : List SpineBone) (pose : List Transform), pose.length ≤ bind_pose.length →
      ∃ out, AnimateDeltas Mul bind_pose pose = some out ∧ out.length = pose.length ∧
        ∀ bone t, bind_pose[0]? = some bone → pose[0]? = some t →
          out[0]? = some (Mul t bone.m_ModelToLocal) := by
  intro bind_pose pose
  induction pose generalizing bind_pose with
  | nil =>
    intro _
    refine ⟨[], ?_, rfl, ?_⟩
    · cases bind_pose <;> rfl
    · intro bone t _ ht; simp at ht
  | cons t rest ih =>
    intro hlen
    cases bind_pose with
    | nil => simp at hlen
    | cons bone bind_rest =>
      obtain ⟨out, hout, holen, -⟩ := ih bind_rest (by simpa using hlen)
      refine ⟨Mul t bone.m_ModelToLocal :: out, ?_, by simp [holen], ?_⟩
      · simp only [AnimateDeltas, hout]
      · intro bone1 t1 hb ht
        simp only [List.getElem?_cons_zero, Option.some.injEq] at hb ht ⊢
        rw [← hb, ← ht]

/-- C24 (as stated, refuted): for `chainComponent`, placed at `(5, 0, 0)` in its instance and
with the root bone animated to `(1, 0, 0)`, the bone-0 transform handed to
`SetBoneTransforms` is `(6, 0, 0)`, the animated root composed with the component transform,
while the root used in model space and in the skinning delta is the pure animated
`(1, 0, 0)`. -/
theorem AnimatePose_root_roles :
    ∃ r, AnimatePose exampleMul exampleNormalize chainComponent = some r ∧
      r.m_BoneTransforms[0]? = some (translation 6 0 0) ∧
      r.m_BoneTransforms[0]? = some (exampleMul chainComponent.m_Transform (translation 1 0 0)) ∧
      r.m_BoneTransforms[0]? ≠ some (translation 1 0 0) ∧
      r.m_ModelPose[0]? = some (translation 1 0 0) ∧
      r.component.m_Pose[0]? = some (translation 1 0 0) ∧
      r.m_ModelPose[0]? ≠ some (exampleMul chainComponent.m_Transform (translation 1 0 0)) := by
  refine ⟨{ component := { chainComponent with
              m_Pose := [translation 1 0 0, translation 1 1 0, translation 1 1 1] }
            m_BoneTransforms := [translation 6 0 0, translation 0 1 0, translation 0 0 1]
            m_LocalPose := chainPose
            m_ModelPose := [translation 1 0 0, translation 1 1 0, translation 1 1 1] },
    ?_, ?_, ?_, ?_, ?_, ?_, ?_⟩
  · norm_num [AnimatePose, chainComponent, chainResource, chainPose, chainBones, freshComponent,
      walkResource, AnimateBindPose, NormalizeRotation, AnimateModelSpace, AnimateModelSpaceLoop,
      AnimateDeltas, exampleMul, translation, Transform.identity]
  · rfl
  · simp only [chainComponent, exampleMul, translation, Transform.identity]
    norm_num
  · simp only [translation, Transform.identity]
    norm_num
  · rfl
  · rfl
  · simp only [chainComponent, exampleMul, translation, Transform.identity]
    norm_num

/-- C24 (amended): in `Animate`, with `root_t` the root's pure animated transform (the bind
pose `m_LocalToParent` of bone 0 composed with the sampled, renormalised pose of bone 0), the
bone-0 transform handed to `SetBoneTransforms` is `Mul(component->m_Transform, root_t)`, the
one composed with the component's transform in its instance, and the other bones are handed
over as they are in the local pose; the bone-0 transform that enters the model-space
accumulation is `root_t` itself, and the skinning delta of bone 0 is
`Mul(root_t, m_ModelToLocal)`. For a pose that is not empty, with a bind pose and a skeleton
that cover it and parents ordered before their children, the step returns. -/
theorem AnimatePose_root_composed_for_bone_nodes (Mul : Transform → Transform → Transform)
    (normalize : Quat → Quat) (c : SpineModelComponent) (sampled : Transform)
    (bind : SpineBone)
    (hs : c.m_Pose[0]? = some sampled) (hbind : c.m_Resource.m_BindPose[0]? = some bind)
    (hbl : c.m_Pose.length ≤ c.m_Resource.m_BindPose.length)
    (hb : c.m_Pose.length ≤ c.m_Resource.m_Bones.length)
    (hp : ∀ i bone, 0 < i → c.m_Resource.m_Bones[i]? = some bone → bone.m_Parent < i) :
    ∃ r, AnimatePose Mul normalize c = some r ∧
      r.m_BoneTransforms[0]? = some (Mul c.m_Transform
        (Mul bind.m_LocalToParent (NormalizeRotation normalize c.m_Blending sampled))) ∧
      (∀ i, 0 < i → r.m_BoneTransforms[i]? = r.m_LocalPose[i]?) ∧
      r.m_LocalPose[0]? =
        some (Mul bind.m_LocalToParent (NormalizeRotation normalize c.m_Blending sampled)) ∧
      r.m_ModelPose[0]? =
        some (Mul bind.m_LocalToParent (NormalizeRotation normalize c.m_Blending sampled)) ∧
      r.component.m_Pose[0]? =
        some (Mul (Mul bind.m_LocalToParent (NormalizeRotation normalize c.m_Blending sampled))
          bind.m_ModelToLocal) := by
  obtain ⟨pose, hpose, hplen, hhead⟩ :=
    AnimateBindPose_succeeds Mul normalize c.m_Blending c.m_Resource.m_BindPose c.m_Pose hbl
  have hroot := hhead bind sampled hbind hs
  have hpos : 0 < pose.length := by
    rcases List.getElem?_eq_some.mp hroot with ⟨h, -⟩
    exact h
  generalize hrt : Mul bind.m_LocalToParent (NormalizeRotation normalize c.m_Blending sampled)
    = root_t at hroot ⊢
  have hl2 : ((pose.set 0 (Mul c.m_Transform root_t)).set 0 root_t).length = c.m_Pose.length := by
    rw [List.length_set, List.length_set, hplen]
  have hinit : ModelSpaceInv Mul c.m_Resource.m_Bones
      ((pose.set 0 (Mul c.m_Transform root_t)).set 0 root_t) 0
      ((pose.set 0 (Mul c.m_Transform root_t)).set 0 root_t) :=
    ⟨rfl, fun _ _ => rfl, rfl, fun j hj0 hjlt => absurd hjlt (Nat.not_lt_zero j)⟩
  obtain ⟨model, hrun, hmlen, -, hmroot, -⟩ :=
    AnimateModelSpaceLoop_inv Mul c.m_Resource.m_Bones
      ((pose.set 0 (Mul c.m_Transform root_t)).set 0 root_t) (by rw [hl2]; exact hb) hp
      ((pose.set 0 (Mul c.m_Transform root_t)).set 0 root_t).length 0 _ (by omega) hinit
  have hl2root : ((pose.set 0 (Mul c.m_Transform root_t)).set 0 root_t)[0]? = some root_t := by
    simp [List.getElem?_set, hpos]
  have hmodel0 : model[0]? = some root_t := by rw [hmroot, hl2root]
  obtain ⟨deltas, hdel, -, hdhead⟩ :=
    AnimateDeltas_succeeds Mul c.m_Resource.m_BindPose model (by rw [hmlen, hl2]; exact hbl)
  refine ⟨{ component := { c with m_Pose := deltas }
            m_BoneTransforms := pose.set 0 (Mul c.m_Transform root_t)
            m_LocalPose := (pose.set 0 (Mul c.m_Transform root_t)).set 0 root_t
            m_ModelPose := model }, ?_, ?_, ?_, hl2root, hmodel0, hdhead bind root_t hbind hmodel0⟩
  · unfold AnimatePose
    simp only [hpose, hroot]
    rw [show AnimateModelSpace Mul c.m_Resource.m_Bones
        ((pose.set 0 (Mul c.m_Transform root_t)).set 0 root_t) = some model from hrun]
    simp only [hdel]
  · simp [List.getElem?_set, hpos]
  · intro i hi
    have hne : 0 ≠ i := by omega
    simp only [List.getElem?_set_ne hne]

theorem AnimatePose_root_composed_for_bone_nodes_witness :
    ∃ r, AnimatePose exampleMul exampleNormalize chainComponent = some r ∧
      r.m_BoneTransforms[0]? = some (exampleMul chainComponent.m_Transform
        (exampleMul Transform.identity
          (NormalizeRotation exampleNormalize chainComponent.m_Blending (translation 1 0 0)))) ∧
      (∀ i, 0 < i → r.m_BoneTransforms[i]? = r.m_LocalPose[i]?) ∧
      r.m_LocalPose[0]? =
        some (exampleMul Transform.identity
          (NormalizeRotation exampleNormalize chainComponent.m_Blending (translation 1 0 0))) ∧
      r.m_ModelPose[0]? =
        some (exampleMul Transform.identity
          (NormalizeRotation exampleNormalize chainComponent.m_Blending (translation 1 0 0))) ∧
      r.component.m_Pose[0]? =
        some (exampleMul (exampleMul Transform.identity
          (NormalizeRotation exampleNormalize chainComponent.m_Blending (translation 1 0 0)))
          Transform.identity) :=
  AnimatePose_root_composed_for_bone_nodes exampleMul exampleNormalize chainComponent
    (translation 1 0 0)
    { m_LocalToParent := Transform.identity, m_ModelToLocal := Transform.identity }
    rfl rfl (by decide) (by decide)
    (by
      intro i bone hi hbone
      match i, hi, hbone with
      | 1, _, hbone =>
        have : bone = { m_Parent := 0 } := by
          simpa [chainComponent, chainResource, chainBones] using hbone.symm
        rw [this]; decide
      | 2, _, hbone =>
        have : bone = { m_Parent := 1 } := by
          simpa [chainComponent, chainResource, chainBones] using hbone.symm
        rw [this]; decide
      | n + 3, _, hbone => simp [chainComponent, chainResource, chainBones] at hbone)

/-! ## Vertex data -/

theorem batchable_length {world : SpineModelWorld} (hw : world.batchable = true) :
    world.m_RenderSortBuffer.length = world.m_Components.length := by
  simp only [SpineModelWorld.batchable, Bool.and_eq_true, decide_eq_true_eq] at hw
  exact hw.1.1

theorem SortedSlot_of_batchable {world : SpineModelWorld} (hw : world.batchable = true)
    {i : Nat} (hi : i < world.m_Components.length) :
    ∃ slot, SortedSlot world i = some slot ∧ slot ∈ world.m_Components := by
  have hlen := batchable_length hw
  simp only [SpineModelWorld.batchable, Bool.and_eq_true, decide_eq_true_eq, List.all_eq_true]
    at hw
  have hib : i < world.m_RenderSortBuffer.length := by omega
  have hx : world.m_RenderSortBuffer[i]? = some world.m_RenderSortBuffer[i] :=
    List.getElem?_eq_getElem hib
  have hxlt : world.m_RenderSortBuffer[i] < world.m_Components.length :=
    hw.1.2 _ (List.getElem_mem hib)
  refine ⟨world.m_Components[world.m_RenderSortBuffer[i]], ?_, List.getElem_mem hxlt⟩
  simp only [SortedSlot, hx]
  exact List.getElem?_eq_getElem hxlt

theorem meshOk_of_batchable {world : SpineModelWorld} (hw : world.batchable = true)
    {slot : ComponentSlot} (hs : slot ∈ world.m_Components) {c : SpineModelComponent}
    (hc : slot.m_Component = some c) : c.meshOk = true := by
  simp only [SpineModelWorld.batchable, Bool.and_eq_true, decide_eq_true_eq, List.all_eq_true]
    at hw
  have := hw.2 slot hs
  simpa only [hc] using this

theorem mesh_of_meshOk {c : SpineModelComponent} (hc : c.meshOk = true) :
    c.mesh = some none ∨
      ∃ mesh, c.mesh = some (some mesh) ∧
        ∀ vi ∈ mesh.m_Indices, mesh.indexOk c.m_Pose.length vi = true := by
  unfold SpineModelComponent.meshOk at hc
  unfold SpineModelComponent.mesh
  cases hm : c.m_Mesh with
  | none => left; rfl
  | some index =>
    rw [hm] at hc
    cases hmm : c.m_Resource.m_Meshes[index]? with
    | none => simp only [hmm] at hc; exact absurd hc (by decide)
    | some mesh =>
      simp only [hmm, List.all_eq_true] at hc
      right
      exact ⟨mesh, by simp only [hmm], hc⟩

theorem BlendBones_succeeds (Apply : Transform → Vector3 → Vector3) (c : SpineModelComponent)
    (mesh : Mesh) (bi_offset : Nat) (in_p : Vector3) :
    ∀ (count bi : Nat) (out_p : Vector3),
      (∀ k, bi ≤ k → k < bi + count →
        (∃ bone_index, mesh.m_BoneIndices[bi_offset + k]? = some bone_index ∧
          bone_index < c.m_Pose.length) ∧ bi_offset + k < mesh.m_Weights.length) →
      ∃ r, BlendBones Apply c mesh bi_offset in_p count bi out_p = some r := by
  intro count
  induction count with
  | zero => intro bi out_p _; exact ⟨out_p, rfl⟩
  | succ k ih =>
    intro bi out_p h
    obtain ⟨⟨bone_index, hbi, hlt⟩, hw⟩ := h bi (le_refl bi) (by omega)
    have hwe : mesh.m_Weights[bi_offset + bi]? = some mesh.m_Weights[bi_offset + bi] :=
      List.getElem?_eq_getElem hw
    have hpe : c.m_Pose[bone_index]? = some c.m_Pose[bone_index] := List.getElem?_eq_getElem hlt
    unfold BlendBones
    simp only [hbi, hwe, hpe]
    exact ih (bi + 1) _ (fun j hj1 hj2 => h j (by omega) (by omega))

theorem CreateVertex_succeeds (Apply : Transform → Vector3 → Vector3)
    (order : ArgumentOrder) (c : SpineModelComponent)
    (mesh : Mesh) (vi : Nat) (h : mesh.indexOk c.m_Pose.length vi = true) :
    ∃ v, CreateVertex Apply order c mesh vi = some v := by
  simp only [Mesh.indexOk, Bool.and_eq_true, decide_eq_true_eq, List.all_eq_true,
    List.mem_range] at h
  obtain ⟨⟨⟨hp, ht⟩, hwt⟩, hb⟩ := h
  have hp0 : mesh.m_Positions[vi * 3]? = some (mesh.m_Positions.get ⟨vi * 3, by omega⟩) :=
    List.getElem?_eq_getElem (by omega)
  have hp1 : mesh.m_Positions[vi * 3 + 1]? =
      some (mesh.m_Positions.get ⟨vi * 3 + 1, by omega⟩) := List.getElem?_eq_getElem (by omega)
  have hp2 : mesh.m_Positions[vi * 3 + 2]? =
      some (mesh.m_Positions.get ⟨vi * 3 + 2, by omega⟩) := List.getElem?_eq_getElem (by omega)
  have ht0 : mesh.m_Texcoord0[vi * 2]? = some (mesh.m_Texcoord0.get ⟨vi * 2, by omega⟩) :=
    List.getElem?_eq_getElem (by omega)
  have ht1 : mesh.m_Texcoord0[vi * 2 + 1]? =
      some (mesh.m_Texcoord0.get ⟨vi * 2 + 1, by omega⟩) := List.getElem?_eq_getElem (by omega)
  have hblend : ∀ in_p : Vector3,
      BlendBones Apply c mesh (vi * 4) in_p 4 0 { x := 0, y := 0, z := 0 } ≠ none := by
    intro in_p hnone
    obtain ⟨out_p, hout⟩ := BlendBones_succeeds Apply c mesh (vi * 4) in_p 4 0
      { x := 0, y := 0, z := 0 }
      (by
        intro k _ hk
        have hk4 : k < 4 := by omega
        have hbk := hb k hk4
        refine ⟨?_, by omega⟩
        cases hbi : mesh.m_BoneIndices[vi * 4 + k]? with
        | none => rw [hbi] at hbk; exact absurd hbk Bool.false_ne_true
        | some bone_index =>
          rw [hbi] at hbk
          exact ⟨bone_index, rfl, by simpa using hbk⟩)
    rw [hout] at hnone
    exact absurd hnone (Option.some_ne_none _)
  unfold CreateVertex
  simp only [hp0, hp1, hp2, ht0, ht1]
  split
  · next hnone => exact absurd hnone (hblend _)
  · exact ⟨_, rfl⟩

theorem CreateMeshVertices_appends (Apply : Transform → Vector3 → Vector3)
    (order : ArgumentOrder) (c : SpineModelComponent) (mesh : Mesh) :
    ∀ (indices : List Nat) (vertex_buffer : dmArray SpineModelVertex),
      (∀ vi ∈ indices, mesh.indexOk c.m_Pose.length vi = true) →
      indices.length ≤ vertex_buffer.Remaining →
      (indices.filterMap (CreateVertex Apply order c mesh)).length = indices.length ∧
      CreateMeshVertices Apply order c mesh indices vertex_buffer =
        some { m_Data := vertex_buffer.m_Data ++ indices.filterMap (CreateVertex Apply order c mesh)
               m_Capacity := vertex_buffer.m_Capacity } := by
  intro indices
  induction indices with
  | nil =>
    intro vertex_buffer _ _
    refine ⟨rfl, ?_⟩
    simp only [CreateMeshVertices, List.filterMap_nil, List.append_nil]
  | cons vi rest ih =>
    intro vertex_buffer hok hroom
    obtain ⟨v, hv⟩ := CreateVertex_succeeds Apply order c mesh vi (hok vi (List.mem_cons_self vi rest))
    simp only [dmArray.Remaining, List.length_cons] at hroom
    have hpush : vertex_buffer.Push v =
        some { m_Data := vertex_buffer.m_Data ++ [v], m_Capacity := vertex_buffer.m_Capacity } := by
      unfold dmArray.Push
      rw [if_pos (by omega)]
    obtain ⟨hlen, hrun⟩ := ih
      { m_Data := vertex_buffer.m_Data ++ [v], m_Capacity := vertex_buffer.m_Capacity }
      (fun x hx => hok x (List.mem_cons_of_mem vi hx))
      (by simp only [dmArray.Remaining, List.length_append, List.length_singleton]; omega)
    refine ⟨?_, ?_⟩
    · rw [List.filterMap_cons_some hv, List.length_cons, hlen, List.length_cons]
    · unfold CreateMeshVertices
      simp only [hv, hpush, hrun]
      rw [List.filterMap_cons_some hv, List.append_assoc, List.singleton_append]

theorem IndexCountSum_add (world : SpineModelWorld) :
    ∀ (a b i : Nat),
      IndexCountSum world (a + b) i = IndexCountSum world a i + IndexCountSum world b (i + a) := by
  intro a
  induction a with
  | zero => intro b i; simp [IndexCountSum]
  | succ k ih =>
    intro b i
    rw [show k + 1 + b = (k + b) + 1 from by omega]
    simp only [IndexCountSum]
    rw [ih b (i + 1), show i + 1 + k = i + (k + 1) from by omega]
    omega

theorem CreateVertexDataLoop_appends (Apply : Transform → Vector3 → Vector3)
    (order : ArgumentOrder) (world : SpineModelWorld) (hw : world.batchable = true) :
    ∀ (count i : Nat) (vertex_buffer : dmArray SpineModelVertex),
      i + count ≤ world.m_Components.length →
      IndexCountSum world count i ≤ vertex_buffer.Remaining →
      (BatchVertices Apply order world count i).length = IndexCountSum world count i ∧
      CreateVertexDataLoop Apply order world count i vertex_buffer =
        some { m_Data := vertex_buffer.m_Data ++ BatchVertices Apply order world count i
               m_Capacity := vertex_buffer.m_Capacity } := by
  intro count
  induction count with
  | zero =>
    intro i vertex_buffer _ _
    refine ⟨rfl, ?_⟩
    simp only [CreateVertexDataLoop, BatchVertices, List.append_nil]
  | succ k ih =>
    intro i vertex_buffer hi hroom
    obtain ⟨slot, hslot, hmem⟩ := SortedSlot_of_batchable hw (show i < _ by omega)
    simp only [IndexCountSum] at hroom
    unfold CreateVertexDataLoop
    simp only [BatchVertices, IndexCountSum, MemberVertices, IndexCount, hslot]
    cases hc : slot.m_Component with
    | none =>
      simp only [hc, IndexCount, hslot] at hroom
      obtain ⟨hlen, hrun⟩ := ih (i + 1) vertex_buffer (by omega) (by omega)
      simp only [List.nil_append, Nat.zero_add]
      exact ⟨hlen, hrun⟩
    | some c =>
      simp only [hc, IndexCount, hslot] at hroom
      rcases mesh_of_meshOk (meshOk_of_batchable hw hmem hc) with hm | ⟨mesh, hm, hok⟩
      · simp only [hm] at hroom ⊢
        obtain ⟨hlen, hrun⟩ := ih (i + 1) vertex_buffer (by omega) (by omega)
        simp only [List.nil_append, Nat.zero_add]
        exact ⟨hlen, hrun⟩
      · simp only [hm] at hroom ⊢
        obtain ⟨hvl, hvrun⟩ := CreateMeshVertices_appends Apply order c mesh mesh.m_Indices
          vertex_buffer hok (by omega)
        obtain ⟨hlen, hrun⟩ := ih (i + 1)
          { m_Data := vertex_buffer.m_Data ++ mesh.m_Indices.filterMap (CreateVertex Apply order c mesh)
            m_Capacity := vertex_buffer.m_Capacity } (by omega)
          (by
            simp only [dmArray.Remaining, List.length_append, hvl] at hroom ⊢
            omega)
        refine ⟨by rw [List.length_append, hvl, hlen], ?_⟩
        simp only [hvrun, hrun, List.append_assoc]

/-! ## Batches -/

theorem BatchVertices_add (Apply : Transform → Vector3 → Vector3)
    (order : ArgumentOrder) (world : SpineModelWorld) :
    ∀ (a b i : Nat),
      BatchVertices Apply order world (a + b) i =
        BatchVertices Apply order world a i ++ BatchVertices Apply order world b (i + a) := by
  intro a
  induction a with
  | zero => intro b i; simp [BatchVertices]
  | succ k ih =>
    intro b i
    rw [show k + 1 + b = (k + b) + 1 from by omega]
    simp only [BatchVertices]
    rw [ih b (i + 1), show i + 1 + k = i + (k + 1) from by omega, List.append_assoc]

theorem IndexCountSum_le_total (world : SpineModelWorld) {s e n : Nat} (hse : s ≤ e)
    (hen : e ≤ n) : IndexCountSum world (e - s) s ≤ IndexCountSum world n 0 := by
  have h1 := IndexCountSum_add world s (n - s) 0
  have h2 := IndexCountSum_add world (e - s) (n - e) s
  rw [show s + (n - s) = n from by omega, Nat.zero_add] at h1
  rw [show e - s + (n - e) = n - s from by omega] at h2
  omega

theorem BatchMember_enabled {world : SpineModelWorld} {z hash j : Nat}
    (h : BatchMember world z hash j = true) :
    SortedEnabled world j = true ∧ BatchKey world j = (z, hash) := by
  unfold BatchMember at h
  unfold SortedEnabled BatchKey
  cases hs : SortedSlot world j with
  | none => rw [hs] at h; exact absurd h Bool.false_ne_true
  | some slot =>
    rw [hs] at h
    cases hc : slot.m_Component with
    | none => simp only [hc] at h; exact absurd h Bool.false_ne_true
    | some c =>
      simp only [hc, Bool.and_eq_true, decide_eq_true_eq] at h
      simp only [ComponentSlot.enabled, hc, h.1.1, h.1.2, h.2, and_self]

theorem BatchMember_first {world : SpineModelWorld} {j : Nat}
    (h : SortedEnabled world j = true) :
    BatchMember world (BatchKey world j).1 (BatchKey world j).2 j = true := by
  unfold SortedEnabled at h
  unfold BatchMember BatchKey
  cases hs : SortedSlot world j with
  | none => rw [hs] at h; exact absurd h Bool.false_ne_true
  | some slot =>
    rw [hs] at h
    cases hc : slot.m_Component with
    | none => simp only [ComponentSlot.enabled, hc] at h; exact absurd h Bool.false_ne_true
    | some c =>
      simp only [ComponentSlot.enabled, hc] at h
      simp only [hc, h, decide_True, Bool.and_self]

theorem RenderBatchScan_result (world : SpineModelWorld) (hw : world.batchable = true)
    (z hash : Nat) :
    ∀ (count i vertex_count : Nat), i + count = world.m_Components.length →
      vertex_count < 2 ^ 32 →
      ∃ e, RenderBatchScan world z hash world.m_Components.length count i vertex_count =
          some (e, (vertex_count + IndexCountSum world (e - i) i) % 2 ^ 32) ∧
        i ≤ e ∧ e ≤ world.m_Components.length ∧
        (∀ j, i ≤ j → j < e → BatchMember world z hash j = true) ∧
        (e < world.m_Components.length → BatchMember world z hash e = false) := by
  intro count
  induction count with
  | zero =>
    intro i vc hi hvc
    refine ⟨world.m_Components.length, ?_, by omega, le_refl _, ?_, ?_⟩
    · have h0 : world.m_Components.length - i = 0 := by omega
      simp only [RenderBatchScan, h0, IndexCountSum, Nat.add_zero, Nat.mod_eq_of_lt hvc]
    · intro j hj1 hj2; omega
    · intro h; omega
  | succ k ih =>
    intro i vc hi hvc
    obtain ⟨slot, hslot, hmem⟩ := SortedSlot_of_batchable hw (show i < _ by omega)
    have hstop : ∀ out, out = some (i, vc) → BatchMember world z hash i = false →
        ∃ e, out = some (e, (vc + IndexCountSum world (e - i) i) % 2 ^ 32) ∧
          i ≤ e ∧ e ≤ world.m_Components.length ∧
          (∀ j, i ≤ j → j < e → BatchMember world z hash j = true) ∧
          (e < world.m_Components.length → BatchMember world z hash e = false) := by
      intro out hout hnot
      refine ⟨i, ?_, le_refl _, by omega, ?_, fun _ => hnot⟩
      · simp only [hout, Nat.sub_self, IndexCountSum, Nat.add_zero, Nat.mod_eq_of_lt hvc]
      · intro j hj1 hj2; omega
    unfold RenderBatchScan
    simp only [hslot]
    cases hc : slot.m_Component with
    | none =>
      apply hstop _ rfl
      simp only [BatchMember, hslot, hc]
    | some c =>
      simp only
      by_cases hbreak : (!c.m_Enabled) = true ∨ c.m_MixedHash ≠ hash ∨
          SortKey.m_Z slot.m_SortKey ≠ z
      · rw [if_pos hbreak]
        apply hstop _ rfl
        simp only [BatchMember, hslot, hc]
        rcases hbreak with h | h | h
        · have he : c.m_Enabled = false := by simpa using h
          simp only [he, Bool.false_and]
        · simp only [h, decide_False, Bool.and_false, Bool.false_and]
        · simp only [h, decide_False, Bool.and_false]
      · rw [if_neg hbreak]
        have hmember : BatchMember world z hash i = true := by
          simp only [not_or, Bool.not_eq_true', Bool.not_eq_false, ne_eq, not_not] at hbreak
          simp only [BatchMember, hslot, hc, hbreak.1, hbreak.2.1, hbreak.2.2, decide_True,
            Bool.and_self]
        have hrest : ∀ (vc1 : Nat), vc1 < 2 ^ 32 →
            vc1 % 2 ^ 32 = (vc + IndexCount world i) % 2 ^ 32 →
            ∃ e, RenderBatchScan world z hash world.m_Components.length k (i + 1) vc1 =
                some (e, (vc + IndexCountSum world (e - i) i) % 2 ^ 32) ∧
              i ≤ e ∧ e ≤ world.m_Components.length ∧
              (∀ j, i ≤ j → j < e → BatchMember world z hash j = true) ∧
              (e < world.m_Components.length → BatchMember world z hash e = false) := by
          intro vc1 hvc1 hmod
          obtain ⟨e, hrun, hie, hen, hmem1, hend⟩ := ih (i + 1) vc1 (by omega) hvc1
          refine ⟨e, ?_, by omega, hen, ?_, hend⟩
          · rw [hrun]
            have hsplit : e - i = (e - (i + 1)) + 1 := by omega
            rw [hsplit]
            simp only [IndexCountSum]
            have : (vc1 + IndexCountSum world (e - (i + 1)) (i + 1)) % 2 ^ 32 =
                (vc + (IndexCount world i + IndexCountSum world (e - (i + 1)) (i + 1))) %
                  2 ^ 32 := by
              rw [Nat.add_mod, hmod, ← Nat.add_mod, Nat.add_assoc]
            rw [this]
          · intro j hj1 hj2
            by_cases hji : j = i
            · rw [hji]; exact hmember
            · exact hmem1 j (by omega) hj2
        rcases mesh_of_meshOk (meshOk_of_batchable hw hmem hc) with hm | ⟨mesh, hm, -⟩
        · simp only [hm]
          apply hrest vc hvc
          simp only [IndexCount, hslot, hc, hm, Nat.add_zero]
        · simp only [hm]
          apply hrest _ (Nat.mod_lt _ (by norm_num))
          simp only [IndexCount, hslot, hc, hm, Nat.mod_mod]

theorem RenderBatch_result (Apply : Transform → Vector3 → Vector3)
    (order : ArgumentOrder) (world : SpineModelWorld)
    (hw : world.batchable = true) (hsum : IndexCountSum world world.m_Components.length 0 < 2 ^ 32)
    (render : SpineModelRender) (start_index : Nat)
    (hs : start_index < world.m_Components.length)
    (he : SortedEnabled world start_index = true)
    (hroom : render.m_RenderObjects.m_Data.length < render.m_RenderObjects.m_Capacity)
    (hsize : render.m_VertexBufferData.m_Data.length ≤ render.m_VertexBufferData.m_Capacity) :
    ∃ (e : Nat) (ro : RenderObject) (capacity : Nat),
      RenderBatch Apply order world render start_index =
        some ({ m_RenderObjects :=
                  { m_Data := render.m_RenderObjects.m_Data ++ [ro]
                    m_Capacity := render.m_RenderObjects.m_Capacity }
                m_VertexBufferData :=
                  { m_Data := render.m_VertexBufferData.m_Data ++
                      BatchVertices Apply order world (e - start_index) start_index
                    m_Capacity := capacity } }, e) ∧
      start_index < e ∧ e ≤ world.m_Components.length ∧
      (∀ j, start_index ≤ j → j < e →
        BatchMember world (BatchKey world start_index).1 (BatchKey world start_index).2 j
          = true) ∧
      (e < world.m_Components.length →
        BatchMember world (BatchKey world start_index).1 (BatchKey world start_index).2 e
          = false) ∧
      ro.m_VertexStart = render.m_VertexBufferData.m_Data.length ∧
      ro.m_VertexCount = IndexCountSum world (e - start_index) start_index ∧
      (BatchVertices Apply order world (e - start_index) start_index).length = ro.m_VertexCount ∧
      render.m_VertexBufferData.m_Data.length + ro.m_VertexCount ≤ capacity := by
  have hfirst := BatchMember_first he
  obtain ⟨slot, hslot, hmem⟩ := SortedSlot_of_batchable hw hs
  unfold SortedEnabled at he
  rw [hslot] at he
  cases hc : slot.m_Component with
  | none => simp only [ComponentSlot.enabled, hc] at he; exact absurd he Bool.false_ne_true
  | some first =>
    simp only [ComponentSlot.enabled, hc] at he
    have hkey : BatchKey world start_index = (SortKey.m_Z slot.m_SortKey, first.m_MixedHash) := by
      simp only [BatchKey, hslot, hc]
    rw [hkey] at hfirst ⊢
    simp only at hfirst ⊢
    obtain ⟨e, hscan, hse, hen, hmembers, hend⟩ :=
      RenderBatchScan_result world hw (SortKey.m_Z slot.m_SortKey) first.m_MixedHash
        (world.m_Components.length - start_index) start_index 0 (by omega) (by norm_num)
    have hlt : start_index < e := by
      rcases Nat.lt_or_ge start_index e with h | h
      · exact h
      · have hee : e = start_index := by omega
        have := hend (by omega)
        rw [hee, hfirst] at this
        exact absurd this (by decide)
    have hcount : (0 + IndexCountSum world (e - start_index) start_index) % 2 ^ 32 =
        IndexCountSum world (e - start_index) start_index := by
      rw [Nat.zero_add]
      exact Nat.mod_eq_of_lt (lt_of_le_of_lt (IndexCountSum_le_total world hse hen) hsum)
    rw [hcount] at hscan
    generalize hvc : IndexCountSum world (e - start_index) start_index = vertex_count at hscan
    have hpush : ∀ ro : RenderObject, render.m_RenderObjects.Push ro =
        some { m_Data := render.m_RenderObjects.m_Data ++ [ro]
               m_Capacity := render.m_RenderObjects.m_Capacity } := by
      intro ro
      unfold dmArray.Push
      rw [if_pos hroom]
    have hgrow : vertex_count ≤
        (if render.m_VertexBufferData.Remaining < vertex_count then
          render.m_VertexBufferData.OffsetCapacity
            (vertex_count - render.m_VertexBufferData.Remaining)
        else render.m_VertexBufferData).Remaining := by
      by_cases hr : render.m_VertexBufferData.Remaining < vertex_count
      · rw [if_pos hr]
        simp only [dmArray.Remaining, dmArray.OffsetCapacity] at hr ⊢
        omega
      · rw [if_neg hr]; omega
    have hdata : (if render.m_VertexBufferData.Remaining < vertex_count then
          render.m_VertexBufferData.OffsetCapacity
            (vertex_count - render.m_VertexBufferData.Remaining)
        else render.m_VertexBufferData).m_Data = render.m_VertexBufferData.m_Data := by
      by_cases hr : render.m_VertexBufferData.Remaining < vertex_count
      · rw [if_pos hr]; rfl
      · rw [if_neg hr]
    obtain ⟨hvlen, hvrun⟩ := CreateVertexDataLoop_appends Apply order world hw (e - start_index)
      start_index
      (if render.m_VertexBufferData.Remaining < vertex_count then
          render.m_VertexBufferData.OffsetCapacity
            (vertex_count - render.m_VertexBufferData.Remaining)
        else render.m_VertexBufferData) (by omega) (by rw [hvc]; exact hgrow)
    rw [hdata] at hvrun
    have hcap : render.m_VertexBufferData.m_Data.length + vertex_count ≤
        (if render.m_VertexBufferData.Remaining < vertex_count then
          render.m_VertexBufferData.OffsetCapacity
            (vertex_count - render.m_VertexBufferData.Remaining)
        else render.m_VertexBufferData).m_Capacity := by
      by_cases hr : render.m_VertexBufferData.Remaining < vertex_count
      · rw [if_pos hr]
        simp only [dmArray.Remaining, dmArray.OffsetCapacity] at hr ⊢
        omega
      · rw [if_neg hr]
        simp only [dmArray.Remaining] at hr
        omega
    refine ⟨e,
      { m_VertexStart := render.m_VertexBufferData.m_Data.length
        m_VertexCount := vertex_count
        m_Material := first.m_Resource.m_Material
        m_WorldTransform := first.m_World
        m_Constants := first.m_RenderConstants.map fun c => (c.m_NameHash, c.m_Value)
        m_SourceBlendFactor := (BlendFactors first.m_Resource.m_BlendMode).1
        m_DestinationBlendFactor := (BlendFactors first.m_Resource.m_BlendMode).2 },
      (if render.m_VertexBufferData.Remaining < vertex_count then
          render.m_VertexBufferData.OffsetCapacity
            (vertex_count - render.m_VertexBufferData.Remaining)
        else render.m_VertexBufferData).m_Capacity,
      ?_, hlt, hen, hmembers, hend, rfl, hvc.symm, ?_, hcap⟩
    · unfold RenderBatch
      simp only [hslot, hc, he, Bool.not_true, Bool.false_eq_true, if_false, hscan, hpush,
        CreateVertexData, hvrun, dmArray.Size, hdata]
    · rw [hvlen, hvc]

theorem RenderBatches_result (Apply : Transform → Vector3 → Vector3)
    (order : ArgumentOrder) (world : SpineModelWorld)
    (hw : world.batchable = true)
    (hsum : IndexCountSum world world.m_Components.length 0 < 2 ^ 32) :
    ∀ (fuel start : Nat) (render : SpineModelRender),
      world.m_Components.length - start ≤ fuel → start ≤ world.m_Components.length →
      render.m_RenderObjects.m_Data.length + (world.m_Components.length - start) ≤
        render.m_RenderObjects.m_Capacity →
      render.m_VertexBufferData.m_Data.length ≤ render.m_VertexBufferData.m_Capacity →
      ∃ (objects : List RenderObject) (batches : List (Nat × Nat)) (p capacity : Nat),
        RenderBatches Apply order world fuel start render =
          some ({ m_RenderObjects :=
                    { m_Data := render.m_RenderObjects.m_Data ++ objects
                      m_Capacity := render.m_RenderObjects.m_Capacity }
                  m_VertexBufferData :=
                    { m_Data := render.m_VertexBufferData.m_Data ++
                        BatchVertices Apply order world (p - start) start
                      m_Capacity := capacity } }, batches) ∧
        BatchChain world start batches ∧ start ≤ p ∧ p ≤ world.m_Components.length ∧
        VertexRanges render.m_VertexBufferData.m_Data.length objects
          (render.m_VertexBufferData.m_Data.length +
            (BatchVertices Apply order world (p - start) start).length) ∧
        BatchCounts world objects batches := by
  intro fuel
  induction fuel with
  | zero =>
    intro start render hfuel hstart _ _
    have hn : ¬ start < world.m_Components.length := by omega
    refine ⟨[], [], start, render.m_VertexBufferData.m_Capacity, ?_, ?_, le_refl _, hstart, ?_,
      List.Forall₂.nil⟩
    · simp only [RenderBatches, BatchLoopTest, if_neg hn, Nat.sub_self, BatchVertices,
        List.append_nil]
    · intro h; exact absurd h hn
    · simp only [Nat.sub_self, BatchVertices, List.length_nil, Nat.add_zero, VertexRanges]
  | succ k ih =>
    intro start render hfuel hstart hroom hsize
    have hdone : BatchLoopTest world start = some false →
        ∃ (objects : List RenderObject) (batches : List (Nat × Nat)) (p capacity : Nat),
          RenderBatches Apply order world (k + 1) start render =
            some ({ m_RenderObjects :=
                      { m_Data := render.m_RenderObjects.m_Data ++ objects
                        m_Capacity := render.m_RenderObjects.m_Capacity }
                    m_VertexBufferData :=
                      { m_Data := render.m_VertexBufferData.m_Data ++
                          BatchVertices Apply order world (p - start) start
                        m_Capacity := capacity } }, batches) ∧
          BatchChain world start batches ∧ start ≤ p ∧ p ≤ world.m_Components.length ∧
          VertexRanges render.m_VertexBufferData.m_Data.length objects
            (render.m_VertexBufferData.m_Data.length +
              (BatchVertices Apply order world (p - start) start).length) ∧
          BatchCounts world objects batches := by
      intro htest
      refine ⟨[], [], start, render.m_VertexBufferData.m_Capacity, ?_, ?_, le_refl _, hstart, ?_,
        List.Forall₂.nil⟩
      · simp only [RenderBatches, htest, Nat.sub_self, BatchVertices, List.append_nil]
      · intro h
        simp only [BatchLoopTest, if_pos h] at htest
        unfold SortedEnabled
        cases hs : SortedSlot world start with
        | none => rfl
        | some slot =>
          rw [hs] at htest
          simpa using htest
      · simp only [Nat.sub_self, BatchVertices, List.length_nil, Nat.add_zero, VertexRanges]
    by_cases hlt : start < world.m_Components.length
    · obtain ⟨slot, hslot, -⟩ := SortedSlot_of_batchable hw hlt
      by_cases hen : slot.enabled = true
      · have htest : BatchLoopTest world start = some true := by
          simp only [BatchLoopTest, if_pos hlt, hslot, hen]
        have hsorted : SortedEnabled world start = true := by
          simp only [SortedEnabled, hslot, hen]
        obtain ⟨e, ro, cap1, hbatch, hse, hele, hmembers, hend, hstartv, hcount, hvlen, hcap⟩ :=
          RenderBatch_result Apply order world hw hsum render start hlt hsorted (by omega) hsize
        obtain ⟨objects, batches, p, cap2, hrun, hchain, hep, hpn, hranges, hcounts⟩ :=
          ih e
            { m_RenderObjects :=
                { m_Data := render.m_RenderObjects.m_Data ++ [ro]
                  m_Capacity := render.m_RenderObjects.m_Capacity }
              m_VertexBufferData :=
                { m_Data := render.m_VertexBufferData.m_Data ++
                    BatchVertices Apply order world (e - start) start
                  m_Capacity := cap1 } }
            (by omega) hele
            (by simp only [List.length_append, List.length_singleton]; omega)
            (by simp only [List.length_append]; omega)
        have hsplit : BatchVertices Apply order world (p - start) start =
            BatchVertices Apply order world (e - start) start ++
              BatchVertices Apply order world (p - e) e := by
          have h := BatchVertices_add Apply order world (e - start) (p - e) start
          rw [show e - start + (p - e) = p - start from by omega,
            show start + (e - start) = e from by omega] at h
          exact h
        refine ⟨ro :: objects, (start, e) :: batches, p, cap2, ?_, ?_, by omega, hpn, ?_, ?_⟩
        · simp only [RenderBatches, htest, hbatch, hrun, hsplit, List.append_assoc,
            List.singleton_append]
        · refine ⟨rfl, hse, hele, hmembers, hend, ?_, hchain⟩
          intro hne hkey
          cases batches with
          | nil => exact hne rfl
          | cons b rest =>
            obtain ⟨s1, e1⟩ := b
            obtain ⟨hs1, hs1e1, he1n, hmem1, -⟩ := hchain
            have hm := hmem1 e (by omega) (by omega)
            rw [hs1, hkey] at hm
            have hf := hend (by omega)
            rw [hm] at hf
            exact absurd hf (by decide)
        · refine ⟨hstartv, ?_⟩
          simp only [List.length_append] at hranges
          rw [hvlen] at hranges
          rw [hsplit, List.length_append, hvlen, ← Nat.add_assoc]
          exact hranges
        · exact List.Forall₂.cons hcount hcounts
      · apply hdone
        have hen1 : slot.enabled = false := by simpa using hen
        simp only [BatchLoopTest, if_pos hlt, hslot, hen1]
    · apply hdone
      simp only [BatchLoopTest, if_neg hlt]

theorem CompSpineModelUpdateBatches_result (Apply : Transform → Vector3 → Vector3)
    (order : ArgumentOrder)
    (world : SpineModelWorld) (render : SpineModelRender) (hw : world.batchable = true)
    (hsum : IndexCountSum world world.m_Components.length 0 < 2 ^ 32)
    (hcap : world.m_Components.length ≤ render.m_RenderObjects.m_Capacity) :
    ∃ r batches, CompSpineModelUpdateBatches Apply order world render = some (r, batches) ∧
      BatchChain world 0 batches ∧ BatchCounts world r.m_RenderObjects.m_Data batches ∧
      VertexRanges 0 r.m_RenderObjects.m_Data r.m_VertexBufferData.Size := by
  obtain ⟨objects, batches, p, capacity, hrun, hchain, -, -, hranges, hcounts⟩ :=
    RenderBatches_result Apply order world hw hsum world.m_Components.length 0
      { m_RenderObjects := render.m_RenderObjects.Clear
        m_VertexBufferData := render.m_VertexBufferData.Clear }
      (by omega) (Nat.zero_le _)
      (by simp only [dmArray.Clear, List.length_nil]; omega)
      (by simp only [dmArray.Clear, List.length_nil]; omega)
  refine ⟨_, batches, hrun, hchain, ?_, ?_⟩
  · simpa only [dmArray.Clear, List.nil_append] using hcounts
  · simpa only [dmArray.Clear, List.nil_append, List.length_nil, Nat.zero_add, dmArray.Size]
      using hranges

/-- C22: `RenderBatch`, called at a sorted position `start_index` whose slot is enabled,
returns, and the index `e` it returns lies after `start_index`, every position from
`start_index` up to `e` holds an enabled slot that agrees with the first member in mixed
hash and in depth, and the slot at `e` (unless `e` is the size of the pool) is disabled or
differs in one of the two; so `e` is the smallest such index. The batches that
`CompSpineModelUpdate` builds therefore form a chain from position 0: contiguous, not empty,
within the enabled positions, ending where a slot is not enabled, and two consecutive
batches differ in mixed hash or in depth. -/
theorem RenderBatch_stops_at_first_mismatch (Apply : Transform → Vector3 → Vector3)
    (order : ArgumentOrder)
    (world : SpineModelWorld) (render : SpineModelRender) (hw : world.batchable = true)
    (hsum : IndexCountSum world world.m_Components.length 0 < 2 ^ 32)
    (hcap : world.m_Components.length ≤ render.m_RenderObjects.m_Capacity)
    (hsize : render.m_VertexBufferData.Size ≤ render.m_VertexBufferData.m_Capacity) :
    (∀ start_index, start_index < world.m_Components.length →
      SortedEnabled world start_index = true →
      render.m_RenderObjects.Size < render.m_RenderObjects.m_Capacity →
      ∃ r e, RenderBatch Apply order world render start_index = some (r, e) ∧
        start_index < e ∧ e ≤ world.m_Components.length ∧
        (∀ j, start_index ≤ j → j < e →
          BatchMember world (BatchKey world start_index).1 (BatchKey world start_index).2 j
            = true) ∧
        (e < world.m_Components.length →
          BatchMember world (BatchKey world start_index).1 (BatchKey world start_index).2 e
            = false)) ∧
      ∃ r batches, CompSpineModelUpdateBatches Apply order world render = some (r, batches) ∧
        BatchChain world 0 batches := by
  refine ⟨?_, ?_⟩
  · intro start_index hs he hroom
    obtain ⟨e, ro, capacity, hrun, hse, hen, hmembers, hend, -⟩ :=
      RenderBatch_result Apply order world hw hsum render start_index hs he hroom hsize
    exact ⟨_, e, hrun, hse, hen, hmembers, hend⟩
  · obtain ⟨r, batches, hrun, hchain, -⟩ :=
      CompSpineModelUpdateBatches_result Apply order world render hw hsum hcap
    exact ⟨r, batches, hrun, hchain⟩

theorem RenderBatch_stops_at_first_mismatch_witness :
    batchWorld.batchable = true ∧
      RenderBatchScan batchWorld 0 5 5 5 0 0 = some (2, 4) ∧
      (CompSpineModelUpdateBatches exampleApply rightToLeft batchWorld (CompSpineModelNewRender 5)).map
        (fun r => r.2) = some [(0, 2), (2, 3)] ∧
      (∀ start_index, start_index < batchWorld.m_Components.length →
        SortedEnabled batchWorld start_index = true →
        (CompSpineModelNewRender 5).m_RenderObjects.Size <
          (CompSpineModelNewRender 5).m_RenderObjects.m_Capacity →
        ∃ r e, RenderBatch exampleApply rightToLeft batchWorld (CompSpineModelNewRender 5) start_index
            = some (r, e) ∧
          start_index < e ∧ e ≤ batchWorld.m_Components.length ∧
          (∀ j, start_index ≤ j → j < e →
            BatchMember batchWorld (BatchKey batchWorld start_index).1
              (BatchKey batchWorld start_index).2 j = true) ∧
          (e < batchWorld.m_Components.length →
            BatchMember batchWorld (BatchKey batchWorld start_index).1
              (BatchKey batchWorld start_index).2 e = false)) ∧
      ∃ r batches, CompSpineModelUpdateBatches exampleApply rightToLeft batchWorld
          (CompSpineModelNewRender 5) = some (r, batches) ∧
        BatchChain batchWorld 0 batches :=
  ⟨by decide, by decide, by decide,
    RenderBatch_stops_at_first_mismatch exampleApply rightToLeft batchWorld (CompSpineModelNewRender 5)
      (by decide) (by decide) (by decide) (by decide)⟩

/-- C23: `RenderBatch` returns, and the render object it adds has as vertex start the size
of the staging buffer before the batch and as vertex count the sum of the mesh index counts
of the batch members (a member without a mesh counts 0); the vertices appended are those of
the members in sorted order, one per mesh index of each member, whatever the order in
which the compiler evaluates the three position reads of a vertex, so the staging size
afterwards is start + count. Over a frame, which first empties the staging buffer and the
render objects, each render object counts the indices of its batch, and the vertex ranges of
the render objects follow one another from 0 and end at the size of the staging buffer. -/
theorem RenderBatch_vertex_ranges_contiguous (Apply : Transform → Vector3 → Vector3)
    (order : ArgumentOrder)
    (world : SpineModelWorld) (render : SpineModelRender) (hw : world.batchable = true)
    (hsum : IndexCountSum world world.m_Components.length 0 < 2 ^ 32)
    (hcap : world.m_Components.length ≤ render.m_RenderObjects.m_Capacity)
    (hsize : render.m_VertexBufferData.Size ≤ render.m_VertexBufferData.m_Capacity) :
    (∀ start_index, start_index < world.m_Components.length →
      SortedEnabled world start_index = true →
      render.m_RenderObjects.Size < render.m_RenderObjects.m_Capacity →
      ∃ r e ro, RenderBatch Apply order world render start_index = some (r, e) ∧
        r.m_RenderObjects.m_Data = render.m_RenderObjects.m_Data ++ [ro] ∧
        ro.m_VertexStart = render.m_VertexBufferData.Size ∧
        ro.m_VertexCount = IndexCountSum world (e - start_index) start_index ∧
        r.m_VertexBufferData.m_Data =
          render.m_VertexBufferData.m_Data ++
            BatchVertices Apply order world (e - start_index) start_index ∧
        r.m_VertexBufferData.Size = ro.m_VertexStart + ro.m_VertexCount) ∧
      (∀ j, j < world.m_Components.length →
        (MemberVertices Apply order world j).length = IndexCount world j) ∧
      ∃ r batches, CompSpineModelUpdateBatches Apply order world render = some (r, batches) ∧
        BatchCounts world r.m_RenderObjects.m_Data batches ∧
        VertexRanges 0 r.m_RenderObjects.m_Data r.m_VertexBufferData.Size := by
  refine ⟨?_, ?_, ?_⟩
  · intro start_index hs he hroom
    obtain ⟨e, ro, capacity, hrun, -, -, -, -, hstart, hcount, hvlen, -⟩ :=
      RenderBatch_result Apply order world hw hsum render start_index hs he hroom hsize
    refine ⟨_, e, ro, hrun, rfl, hstart, hcount, rfl, ?_⟩
    simp only [dmArray.Size, List.length_append, hvlen, hstart]
  · intro j hj
    have h := (CreateVertexDataLoop_appends Apply order world hw 1 j
      { m_Data := [], m_Capacity := IndexCountSum world 1 j } (by omega)
      (by simp only [dmArray.Remaining, List.length_nil]; omega)).1
    simpa only [BatchVertices, IndexCountSum, List.append_nil, Nat.add_zero] using h
  · obtain ⟨r, batches, hrun, -, hcounts, hranges⟩ :=
      CompSpineModelUpdateBatches_result Apply order world render hw hsum hcap
    exact ⟨r, batches, hrun, hcounts, hranges⟩

theorem RenderBatch_vertex_ranges_contiguous_witness :
    batchWorld.batchable = true ∧
      IndexCountSum batchWorld 2 0 = 4 ∧
      CreateVertex exampleApply rightToLeft (batchComponent (some 0) 5) oneIndexMesh 0 =
        some { x := 3, y := 2, z := 1, u := 0, v := 1 } ∧
      CreateVertex exampleApply leftToRight (batchComponent (some 0) 5) oneIndexMesh 0 =
        some { x := 1, y := 2, z := 3, u := 0, v := 1 } ∧
      (CompSpineModelUpdateBatches exampleApply rightToLeft batchWorld (CompSpineModelNewRender 5)).map
          (fun r => (r.1.m_RenderObjects.m_Data.map
            fun ro => (ro.m_VertexStart, ro.m_VertexCount), r.1.m_VertexBufferData.Size)) =
        some ([(0, 4), (4, 0)], 4) ∧
      (∀ start_index, start_index < batchWorld.m_Components.length →
        SortedEnabled batchWorld start_index = true →
        (CompSpineModelNewRender 5).m_RenderObjects.Size <
          (CompSpineModelNewRender 5).m_RenderObjects.m_Capacity →
        ∃ r e ro, RenderBatch exampleApply rightToLeft batchWorld (CompSpineModelNewRender 5) start_index
            = some (r, e) ∧
          r.m_RenderObjects.m_Data = (CompSpineModelNewRender 5).m_RenderObjects.m_Data ++ [ro] ∧
          ro.m_VertexStart = (CompSpineModelNewRender 5).m_VertexBufferData.Size ∧
          ro.m_VertexCount = IndexCountSum batchWorld (e - start_index) start_index ∧
          r.m_VertexBufferData.m_Data =
            (CompSpineModelNewRender 5).m_VertexBufferData.m_Data ++
              BatchVertices exampleApply rightToLeft batchWorld (e - start_index) start_index ∧
          r.m_VertexBufferData.Size = ro.m_VertexStart + ro.m_VertexCount) ∧
      (∀ j, j < batchWorld.m_Components.length →
        (MemberVertices exampleApply rightToLeft batchWorld j).length = IndexCount batchWorld j) ∧
      ∃ r batches, CompSpineModelUpdateBatches exampleApply rightToLeft batchWorld
          (CompSpineModelNewRender 5) = some (r, batches) ∧
        BatchCounts batchWorld r.m_RenderObjects.m_Data batches ∧
        VertexRanges 0 r.m_RenderObjects.m_Data r.m_VertexBufferData.Size :=
  ⟨by decide, by decide,
    by
      have h20 : ¬ ((2 : Fin 3) = 0) := by decide
      have h21 : ¬ ((2 : Fin 3) = 1) := by decide
      have h10 : ¬ ((1 : Fin 3) = 0) := by decide
      norm_num [CreateVertex, BlendBones, exampleApply, batchComponent, oneIndexMesh,
        freshComponent, Matrix4.mulPoint3, exampleToMatrix4, Transform.identity, rightToLeft, h20, h21,
        h10],
    by
      have h20 : ¬ ((2 : Fin 3) = 0) := by decide
      have h21 : ¬ ((2 : Fin 3) = 1) := by decide
      have h10 : ¬ ((1 : Fin 3) = 0) := by decide
      norm_num [CreateVertex, BlendBones, exampleApply, batchComponent, oneIndexMesh,
        freshComponent, Matrix4.mulPoint3, exampleToMatrix4, Transform.identity, leftToRight, h20, h21,
        h10],
    by decide,
    RenderBatch_vertex_ranges_contiguous exampleApply rightToLeft batchWorld (CompSpineModelNewRender 5)
      (by decide) (by decide) (by decide) (by decide)⟩

/-! ## Single-precision rounding -/

theorem roundHalfEven_error (z : ℚ) : |((roundHalfEven z : ℤ) : ℚ) - z| ≤ 1 / 2 := by
  have h1 : ((⌊z⌋ : ℤ) : ℚ) ≤ z := Int.floor_le z
  have h2 : z < ((⌊z⌋ : ℤ) : ℚ) + 1 := Int.lt_floor_add_one z
  unfold roundHalfEven
  simp only
  split_ifs with ha hb hc
  · rw [abs_le]; constructor <;> linarith
  · rw [abs_le]; push_cast; constructor <;> linarith
  · rw [abs_le]; constructor <;> linarith
  · rw [abs_le]; push_cast; constructor <;> linarith

theorem roundHalfEven_nonneg {z : ℚ} (hz : 0 ≤ z) : 0 ≤ roundHalfEven z := by
  have hf : 0 ≤ ⌊z⌋ := Int.floor_nonneg.mpr hz
  unfold roundHalfEven
  simp only
  split_ifs <;> omega

theorem roundHalfEven_intCast (m : ℤ) : roundHalfEven (m : ℚ) = m := by
  unfold roundHalfEven
  simp

theorem RoundFloat_zero : RoundFloat 0 = 0 := by
  unfold RoundFloat
  simp [roundHalfEven]

theorem RoundFloat_nonneg {x : ℚ} (hx : 0 ≤ x) : 0 ≤ RoundFloat x := by
  unfold RoundFloat
  simp only
  apply mul_nonneg
  · exact_mod_cast roundHalfEven_nonneg (div_nonneg hx (by positivity))
  · positivity

/-- The rounding error of `RoundFloat` on a value that is not negative: at most half a unit
in the last place, which is at most `x / 2 ^ 24` in the normal range and `2 ^ (-150)` below
it. -/
theorem RoundFloat_le {x : ℚ} (hx : 0 ≤ x) :
    RoundFloat x ≤ x + max (x / 2 ^ 24) (1 / 2 ^ 150) := by
  rcases eq_or_lt_of_le hx with h0 | hpos
  · rw [← h0, RoundFloat_zero]
    have : (0 : ℚ) ≤ max (0 / 2 ^ 24) (1 / 2 ^ 150) := le_max_of_le_right (by positivity)
    linarith
  · have habs : |x| = x := abs_of_pos hpos
    have hq : (0 : ℚ) < (2 : ℚ) ^ (max (Int.log 2 |x|) (-126) - 23) := by positivity
    have herr := roundHalfEven_error (x / (2 : ℚ) ^ (max (Int.log 2 |x|) (-126) - 23))
    have hup : RoundFloat x ≤ x + (2 : ℚ) ^ (max (Int.log 2 |x|) (-126) - 23) / 2 := by
      unfold RoundFloat
      simp only
      have h1 := (abs_le.mp herr).2
      have h2 : ((roundHalfEven (x / (2 : ℚ) ^ (max (Int.log 2 |x|) (-126) - 23)) : ℤ) : ℚ)
          ≤ x / (2 : ℚ) ^ (max (Int.log 2 |x|) (-126) - 23) + 1 / 2 := by linarith
      calc ((roundHalfEven (x / (2 : ℚ) ^ (max (Int.log 2 |x|) (-126) - 23)) : ℤ) : ℚ)
            * (2 : ℚ) ^ (max (Int.log 2 |x|) (-126) - 23)
          ≤ (x / (2 : ℚ) ^ (max (Int.log 2 |x|) (-126) - 23) + 1 / 2)
            * (2 : ℚ) ^ (max (Int.log 2 |x|) (-126) - 23) :=
            mul_le_mul_of_nonneg_right h2 hq.le
        _ = x + (2 : ℚ) ^ (max (Int.log 2 |x|) (-126) - 23) / 2 := by
            field_simp
            ring
    refine hup.trans ?_
    have hgoal : (2 : ℚ) ^ (max (Int.log 2 |x|) (-126) - 23) / 2
        ≤ max (x / 2 ^ 24) (1 / 2 ^ 150) := by
      rcases le_total (Int.log 2 |x|) (-126) with hl | hl
      · rw [max_eq_right hl]
        refine le_max_of_le_right ?_
        norm_num
      · rw [max_eq_left hl]
        refine le_max_of_le_left ?_
        have hlog : (2 : ℚ) ^ Int.log 2 |x| ≤ x := by
          have := Int.zpow_log_le_self (b := 2) (r := |x|) (by norm_num) (by rw [habs]; exact hpos)
          rw [habs] at this ⊢
          exact_mod_cast this
        have hsplit : (2 : ℚ) ^ (Int.log 2 |x| - 23) = (2 : ℚ) ^ Int.log 2 |x| / 2 ^ 23 := by
          rw [zpow_sub₀ (by norm_num : (2 : ℚ) ≠ 0)]
          norm_num
        rw [hsplit]
        have : (2 : ℚ) ^ Int.log 2 |x| / 2 ^ 23 / 2 = (2 : ℚ) ^ Int.log 2 |x| / 2 ^ 24 := by
          ring
        rw [this]
        exact div_le_div_of_nonneg_right hlog (by positivity)
    linarith

/-- One subtraction of the wrap loop in single precision makes progress while the cursor is
below `2 ^ 24` durations: it lowers the cursor by at least `duration / 2 ^ 24`. -/
theorem RoundFloat_sub_le {c d : ℚ} (hd : 1 / 2 ^ 149 ≤ d) (hc : d ≤ c) (hlt : c < 2 ^ 24 * d) :
    RoundFloat (c - d) ≤ c - d / 2 ^ 24 := by
  have hy : 0 ≤ c - d := by linarith
  have h := RoundFloat_le hy
  have hdpos : 0 < d := lt_of_lt_of_le (by positivity) hd
  rcases max_cases ((c - d) / 2 ^ 24) (1 / 2 ^ 150) with ⟨hm, -⟩ | ⟨hm, -⟩
  · rw [hm] at h
    have : (c - d) / 2 ^ 24 < d - d / 2 ^ 24 := by
      rw [div_lt_iff₀ (by positivity)]
      have : (d - d / 2 ^ 24) * 2 ^ 24 = 2 ^ 24 * d - d := by
        field_simp
        ring
      rw [this]
      linarith
    linarith
  · rw [hm] at h
    have : (1 : ℚ) / 2 ^ 150 ≤ d - d / 2 ^ 24 := by
      have h1 : d - d / 2 ^ 24 = d * (1 - 1 / 2 ^ 24) := by ring
      rw [h1]
      have h2 : (1 : ℚ) / 2 ^ 150 = 1 / 2 ^ 149 * (1 / 2) := by norm_num
      rw [h2]
      apply mul_le_mul hd (by norm_num) (by norm_num) hdpos.le
    linarith

theorem Int_log_two_eq {x : ℚ} {e : ℤ} (h1 : (2 : ℚ) ^ e ≤ x) (h2 : x < (2 : ℚ) ^ (e + 1)) :
    Int.log 2 x = e := by
  have hpos : 0 < x := lt_of_lt_of_le (by positivity) h1
  have ha : e ≤ Int.log 2 x :=
    (Int.zpow_le_iff_le_log (b := 2) (by norm_num) hpos).mp (by exact_mod_cast h1)
  have hb : Int.log 2 x < e + 1 :=
    (Int.lt_zpow_iff_log_lt (b := 2) (by norm_num) hpos).mp (by exact_mod_cast h2)
  omega

/-- Evaluation of `RoundFloat` on a positive value of the normal range with binary exponent
`e`. -/
theorem RoundFloat_of_exponent {x : ℚ} {e : ℤ} (he : -126 ≤ e) (h1 : (2 : ℚ) ^ e ≤ x)
    (h2 : x < (2 : ℚ) ^ (e + 1)) :
    RoundFloat x = (roundHalfEven (x / (2 : ℚ) ^ (e - 23)) : ℚ) * (2 : ℚ) ^ (e - 23) := by
  have hpos : 0 < x := lt_of_lt_of_le (by positivity) h1
  unfold RoundFloat
  simp only [abs_of_pos hpos, Int_log_two_eq h1 h2, max_eq_left he]

/-- A positive value with a significand of 24 bits is not changed by `RoundFloat`. -/
theorem RoundFloat_of_representable {x : ℚ} {e m : ℤ} (he : -126 ≤ e)
    (h1 : (2 : ℚ) ^ e ≤ x) (h2 : x < (2 : ℚ) ^ (e + 1))
    (hm : x = (m : ℚ) * (2 : ℚ) ^ (e - 23)) : RoundFloat x = x := by
  rw [RoundFloat_of_exponent he h1 h2]
  have hq : (2 : ℚ) ^ (e - 23) ≠ 0 := by positivity
  have : x / (2 : ℚ) ^ (e - 23) = (m : ℚ) := by
    rw [hm]; field_simp
  rw [this, roundHalfEven_intCast, ← hm]

/-! ## The wrap loop in single precision -/

theorem WrapLoopFloat_of_lt (pingpong : Bool) (duration : ℚ) (fuel : Nat) (player : SpinePlayer)
    (h : player.m_Cursor < duration) :
    WrapLoopFloat pingpong duration fuel player = some (player, 0) := by
  cases fuel <;> simp [WrapLoopFloat, not_le.mpr h]

/-- A subtraction that rounds back to the cursor leaves the loop condition true for ever. -/
theorem WrapLoopFloat_stuck (pingpong : Bool) (duration cursor : ℚ) (hge : duration ≤ cursor)
    (hstuck : RoundFloat (cursor - duration) = cursor) :
    ∀ (fuel : Nat) (player : SpinePlayer), player.m_Cursor = cursor →
      WrapLoopFloat pingpong duration fuel player = none := by
  intro fuel
  induction fuel with
  | zero =>
    intro player hc
    unfold WrapLoopFloat
    rw [if_pos (by rw [hc]; exact hge)]
  | succ n ih =>
    intro player hc
    unfold WrapLoopFloat
    rw [if_pos (by rw [hc]; exact hge)]
    simp only
    rw [ih _ (by cases pingpong <;> simp [hc, hstuck])]
    rfl

theorem WrapLoopFloat_diverges (pingpong : Bool) {duration : ℚ} (hd : duration ≤ 0) :
    ∀ (fuel : Nat) (player : SpinePlayer), duration ≤ player.m_Cursor →
      WrapLoopFloat pingpong duration fuel player = none := by
  intro fuel
  induction fuel with
  | zero =>
    intro player hge
    unfold WrapLoopFloat
    rw [if_pos hge]
  | succ n ih =>
    intro player hge
    unfold WrapLoopFloat
    rw [if_pos hge]
    simp only
    have hnn : 0 ≤ RoundFloat (player.m_Cursor - duration) :=
      RoundFloat_nonneg (by linarith)
    rw [ih _ (by cases pingpong <;> simp <;> linarith)]
    rfl

/-- The wrap loop in single precision ends when the cursor is below `2 ^ 24` durations:
every subtraction lowers the cursor by at least `duration / 2 ^ 24`. -/
theorem WrapLoopFloat_terminates (pingpong : Bool) {duration : ℚ}
    (hd : 1 / 2 ^ 149 ≤ duration) :
    ∀ (fuel : Nat) (player : SpinePlayer), player.m_Cursor < 2 ^ 24 * duration →
      player.m_Cursor < duration + (fuel : ℚ) * (duration / 2 ^ 24) →
      ∃ p2 k, WrapLoopFloat pingpong duration fuel player = some (p2, k) ∧ k ≤ fuel ∧
        p2.m_Cursor < duration := by
  have hdpos : 0 < duration := lt_of_lt_of_le (by positivity) hd
  intro fuel
  induction fuel with
  | zero =>
    intro player _ hlt
    have h : player.m_Cursor < duration := by simpa using hlt
    exact ⟨player, 0, WrapLoopFloat_of_lt _ _ _ _ h, le_refl _, h⟩
  | succ n ih =>
    intro player hrange hlt
    by_cases hge : player.m_Cursor ≥ duration
    · have hstep := RoundFloat_sub_le hd hge hrange
      have hq : 0 < duration / 2 ^ 24 := by positivity
      have h1 : RoundFloat (player.m_Cursor - duration) < 2 ^ 24 * duration := by linarith
      have h2 : RoundFloat (player.m_Cursor - duration)
          < duration + (n : ℚ) * (duration / 2 ^ 24) := by
        push_cast at hlt
        linarith
      unfold WrapLoopFloat
      rw [if_pos hge]
      simp only
      obtain ⟨p2, k, hrun, hk, hp2⟩ := ih
        (if pingpong then
          { m_Animation := player.m_Animation, m_AnimationId := player.m_AnimationId
            m_Cursor := RoundFloat (player.m_Cursor - duration)
            m_Playback := player.m_Playback, m_Playing := player.m_Playing
            m_Backwards := !player.m_Backwards }
        else { player with m_Cursor := RoundFloat (player.m_Cursor - duration) })
        (by cases pingpong <;> simpa using h1) (by cases pingpong <;> simpa using h2)
      refine ⟨p2, k + 1, ?_, by omega, hp2⟩
      cases pingpong
      · simp only [Bool.false_eq_true, if_false] at hrun ⊢
        rw [hrun]; rfl
      · simp only [if_true] at hrun ⊢
        rw [hrun]; rfl
    · have h : player.m_Cursor < duration := not_le.mp hge
      exact ⟨player, 0, WrapLoopFloat_of_lt _ _ _ _ h, Nat.zero_le _, h⟩

/-- While every subtraction is exact, the wrap loop in single precision is the loop in
exact arithmetic. -/
theorem WrapLoopFloat_eq_WrapLoop (pingpong : Bool) (duration : ℚ) :
    ∀ (fuel : Nat) (player : SpinePlayer),
      (∀ j : ℕ, ((j : ℚ) + 1) * duration ≤ player.m_Cursor →
        RoundFloat (player.m_Cursor - ((j : ℚ) + 1) * duration)
          = player.m_Cursor - ((j : ℚ) + 1) * duration) →
      WrapLoopFloat pingpong duration fuel player = WrapLoop pingpong duration fuel player := by
  intro fuel
  induction fuel with
  | zero => intro player _; rfl
  | succ n ih =>
    intro player hex
    unfold WrapLoopFloat WrapLoop
    by_cases hge : player.m_Cursor ≥ duration
    · rw [if_pos hge, if_pos hge]
      have h0 : RoundFloat (player.m_Cursor - duration) = player.m_Cursor - duration := by
        have := hex 0 (by simpa using hge)
        simpa using this
      simp only [h0]
      rw [ih]
      intro j hj
      have hj' : ((j : ℚ) + 1) * duration ≤ player.m_Cursor - duration := by
        cases pingpong <;> simpa using hj
      have := hex (j + 1) (by push_cast; linarith)
      have hcur : (if pingpong then
          ({ m_Animation := player.m_Animation, m_AnimationId := player.m_AnimationId
             m_Cursor := player.m_Cursor - duration
             m_Playback := player.m_Playback, m_Playing := player.m_Playing
             m_Backwards := !player.m_Backwards } : SpinePlayer)
          else { player with m_Cursor := player.m_Cursor - duration }).m_Cursor
          = player.m_Cursor - duration := by cases pingpong <;> rfl
      rw [hcur]
      have he : player.m_Cursor - duration - ((j : ℚ) + 1) * duration
          = player.m_Cursor - (((j + 1 : ℕ) : ℚ) + 1) * duration := by
        push_cast; ring
      rw [he]
      exact this
    · rw [if_neg hge, if_neg hge]

theorem AdjustCursorFloat_loop_modes (fuel : Nat) (player : SpinePlayer) (duration : ℚ)
    (hmode : player.m_Playback = Playback.PLAYBACK_LOOP_FORWARD ∨
      player.m_Playback = Playback.PLAYBACK_LOOP_BACKWARD ∨
      player.m_Playback = Playback.PLAYBACK_LOOP_PINGPONG) :
    AdjustCursorFloat fuel player duration =
      (WrapLoopFloat (decide (player.m_Playback = Playback.PLAYBACK_LOOP_PINGPONG)) duration
        fuel player).map fun r => (r.1, false) := by
  unfold AdjustCursorFloat
  rcases hmode with h | h | h <;> rw [h] <;> rfl

theorem UpdatePlayerCursorFloat_loop_modes (fuel : Nat) (player : SpinePlayer)
    (animation : SpineAnimation) (dt : ℚ)
    (hmode : player.m_Playback = Playback.PLAYBACK_LOOP_FORWARD ∨
      player.m_Playback = Playback.PLAYBACK_LOOP_BACKWARD ∨
      player.m_Playback = Playback.PLAYBACK_LOOP_PINGPONG) :
    UpdatePlayerCursorFloat fuel player animation dt =
      (WrapLoopFloat (decide (player.m_Playback = Playback.PLAYBACK_LOOP_PINGPONG))
        animation.m_Duration fuel
        { player with m_Cursor := RoundFloat (player.m_Cursor + dt) }).map
        fun r => (r.1, false) := by
  have hne : player.m_Playback ≠ Playback.PLAYBACK_NONE := by
    rcases hmode with h | h | h <;> rw [h] <;> decide
  have hnp : player.m_Playback ≠ Playback.PLAYBACK_ONCE_PINGPONG := by
    rcases hmode with h | h | h <;> rw [h] <;> decide
  have hadv : AdvanceCursorFloat player dt
      = { player with m_Cursor := RoundFloat (player.m_Cursor + dt) } := by
    unfold AdvanceCursorFloat
    rw [if_pos hne]
  unfold UpdatePlayerCursorFloat
  simp only [hadv]
  have hdur : GetCursorDurationFloat
      { player with m_Cursor := RoundFloat (player.m_Cursor + dt) } animation
      = animation.m_Duration := by
    unfold GetCursorDurationFloat
    rw [if_neg hnp]
  rw [hdur]
  exact AdjustCursorFloat_loop_modes fuel
    { player with m_Cursor := RoundFloat (player.m_Cursor + dt) } animation.m_Duration hmode

/-! ## `UpdatePlayer` in single precision -/

theorem UpdatePlayerFloat_eq_of_adjust {fuel : Nat} {c : SpineModelComponent} {pi : Fin 2}
    {dt : ℚ} {animation : SpineAnimation} {player2 : SpinePlayer} {completed : Bool}
    (hanim : (c.player pi).m_Animation = some animation)
    (hplaying : (c.player pi).m_Playing = true)
    (hadj : UpdatePlayerCursorFloat fuel (c.player pi) animation dt = some (player2, completed)) :
    UpdatePlayerFloat fuel c pi dt =
      some (if completed = true then
        CompletePlayer c pi player2
          (UpdatePlayerEventsFloat c player2 animation dt (c.player pi).m_Cursor
            (GetCursorDurationFloat (AdvanceCursorFloat (c.player pi) dt) animation) completed)
      else
        { component := c.setPlayer pi player2
          posted := UpdatePlayerEventsFloat c player2 animation dt (c.player pi).m_Cursor
            (GetCursorDurationFloat (AdvanceCursorFloat (c.player pi) dt) animation) completed
          completed := false }) := by
  have hadj1 : AdjustCursorFloat fuel (AdvanceCursorFloat (c.player pi) dt)
      (GetCursorDurationFloat (AdvanceCursorFloat (c.player pi) dt) animation)
      = some (player2, completed) := hadj
  unfold UpdatePlayerFloat
  simp only [hanim, hplaying, Bool.not_true, Bool.false_eq_true, if_false, hadj1]
  split_ifs <;> rfl

theorem UpdatePlayerFloat_none_of_adjust {fuel : Nat} {c : SpineModelComponent} {pi : Fin 2}
    {dt : ℚ} {animation : SpineAnimation}
    (hanim : (c.player pi).m_Animation = some animation)
    (hplaying : (c.player pi).m_Playing = true)
    (hadj : UpdatePlayerCursorFloat fuel (c.player pi) animation dt = none) :
    UpdatePlayerFloat fuel c pi dt = none := by
  have hadj1 : AdjustCursorFloat fuel (AdvanceCursorFloat (c.player pi) dt)
      (GetCursorDurationFloat (AdvanceCursorFloat (c.player pi) dt) animation) = none := hadj
  unfold UpdatePlayerFloat
  simp only [hanim, hplaying, Bool.not_true, Bool.false_eq_true, if_false, hadj1]

/-- In a loop mode `UpdatePlayerFloat` returns exactly when the wrap loop does, and then the
player of the slot is the one the loop leaves. -/
theorem UpdatePlayerFloat_loop_modes {fuel : Nat} {c : SpineModelComponent} {pi : Fin 2}
    {dt : ℚ} {animation : SpineAnimation}
    (hanim : (c.player pi).m_Animation = some animation)
    (hplaying : (c.player pi).m_Playing = true)
    (hmode : (c.player pi).m_Playback = Playback.PLAYBACK_LOOP_FORWARD ∨
      (c.player pi).m_Playback = Playback.PLAYBACK_LOOP_BACKWARD ∨
      (c.player pi).m_Playback = Playback.PLAYBACK_LOOP_PINGPONG) :
    (WrapLoopFloat (decide ((c.player pi).m_Playback = Playback.PLAYBACK_LOOP_PINGPONG))
        animation.m_Duration fuel
        { c.player pi with m_Cursor := RoundFloat ((c.player pi).m_Cursor + dt) } = none →
      UpdatePlayerFloat fuel c pi dt = none) ∧
      ∀ p2 k,
        WrapLoopFloat (decide ((c.player pi).m_Playback = Playback.PLAYBACK_LOOP_PINGPONG))
          animation.m_Duration fuel
          { c.player pi with m_Cursor := RoundFloat ((c.player pi).m_Cursor + dt) }
          = some (p2, k) →
        ∃ u, UpdatePlayerFloat fuel c pi dt = some u ∧ u.completed = false ∧
          u.component.player pi = p2 := by
  have hrun := UpdatePlayerCursorFloat_loop_modes fuel (c.player pi) animation dt hmode
  refine ⟨?_, ?_⟩
  · intro hw
    rw [hw] at hrun
    exact UpdatePlayerFloat_none_of_adjust hanim hplaying hrun
  · intro p2 k hw
    rw [hw] at hrun
    have h := UpdatePlayerFloat_eq_of_adjust hanim hplaying
      (show UpdatePlayerCursorFloat fuel (c.player pi) animation dt = some (p2, false) from hrun)
    simp only [Bool.false_eq_true, if_false] at h
    exact ⟨_, h, rfl, player_setPlayer_same _ _ _⟩

/-- C30 (as stated, refuted): for the loop-forward player of `loopComponent` at cursor 0 over
`walkClip`, whose duration is 1, and `dt = 2 ^ 25`, the cursor after the advance is
`2 ^ 25`, and in the single-precision arithmetic of the code the subtraction
`m_Cursor -= duration` gives `2 ^ 25` again (`2 ^ 25 - 1` is a tie between two floats and
goes to the even one), so the wrap loop and `UpdatePlayer` do not return, whatever the fuel;
the claim has the loop end after `floor ((cursor + dt) / duration) = 2 ^ 25` subtractions. -/
theorem UpdatePlayerFloat_spins :
    (loopComponent.player 0).m_Playback = Playback.PLAYBACK_LOOP_FORWARD ∧
      (loopComponent.player 0).m_Animation = some walkClip ∧
      (loopComponent.player 0).m_Playing = true ∧ 0 < walkClip.m_Duration ∧
      RoundFloat ((loopComponent.player 0).m_Cursor + 33554432) = 33554432 ∧
      RoundFloat (33554432 - walkClip.m_Duration) = 33554432 ∧
      (∀ fuel, WrapLoopFloat false walkClip.m_Duration fuel
        { loopComponent.player 0 with m_Cursor := 33554432 } = none) ∧
      (∀ fuel, UpdatePlayerFloat fuel loopComponent 0 33554432 = none) ∧
      ⌊((loopComponent.player 0).m_Cursor + 33554432) / walkClip.m_Duration⌋ = 33554432 := by
  have hadd : RoundFloat ((loopComponent.player 0).m_Cursor + 33554432) = 33554432 := by
    rw [show (loopComponent.player 0).m_Cursor + 33554432 = (33554432 : ℚ) from by
      rw [show (loopComponent.player 0).m_Cursor = 0 from rfl]; norm_num]
    exact RoundFloat_of_representable (e := 25) (m := 8388608) (by norm_num) (by norm_num)
      (by norm_num) (by norm_num)
  have hsub : RoundFloat (33554432 - walkClip.m_Duration) = 33554432 := by
    rw [show walkClip.m_Duration = 1 from rfl,
      RoundFloat_of_exponent (e := 24) (by norm_num) (by norm_num) (by norm_num)]
    have hf : ⌊((33554432 : ℚ) - 1) / (2 : ℚ) ^ ((24 : ℤ) - 23)⌋ = 16777215 := by
      rw [Int.floor_eq_iff]
      constructor <;> norm_num
    unfold roundHalfEven
    simp only [hf]
    norm_num
  have hspin : ∀ fuel, WrapLoopFloat false walkClip.m_Duration fuel
      { loopComponent.player 0 with m_Cursor := 33554432 } = none := fun fuel =>
    WrapLoopFloat_stuck _ walkClip.m_Duration 33554432
      (by rw [show walkClip.m_Duration = 1 from rfl]; norm_num) hsub fuel _ rfl
  refine ⟨rfl, rfl, rfl, by norm_num [walkClip], hadd, hsub, hspin, ?_, ?_⟩
  · intro fuel
    have h := (@UpdatePlayerFloat_loop_modes fuel loopComponent 0 33554432 walkClip rfl rfl
      (Or.inl rfl)).1
    apply h
    rw [hadd]
    exact hspin fuel
  · rw [show (loopComponent.player 0).m_Cursor = 0 from rfl,
      show walkClip.m_Duration = 1 from rfl, Int.floor_eq_iff]
    constructor <;> norm_num

/-- C30 (amended): for a playing loop-mode player (loop-forward, loop-backward,
loop-pingpong), in the single-precision arithmetic of the code, the wrap loop of
`UpdatePlayer` runs from the stored cursor `c0 = float (cursor + dt)`, and `UpdatePlayer`
returns exactly when the loop ends. For a duration `D` that is at least the smallest
positive float and `c0 < 2 ^ 24 * D` the loop ends within `2 ^ 48` iterations with the
cursor below `D`: every subtraction lowers the cursor by at least `D / 2 ^ 24`. For `D > 0`
and `c0 >= 0`, if every subtraction of the run is exact, the loop ends after exactly
`floor (c0 / D)` subtractions, with the cursor at `c0 - k * D`, and not with less fuel; for
`c0 < D` it ends without a subtraction. If a subtraction rounds back to the cursor
(`float (c0 - D) = c0` with `c0 >= D`) the loop does not end, whatever the fuel, and
neither does it for `D <= 0` and `c0 >= D`, so `D > 0` cannot be dropped. -/
theorem UpdatePlayerFloat_wrap_loop (c : SpineModelComponent) (pi : Fin 2) (dt : ℚ)
    (animation : SpineAnimation)
    (hanim : (c.player pi).m_Animation = some animation)
    (hplaying : (c.player pi).m_Playing = true)
    (hmode : (c.player pi).m_Playback = Playback.PLAYBACK_LOOP_FORWARD ∨
      (c.player pi).m_Playback = Playback.PLAYBACK_LOOP_BACKWARD ∨
      (c.player pi).m_Playback = Playback.PLAYBACK_LOOP_PINGPONG) :
    (1 / 2 ^ 149 ≤ animation.m_Duration →
        RoundFloat ((c.player pi).m_Cursor + dt) < 2 ^ 24 * animation.m_Duration →
        ∀ fuel, 2 ^ 48 ≤ fuel →
          ∃ p2 k u,
            WrapLoopFloat (decide ((c.player pi).m_Playback = Playback.PLAYBACK_LOOP_PINGPONG))
              animation.m_Duration fuel
              { c.player pi with m_Cursor := RoundFloat ((c.player pi).m_Cursor + dt) }
              = some (p2, k) ∧
            p2.m_Cursor < animation.m_Duration ∧
            UpdatePlayerFloat fuel c pi dt = some u ∧ u.component.player pi = p2) ∧
      (0 < animation.m_Duration → 0 ≤ RoundFloat ((c.player pi).m_Cursor + dt) →
        (∀ j : ℕ,
          ((j : ℚ) + 1) * animation.m_Duration ≤ RoundFloat ((c.player pi).m_Cursor + dt) →
          RoundFloat (RoundFloat ((c.player pi).m_Cursor + dt)
              - ((j : ℚ) + 1) * animation.m_Duration)
            = RoundFloat ((c.player pi).m_Cursor + dt)
              - ((j : ℚ) + 1) * animation.m_Duration) →
        ∃ k : ℕ,
          (k : ℤ) = ⌊RoundFloat ((c.player pi).m_Cursor + dt) / animation.m_Duration⌋ ∧
          (∀ fuel, k ≤ fuel → ∃ p2 u,
            WrapLoopFloat (decide ((c.player pi).m_Playback = Playback.PLAYBACK_LOOP_PINGPONG))
                animation.m_Duration fuel
                { c.player pi with m_Cursor := RoundFloat ((c.player pi).m_Cursor + dt) }
                = some (p2, k) ∧
              p2.m_Cursor
                = RoundFloat ((c.player pi).m_Cursor + dt) - (k : ℚ) * animation.m_Duration ∧
              p2.m_Cursor < animation.m_Duration ∧
              UpdatePlayerFloat fuel c pi dt = some u ∧ u.component.player pi = p2) ∧
          ∀ fuel, fuel < k →
            WrapLoopFloat (decide ((c.player pi).m_Playback = Playback.PLAYBACK_LOOP_PINGPONG))
                animation.m_Duration fuel
                { c.player pi with m_Cursor := RoundFloat ((c.player pi).m_Cursor + dt) }
                = none ∧
              UpdatePlayerFloat fuel c pi dt = none) ∧
      (RoundFloat ((c.player pi).m_Cursor + dt) < animation.m_Duration →
        ∀ fuel, ∃ u, UpdatePlayerFloat fuel c pi dt = some u ∧
          u.component.player pi
            = { c.player pi with m_Cursor := RoundFloat ((c.player pi).m_Cursor + dt) }) ∧
      (animation.m_Duration ≤ RoundFloat ((c.player pi).m_Cursor + dt) →
        RoundFloat (RoundFloat ((c.player pi).m_Cursor + dt) - animation.m_Duration)
          = RoundFloat ((c.player pi).m_Cursor + dt) →
        ∀ fuel,
          WrapLoopFloat (decide ((c.player pi).m_Playback = Playback.PLAYBACK_LOOP_PINGPONG))
              animation.m_Duration fuel
              { c.player pi with m_Cursor := RoundFloat ((c.player pi).m_Cursor + dt) }
              = none ∧
            UpdatePlayerFloat fuel c pi dt = none) ∧
      (animation.m_Duration ≤ 0 →
        animation.m_Duration ≤ RoundFloat ((c.player pi).m_Cursor + dt) →
        ∀ fuel,
          WrapLoopFloat (decide ((c.player pi).m_Playback = Playback.PLAYBACK_LOOP_PINGPONG))
              animation.m_Duration fuel
              { c.player pi with m_Cursor := RoundFloat ((c.player pi).m_Cursor + dt) }
              = none ∧
            UpdatePlayerFloat fuel c pi dt = none) := by
  have hlm := fun fuel => @UpdatePlayerFloat_loop_modes fuel c pi dt animation hanim hplaying
    hmode
  generalize hpp : decide ((c.player pi).m_Playback = Playback.PLAYBACK_LOOP_PINGPONG)
    = pingpong at hlm ⊢
  generalize hc0 : RoundFloat ((c.player pi).m_Cursor + dt) = c0 at hlm ⊢
  refine ⟨?_, ?_, ?_, ?_, ?_⟩
  · intro hd hrange fuel hfuel
    have hdpos : 0 < animation.m_Duration := lt_of_lt_of_le (by positivity) hd
    have hfq : (2 : ℚ) ^ 48 ≤ (fuel : ℚ) := by exact_mod_cast hfuel
    have hq : 0 < animation.m_Duration / 2 ^ 24 := by positivity
    have hbound : c0 < animation.m_Duration + (fuel : ℚ) * (animation.m_Duration / 2 ^ 24) := by
      have h1 : (2 : ℚ) ^ 24 * animation.m_Duration
          = 2 ^ 48 * (animation.m_Duration / 2 ^ 24) := by
        field_simp
        ring
      have h2 : (2 : ℚ) ^ 48 * (animation.m_Duration / 2 ^ 24)
          ≤ (fuel : ℚ) * (animation.m_Duration / 2 ^ 24) :=
        mul_le_mul_of_nonneg_right hfq hq.le
      linarith
    obtain ⟨p2, k, hw, -, hlt⟩ := WrapLoopFloat_terminates pingpong hd fuel
      { c.player pi with m_Cursor := c0 } hrange hbound
    obtain ⟨u, hu, -, hp⟩ := (hlm fuel).2 p2 k hw
    exact ⟨p2, k, u, hw, hlt, hu, hp⟩
  · intro hd h0 hex
    obtain ⟨h1, h2, h3⟩ := wrap_count_bounds hd h0
    refine ⟨⌊c0 / animation.m_Duration⌋.toNat, h3, ?_, ?_⟩
    · intro fuel hfuel
      have hw := WrapLoop_exact pingpong hd _ { c.player pi with m_Cursor := c0 }
        (Or.inr h1) h2 fuel hfuel
      have heq := WrapLoopFloat_eq_WrapLoop pingpong animation.m_Duration fuel
        { c.player pi with m_Cursor := c0 } hex
      obtain ⟨he, hlt⟩ := WrapLoop_result _ _ _ _ _ _ hw
      obtain ⟨u, hu, -, hp⟩ := (hlm fuel).2 _ _ (heq.trans hw)
      exact ⟨_, u, heq.trans hw, rfl, hlt, hu, hp⟩
    · intro fuel hfuel
      have hw := WrapLoop_fuel_too_small pingpong hd fuel _ { c.player pi with m_Cursor := c0 }
        hfuel h1
      have heq := WrapLoopFloat_eq_WrapLoop pingpong animation.m_Duration fuel
        { c.player pi with m_Cursor := c0 } hex
      exact ⟨heq.trans hw, (hlm fuel).1 (heq.trans hw)⟩
  · intro hlt fuel
    obtain ⟨u, hu, -, hp⟩ := (hlm fuel).2 _ _
      (WrapLoopFloat_of_lt pingpong _ fuel { c.player pi with m_Cursor := c0 } hlt)
    exact ⟨u, hu, hp⟩
  · intro hge hstuck fuel
    have hw := WrapLoopFloat_stuck pingpong animation.m_Duration c0 hge hstuck fuel
      { c.player pi with m_Cursor := c0 } rfl
    exact ⟨hw, (hlm fuel).1 hw⟩
  · intro hd hge fuel
    have hw := WrapLoopFloat_diverges pingpong hd fuel { c.player pi with m_Cursor := c0 } hge
    exact ⟨hw, (hlm fuel).1 hw⟩

theorem UpdatePlayerFloat_wrap_loop_witness :
    RoundFloat ((loopComponent.player 0).m_Cursor + 5 / 2) = 5 / 2 ∧
      (∃ p2 k u,
        WrapLoopFloat
            (decide ((loopComponent.player 0).m_Playback = Playback.PLAYBACK_LOOP_PINGPONG))
            walkClip.m_Duration (2 ^ 48)
            { loopComponent.player 0 with
              m_Cursor := RoundFloat ((loopComponent.player 0).m_Cursor + 5 / 2) }
            = some (p2, k) ∧
          p2.m_Cursor < walkClip.m_Duration ∧
          UpdatePlayerFloat (2 ^ 48) loopComponent 0 (5 / 2) = some u ∧
          u.component.player 0 = p2) ∧
      ∃ k : ℕ,
        (k : ℤ) = ⌊RoundFloat ((loopComponent.player 0).m_Cursor + 5 / 2) / walkClip.m_Duration⌋ ∧
        (k : ℤ) = 2 ∧
        ∃ u, UpdatePlayerFloat k loopComponent 0 (5 / 2) = some u ∧
          (u.component.player 0).m_Cursor
            = RoundFloat ((loopComponent.player 0).m_Cursor + 5 / 2)
              - (k : ℚ) * walkClip.m_Duration ∧
          (u.component.player 0).m_Cursor = 1 / 2 := by
  have hadd : RoundFloat ((loopComponent.player 0).m_Cursor + 5 / 2) = 5 / 2 := by
    rw [show (loopComponent.player 0).m_Cursor + 5 / 2 = (5 / 2 : ℚ) from by
      rw [show (loopComponent.player 0).m_Cursor = 0 from rfl]; norm_num]
    exact RoundFloat_of_representable (e := 1) (m := 10485760) (by norm_num) (by norm_num)
      (by norm_num) (by norm_num)
  have hd : walkClip.m_Duration = 1 := rfl
  obtain ⟨hterm, hexact, -⟩ :=
    UpdatePlayerFloat_wrap_loop loopComponent 0 (5 / 2) walkClip rfl rfl (Or.inl rfl)
  have h32 : RoundFloat (3 / 2) = 3 / 2 :=
    RoundFloat_of_representable (e := 0) (m := 12582912) (by norm_num) (by norm_num)
      (by norm_num) (by norm_num)
  have h12 : RoundFloat (1 / 2) = 1 / 2 :=
    RoundFloat_of_representable (e := -1) (m := 8388608) (by norm_num) (by norm_num)
      (by norm_num) (by norm_num)
  refine ⟨hadd, ?_, ?_⟩
  · exact hterm (by rw [hd]; norm_num) (by rw [hadd, hd]; norm_num) (2 ^ 48) (le_refl _)
  · obtain ⟨k, hk, hret, -⟩ := hexact (by rw [hd]; norm_num) (by rw [hadd]; norm_num)
      (by
        intro j hj
        rw [hadd, hd] at hj ⊢
        have hj2 : (j : ℚ) < 2 := by linarith
        have hjn : j < 2 := by exact_mod_cast hj2
        interval_cases j
        · rw [show (5 / 2 : ℚ) - (((0 : ℕ) : ℚ) + 1) * 1 = 3 / 2 from by norm_num]
          exact h32
        · rw [show (5 / 2 : ℚ) - (((1 : ℕ) : ℚ) + 1) * 1 = 1 / 2 from by norm_num]
          exact h12)
    obtain ⟨p2, u, -, hcur, -, hu, hp⟩ := hret k (le_refl k)
    have hk2 : (k : ℤ) = 2 := by
      rw [hk, hadd, hd, Int.floor_eq_iff]
      constructor <;> norm_num
    have hkq : (k : ℚ) = 2 := by exact_mod_cast hk2
    refine ⟨k, hk, hk2, u, hu, by rw [hp]; exact hcur, ?_⟩
    rw [hp, hcur, hadd, hd, hkq]
    norm_num

/-! ## The completion frame of a once mode in single precision -/

theorem mem_PostEventsIntervalFloat {sender receiver : URL} {animation : SpineAnimation}
    {start_cursor end_cursor duration : ℚ} {backwards : Bool} {event_id : dmhash_t}
    {key : EventKey} :
    PostEvent sender receiver event_id key
        ∈ PostEventsIntervalFloat sender receiver animation start_cursor end_cursor duration
          backwards ↔
      (event_id, key) ∈ EventKeys animation ∧
        start_cursor ≤ KeyCursorFloat key duration backwards ∧
        KeyCursorFloat key duration backwards < end_cursor := by
  unfold PostEventsIntervalFloat EventKeys
  constructor
  · intro h
    obtain ⟨track, htrack, hm⟩ := List.mem_flatMap.mp h
    obtain ⟨k, hk, he⟩ := List.mem_map.mp hm
    obtain ⟨hmem, hcond⟩ := List.mem_filter.mp hk
    unfold PostEvent at he
    injection he with _ _ h3 h4
    subst h4
    exact ⟨List.mem_flatMap.mpr ⟨track, htrack, List.mem_map.mpr ⟨k, hmem, by rw [h3]⟩⟩,
      of_decide_eq_true hcond⟩
  · rintro ⟨hmem, hcond⟩
    obtain ⟨track, htrack, hm⟩ := List.mem_flatMap.mp hmem
    obtain ⟨k, hk, he⟩ := List.mem_map.mp hm
    have h3 : track.m_EventId = event_id := congrArg Prod.fst he
    have h4 : k = key := congrArg Prod.snd he
    subst h4
    exact List.mem_flatMap.mpr ⟨track, htrack,
      List.mem_map.mpr ⟨k, List.mem_filter.mpr ⟨hk, decide_eq_true hcond⟩, by rw [h3]⟩⟩

/-- A positive `float` is at least the smallest subnormal, `2 ^ (-149)`. -/
theorem RoundFloat_fixed_pos_ge {x : ℚ} (hfloat : RoundFloat x = x) (hpos : 0 < x) :
    1 / 2 ^ 149 ≤ x := by
  unfold RoundFloat at hfloat
  simp only at hfloat
  generalize hn : roundHalfEven (x / (2 : ℚ) ^ (max (Int.log 2 |x|) (-126) - 23)) = n at hfloat
  have he : (-149 : ℤ) ≤ max (Int.log 2 |x|) (-126) - 23 := by
    have := le_max_right (Int.log 2 |x|) (-126)
    omega
  generalize max (Int.log 2 |x|) (-126) - 23 = e at hfloat he
  have hq : (0 : ℚ) < (2 : ℚ) ^ e := by positivity
  have hnpos : (0 : ℚ) < (n : ℚ) := by
    by_contra hle
    have hle2 : (n : ℚ) ≤ 0 := not_lt.mp hle
    have : (n : ℚ) * (2 : ℚ) ^ e ≤ 0 := mul_nonpos_of_nonpos_of_nonneg hle2 hq.le
    linarith
  have hn1 : (1 : ℚ) ≤ (n : ℚ) := by
    have : (0 : ℤ) < n := by exact_mod_cast hnpos
    exact_mod_cast this
  have h149 : (2 : ℚ) ^ (-149 : ℤ) ≤ (2 : ℚ) ^ e := zpow_le_zpow_right₀ (by norm_num) he
  have h149v : (2 : ℚ) ^ (-149 : ℤ) = 1 / 2 ^ 149 := by
    rw [zpow_neg, zpow_ofNat, one_div]
  have hmul : (2 : ℚ) ^ e ≤ (n : ℚ) * (2 : ℚ) ^ e := le_mul_of_one_le_left hq.le hn1
  rw [← h149v]
  exact le_trans h149 (le_trans hmul (le_of_eq hfloat))

/-- Half a `float` that is not negative rounds to at most the `float` itself. -/
theorem RoundFloat_half_le {x : ℚ} (hfloat : RoundFloat x = x) (h0 : 0 ≤ x) :
    RoundFloat (x * (1 / 2)) ≤ x := by
  rcases eq_or_lt_of_le h0 with h | hpos
  · rw [← h]
    simp [RoundFloat_zero]
  · have hmin := RoundFloat_fixed_pos_ge hfloat hpos
    have hle := RoundFloat_le (show (0 : ℚ) ≤ x * (1 / 2) by positivity)
    have hmax : max (x * (1 / 2) / 2 ^ 24) (1 / 2 ^ 150) ≤ x * (1 / 2) := by
      apply max_le
      · have : x * (1 / 2) / 2 ^ 24 = x * (1 / 2) * (1 / 2 ^ 24) := by ring
        rw [this]
        have h1 : (1 : ℚ) / 2 ^ 24 ≤ 1 := by norm_num
        have h2 : (0 : ℚ) ≤ x * (1 / 2) := by positivity
        nlinarith
      · have : (1 : ℚ) / 2 ^ 150 = 1 / 2 ^ 149 * (1 / 2) := by norm_num
        rw [this]
        linarith
    linarith

theorem GetCursorDurationFloat_AdvanceCursorFloat (player : SpinePlayer)
    (animation : SpineAnimation) (dt : ℚ) :
    GetCursorDurationFloat (AdvanceCursorFloat player dt) animation
      = GetCursorDurationFloat player animation := by
  unfold AdvanceCursorFloat
  split_ifs <;> rfl

theorem UpdatePlayerCursorFloat_once_completes {fuel : Nat} {player : SpinePlayer} {dt : ℚ}
    {animation : SpineAnimation}
    (hmode : player.m_Playback = Playback.PLAYBACK_ONCE_FORWARD ∨
      player.m_Playback = Playback.PLAYBACK_ONCE_BACKWARD ∨
      player.m_Playback = Playback.PLAYBACK_ONCE_PINGPONG)
    (hreach : RoundFloat (player.m_Cursor + dt) ≥ GetCursorDurationFloat player animation) :
    UpdatePlayerCursorFloat fuel player animation dt
      = some ({ player with m_Cursor := GetCursorDurationFloat player animation }, true) := by
  have hne : player.m_Playback ≠ Playback.PLAYBACK_NONE := by
    rcases hmode with h | h | h <;> rw [h] <;> decide
  have hadv : AdvanceCursorFloat player dt
      = { player with m_Cursor := RoundFloat (player.m_Cursor + dt) } := by
    unfold AdvanceCursorFloat
    rw [if_pos hne]
  unfold UpdatePlayerCursorFloat
  simp only [GetCursorDurationFloat_AdvanceCursorFloat]
  rw [hadv]
  unfold AdjustCursorFloat
  rcases hmode with h | h | h <;> simp only [h] <;> rw [if_pos hreach]

/-- The shape of `UpdatePlayerFloat` on the frame in which a once mode completes: the cursor
is clamped to the effective duration and the completion block runs after the event block. -/
theorem UpdatePlayerFloat_once_completes {fuel : Nat} {c : SpineModelComponent} {pi : Fin 2}
    {dt : ℚ} {animation : SpineAnimation}
    (hanim : (c.player pi).m_Animation = some animation)
    (hplaying : (c.player pi).m_Playing = true)
    (hmode : (c.player pi).m_Playback = Playback.PLAYBACK_ONCE_FORWARD ∨
      (c.player pi).m_Playback = Playback.PLAYBACK_ONCE_BACKWARD ∨
      (c.player pi).m_Playback = Playback.PLAYBACK_ONCE_PINGPONG)
    (hreach : RoundFloat ((c.player pi).m_Cursor + dt)
      ≥ GetCursorDurationFloat (c.player pi) animation) :
    UpdatePlayerFloat fuel c pi dt =
      some (CompletePlayer c pi
        { c.player pi with m_Cursor := GetCursorDurationFloat (c.player pi) animation }
        (UpdatePlayerEventsFloat c
          { c.player pi with m_Cursor := GetCursorDurationFloat (c.player pi) animation }
          animation dt (c.player pi).m_Cursor (GetCursorDurationFloat (c.player pi) animation)
          true)) := by
  have h := UpdatePlayerFloat_eq_of_adjust hanim hplaying
    (@UpdatePlayerCursorFloat_once_completes fuel (c.player pi) dt animation hmode hreach)
  simp only [if_true, GetCursorDurationFloat_AdvanceCursorFloat] at h
  exact h

/-- The events posted on the completion frame of a once mode in the `float` arithmetic of the
source, where `PostEventsFloat` is entered with the cursor clamped to `duration` and
`completed` set: the end of the (last) interval is `float (duration + dt)`. -/
theorem PostEventsFloat_completed_eq (player : SpinePlayer) (sender listener : URL)
    (animation : SpineAnimation) (dt prev_cursor duration : ℚ)
    (hcur : player.m_Cursor = duration) (hprev : prev_cursor ≤ duration)
    (hadv : duration ≤ RoundFloat (duration + dt))
    (hhalf : RoundFloat (duration * (1 / 2)) < RoundFloat (duration + dt)) :
    PostEventsFloat player sender listener animation dt prev_cursor duration true =
      (if player.m_Playback = Playback.PLAYBACK_ONCE_PINGPONG then
        if prev_cursor < RoundFloat (duration * (1 / 2)) then
          PostEventsIntervalFloat sender (EventReceiver sender listener) animation prev_cursor
              (RoundFloat (duration * (1 / 2))) duration false ++
            PostEventsIntervalFloat sender (EventReceiver sender listener) animation
              (RoundFloat (duration * (1 / 2))) (RoundFloat (duration + dt)) duration true
        else
          PostEventsIntervalFloat sender (EventReceiver sender listener) animation prev_cursor
            (RoundFloat (duration + dt)) duration true
      else
        PostEventsIntervalFloat sender (EventReceiver sender listener) animation prev_cursor
          (RoundFloat (duration + dt)) duration player.m_Backwards) := by
  unfold PostEventsFloat EventReceiver
  simp only [if_true, hcur]
  have h1 : ¬ prev_cursor > RoundFloat (duration + dt) := by
    have : prev_cursor ≤ RoundFloat (duration + dt) := le_trans hprev hadv
    exact not_lt.mpr this
  rw [if_neg h1]
  by_cases hm : player.m_Playback = Playback.PLAYBACK_ONCE_PINGPONG
  · have h2 : player.m_Playback = Playback.PLAYBACK_ONCE_PINGPONG ∧
        RoundFloat (duration + dt) > RoundFloat (duration * (1 / 2)) := ⟨hm, hhalf⟩
    rw [if_pos h2, if_pos hm]
  · have h2 : ¬ (player.m_Playback = Playback.PLAYBACK_ONCE_PINGPONG ∧
        RoundFloat (duration + dt) > RoundFloat (duration * (1 / 2))) := fun h => hm h.1
    rw [if_neg h2, if_neg hm]

/-- The reflected time of an end key of a once mode is the effective duration, also in the
`float` arithmetic of the source, when the duration is a `float`. -/
theorem KeyCursorFloat_end_key (player : SpinePlayer) (duration : ℚ) (key : EventKey)
    (hfloat : RoundFloat duration = duration)
    (hend : (player.m_Playback = Playback.PLAYBACK_ONCE_FORWARD ∧ player.m_Backwards = false ∧
        key.m_T = duration) ∨
      (player.m_Playback = Playback.PLAYBACK_ONCE_BACKWARD ∧ player.m_Backwards = true ∧
        key.m_T = 0) ∨
      (player.m_Playback = Playback.PLAYBACK_ONCE_PINGPONG ∧ key.m_T = 0)) :
    KeyCursorFloat key duration
      (if player.m_Playback = Playback.PLAYBACK_ONCE_PINGPONG then true
        else player.m_Backwards) = duration := by
  rcases hend with ⟨hm, hb, ht⟩ | ⟨hm, hb, ht⟩ | ⟨hm, ht⟩
  · rw [hm, if_neg (by decide), hb]
    simp [KeyCursorFloat, ht]
  · rw [hm, if_neg (by decide), hb]
    simp [KeyCursorFloat, ht, hfloat]
  · rw [hm, if_pos rfl]
    simp [KeyCursorFloat, ht, hfloat]

theorem UpdatePlayerEventsFloat_of_sender {c : SpineModelComponent} {player : SpinePlayer}
    {animation : SpineAnimation} {dt prev_cursor duration : ℚ} {completed : Bool}
    {sender : URL} (hsender : GetSender c = some sender)
    (hmoved : prev_cursor ≠ player.m_Cursor) :
    UpdatePlayerEventsFloat c player animation dt prev_cursor duration completed =
      PostEventsFloat player sender { c.m_Listener with m_Function := 0 } animation dt
        prev_cursor duration completed := by
  unfold UpdatePlayerEventsFloat
  simp only [hsender]
  rw [if_pos hmoved]

/-- A once-mode frame that completes while the cursor already stood at the effective duration
or while the sender does not resolve posts no event message. -/
theorem UpdatePlayerFloat_completion_without_events {fuel : Nat} {c : SpineModelComponent}
    {pi : Fin 2} {dt : ℚ} {animation : SpineAnimation}
    (hanim : (c.player pi).m_Animation = some animation)
    (hplaying : (c.player pi).m_Playing = true)
    (hmode : (c.player pi).m_Playback = Playback.PLAYBACK_ONCE_FORWARD ∨
      (c.player pi).m_Playback = Playback.PLAYBACK_ONCE_BACKWARD ∨
      (c.player pi).m_Playback = Playback.PLAYBACK_ONCE_PINGPONG)
    (hreach : RoundFloat ((c.player pi).m_Cursor + dt)
      ≥ GetCursorDurationFloat (c.player pi) animation)
    (hcase : (c.player pi).m_Cursor = GetCursorDurationFloat (c.player pi) animation ∨
      GetSender c = none) :
    ∃ u, UpdatePlayerFloat fuel c pi dt = some u ∧ u.completed = true ∧
      ∀ m ∈ u.posted, m.isDone = true := by
  have hrun := @UpdatePlayerFloat_once_completes fuel c pi dt animation hanim hplaying hmode
    hreach
  generalize GetCursorDurationFloat (c.player pi) animation = duration at *
  obtain ⟨tail, htail, hdone⟩ := CompletePlayer_posted c pi
    { c.player pi with m_Cursor := duration }
    (UpdatePlayerEventsFloat c { c.player pi with m_Cursor := duration } animation dt
      (c.player pi).m_Cursor duration true)
  have hevents : UpdatePlayerEventsFloat c { c.player pi with m_Cursor := duration } animation
      dt (c.player pi).m_Cursor duration true = [] := by
    unfold UpdatePlayerEventsFloat
    rcases hcase with h | h
    · rw [if_neg (by simpa using h)]
    · simp only [h]
      split_ifs <;> rfl
  have hposted := htail.trans (show _ ++ tail = tail by rw [hevents]; rfl)
  refine ⟨_, hrun, CompletePlayer_completed _ _ _ _, ?_⟩
  intro m hm
  rw [hposted] at hm
  exact hdone m hm

/-- The function `PostEventsFloat` with the receiver named by `EventReceiver`. -/
theorem PostEventsFloat_eq (player : SpinePlayer) (sender listener : URL)
    (animation : SpineAnimation) (dt prev_cursor duration : ℚ) (completed : Bool) :
    PostEventsFloat player sender listener animation dt prev_cursor duration completed =
      if prev_cursor > (if completed then RoundFloat (player.m_Cursor + dt)
          else player.m_Cursor) then
        PostEventsIntervalFloat sender (EventReceiver sender listener) animation prev_cursor
            duration duration
            (if player.m_Playback = Playback.PLAYBACK_LOOP_PINGPONG then !player.m_Backwards
              else player.m_Backwards) ++
          PostEventsIntervalFloat sender (EventReceiver sender listener) animation 0
            (if completed then RoundFloat (player.m_Cursor + dt) else player.m_Cursor) duration
            player.m_Backwards
      else
        if player.m_Playback = Playback.PLAYBACK_ONCE_PINGPONG ∧
            (if completed then RoundFloat (player.m_Cursor + dt) else player.m_Cursor)
              > RoundFloat (duration * (1 / 2)) then
          if prev_cursor < RoundFloat (duration * (1 / 2)) then
            PostEventsIntervalFloat sender (EventReceiver sender listener) animation prev_cursor
                (RoundFloat (duration * (1 / 2))) duration false ++
              PostEventsIntervalFloat sender (EventReceiver sender listener) animation
                (RoundFloat (duration * (1 / 2)))
                (if completed then RoundFloat (player.m_Cursor + dt) else player.m_Cursor)
                duration true
          else
            PostEventsIntervalFloat sender (EventReceiver sender listener) animation prev_cursor
              (if completed then RoundFloat (player.m_Cursor + dt) else player.m_Cursor)
              duration true
        else
          PostEventsIntervalFloat sender (EventReceiver sender listener) animation prev_cursor
            (if completed then RoundFloat (player.m_Cursor + dt) else player.m_Cursor) duration
            player.m_Backwards := by
  unfold PostEventsFloat EventReceiver
  rfl

/-- The call of `PostEventsFloat` on a completion frame whose `dt` is absorbed by the
rounding of `duration + dt`: the interval ends at `duration`, and the end key is not
posted. -/
theorem PostEventsFloat_absorbed (player : SpinePlayer) (sender listener : URL)
    (animation : SpineAnimation) (dt prev_cursor duration : ℚ) (track : EventTrack)
    (key : EventKey)
    (hcur : player.m_Cursor = duration) (hprev : prev_cursor < duration)
    (hfloat : RoundFloat duration = duration)
    (habs : RoundFloat (duration + dt) = duration)
    (hend : (player.m_Playback = Playback.PLAYBACK_ONCE_FORWARD ∧ player.m_Backwards = false ∧
        key.m_T = duration) ∨
      (player.m_Playback = Playback.PLAYBACK_ONCE_BACKWARD ∧ player.m_Backwards = true ∧
        key.m_T = 0) ∨
      (player.m_Playback = Playback.PLAYBACK_ONCE_PINGPONG ∧ key.m_T = 0))
    (hpp : player.m_Playback = Playback.PLAYBACK_ONCE_PINGPONG → 0 < prev_cursor) :
    PostEvent sender (EventReceiver sender listener) track.m_EventId key
      ∉ PostEventsFloat player sender listener animation dt prev_cursor duration true := by
  intro hin
  rw [PostEventsFloat_eq] at hin
  generalize EventReceiver sender listener = receiver at hin
  simp only [if_true, hcur, habs] at hin
  rw [if_neg (not_lt.mpr hprev.le)] at hin
  rcases hend with ⟨hm, hb, ht⟩ | ⟨hm, hb, ht⟩ | ⟨hm, ht⟩
  · have hnp : ¬ (player.m_Playback = Playback.PLAYBACK_ONCE_PINGPONG ∧
        duration > RoundFloat (duration * (1 / 2))) := by
      rw [hm]
      exact fun h => absurd h.1 (by decide)
    rw [if_neg hnp, hb] at hin
    have h2 := (mem_PostEventsIntervalFloat.mp hin).2.2
    simp [KeyCursorFloat, ht] at h2
  · have hnp : ¬ (player.m_Playback = Playback.PLAYBACK_ONCE_PINGPONG ∧
        duration > RoundFloat (duration * (1 / 2))) := by
      rw [hm]
      exact fun h => absurd h.1 (by decide)
    rw [if_neg hnp, hb] at hin
    have h2 := (mem_PostEventsIntervalFloat.mp hin).2.2
    simp [KeyCursorFloat, ht, hfloat] at h2
  · have h0 := hpp hm
    have hkf : KeyCursorFloat key duration false = 0 := by simp [KeyCursorFloat, ht]
    have hkt : KeyCursorFloat key duration true = duration := by
      simp [KeyCursorFloat, ht, hfloat]
    split_ifs at hin with h1 h2
    · rcases List.mem_append.mp hin with h | h
      · have h3 := (mem_PostEventsIntervalFloat.mp h).2.1
        rw [hkf] at h3
        linarith
      · have h3 := (mem_PostEventsIntervalFloat.mp h).2.2
        rw [hkt] at h3
        exact lt_irrefl _ h3
    · have h3 := (mem_PostEventsIntervalFloat.mp hin).2.2
      rw [hkt] at h3
      exact lt_irrefl _ h3
    · cases hb : player.m_Backwards
      · rw [hb] at hin
        have h3 := (mem_PostEventsIntervalFloat.mp hin).2.1
        rw [hkf] at h3
        linarith
      · rw [hb] at hin
        have h3 := (mem_PostEventsIntervalFloat.mp hin).2.2
        rw [hkt] at h3
        exact lt_irrefl _ h3

/-- A once-mode frame that completes with a `dt` that the rounding of `duration + dt`
absorbs does not post the end key, although the sender resolves and the cursor moves. -/
theorem UpdatePlayerFloat_completion_absorbed {fuel : Nat} {c : SpineModelComponent}
    {pi : Fin 2} {dt : ℚ} {animation : SpineAnimation} {track : EventTrack} {key : EventKey}
    {sender : URL}
    (hanim : (c.player pi).m_Animation = some animation)
    (hplaying : (c.player pi).m_Playing = true)
    (hreach : RoundFloat ((c.player pi).m_Cursor + dt)
      ≥ GetCursorDurationFloat (c.player pi) animation)
    (hend : ((c.player pi).m_Playback = Playback.PLAYBACK_ONCE_FORWARD ∧
        (c.player pi).m_Backwards = false ∧
        key.m_T = GetCursorDurationFloat (c.player pi) animation) ∨
      ((c.player pi).m_Playback = Playback.PLAYBACK_ONCE_BACKWARD ∧
        (c.player pi).m_Backwards = true ∧ key.m_T = 0) ∨
      ((c.player pi).m_Playback = Playback.PLAYBACK_ONCE_PINGPONG ∧ key.m_T = 0))
    (hsender : GetSender c = some sender)
    (hprev : (c.player pi).m_Cursor < GetCursorDurationFloat (c.player pi) animation)
    (hfloat : RoundFloat (GetCursorDurationFloat (c.player pi) animation)
      = GetCursorDurationFloat (c.player pi) animation)
    (habs : RoundFloat (GetCursorDurationFloat (c.player pi) animation + dt)
      = GetCursorDurationFloat (c.player pi) animation)
    (hpp : (c.player pi).m_Playback = Playback.PLAYBACK_ONCE_PINGPONG →
      0 < (c.player pi).m_Cursor) :
    ∃ u, UpdatePlayerFloat fuel c pi dt = some u ∧ u.completed = true ∧
      PostEvent sender (EventReceiver sender { c.m_Listener with m_Function := 0 })
        track.m_EventId key ∉ u.posted := by
  have hmode : (c.player pi).m_Playback = Playback.PLAYBACK_ONCE_FORWARD ∨
      (c.player pi).m_Playback = Playback.PLAYBACK_ONCE_BACKWARD ∨
      (c.player pi).m_Playback = Playback.PLAYBACK_ONCE_PINGPONG := by
    rcases hend with h | h | h
    · exact Or.inl h.1
    · exact Or.inr (Or.inl h.1)
    · exact Or.inr (Or.inr h.1)
  have hrun := @UpdatePlayerFloat_once_completes fuel c pi dt animation hanim hplaying hmode
    hreach
  generalize GetCursorDurationFloat (c.player pi) animation = duration at *
  obtain ⟨tail, htail, hdone⟩ := CompletePlayer_posted c pi
    { c.player pi with m_Cursor := duration }
    (UpdatePlayerEventsFloat c { c.player pi with m_Cursor := duration } animation dt
      (c.player pi).m_Cursor duration true)
  have hevents := @UpdatePlayerEventsFloat_of_sender c
    { c.player pi with m_Cursor := duration } animation dt (c.player pi).m_Cursor duration true
    sender hsender (ne_of_lt hprev)
  have hposted := htail.trans (congrArg (fun l => l ++ tail) hevents)
  refine ⟨_, hrun, CompletePlayer_completed _ _ _ _, ?_⟩
  rw [hposted]
  intro hin
  rcases List.mem_append.mp hin with h | h
  · exact PostEventsFloat_absorbed { c.player pi with m_Cursor := duration } sender
      { c.m_Listener with m_Function := 0 } animation dt (c.player pi).m_Cursor duration track
      key rfl hprev hfloat habs hend hpp h
  · have := hdone _ h
    simp [PostEvent, Message.isDone] at this

/-- C21 (as stated, refuted): three frames in which a once-forward player completes with
`dt > 0` and an event key that sits exactly at the effective duration is not posted. On the
zero-length clip `stillClip` (`dt = 1/4`) the clamped cursor equals the previous cursor, so
`UpdatePlayer` does not enter `PostEvents`. On `mutedComponent` (`endClip`, `dt = 5/4`) the
sender does not resolve, so it does not enter `PostEvents` either. On `lateComponent`
(`endClip` of duration 1, cursor at `1 - 2 ^ (-24)`, `dt = 2 ^ (-25)`), in the
single-precision arithmetic of the code, the sum `cursor + dt` rounds to 1, so the player
completes, and the sum `1 + dt` of `PostEvents` rounds to 1 as well, so the interval ends at
the duration and the key at time 1 is left out. -/
theorem UpdatePlayerFloat_completion_frame_without_events :
    GetCursorDurationFloat (stillComponent.player 0) stillClip = 0 ∧
      (EventKeys stillClip).map (fun k => k.2.m_T) = [0] ∧
      GetSender stillComponent = some exampleSender ∧
      (UpdatePlayerFloat 0 stillComponent 0 (1 / 4)).map (fun u => (u.posted, u.completed)) =
        some ([], true) ∧
      GetCursorDurationFloat (mutedComponent.player 0) endClip = 1 ∧
      (EventKeys endClip).map (fun k => k.2.m_T) = [0, 1] ∧
      GetSender mutedComponent = none ∧
      (UpdatePlayerFloat 0 mutedComponent 0 (5 / 4)).map (fun u => (u.posted, u.completed)) =
        some ([], true) ∧
      GetCursorDurationFloat (lateComponent.player 0) endClip = 1 ∧
      GetSender lateComponent = some exampleSender ∧
      (lateComponent.player 0).m_Cursor = 16777215 / 16777216 ∧
      RoundFloat ((lateComponent.player 0).m_Cursor + 1 / 33554432) = 1 ∧
      RoundFloat (1 + 1 / 33554432) = 1 ∧
      ∃ u, UpdatePlayerFloat 0 lateComponent 0 (1 / 33554432) = some u ∧ u.completed = true ∧
        PostEvent exampleSender { exampleSender with m_Fragment := 0 } 6
          { m_T := 1, m_Integer := 0, m_Float := 0, m_String := 0 } ∉ u.posted := by
  have h1 : RoundFloat 1 = 1 :=
    RoundFloat_of_representable (e := 0) (m := 8388608) (by norm_num) (by norm_num)
      (by norm_num) (by norm_num)
  have hsum : RoundFloat ((lateComponent.player 0).m_Cursor + 1 / 33554432) = 1 := by
    rw [show (lateComponent.player 0).m_Cursor + 1 / 33554432 = (33554431 / 33554432 : ℚ) from by
      rw [show (lateComponent.player 0).m_Cursor = 16777215 / 16777216 from rfl]; norm_num]
    rw [RoundFloat_of_exponent (e := -1) (by norm_num) (by norm_num) (by norm_num)]
    have hf : ⌊(33554431 / 33554432 : ℚ) / (2 : ℚ) ^ ((-1 : ℤ) - 23)⌋ = 16777215 := by
      rw [Int.floor_eq_iff]
      constructor <;> norm_num
    unfold roundHalfEven
    simp only [hf]
    norm_num
  have habs : RoundFloat (1 + 1 / 33554432) = 1 := by
    rw [RoundFloat_of_exponent (e := 0) (by norm_num) (by norm_num) (by norm_num)]
    have hf : ⌊((1 : ℚ) + 1 / 33554432) / (2 : ℚ) ^ ((0 : ℤ) - 23)⌋ = 8388608 := by
      rw [Int.floor_eq_iff]
      constructor <;> norm_num
    unfold roundHalfEven
    simp only [hf]
    norm_num
  refine ⟨rfl, rfl, rfl, ?_, rfl, rfl, rfl, ?_, rfl, rfl, rfl, hsum, habs, ?_⟩
  · rw [@UpdatePlayerFloat_once_completes 0 stillComponent 0 (1 / 4) stillClip rfl rfl
      (Or.inl rfl) (RoundFloat_nonneg (by
        rw [show (stillComponent.player 0).m_Cursor = 0 from rfl]; norm_num))]
    simp [stillComponent, SpineModelComponent.player, oncePlayer, GetCursorDurationFloat,
      stillClip, UpdatePlayerEventsFloat, CompletePlayer, freshComponent, IsSocketValid,
      ResetURL]
  · rw [@UpdatePlayerFloat_once_completes 0 mutedComponent 0 (5 / 4) endClip rfl rfl
      (Or.inl rfl) (by
        rw [show (mutedComponent.player 0).m_Cursor + 5 / 4 = (5 / 4 : ℚ) from by
          rw [show (mutedComponent.player 0).m_Cursor = 0 from rfl]; norm_num,
          RoundFloat_of_representable (e := 0) (m := 10485760) (by norm_num) (by norm_num)
            (by norm_num) (by norm_num)]
        rw [show GetCursorDurationFloat (mutedComponent.player 0) endClip = 1 from rfl]
        norm_num)]
    simp [mutedComponent, endComponent, SpineModelComponent.player, oncePlayer,
      GetCursorDurationFloat, endClip, UpdatePlayerEventsFloat, GetSender, CompletePlayer,
      freshComponent, IsSocketValid, ResetURL, SpineModelComponent.setPlayer]
  · exact @UpdatePlayerFloat_completion_absorbed 0 lateComponent 0 (1 / 33554432) endClip
      { m_EventId := 6, m_Keys := [{ m_T := 1, m_Integer := 0, m_Float := 0, m_String := 0 }] }
      { m_T := 1, m_Integer := 0, m_Float := 0, m_String := 0 } exampleSender rfl rfl
      (by
        rw [hsum, show GetCursorDurationFloat (lateComponent.player 0) endClip = 1 from rfl])
      (Or.inl ⟨rfl, rfl, rfl⟩) rfl
      (by
        rw [show (lateComponent.player 0).m_Cursor = 16777215 / 16777216 from rfl,
          show GetCursorDurationFloat (lateComponent.player 0) endClip = 1 from rfl]
        norm_num)
      (by rw [show GetCursorDurationFloat (lateComponent.player 0) endClip = 1 from rfl, h1])
      (by rw [show GetCursorDurationFloat (lateComponent.player 0) endClip = 1 from rfl, habs])
      (fun h => absurd h (by decide))

/-- C21 (amended): in the single-precision arithmetic of the code, on the frame in which a
once-mode player completes (`float (cursor + dt)` reaches the effective duration),
`UpdatePlayer` returns with `completed` set. If at the start of the frame the
cursor stood before the effective duration (`0 <= cursor < duration`, so the cursor moves in
the frame), the sender resolves, the effective duration is a `float` and `dt` is not absorbed
(`float (duration + dt) > duration`), the event messages of the frame are those of
`PostEvents` with the end bound `float (duration + dt)` instead of `duration`, followed only
by completion messages, and an event key whose reflected time is the effective duration
exactly (time `duration` for once-forward, time 0 for once-backward and once-pingpong) is
posted on that frame, although an interval that ends at `duration` excludes it. If the
cursor stood at the effective duration already (a zero-length clip) or the sender does not
resolve, the frame posts no event message at all. If `dt` is absorbed
(`float (duration + dt) = duration`; for once-pingpong with the cursor past 0), the end key
is not posted. -/
theorem UpdatePlayerFloat_completion_frame_posts_end_key (fuel : Nat)
    (c : SpineModelComponent) (pi : Fin 2) (dt : ℚ) (animation : SpineAnimation)
    (track : EventTrack) (key : EventKey)
    (hanim : (c.player pi).m_Animation = some animation)
    (hplaying : (c.player pi).m_Playing = true)
    (hreach : RoundFloat ((c.player pi).m_Cursor + dt)
      ≥ GetCursorDurationFloat (c.player pi) animation)
    (htrack : track ∈ animation.m_EventTracks) (hkey : key ∈ track.m_Keys)
    (hend : ((c.player pi).m_Playback = Playback.PLAYBACK_ONCE_FORWARD ∧
        (c.player pi).m_Backwards = false ∧
        key.m_T = GetCursorDurationFloat (c.player pi) animation) ∨
      ((c.player pi).m_Playback = Playback.PLAYBACK_ONCE_BACKWARD ∧
        (c.player pi).m_Backwards = true ∧ key.m_T = 0) ∨
      ((c.player pi).m_Playback = Playback.PLAYBACK_ONCE_PINGPONG ∧ key.m_T = 0)) :
    (∀ sender, GetSender c = some sender → 0 ≤ (c.player pi).m_Cursor →
      (c.player pi).m_Cursor < GetCursorDurationFloat (c.player pi) animation →
      RoundFloat (GetCursorDurationFloat (c.player pi) animation)
        = GetCursorDurationFloat (c.player pi) animation →
      GetCursorDurationFloat (c.player pi) animation
        < RoundFloat (GetCursorDurationFloat (c.player pi) animation + dt) →
      ∃ u tail, UpdatePlayerFloat fuel c pi dt = some u ∧ u.completed = true ∧
        u.posted =
          PostEventsFloat
            { c.player pi with m_Cursor := GetCursorDurationFloat (c.player pi) animation }
            sender { c.m_Listener with m_Function := 0 } animation dt (c.player pi).m_Cursor
            (GetCursorDurationFloat (c.player pi) animation) true ++ tail ∧
        (∀ m ∈ tail, m.isDone = true) ∧
        PostEventsFloat
            { c.player pi with m_Cursor := GetCursorDurationFloat (c.player pi) animation }
            sender { c.m_Listener with m_Function := 0 } animation dt (c.player pi).m_Cursor
            (GetCursorDurationFloat (c.player pi) animation) true =
          (if (c.player pi).m_Playback = Playback.PLAYBACK_ONCE_PINGPONG then
            if (c.player pi).m_Cursor
                < RoundFloat (GetCursorDurationFloat (c.player pi) animation * (1 / 2)) then
              PostEventsIntervalFloat sender
                  (EventReceiver sender { c.m_Listener with m_Function := 0 }) animation
                  (c.player pi).m_Cursor
                  (RoundFloat (GetCursorDurationFloat (c.player pi) animation * (1 / 2)))
                  (GetCursorDurationFloat (c.player pi) animation) false ++
                PostEventsIntervalFloat sender
                  (EventReceiver sender { c.m_Listener with m_Function := 0 }) animation
                  (RoundFloat (GetCursorDurationFloat (c.player pi) animation * (1 / 2)))
                  (RoundFloat (GetCursorDurationFloat (c.player pi) animation + dt))
                  (GetCursorDurationFloat (c.player pi) animation) true
            else
              PostEventsIntervalFloat sender
                (EventReceiver sender { c.m_Listener with m_Function := 0 }) animation
                (c.player pi).m_Cursor
                (RoundFloat (GetCursorDurationFloat (c.player pi) animation + dt))
                (GetCursorDurationFloat (c.player pi) animation) true
          else
            PostEventsIntervalFloat sender
              (EventReceiver sender { c.m_Listener with m_Function := 0 }) animation
              (c.player pi).m_Cursor
              (RoundFloat (GetCursorDurationFloat (c.player pi) animation + dt))
              (GetCursorDurationFloat (c.player pi) animation) (c.player pi).m_Backwards) ∧
        PostEvent sender (EventReceiver sender { c.m_Listener with m_Function := 0 })
            track.m_EventId key ∈ u.posted ∧
        ∀ start_cursor,
          PostEvent sender (EventReceiver sender { c.m_Listener with m_Function := 0 })
              track.m_EventId key
            ∉ PostEventsIntervalFloat sender
                (EventReceiver sender { c.m_Listener with m_Function := 0 }) animation
                start_cursor (GetCursorDurationFloat (c.player pi) animation)
                (GetCursorDurationFloat (c.player pi) animation)
                (if (c.player pi).m_Playback = Playback.PLAYBACK_ONCE_PINGPONG then true
                  else (c.player pi).m_Backwards)) ∧
      ((c.player pi).m_Cursor = GetCursorDurationFloat (c.player pi) animation ∨
          GetSender c = none →
        ∃ u, UpdatePlayerFloat fuel c pi dt = some u ∧ u.completed = true ∧
          ∀ m ∈ u.posted, m.isDone = true) ∧
      (∀ sender, GetSender c = some sender →
        (c.player pi).m_Cursor < GetCursorDurationFloat (c.player pi) animation →
        RoundFloat (GetCursorDurationFloat (c.player pi) animation)
          = GetCursorDurationFloat (c.player pi) animation →
        RoundFloat (GetCursorDurationFloat (c.player pi) animation + dt)
          = GetCursorDurationFloat (c.player pi) animation →
        ((c.player pi).m_Playback = Playback.PLAYBACK_ONCE_PINGPONG →
          0 < (c.player pi).m_Cursor) →
        ∃ u, UpdatePlayerFloat fuel c pi dt = some u ∧ u.completed = true ∧
          PostEvent sender (EventReceiver sender { c.m_Listener with m_Function := 0 })
            track.m_EventId key ∉ u.posted) := by
  have hmode : (c.player pi).m_Playback = Playback.PLAYBACK_ONCE_FORWARD ∨
      (c.player pi).m_Playback = Playback.PLAYBACK_ONCE_BACKWARD ∨
      (c.player pi).m_Playback = Playback.PLAYBACK_ONCE_PINGPONG := by
    rcases hend with h | h | h
    · exact Or.inl h.1
    · exact Or.inr (Or.inl h.1)
    · exact Or.inr (Or.inr h.1)
  refine ⟨?_, UpdatePlayerFloat_completion_without_events hanim hplaying hmode hreach, ?_⟩
  · have hrun := @UpdatePlayerFloat_once_completes fuel c pi dt animation hanim hplaying hmode
      hreach
    generalize GetCursorDurationFloat (c.player pi) animation = duration at *
    obtain ⟨tail, htail, hdone⟩ := CompletePlayer_posted c pi
      { c.player pi with m_Cursor := duration }
      (UpdatePlayerEventsFloat c { c.player pi with m_Cursor := duration } animation dt
        (c.player pi).m_Cursor duration true)
    intro sender hsender h0 hlt hfloat hadv
    have hevents := @UpdatePlayerEventsFloat_of_sender c
      { c.player pi with m_Cursor := duration } animation dt (c.player pi).m_Cursor duration
      true sender hsender (ne_of_lt hlt)
    have hposted := htail.trans (congrArg (fun l => l ++ tail) hevents)
    have hdur : 0 ≤ duration := le_of_lt (lt_of_le_of_lt h0 hlt)
    have hhalf : RoundFloat (duration * (1 / 2)) ≤ duration := RoundFloat_half_le hfloat hdur
    have heq := PostEventsFloat_completed_eq { c.player pi with m_Cursor := duration } sender
      { c.m_Listener with m_Function := 0 } animation dt (c.player pi).m_Cursor duration rfl
      (le_of_lt hlt) (le_of_lt hadv) (lt_of_le_of_lt hhalf hadv)
    have hkc := KeyCursorFloat_end_key (c.player pi) duration key hfloat hend
    have hmem := mem_EventKeys htrack hkey
    refine ⟨_, tail, hrun, CompletePlayer_completed _ _ _ _, hposted, hdone, heq, ?_, ?_⟩
    · rw [hposted]
      refine List.mem_append.mpr (Or.inl ?_)
      rw [heq]
      by_cases hm : (c.player pi).m_Playback = Playback.PLAYBACK_ONCE_PINGPONG
      · rw [if_pos hm] at hkc
        simp only [hm, if_true]
        by_cases hp : (c.player pi).m_Cursor < RoundFloat (duration * (1 / 2))
        · rw [if_pos hp]
          refine List.mem_append.mpr (Or.inr (mem_PostEventsIntervalFloat.mpr ⟨hmem, ?_, ?_⟩))
          · rw [hkc]; exact hhalf
          · rw [hkc]; exact hadv
        · rw [if_neg hp]
          refine mem_PostEventsIntervalFloat.mpr ⟨hmem, ?_, ?_⟩
          · rw [hkc]; exact le_of_lt hlt
          · rw [hkc]; exact hadv
      · rw [if_neg hm] at hkc
        have hm2 : ({ c.player pi with m_Cursor := duration } : SpinePlayer).m_Playback
            ≠ Playback.PLAYBACK_ONCE_PINGPONG := hm
        rw [if_neg hm2]
        refine mem_PostEventsIntervalFloat.mpr ⟨hmem, ?_, ?_⟩
        · rw [show ({ c.player pi with m_Cursor := duration } : SpinePlayer).m_Backwards
            = (c.player pi).m_Backwards from rfl, hkc]
          exact le_of_lt hlt
        · rw [show ({ c.player pi with m_Cursor := duration } : SpinePlayer).m_Backwards
            = (c.player pi).m_Backwards from rfl, hkc]
          exact hadv
    · intro start_cursor hin
      obtain ⟨-, -, hlt2⟩ := mem_PostEventsIntervalFloat.mp hin
      rw [hkc] at hlt2
      exact lt_irrefl _ hlt2
  · intro sender hsender hlt hfloat habs hpp
    exact UpdatePlayerFloat_completion_absorbed hanim hplaying hreach hend hsender hlt hfloat
      habs hpp

theorem UpdatePlayerFloat_completion_frame_posts_end_key_witness :
    RoundFloat ((endComponent.player 0).m_Cursor + 5 / 4) = 5 / 4 ∧
      GetCursorDurationFloat (endComponent.player 0) endClip = 1 ∧
      RoundFloat (1 + 5 / 4) = 9 / 4 ∧
      GetSender endComponent = some exampleSender ∧
      ∃ u tail, UpdatePlayerFloat 0 endComponent 0 (5 / 4) = some u ∧ u.completed = true ∧
        u.posted =
          PostEventsFloat
            { endComponent.player 0 with
              m_Cursor := GetCursorDurationFloat (endComponent.player 0) endClip }
            exampleSender { endComponent.m_Listener with m_Function := 0 } endClip (5 / 4)
            (endComponent.player 0).m_Cursor
            (GetCursorDurationFloat (endComponent.player 0) endClip) true ++ tail ∧
        (∀ m ∈ tail, m.isDone = true) ∧
        PostEvent exampleSender
            (EventReceiver exampleSender { endComponent.m_Listener with m_Function := 0 })
            6 { m_T := 1, m_Integer := 0, m_Float := 0, m_String := 0 } ∈ u.posted ∧
        u.posted =
          [PostEvent exampleSender { exampleSender with m_Fragment := 0 } 5
              { m_T := 0, m_Integer := 0, m_Float := 0, m_String := 0 },
            PostEvent exampleSender { exampleSender with m_Fragment := 0 } 6
              { m_T := 1, m_Integer := 0, m_Float := 0, m_String := 0 }] := by
  have h54 : RoundFloat ((endComponent.player 0).m_Cursor + 5 / 4) = 5 / 4 := by
    rw [show (endComponent.player 0).m_Cursor + 5 / 4 = (5 / 4 : ℚ) from by
      rw [show (endComponent.player 0).m_Cursor = 0 from rfl]; norm_num]
    exact RoundFloat_of_representable (e := 0) (m := 10485760) (by norm_num) (by norm_num)
      (by norm_num) (by norm_num)
  have h1 : RoundFloat 1 = 1 :=
    RoundFloat_of_representable (e := 0) (m := 8388608) (by norm_num) (by norm_num)
      (by norm_num) (by norm_num)
  have h94 : RoundFloat (1 + 5 / 4) = 9 / 4 := by
    rw [show (1 : ℚ) + 5 / 4 = 9 / 4 from by norm_num]
    exact RoundFloat_of_representable (e := 1) (m := 9437184) (by norm_num) (by norm_num)
      (by norm_num) (by norm_num)
  have hD : GetCursorDurationFloat (endComponent.player 0) endClip = 1 := rfl
  refine ⟨h54, hD, h94, rfl, ?_⟩
  obtain ⟨u, tail, hrun, hc, hposted, hdone, -, hin, -⟩ :=
    (UpdatePlayerFloat_completion_frame_posts_end_key 0 endComponent 0 (5 / 4) endClip
      { m_EventId := 6, m_Keys := [{ m_T := 1, m_Integer := 0, m_Float := 0, m_String := 0 }] }
      { m_T := 1, m_Integer := 0, m_Float := 0, m_String := 0 }
      rfl rfl (by rw [h54, hD]; norm_num)
      (List.mem_cons_of_mem _ (List.mem_cons_self _ _)) (List.mem_cons_self _ _)
      (Or.inl ⟨rfl, rfl, rfl⟩)).1 exampleSender rfl
      (by rw [show (endComponent.player 0).m_Cursor = 0 from rfl])
      (by rw [show (endComponent.player 0).m_Cursor = 0 from rfl, hD]; norm_num)
      (by rw [hD, h1]) (by rw [hD, h94]; norm_num)
  refine ⟨u, tail, hrun, hc, hposted, hdone, hin, ?_⟩
  have hrun2 := @UpdatePlayerFloat_once_completes 0 endComponent 0 (5 / 4) endClip rfl rfl
    (Or.inl rfl) (by rw [h54, hD]; norm_num)
  rw [hrun] at hrun2
  rw [Option.some.inj hrun2, hD]
  have hev : PostEventsFloat { endComponent.player 0 with m_Cursor := 1 } exampleSender
      { endComponent.m_Listener with m_Function := 0 } endClip (5 / 4)
      (endComponent.player 0).m_Cursor 1 true =
      [PostEvent exampleSender { exampleSender with m_Fragment := 0 } 5
          { m_T := 0, m_Integer := 0, m_Float := 0, m_String := 0 },
        PostEvent exampleSender { exampleSender with m_Fragment := 0 } 6
          { m_T := 1, m_Integer := 0, m_Float := 0, m_String := 0 }] := by
    have hprev : (endComponent.player 0).m_Cursor ≤ 1 := by
      rw [show (endComponent.player 0).m_Cursor = 0 from rfl]
      norm_num
    have hadv : (1 : ℚ) ≤ RoundFloat (1 + 5 / 4) := by
      rw [h94]
      norm_num
    have hhalf : RoundFloat (1 * (1 / 2)) < RoundFloat (1 + 5 / 4) :=
      lt_of_le_of_lt (RoundFloat_half_le h1 (by norm_num)) (by rw [h94]; norm_num)
    rw [PostEventsFloat_completed_eq { endComponent.player 0 with m_Cursor := 1 } exampleSender
      { endComponent.m_Listener with m_Function := 0 } endClip (5 / 4)
      (endComponent.player 0).m_Cursor 1 rfl hprev hadv hhalf]
    rw [h94]
    simp [endComponent, SpineModelComponent.player, oncePlayer, PostEventsIntervalFloat,
      endClip, KeyCursorFloat, EventReceiver, freshComponent, IsSocketValid, ResetURL,
      PostEvent]
    norm_num
  rw [@UpdatePlayerEventsFloat_of_sender endComponent { endComponent.player 0 with m_Cursor := 1 }
    endClip (5 / 4) (endComponent.player 0).m_Cursor 1 true exampleSender rfl
    (by rw [show (endComponent.player 0).m_Cursor = 0 from rfl]; norm_num), hev]
  simp [CompletePlayer, endComponent, freshComponent, IsSocketValid, ResetURL]

end dmGameSystem
